import Mathlib

/-!
# SiriDB storage core: points container, series index, series buffer

A shallow embedding of `src/test/compress.c` (the stand-alone points container)
and of `src/src/siri/db/series.c` (series, series index, read path), followed by
the properties proved about them.

Conventions of the embedding:

* machine integers are natural numbers; a counter whose wrap-around can be reached
  is reduced modulo its width explicitly (`uint16_t len` of `points_t`);
* a block of memory is the list of its slots, the length of the list being the
  number of slots allocated;
* a call that would write outside its block has no result (`none`);
* functions of the repository that are not part of the sources (buffer file,
  shard file) are parameters of the functions that call them.
-/

namespace SiriDB

/-! ## Points (`src/test/compress.c`) -/

/-- A `point_t`: a time-stamp (`uint64_t ts`) and the 64-bit payload `cast_t val`,
kept as the raw word. -/
structure point_t where
  ts : Nat
  val : Nat
deriving DecidableEq, Repr, Inhabited

/-- A `points_t` of `compress.c`. `data` lists the slots of the allocated block
(so `data.length` is the capacity); the points held are the first `len` slots. -/
structure points_t where
  tp : Nat
  len : Nat
  size : Nat
  data : List point_t
deriving DecidableEq, Repr

/-- Width of `points_t.len` (`uint16_t`). -/
def UINT16_MOD : Nat := 65536

/-- The points a container holds: the first `len` slots. -/
def points_t.held (points : points_t) : List point_t :=
  points.data.take points.len

/-- A list of points is sorted by `ts`, non-decreasing. -/
abbrev sorted_by_ts (l : List point_t) : Prop :=
  l.Pairwise (fun a b => a.ts ≤ b.ts)

/-- The `for` loop of `points_add_point`:
`for (i = len; i-- > 0 && data[i].ts > *ts; data[i + 1] = data[i]);`.
The first argument is `i` before the test `i-- > 0`. The result is the slot
`i + 1` the new point goes to, and the block after the shifts. When the test
`i-- > 0` fails `i` has wrapped to `SIZE_MAX`, and `i + 1` is `0`. -/
def points_add_point_loop (ts : Nat) : Nat → List point_t → Nat × List point_t
  | 0, data => (0, data)
  | i + 1, data =>
    match data[i]? with
    | some p =>
      if p.ts > ts then points_add_point_loop ts i (data.set (i + 1) p)
      else (i + 1, data)
    | none => (i + 1, data)

/-- The function `points_add_point` of `compress.c`. Slot `len` is written on every
path (by the first shift, or by the new point), and no slot above it is touched, so
the call stays inside the block exactly when `len` is below the capacity.
`points->len++` is a 16-bit increment. -/
def points_add_point (points : points_t) (ts val : Nat) : Option points_t :=
  if points.len < points.data.length then
    let r := points_add_point_loop ts points.len points.data
    some { points with
      len := (points.len + 1) % UINT16_MOD
      data := r.2.set r.1 ⟨ts, val⟩ }
  else none

/-- The function `points_new` of `compress.c`: `len = 0`, the type, and a block of
`size` slots (the field `size` itself is left unset by the source; it is `0` here). -/
def points_new (size tp : Nat) : points_t :=
  { tp := tp, len := 0, size := 0, data := List.replicate size default }

/-! ## Points of the engine (`siri/db/points.h`, `points.c`: not among the sources) -/

/-- A `siridb_point_t`: the same pair of time-stamp and payload. -/
abbrev siridb_point_t := point_t

/-- Modelled from the spec: the type `siridb_points_t` is declared in `siri/db/points.h`,
which is missing. The spec describes the container as an "ordered sequence of Points";
`data` is that sequence, and `points->len` is its length. -/
structure siridb_points_t where
  tp : Nat
  data : List siridb_point_t
deriving DecidableEq, Repr

/-- The field `points->len`. -/
def siridb_points_t.len (points : siridb_points_t) : Nat :=
  points.data.length

/-- Modelled from the spec: `siridb_points_new` is defined in `points.c`, which is
missing. Spec: "`new(capacity, tp) → Points`". The capacity is room only and has no
counterpart in a sequence. -/
def siridb_points_new (_size tp : Nat) : siridb_points_t :=
  { tp := tp, data := [] }

/-- Modelled from the spec: `siridb_points_add_point` is defined in `points.c`, which
is missing. Spec: "find the first position from the end with `data[i].ts ≤ new.ts`,
shift the suffix, insert". The points after that position are those dropped from the
end while `ts > new.ts`. -/
def siridb_points_add_point (points : siridb_points_t) (ts val : Nat) : siridb_points_t :=
  { points with
    data := points.data.rdropWhile (fun p => decide (p.ts > ts)) ++
      ⟨ts, val⟩ :: points.data.rtakeWhile (fun p => decide (p.ts > ts)) }

/-- A time-stamp lies within the optional bounds `[a, b)`; an omitted bound does not
restrict. -/
def in_range (a b : Option Nat) (t : Nat) : Bool :=
  (match a with
    | none => true
    | some x => decide (x ≤ t)) &&
  (match b with
    | none => true
    | some y => decide (t < y))

/-! ## Series index (`src/src/siri/db/series.c`) -/

/-- Modelled from the spec: `idx_num32_t` is declared in `siri/db/series.h`, which is
missing. Spec: "`{ start_ts: u32, end_ts: u32, shard: ShardRef, pos: u32, len: u16 }`".
The shard reference is the address the entry holds. -/
structure idx_num32_t where
  start_ts : Nat
  end_ts : Nat
  shard : Nat
  pos : Nat
  len : Nat
deriving DecidableEq, Repr, Inhabited

/-- Modelled from the spec: `siridb_series_idx_t` is declared in `siri/db/series.h`,
which is missing. The block `idx` is kept at exactly `len` entries by the source
(`realloc` to `len * sizeof(idx_num32_t)`), so the index is the list of its entries
and `index->len` is its length. -/
structure siridb_series_idx_t where
  has_overlap : Nat
  idx : List idx_num32_t
deriving DecidableEq, Repr

/-- The field `index->len`. -/
def siridb_series_idx_t.len (index : siridb_series_idx_t) : Nat :=
  index.idx.length

/-- An index is sorted by `start_ts`, non-decreasing. -/
abbrev sorted_by_start_ts (l : List idx_num32_t) : Prop :=
  l.Pairwise (fun a b => a.start_ts ≤ b.start_ts)

/-- The part of a `siridb_shard_t` that `series.c` uses. `ref` is the address of the
object, the value index entries hold and pointer comparisons compare. -/
structure siridb_shard_t where
  ref : Nat
  id : Nat
  flags : Nat
deriving DecidableEq, Repr

/-- The flag masks of `siri/db/shard.h`, which is missing: parameters of the
functions that use them. -/
structure shard_flag_masks where
  SIRIDB_SHARD_HAS_NEW_VALUES : Nat
  SIRIDB_SHARD_IS_LOADING : Nat
  SIRIDB_SHARD_HAS_OVERLAP : Nat
deriving DecidableEq, Repr

/-- What a call of `siridb_series_add_idx_num32` leaves behind: the return code, the
index, the shard object, and whether `siridb_shard_write_flags` was called. -/
structure add_idx_result where
  rc : Int
  index : siridb_series_idx_t
  shard : siridb_shard_t
  flags_written : Bool
deriving DecidableEq, Repr

/-- The shift loop of `siridb_series_add_idx_num32`:
`for (; i && start_ts < idx[i - 1].start_ts; i--) idx[i] = idx[i - 1];`.
The result is the final `i` and the block after the shifts. -/
def add_idx_shift (start_ts : Nat) : Nat → List idx_num32_t → Nat × List idx_num32_t
  | 0, idx => (0, idx)
  | i + 1, idx =>
    match idx[i]? with
    | some e =>
      if start_ts < e.start_ts then add_idx_shift start_ts i (idx.set (i + 1) e)
      else (i + 1, idx)
    | none => (i + 1, idx)

/-- The test before `shard->flags |= SIRIDB_SHARD_HAS_NEW_VALUES` in
`siridb_series_add_idx_num32`, with `i` and the block as the shift loop left them and
`len` the new `index->len`:
`((shard->flags & (HAS_NEW_VALUES | IS_LOADING)) == 0) &&
 ((i > 0 && idx[i - 1].shard == shard) || (i < index->len - 1 && idx[i].shard == shard))`. -/
def add_idx_new_values (K : shard_flag_masks) (shard : siridb_shard_t) (i len : Nat)
    (idx : List idx_num32_t) : Bool :=
  ((shard.flags &&& (K.SIRIDB_SHARD_HAS_NEW_VALUES ||| K.SIRIDB_SHARD_IS_LOADING)) == 0) &&
  ((decide (i > 0) && ((idx.getD (i - 1) default).shard == shard.ref)) ||
   (decide (i < len - 1) && ((idx.getD i default).shard == shard.ref)))

/-- The test before `shard->flags |= SIRIDB_SHARD_HAS_OVERLAP` in
`siridb_series_add_idx_num32`, with the new entry at slot `i` of the block and `len`
the new `index->len`:
`(i > 0 && start_ts < idx[i - 1].start_ts) ||
 (++i < index->len && end_ts > idx[i].start_ts)`. -/
def add_idx_overlap (start_ts end_ts i len : Nat) (idx : List idx_num32_t) : Bool :=
  (decide (i > 0) && decide (start_ts < (idx.getD (i - 1) default).start_ts)) ||
  (decide (i + 1 < len) && decide (end_ts > (idx.getD (i + 1) default).start_ts))

/-- The function `siridb_series_add_idx_num32`. `realloc_ok` tells whether `realloc`
returns a block. `index->len` is a 32-bit counter (`uint32_t i = index->len`): with
`2^32 - 1` entries `index->len++` wraps to `0` and a block of no bytes is requested,
which is counted as a failed allocation. The new last slot of the block is
uninitialised; it is overwritten before it is read. -/
def siridb_series_add_idx_num32 (K : shard_flag_masks) (realloc_ok : Bool)
    (index : siridb_series_idx_t) (shard : siridb_shard_t)
    (start_ts end_ts pos len : Nat) : add_idx_result :=
  if realloc_ok = true ∧ index.len + 1 < 2 ^ 32 then
    let r := add_idx_shift start_ts index.len (index.idx ++ [default])
    let new_values := add_idx_new_values K shard r.1 (index.len + 1) r.2
    let flags :=
      if new_values then shard.flags ||| K.SIRIDB_SHARD_HAS_NEW_VALUES else shard.flags
    let idx := r.2.set r.1 ⟨start_ts, end_ts, shard.ref, pos, len⟩
    if add_idx_overlap start_ts end_ts r.1 (index.len + 1) idx then
      { rc := 0
        index := { has_overlap := 1, idx := idx }
        shard := { shard with flags := flags ||| K.SIRIDB_SHARD_HAS_OVERLAP }
        flags_written := new_values }
    else
      { rc := 0
        index := { index with idx := idx }
        shard := { shard with flags := flags }
        flags_written := new_values }
  else
    { rc := -1, index := index, shard := shard, flags_written := false }

/-! ## Series (`src/src/siri/db/series.c`) -/

/-- The value `-1` stored in the unsigned 64-bit `series->start` by `SERIES_new`. -/
def UINT64_MAX : Nat := 2 ^ 64 - 1

/-- Width of a `uint64_t`. -/
def UINT64_MOD : Nat := 18446744073709551616

/-- The in-memory part of a `siridb_buffer_t`: the points of the series that are not
in a shard yet. -/
structure siridb_buffer_t where
  points : siridb_points_t
deriving DecidableEq, Repr

/-- Modelled from the spec: `siridb_series_t` is declared in `siri/db/series.h`, which
is missing. Spec: "`{ id: u32, tp: u8, name, length: u64, start: u64, end: u64,
mask: u16, buffer: Option<Buffer>, index: Vec<IndexEntry>, ref: u32 }`". The field
`end` is written `end_`. `length` holds the value of the 64-bit counter: the
statements that add to it or subtract from it give the result modulo `2^64`. -/
structure siridb_series_t where
  id : Nat
  tp : Nat
  ref : Nat
  length : Nat
  start : Nat
  end_ : Nat
  mask : Nat
  buffer : Option siridb_buffer_t
  index : siridb_series_idx_t
deriving DecidableEq, Repr

/-- An item of a qpack file: the markers `QP_ARRAY3` and `QP_ARRAY_OPEN`, raw bytes,
integers of 8, 16, 32 and 64 bits (a signed value each), and any other item, of which
only whether its type is one of the array types is kept. -/
inductive qp_item where
  | array3
  | raw (bytes : List Int)
  | int8 (v : Int)
  | int32 (v : Int)
  | array_open
  | int16 (v : Int)
  | int64 (v : Int)
  | other (array : Bool)
deriving DecidableEq, Repr

/-- A `siridb_user_t` (`siri/db/user.h` is missing; the fields are those `users.c`
reads and writes). A string is given by its chars before the NUL; `password` is
`none` while the pointer is `NULL`. Reference counts are left out. -/
structure siridb_user_t where
  username : List Int
  password : Option (List Int)
  access_bit : Nat
deriving DecidableEq, Repr

/-- The part of `siridb_t` that `series.c` and `users.c` use: the configuration
(`buffer_len`, `duration_num`, the shard masks), the 32-bit `max_series_id`, the items
written through the handle `siridb->store` since it was opened, the map
`siridb->series_map` from id to series as a list of pairs, the pair added last first,
the trie `siridb->series` from name to series as the list of its pairs in the order
`ct_walk` visits them, the ids written through the handle `siridb->dropped_fp` since
it was opened, and the list `siridb->users` (`none` while the pointer is `NULL`). -/
structure siridb_t where
  buffer_len : Nat
  duration_num : Nat := 0
  shard_mask_num : Nat := 0
  shard_mask_log : Nat := 0
  max_series_id : Nat := 0
  store : List qp_item := []
  series_map : List (Nat × siridb_series_t) := []
  series : List (List Int × siridb_series_t) := []
  dropped_fp : List Nat := []
  users : Option (List siridb_user_t) := none
deriving DecidableEq, Repr

/-- Modelled from the spec: `imap32_add` is defined in `imap32.c`, which is missing.
Spec: "an `imap32` (two-level 256-way array) keyed by `id`". The pair added last is
the one found under its id. -/
def imap32_add {α : Type} (map : List (Nat × α)) (id : Nat) (data : α) : List (Nat × α) :=
  (id, data) :: map

/-- Modelled from the spec: `imap32_get` is defined in `imap32.c`, which is missing. It
gives what the map holds under `id`, and nothing (`NULL`) when it holds nothing. -/
def imap32_get {α : Type} : List (Nat × α) → Nat → Option α
  | [], _ => none
  | (k, data) :: map, id => if k = id then some data else imap32_get map id

/-- The order of two keys of the trie: lexicographic, by the value of the chars. -/
def ct_key_le : List Int → List Int → Bool
  | [], _ => true
  | _ :: _, [] => false
  | a :: x, b :: y => if a < b then true else if b < a then false else ct_key_le x y

/-- Modelled from the spec: `ct_get` is defined in `ctree.c`, which is missing. Spec:
"a ternary/radix trie keyed by series name". It gives what the trie holds under
`key`, and nothing when it holds nothing. -/
def ct_get {α : Type} : List (List Int × α) → List Int → Option α
  | [], _ => none
  | (k, data) :: trie, key => if k = key then some data else ct_get trie key

/-- The place of a new pair in the list of the pairs of a trie: before the first pair
whose key does not come before the new key. -/
def ct_insert {α : Type} (key : List Int) (data : α) :
    List (List Int × α) → List (List Int × α)
  | [] => [(key, data)]
  | (k, d) :: trie =>
    if ct_key_le key k then (key, data) :: (k, d) :: trie
    else (k, d) :: ct_insert key data trie

/-- Modelled from the spec: `ct_add` is defined in `ctree.c`, which is missing. Spec:
"walkers `ct_walk(trie, cb, ctx)` ... iterate in lexicographic ... order". A key the
trie holds already keeps what it has. -/
def ct_add {α : Type} (trie : List (List Int × α)) (key : List Int) (data : α) :
    List (List Int × α) :=
  match ct_get trie key with
  | some _ => trie
  | none => ct_insert key data trie

/-- A call of a function of `siri/db/buffer.c` made by `siridb_series_add_point`, with
the series as it was passed and the code the call returned. -/
inductive buffer_call where
  | to_shards (series : siridb_series_t) (rc : Int)
  | write_len (series : siridb_series_t) (rc : Int)
  | write_point (series : siridb_series_t) (ts val : Nat) (rc : Int)
deriving DecidableEq, Repr

/-- The code a buffer call returned. -/
def buffer_call.rc : buffer_call → Int
  | .to_shards _ rc => rc
  | .write_len _ rc => rc
  | .write_point _ _ _ rc => rc

/-- Whether the call is a flush to the shards. -/
def buffer_call.is_to_shards : buffer_call → Bool
  | .to_shards _ _ => true
  | _ => false

/-- The functions of `siri/db/buffer.c`, which is missing, as far as
`siridb_series_add_point` calls them. Each returns `0` when it succeeds.
`siridb_buffer_to_shards` writes the points of the buffer to shard files and adds
index entries for them; its result is the return code and the index afterwards. It
leaves the in-memory buffer as it is. -/
structure buffer_ops where
  siridb_buffer_to_shards : siridb_t → siridb_series_t → Int × siridb_series_idx_t
  siridb_buffer_write_len : siridb_t → siridb_series_t → Int
  siridb_buffer_write_point : siridb_t → siridb_series_t → Nat → Nat → Int

/-- What a call of `siridb_series_add_point` leaves behind: the return code, the
series, the buffer calls made in order, and whether `ERR_FILE` was raised. -/
structure add_point_result where
  rc : Int
  series : siridb_series_t
  calls : List buffer_call
  err_file : Bool
deriving DecidableEq, Repr

/-- Lines 148-156 of `siridb_series_add_point`: the counters of the series. The
statement `series->length++` is on the unsigned 64-bit `length`: the sum modulo
`2^64`. -/
def add_point_props (series : siridb_series_t) (ts : Nat) : siridb_series_t :=
  { series with
    length := (series.length + 1) % UINT64_MOD
    start := if ts < series.start then ts else series.start
    end_ := if ts > series.end_ then ts else series.end_ }

/-- The function `siridb_series_add_point`. -/
def siridb_series_add_point (ops : buffer_ops) (siridb : siridb_t)
    (series : siridb_series_t) (ts val : Nat) : add_point_result :=
  let series := add_point_props series ts
  match series.buffer with
  | none => { rc := 0, series := series, calls := [], err_file := false }
  | some buffer =>
    let buffer : siridb_buffer_t :=
      { buffer with points := siridb_points_add_point buffer.points ts val }
    let series := { series with buffer := some buffer }
    if buffer.points.len = siridb.buffer_len then
      let r := ops.siridb_buffer_to_shards siridb series
      let flushed := { series with index := r.2 }
      if r.1 ≠ 0 then
        { rc := -1, series := flushed, calls := [.to_shards series r.1], err_file := false }
      else
        let reset : siridb_series_t :=
          { flushed with buffer := some { buffer with points := { buffer.points with data := [] } } }
        let rc_len := ops.siridb_buffer_write_len siridb reset
        if rc_len ≠ 0 then
          { rc := -1, series := reset
            calls := [.to_shards series r.1, .write_len reset rc_len], err_file := true }
        else
          { rc := 0, series := reset
            calls := [.to_shards series r.1, .write_len reset rc_len], err_file := false }
    else
      let rc_point := ops.siridb_buffer_write_point siridb series ts val
      if rc_point ≠ 0 then
        { rc := -1, series := series
          calls := [.write_point series ts val rc_point], err_file := true }
      else
        { rc := 0, series := series
          calls := [.write_point series ts val rc_point], err_file := false }

/-- Points added one after another with `siridb_series_add_point`, whatever each call
returns. -/
def add_points (ops : buffer_ops) (siridb : siridb_t) :
    siridb_series_t → List siridb_point_t → siridb_series_t
  | series, [] => series
  | series, p :: rest =>
    add_points ops siridb (siridb_series_add_point ops siridb series p.ts p.val).series rest

/-! ## Read path (`siridb_series_get_points_num32`) -/

/-- The function `siridb_shard_get_points_num32` of `siri/db/shard.c`, which is
missing: a parameter. It is given the container, the index entry, the bounds and
`has_overlap`; its result is the container afterwards (its return code is ignored by
the caller). -/
abbrev shard_reader :=
  siridb_points_t → idx_num32_t → Option Nat → Option Nat → Nat → siridb_points_t

/-- The test of the first loop of `siridb_series_get_points_num32`:
`(start_ts == NULL || idx->end_ts >= *start_ts) &&
 (end_ts == NULL || idx->start_ts < *end_ts)`. -/
def get_points_selects (start_ts end_ts : Option Nat) (e : idx_num32_t) : Bool :=
  (match start_ts with
    | none => true
    | some a => decide (e.end_ts ≥ a)) &&
  (match end_ts with
    | none => true
    | some b => decide (e.start_ts < b))

/-- The first loop of `siridb_series_get_points_num32`, from entry `i` on: the sum
`size` of the lengths of the selected entries and their positions `indexes`. -/
def get_points_scan (start_ts end_ts : Option Nat) : Nat → List idx_num32_t → Nat × List Nat
  | _, [] => (0, [])
  | i, e :: rest =>
    let r := get_points_scan start_ts end_ts (i + 1) rest
    if get_points_selects start_ts end_ts e then (e.len + r.1, i :: r.2) else r

/-- The entries `idx + indexes[i]` handed to the shard read by the second loop, in the
order of the calls. -/
def get_points_entries (idx : List idx_num32_t) (start_ts end_ts : Option Nat) :
    List idx_num32_t :=
  (get_points_scan start_ts end_ts 0 idx).2.filterMap (fun i => idx[i]?)

/-- The two crop loops of `siridb_series_get_points_num32` on the points of the
buffer: leading points with `ts < *start_ts` are skipped, then trailing points with
`ts >= *end_ts` are cut off. -/
def get_points_crop (data : List siridb_point_t) (start_ts end_ts : Option Nat) :
    List siridb_point_t :=
  let w :=
    match start_ts with
    | none => data
    | some a => data.dropWhile (fun p => decide (p.ts < a))
  match end_ts with
  | none => w
  | some b => w.rdropWhile (fun p => decide (p.ts ≥ b))

/-- The last loop of `siridb_series_get_points_num32`: the cropped points of the
buffer are added with `siridb_points_add_point`, first to last. -/
def add_buffer_points (points : siridb_points_t) (w : List siridb_point_t) :
    siridb_points_t :=
  w.foldl (fun pts p => siridb_points_add_point pts p.ts p.val) points

/-- The second loop of `siridb_series_get_points_num32`: the shard read is called for
every selected entry, in order, on the container made by `siridb_points_new`. -/
def get_points_read (shard_get : shard_reader) (series : siridb_series_t)
    (start_ts end_ts : Option Nat) (size : Nat) : siridb_points_t :=
  (get_points_entries series.index.idx start_ts end_ts).foldl
    (fun pts e => shard_get pts e start_ts end_ts series.index.has_overlap)
    (siridb_points_new size series.tp)

/-- The function `siridb_series_get_points_num32`. The buffer of the series is
dereferenced without a test, so a series without a buffer has no result. The final
`realloc` only gives back room. -/
def siridb_series_get_points_num32 (shard_get : shard_reader) (series : siridb_series_t)
    (start_ts end_ts : Option Nat) : Option siridb_points_t :=
  match series.buffer with
  | none => none
  | some buffer =>
    let size := (get_points_scan start_ts end_ts 0 series.index.idx).1 + buffer.points.len
    let points := get_points_read shard_get series start_ts end_ts size
    some (add_buffer_points points (get_points_crop buffer.points.data start_ts end_ts))

/-- A shard read that appends to the container only points of the chunk of its entry
that lie within the bounds; `chunk` gives the points of the chunk an entry refers
to. -/
def appends_chunk_in_range (shard_get : shard_reader)
    (chunk : idx_num32_t → List siridb_point_t) (a b : Option Nat) : Prop :=
  ∀ (pts : siridb_points_t) (e : idx_num32_t) (has_overlap : Nat),
    ∃ ps : List siridb_point_t, ps.Sublist (chunk e) ∧
      (∀ p ∈ ps, in_range a b p.ts = true) ∧
      shard_get pts e a b has_overlap = { pts with data := pts.data ++ ps }

/-- The series of `siridb_series_add_point` after line 162: the counters updated and
the point inserted into the in-memory buffer `b`. -/
def add_point_mem (series : siridb_series_t) (b : siridb_buffer_t) (ts val : Nat) :
    siridb_series_t :=
  { add_point_props series ts with
    buffer := some { b with points := siridb_points_add_point b.points ts val } }

/-- The series of `siridb_series_add_point` after line 172: flushed, and the length
of the in-memory buffer set to `0`. -/
def add_point_reset (ops : buffer_ops) (siridb : siridb_t) (series : siridb_series_t)
    (b : siridb_buffer_t) (ts val : Nat) : siridb_series_t :=
  { add_point_mem series b ts val with
    index := (ops.siridb_buffer_to_shards siridb (add_point_mem series b ts val)).2
    buffer := some { b with points := { siridb_points_add_point b.points ts val with
      data := [] } } }

/-! ## Pool lookup and routing (`src/src/siri/db/pool.c`) -/

/-- Width of a `uint32_t`. -/
def UINT32_MOD : Nat := 4294967296

/-- Modelled from the spec: the macro `SIRIDB_LOOKUP_SZ` is defined in a header that is
missing. Spec: "a fixed 64 Ki-entry table", "`pool = table[n mod 65536]`". -/
def SIRIDB_LOOKUP_SZ : Nat := 65536

/-- The statement `n += *sn` on `uint32_t n`: `c` is the value of the `char` read (for
a byte above 127 it is negative where `char` is signed), and the sum is reduced
modulo `2^32`. -/
def add_char (n : Nat) (c : Int) : Nat :=
  (((n : Int) + c) % (UINT32_MOD : Int)).toNat

/-- The function `strlen` on the block of chars a `const char *` points to: the number
of chars before the first NUL, and no result when the block holds no NUL. -/
def strlen : List Int → Option Nat
  | [] => none
  | c :: rest => if c = 0 then some 0 else (strlen rest).map (fun k => k + 1)

/-- The loop `for (; *sn; sn++) n += *sn;` of `siridb_pool_sn` (and of `SERIES_new`),
on the block `sn` points to: it stops at the first NUL and has no result when the
block holds none. -/
def pool_sn_sum (n : Nat) : List Int → Option Nat
  | [] => none
  | c :: rest => if c = 0 then some n else pool_sn_sum (add_char n c) rest

/-- The function `siridb_pool_sn`. `lookup` is the table `*siridb->pools->lookup`, as
the pool id at each position. -/
def siridb_pool_sn (lookup : Nat → Nat) (sn : List Int) : Option Nat :=
  (pool_sn_sum 0 sn).map (fun n => lookup (n % SIRIDB_LOOKUP_SZ))

/-- The loop `while (len--) n += sn[len];` of `siridb_pool_sn_raw`; no result when
`sn[len]` lies outside the block. -/
def pool_sn_raw_sum (sn : List Int) (n : Nat) : Nat → Option Nat
  | 0 => some n
  | len + 1 =>
    match sn[len]? with
    | some c => pool_sn_raw_sum sn (add_char n c) len
    | none => none

/-- The function `siridb_pool_sn_raw`. -/
def siridb_pool_sn_raw (lookup : Nat → Nat) (sn : List Int) (len : Nat) : Option Nat :=
  (pool_sn_raw_sum sn 0 len).map (fun n => lookup (n % SIRIDB_LOOKUP_SZ))

/-- The chars of a block before its first NUL. -/
def cstr_chars : List Int → List Int
  | [] => []
  | c :: rest => if c = 0 then [] else c :: cstr_chars rest

/-- The sum of the byte values of a name in the words of the spec, "`n = Σ name bytes`",
to be compared with the sum the loops of the source form: every char before the NUL
counts as the byte it holds, a value from `0` to `255` (the value of the char modulo
`256`). The loops of the source add the chars themselves. -/
def spec_byte_sum (sn : List Int) : Nat :=
  ((cstr_chars sn).map (fun c => (c % 256).toNat)).sum

/-- A `siridb_server_t`, as far as `pool.c` tells servers apart. -/
structure siridb_server_t where
  id : Nat
deriving DecidableEq, Repr

/-- Modelled from the spec: `siridb_pool_t` is declared in `siri/db/pool.h`, which is
missing. Spec: "a pool holds 1..N replicated servers". `server` lists
`pool->server[0 .. len - 1]`, and `pool->len` is its length. -/
structure siridb_pool_t where
  server : List siridb_server_t
deriving DecidableEq, Repr

/-- The field `pool->len`. -/
def siridb_pool_t.len (pool : siridb_pool_t) : Nat :=
  pool.server.length

/-- The loop of `siridb_pool_send_pkg` over the servers `pool->server[i]` still to be
visited. `is_available` is `siridb_server_is_available` (`server.c`, missing), `rand k`
is the outcome of the `k`-th call of `rand()`. The state is `server` (`none` for
`NULL`) and the number of calls of `rand()` made. -/
def send_pkg_select (is_available : siridb_server_t → Bool) (rand : Nat → Nat)
    (pool : siridb_pool_t) :
    List siridb_server_t → Option siridb_server_t → Nat → Option siridb_server_t × Nat
  | [], server, k => (server, k)
  | s :: rest, server, k =>
    if is_available s then
      match server with
      | none => send_pkg_select is_available rand pool rest (some s) k
      | some _ =>
        send_pkg_select is_available rand pool rest (pool.server[rand k % 2]?) (k + 1)
    else send_pkg_select is_available rand pool rest server k

/-- What a call of `siridb_pool_send_pkg` leaves behind: the return code and the
servers `siridb_server_send_pkg` was called with, in order. -/
structure send_pkg_result where
  rc : Int
  sent : List siridb_server_t
deriving DecidableEq, Repr

/-- The function `siridb_pool_send_pkg`. -/
def siridb_pool_send_pkg (is_available : siridb_server_t → Bool) (rand : Nat → Nat)
    (pool : siridb_pool_t) : send_pkg_result :=
  match (send_pkg_select is_available rand pool pool.server none 0).1 with
  | none => { rc := -1, sent := [] }
  | some server => { rc := 0, sent := [server] }

/-! ## Creating a series (`siridb_series_new`, `SERIES_new`) -/

/-- Modelled from the spec: the macro `SIRIDB_SERIES_TP_STRING` is defined in
`siri/db/series.h`, which is missing. The spec types a series "as integer, float, or
string", the order of `series_type_map` in `series.c`, where `"string"` stands at
position `2`. -/
def SIRIDB_SERIES_TP_STRING : Nat := 2

/-- What the environment does during one call of `siridb_series_new`: whether the two
`malloc` calls of `SERIES_new` return a block, which of the five calls on the store
(`qp_fadd_type`, `qp_fadd_raw`, `qp_fadd_int32`, `qp_fadd_int8`, `qp_flush`, numbered
from `0`) is the first to fail, if any, and the function `siridb_buffer_new_series`
of `siri/db/buffer.c` (missing): its return code and the buffer it attaches to the
series. -/
structure series_new_env where
  malloc_series_ok : Bool
  malloc_index_ok : Bool
  store_fail : Option Nat
  siridb_buffer_new_series : siridb_t → siridb_series_t → Int × Option siridb_buffer_t

/-- What `SERIES_new` returns: `NULL`, a pointer to a series, or, when the `malloc` of
the index fails, the pointer to the series it has just freed. -/
inductive SERIES_new_result where
  | null
  | freed
  | series (series : siridb_series_t)
deriving DecidableEq, Repr

/-- The function `SERIES_new`. There is no result when the name holds no NUL, or when
the shard mask divided by is `0`. `series->mask` is a 16-bit field. -/
def SERIES_new (env : series_new_env) (siridb : siridb_t) (id tp : Nat) (sn : List Int) :
    Option SERIES_new_result :=
  if env.malloc_series_ok then
    match pool_sn_sum 0 sn with
    | none => none
    | some n =>
      let shard_mask :=
        if tp = SIRIDB_SERIES_TP_STRING then siridb.shard_mask_log else siridb.shard_mask_num
      if shard_mask = 0 then none
      else if env.malloc_index_ok then
        some (.series
          { id := id, tp := tp, ref := 1, length := 0, start := UINT64_MAX, end_ := 0
            mask := ((n / 11) % shard_mask) % UINT16_MOD
            buffer := none
            index := { has_overlap := 0, idx := [] } })
      else some .freed
  else some .null

/-- The value of `(int32_t) x` for an unsigned 32-bit `x`. -/
def to_int32 (x : Nat) : Int :=
  if x % UINT32_MOD < 2147483648 then (x % UINT32_MOD : Nat) else (x % UINT32_MOD : Nat) - 4294967296

/-- The value of `(int8_t) x` for an unsigned 8-bit `x`. -/
def to_int8 (x : Nat) : Int :=
  if x % 256 < 128 then (x % 256 : Nat) else (x % 256 : Nat) - 256

/-- The items the four `qp_fadd_` calls of `siridb_series_new` write, in order. -/
def series_store_items (series_name : List Int) (series : siridb_series_t) : List qp_item :=
  [.array3, .raw (cstr_chars series_name ++ [0]), .int32 (to_int32 series.id),
   .int8 (to_int8 series.tp)]

/-- What a call of `siridb_series_new` leaves behind: the pointer returned, the
database, whether `ERR_ALLOC` and `ERR_FILE` were raised, and whether
`siridb_buffer_new_series` was called. -/
structure series_new_result where
  series : Option siridb_series_t
  siridb : siridb_t
  err_alloc : Bool
  err_file : Bool
  buffer_requested : Bool
deriving DecidableEq, Repr

/-- The function `siridb_series_new`. There is no result when `SERIES_new` has none,
and when `SERIES_new` returns the freed pointer, which is then used. The calls on
the store that precede the failing one have written their items. -/
def siridb_series_new (env : series_new_env) (siridb : siridb_t) (series_name : List Int)
    (tp : Nat) : Option series_new_result :=
  match strlen series_name with
  | none => none
  | some _ =>
    let siridb := { siridb with max_series_id := (siridb.max_series_id + 1) % UINT32_MOD }
    match SERIES_new env siridb siridb.max_series_id tp series_name with
    | none => none
    | some .freed => none
    | some .null =>
      some { series := none, siridb := siridb, err_alloc := true, err_file := false
             buffer_requested := false }
    | some (.series series) =>
      match env.store_fail with
      | some k =>
        some { series := none
               siridb := { siridb with
                 store := siridb.store ++ (series_store_items series_name series).take k }
               err_alloc := false, err_file := true, buffer_requested := false }
      | none =>
        let siridb :=
          { siridb with store := siridb.store ++ series_store_items series_name series }
        if tp ≠ SIRIDB_SERIES_TP_STRING then
          let r := env.siridb_buffer_new_series siridb series
          if r.1 ≠ 0 then
            some { series := none, siridb := siridb, err_alloc := false, err_file := false
                   buffer_requested := true }
          else
            let series := { series with buffer := r.2 }
            some { series := some series
                   siridb := { siridb with
                     series_map := imap32_add siridb.series_map series.id series }
                   err_alloc := false, err_file := false, buffer_requested := true }
        else
          some { series := some series
                 siridb := { siridb with
                   series_map := imap32_add siridb.series_map series.id series }
                 err_alloc := false, err_file := false, buffer_requested := false }

/-- One call of `siridb_series_new` in a run: the environment, the name and the
type. -/
structure series_new_call where
  env : series_new_env
  series_name : List Int
  tp : Nat

/-- Series created one after another: the database after the calls and the ids of the
series returned, in the order of the calls. -/
def series_new_run : siridb_t → List series_new_call → Option (siridb_t × List Nat)
  | siridb, [] => some (siridb, [])
  | siridb, c :: rest =>
    match siridb_series_new c.env siridb c.series_name c.tp with
    | none => none
    | some r =>
      match series_new_run r.siridb rest with
      | none => none
      | some (db, ids) =>
        match r.series with
        | none => some (db, ids)
        | some s => some (db, s.id :: ids)

/-! ## Removing a shard from a series, and the properties `start` and `end` -/

/-- The statement `series->length -= idx->len` on the unsigned 64-bit `length`: the
difference modulo `2^64`. -/
def length_sub (length len : Nat) : Nat :=
  (length + UINT64_MOD - len % UINT64_MOD) % UINT64_MOD

/-- The expression `(index->len) ? idx->start_ts : -1`. Its second operand is the
`uint32_t` field `start_ts` and its third the `int` constant `-1`, so the expression
has type `uint32_t` and `-1` is converted to the largest `uint32_t`, `2^32 - 1`. -/
def first_start_ts : List idx_num32_t → Nat
  | [] => UINT32_MOD - 1
  | e :: _ => e.start_ts

/-- The value `SERIES_update_start_num32` gives `series->start`: the `start_ts` of the
first entry of the index (`2^32 - 1`, the `-1` of the 32-bit conditional expression,
without entries), or the time-stamp of the first point of the buffer when that is
smaller. -/
def update_start_value (idx : List idx_num32_t) (points : List siridb_point_t) : Nat :=
  let start := first_start_ts idx
  match points with
  | [] => start
  | point :: _ => if point.ts < start then point.ts else start

/-- The function `SERIES_update_start_num32`. The buffer of the series is dereferenced
without a test, so a series without a buffer has no result. -/
def SERIES_update_start_num32 (series : siridb_series_t) : Option siridb_series_t :=
  match series.buffer with
  | none => none
  | some buffer =>
    some { series with start := update_start_value series.index.idx buffer.points.data }

/-- The loop of `SERIES_update_end_num32` over the entries from the last to the first:
`start` is the `start_ts` of the entry visited before (`0` at first) and `end_` is
`series->end`. -/
def update_end_scan (start end_ : Nat) : List idx_num32_t → Nat
  | [] => end_
  | e :: rest =>
    if e.end_ts < start then end_
    else update_end_scan e.start_ts (if e.end_ts > end_ then e.end_ts else end_) rest

/-- The value `SERIES_update_end_num32` gives `series->end`. With entries in the index
the loop starts from the value `series->end` has; without entries `series->end` is
set to `0`. The time-stamp of the last point of the buffer is taken when larger. -/
def update_end_value (end_ : Nat) (idx : List idx_num32_t) (points : List siridb_point_t) :
    Nat :=
  let end_ := if idx.length ≠ 0 then update_end_scan 0 end_ idx.reverse else 0
  match points.getLast? with
  | none => end_
  | some point => if point.ts > end_ then point.ts else end_

/-- The function `SERIES_update_end_num32`. The buffer of the series is dereferenced
without a test, so a series without a buffer has no result. -/
def SERIES_update_end_num32 (series : siridb_series_t) : Option siridb_series_t :=
  match series.buffer with
  | none => none
  | some buffer =>
    some { series with
      end_ := update_end_value series.end_ series.index.idx buffer.points.data }

/-- The function `siridb_series_update_props`. -/
def siridb_series_update_props (series : siridb_series_t) : Option siridb_series_t :=
  (SERIES_update_start_num32 series).bind SERIES_update_end_num32

/-- The entries the loop of `SERIES_update_end_num32` visits before it breaks, the last
entry of the index first. -/
def update_end_run (start : Nat) : List idx_num32_t → List idx_num32_t
  | [] => []
  | e :: rest => if e.end_ts < start then [] else e :: update_end_run e.start_ts rest

/-- The loop of `siridb_series_remove_shard_num32` over the entries still to be visited.
`kept` holds the entries `idx[0 .. i - offset)` of the block: an entry that stays is
copied to `idx[i - offset]` (or stays where it is while `offset` is `0`), which puts
it at the end of `kept`. Entries not yet visited are not written to. -/
def remove_shard_loop (shard : Nat) :
    List idx_num32_t → List idx_num32_t → Nat → Nat → List idx_num32_t × Nat × Nat
  | [], kept, offset, length => (kept, offset, length)
  | e :: rest, kept, offset, length =>
    if e.shard = shard then remove_shard_loop shard rest kept (offset + 1) (length_sub length e.len)
    else remove_shard_loop shard rest (kept ++ [e]) offset length

/-- The lower end `shard->id - series->mask` of the time slice of a shard, in unsigned
64-bit arithmetic. -/
def slice_start (series : siridb_series_t) (shard : siridb_shard_t) : Nat :=
  (shard.id + UINT64_MOD - series.mask % UINT64_MOD) % UINT64_MOD

/-- The upper end `start + siridb->duration_num` of the time slice of a shard. -/
def slice_end (siridb : siridb_t) (series : siridb_series_t) (shard : siridb_shard_t) : Nat :=
  (slice_start series shard + siridb.duration_num) % UINT64_MOD

/-- The function `siridb_series_remove_shard_num32`. The block is shortened to the
entries kept (the result of `realloc` is not tested by the source; the smaller block
is taken to be returned). There is no result when `start` or `end` is to be updated
on a series without a buffer. The assertion under `DEBUG` is left out. -/
def siridb_series_remove_shard_num32 (siridb : siridb_t) (series : siridb_series_t)
    (shard : siridb_shard_t) : Option siridb_series_t :=
  let r := remove_shard_loop shard.ref series.index.idx [] 0 series.length
  let series := { series with length := r.2.2, index := { series.index with idx := r.1 } }
  if r.2.1 ≠ 0 then
    let start := slice_start series shard
    let end_ := slice_end siridb series shard
    match (if series.start ≥ start ∧ series.start < end_ then SERIES_update_start_num32 series
        else some series) with
    | none => none
    | some series =>
      if series.end_ < end_ ∧ series.end_ > start then SERIES_update_end_num32 series
      else some series
  else some series

/-- The entries of an index that refer to a shard. -/
def entries_of (shard : Nat) (idx : List idx_num32_t) : List idx_num32_t :=
  idx.filter (fun e => decide (e.shard = shard))

/-- The entries of an index that do not refer to a shard. -/
def entries_not_of (shard : Nat) (idx : List idx_num32_t) : List idx_num32_t :=
  idx.filter (fun e => !decide (e.shard = shard))

/-- The sum of `len` over index entries. -/
def sum_len (idx : List idx_num32_t) : Nat :=
  (idx.map idx_num32_t.len).sum

/-! ## Optimizing a shard: `siridb_series_optimize_shard_num32` -/

/-- The value `EOF` of `stdio.h`. -/
def EOF : Int := -1

/-- What `siridb_series_optimize_shard_num32` takes from outside `series.c`:
`siri.cfg->max_chunk_points`, whether `siridb_points_new` returns a container, the
shard read `siridb_shard_get_points_num32(points, idx, NULL, NULL, has_overlap)`
with its return code and the container afterwards, and the position (or `EOF`)
`siridb_shard_write_points(siridb, series, shard, points, pstart, pend)` returns. -/
structure optimize_env where
  max_chunk_points : Nat
  siridb_points_new_ok : Bool
  siridb_shard_get_points_num32 : siridb_points_t → idx_num32_t → Nat → Int × siridb_points_t
  siridb_shard_write_points : siridb_points_t → Nat → Nat → Int

/-- The first loop of `siridb_series_optimize_shard_num32` over the entries from `idx[i]`
on, with the variables `start`, `end` and `size`; the result is their value after the
loop. `replacing` is the reference `shard->replacing`. -/
def optimize_scan (shard replacing max_ts : Nat) :
    List idx_num32_t → Nat → Nat → Nat → Nat → Nat × Nat × Nat
  | [], _, start, end_, size => (start, end_, size)
  | e :: rest, i, start, end_, size =>
    if e.start_ts < max_ts then
      if e.shard = replacing then
        optimize_scan shard replacing max_ts rest (i + 1) (if end_ = 0 then i else start)
          ((if end_ = 0 then i else end_) + 1) (size + e.len)
      else if e.shard = shard ∧ end_ ≠ 0 then
        optimize_scan shard replacing max_ts rest (i + 1) start (end_ + 1) size
      else optimize_scan shard replacing max_ts rest (i + 1) start end_ size
    else (start, end_, size)

/-- The second loop of `siridb_series_optimize_shard_num32` over the entries
`idx[start .. end)`: the shard read is called for the entries of `shard->replacing`
only, and `size` loses the `len` of an entry whose read fails. -/
def optimize_read (env : optimize_env) (replacing has_overlap : Nat) :
    List idx_num32_t → siridb_points_t → Nat → siridb_points_t × Nat
  | [], points, size => (points, size)
  | e :: rest, points, size =>
    if e.shard = replacing then
      if (env.siridb_shard_get_points_num32 points e has_overlap).1 ≠ 0 then
        optimize_read env replacing has_overlap rest
          (env.siridb_shard_get_points_num32 points e has_overlap).2 (length_sub size e.len)
      else
        optimize_read env replacing has_overlap rest
          (env.siridb_shard_get_points_num32 points e has_overlap).2 size
    else optimize_read env replacing has_overlap rest points size

/-- The statement `num_chunks = (size - 1) / siri.cfg->max_chunk_points + 1`, with
`size - 1` in `size_t` and the result in a `uint_fast32_t` of 64 bits; there is no
result when the divisor is `0`. -/
def optimize_num_chunks (size max_chunk_points : Nat) : Option Nat :=
  if max_chunk_points = 0 then none
  else some ((((size + UINT64_MOD - 1) % UINT64_MOD) / max_chunk_points + 1) % UINT64_MOD)

/-- The statement `chunk_sz = size / num_chunks + (size % num_chunks != 0)`, stored in
a `uint16_t`; there is no result when the divisor is `0`. -/
def optimize_chunk_sz (size num_chunks : Nat) : Option Nat :=
  if num_chunks = 0 then none
  else some ((size / num_chunks + (if size % num_chunks ≠ 0 then 1 else 0)) % UINT16_MOD)

/-- The ranges `[pstart, pend)` the loop
`for (pstart = 0; pstart < size; pstart += chunk_sz)` goes through, with `pend` the
smaller of `pstart + chunk_sz` and `size`. The first argument bounds the number of
rounds; there is no result when the loop has not ended by then. -/
def optimize_chunks (size chunk_sz : Nat) : Nat → Nat → Option (List (Nat × Nat))
  | 0, pstart => if pstart < size then none else some []
  | n + 1, pstart =>
    if pstart < size then
      (optimize_chunks size chunk_sz n (pstart + chunk_sz)).map
        (fun chunks => (pstart, if pstart + chunk_sz > size then size else pstart + chunk_sz)
          :: chunks)
    else some []

/-- The variables the third loop of `siridb_series_optimize_shard_num32` changes: the
block of the index, `start` and `rc`, and the ranges passed to
`siridb_shard_write_points` so far. -/
structure optimize_state where
  idx : List idx_num32_t
  start : Nat
  rc : Int
  writes : List (Nat × Nat)
deriving DecidableEq, Repr

/-- The entry the third loop of `siridb_series_optimize_shard_num32` writes to
`idx[start]` for the range `[pstart, pend)`, from the points `points->data[pstart]` and
`points->data[pend - 1]` and the position `pos` of the chunk written. -/
def optimize_entry (shard : Nat) (first last : siridb_point_t) (pos : Int)
    (pstart pend : Nat) : idx_num32_t :=
  { start_ts := first.ts % UINT32_MOD
    end_ts := last.ts % UINT32_MOD
    shard := shard
    pos := (pos % (UINT32_MOD : Int)).toNat
    len := (pend - pstart) % UINT16_MOD }

/-- The body of the third loop of `siridb_series_optimize_shard_num32`, run for each
range `[pstart, pend)` in turn. There is no result when `points->data[pstart]` or
`points->data[pend - 1]` is not a point read, or `idx[start]` lies outside the
block. -/
def optimize_write (env : optimize_env) (shard : Nat) (points : siridb_points_t) :
    List (Nat × Nat) → optimize_state → Option optimize_state
  | [], st => some st
  | (pstart, pend) :: rest, st =>
    if env.siridb_shard_write_points points pstart pend = EOF then
      optimize_write env shard points rest
        { st with rc := -1, start := st.start + 1, writes := st.writes ++ [(pstart, pend)] }
    else
      match points.data[pstart]?, points.data[pend - 1]? with
      | some first, some last =>
        if st.start < st.idx.length then
          optimize_write env shard points rest
            { st with
              idx := st.idx.set st.start
                (optimize_entry shard first last
                  (env.siridb_shard_write_points points pstart pend) pstart pend)
              start := st.start + 1
              writes := st.writes ++ [(pstart, pend)] }
        else none
      | _, _ => none

/-- The loop `for (; start < series->index->len; start++) idx[start] = idx[start + i]`
of `siridb_series_optimize_shard_num32`, `len` being the new `series->index->len`.
The first argument bounds the number of rounds. -/
def optimize_shift (i len : Nat) : Nat → Nat → List idx_num32_t → Option (List idx_num32_t)
  | 0, start, idx => if start < len then none else some idx
  | n + 1, start, idx =>
    if start < len then
      match idx[start + i]? with
      | none => none
      | some e => optimize_shift i len n (start + 1) (idx.set start e)
    else some idx

/-- What `siridb_series_optimize_shard_num32` returns and leaves behind: the return
code, the series, the number `size` of points collected (`0` when the function returns
before reading), and the ranges passed to `siridb_shard_write_points`. -/
structure optimize_result where
  rc : Int
  series : siridb_series_t
  size : Nat
  writes : List (Nat × Nat)
deriving DecidableEq, Repr

/-- The bound `max_ts = (shard->id + siridb->duration_num) - series->mask` of
`siridb_series_optimize_shard_num32`, in unsigned 64-bit arithmetic
(`uint_fast32_t` taken 64 bits wide, as with glibc on 64-bit Linux). -/
def optimize_max_ts (siridb : siridb_t) (series : siridb_series_t) (shard : siridb_shard_t) :
    Nat :=
  ((shard.id + siridb.duration_num) % UINT64_MOD + UINT64_MOD - series.mask % UINT64_MOD)
    % UINT64_MOD

/-- The function `siridb_series_optimize_shard_num32`. `replacing` is the reference
`shard->replacing`. The sum `size` of `len` fields stays far below `2^64` and is not
reduced; after the last loop the index holds the first `series->index->len` entries
of the block, whether `realloc` shrinks the block or not. There is no result where
the source divides by `0`, does not leave the third loop, or reads or writes
outside what it holds. The assertions under `DEBUG` are left out. -/
def siridb_series_optimize_shard_num32 (env : optimize_env) (siridb : siridb_t)
    (series : siridb_series_t) (shard : siridb_shard_t) (replacing : Nat) :
    Option optimize_result :=
  let scan := optimize_scan shard.ref replacing (optimize_max_ts siridb series shard)
    series.index.idx 0 0 0 0
  let start := scan.1
  let end_ := scan.2.1
  if end_ = 0 then some ⟨0, series, 0, []⟩
  else if env.siridb_points_new_ok = false then some ⟨-1, series, 0, []⟩
  else
    let read := optimize_read env replacing series.index.has_overlap
      ((series.index.idx.drop start).take (end_ - start))
      (siridb_points_new scan.2.2 series.tp) scan.2.2
    let size := read.2
    match optimize_num_chunks size env.max_chunk_points with
    | none => none
    | some num_chunks =>
      match optimize_chunk_sz size num_chunks with
      | none => none
      | some chunk_sz =>
        match optimize_chunks size chunk_sz size 0 with
        | none => none
        | some chunks =>
          match optimize_write env shard.ref read.1 chunks ⟨series.index.idx, start, 0, []⟩ with
          | none => none
          | some st =>
            if st.start < end_ then
              let len := st.idx.length - (end_ - st.start)
              match optimize_shift (end_ - st.start) len (len - st.start) st.start st.idx with
              | none => none
              | some idx =>
                some ⟨st.rc, { series with index := { series.index with idx := idx.take len } },
                  size, st.writes⟩
            else
              some ⟨st.rc, { series with index := { series.index with idx := st.idx } },
                size, st.writes⟩

/-! ## Loading the series catalog (`siridb_series_load`) -/

/-- The macro `SIRIDB_SERIES_SCHEMA`. -/
def SIRIDB_SERIES_SCHEMA : Int := 1

/-- The macro `DROPPED_DUMMY`. -/
def DROPPED_DUMMY : Nat := 1

/-- The files of a database directory that `series.c` and `users.c` read and write:
`series.dat` and `users.dat` as the qpack items they hold, `.dropped` and
`.max_series_id` as the 32-bit words they hold. A file is `none` when it cannot be
opened for reading, that is, when it does not exist. -/
structure siridb_files where
  series_dat : Option (List qp_item) := none
  dropped : Option (List Nat) := none
  max_series_id : Option (List Nat) := none
  users_dat : Option (List qp_item) := none
deriving DecidableEq, Repr

/-- Modelled from the spec: `qp_types_t` is declared in `qpack.h`, which is missing.
Spec: "values: ... fixed-width integers, ... raw bytes with length prefix, and
container markers (`ARRAY0..ARRAY5`, `ARRAY_OPEN`, ..., `END`)". Only the types
`series.c` and `users.c` tell apart are named; `QP_ARRAY_N` stands for the other
array types and `QP_OTHER` for every other type. -/
inductive qp_types_t where
  | QP_END
  | QP_RAW
  | QP_INT64
  | QP_ARRAY3
  | QP_ARRAY_OPEN
  | QP_ARRAY_N
  | QP_OTHER
deriving DecidableEq, Repr

/-- What a call `qp_next(unpacker, obj)` gives: the type returned, the raw bytes and
the integer left in `obj`, and the items the unpacker still has to go through. -/
structure qp_next_t where
  tp : qp_types_t
  raw : List Int
  int64 : Int
  unpacker : List qp_item
deriving DecidableEq, Repr

/-- Modelled from the spec: `qp_next` is defined in the qpack library, which is
missing. Spec: "an unpacker is a cursor ... with operations: `next(out) → tag`".
Every integer item is given back as `QP_INT64`; at the end of the items `QP_END` is
returned. -/
def qp_next : List qp_item → qp_next_t
  | [] => ⟨.QP_END, [], 0, []⟩
  | .array3 :: rest => ⟨.QP_ARRAY3, [], 0, rest⟩
  | .raw bytes :: rest => ⟨.QP_RAW, bytes, 0, rest⟩
  | .int8 v :: rest => ⟨.QP_INT64, [], v, rest⟩
  | .int32 v :: rest => ⟨.QP_INT64, [], v, rest⟩
  | .array_open :: rest => ⟨.QP_ARRAY_OPEN, [], 0, rest⟩
  | .int16 v :: rest => ⟨.QP_INT64, [], v, rest⟩
  | .int64 v :: rest => ⟨.QP_INT64, [], v, rest⟩
  | .other true :: rest => ⟨.QP_ARRAY_N, [], 0, rest⟩
  | .other false :: rest => ⟨.QP_OTHER, [], 0, rest⟩

/-- Modelled from the spec: the macro `qp_is_array` is defined in the qpack library,
which is missing. It holds for the container markers of arrays. -/
def qp_is_array (tp : qp_types_t) : Bool :=
  tp = .QP_ARRAY3 || tp = .QP_ARRAY_OPEN || tp = .QP_ARRAY_N

/-- Modelled from the spec: the macro `siridb_schema_check` is defined in a header
that is missing. Spec: "every metadata file begins with `ARRAY_OPEN` followed by an
`int16` schema version; readers must reject unknown versions". The result is the
unpacker after the two items, and `none` when the check fails (the function using
the macro then returns `-1`). -/
def siridb_schema_check (schema : Int) : List qp_item → Option (List qp_item)
  | .array_open :: .int16 v :: rest => if v = schema then some rest else none
  | _ => none

/-- The items `SERIES_pack` writes for a key of the trie and its series. -/
def SERIES_pack (key : List Int) (series : siridb_series_t) : List qp_item :=
  [.array3, .raw (key ++ [0]), .int32 (to_int32 series.id), .int8 (to_int8 series.tp)]

/-- What `SERIES_save` leaves behind: the files, and `siri_err`, which is also the
value it returns (`true` for a value other than `0`). -/
structure save_result where
  files : siridb_files
  siri_err : Bool
deriving DecidableEq, Repr

/-- The function `SERIES_save`. `save_failed` tells whether one of the calls on the
file fails, and is then the content the file is left with; `ERR_FILE` sets
`siri_err`. Without failure the file holds `QP_ARRAY_OPEN`, the schema, and the
items of `SERIES_pack` for the pairs of the trie in the order of `ct_walk`. -/
def SERIES_save (save_failed : Option (Option (List qp_item))) (siridb : siridb_t)
    (siri_err : Bool) (files : siridb_files) : save_result :=
  match save_failed with
  | some content => { files := { files with series_dat := content }, siri_err := true }
  | none =>
    { files := { files with
        series_dat := some ([.array_open, .int16 SIRIDB_SERIES_SCHEMA] ++
          (siridb.series.map (fun p => SERIES_pack p.1 p.2)).flatten) }
      siri_err := siri_err }

/-- What the three objects hold when the test of the `while` loop of `SERIES_load`
passes: the raw name, the id and the type of a series. -/
structure series_record where
  name : List Int
  id : Int
  tp : Int
deriving DecidableEq, Repr

/-- The test of the `while` loop of `SERIES_load`, round after round: the records for
which the four calls of `qp_next` give `QP_ARRAY3`, `QP_RAW`, `QP_INT64` and
`QP_INT64`, and the unpacker after the call that gives another type. The first
argument bounds the number of rounds. -/
def SERIES_load_records : Nat → List qp_item → Option (List series_record × List qp_item)
  | 0, _ => none
  | fuel + 1, unpacker =>
    let n1 := qp_next unpacker
    if n1.tp = .QP_ARRAY3 then
      let n2 := qp_next n1.unpacker
      if n2.tp = .QP_RAW then
        let n3 := qp_next n2.unpacker
        if n3.tp = .QP_INT64 then
          let n4 := qp_next n3.unpacker
          if n4.tp = .QP_INT64 then
            (SERIES_load_records fuel n4.unpacker).map
              (fun r => ({ name := n2.raw, id := n3.int64, tp := n4.int64 } :: r.1, r.2))
          else some ([], n4.unpacker)
        else some ([], n3.unpacker)
      else some ([], n2.unpacker)
    else some ([], n1.unpacker)

/-- The value `(uint32_t) qp_series_id->via->int64` for a record. -/
def series_record.id32 (record : series_record) : Nat :=
  (record.id % (UINT32_MOD : Int)).toNat

/-- The value `(uint8_t) qp_series_tp->via->int64` for a record. -/
def series_record.tp8 (record : series_record) : Nat :=
  (record.tp % 256).toNat

/-- Lines 926-932 of `SERIES_load`: `max_series_id` is raised to the id read. -/
def load_max_id (siridb : siridb_t) (series_id : Nat) : siridb_t :=
  if series_id > siridb.max_series_id then { siridb with max_series_id := series_id }
  else siridb

/-- The body of the `while` loop of `SERIES_load`, for the records in turn. `env k` is
the environment of the call of `SERIES_new` numbered `k`; `ERR_ALLOC` sets
`siri_err`. There is no result when `SERIES_new` has none, or returns the freed
pointer, which is then used. -/
def SERIES_load_body (env : Nat → series_new_env) (dropped : List (Nat × Nat)) :
    Nat → List series_record → siridb_t → Bool → Option (siridb_t × Bool)
  | _, [], siridb, siri_err => some (siridb, siri_err)
  | k, record :: rest, siridb, siri_err =>
    match imap32_get dropped record.id32 with
    | some _ =>
      SERIES_load_body env dropped k rest (load_max_id siridb record.id32) siri_err
    | none =>
      match SERIES_new (env k) (load_max_id siridb record.id32) record.id32 record.tp8
          record.name with
      | none => none
      | some .freed => none
      | some .null =>
        SERIES_load_body env dropped (k + 1) rest (load_max_id siridb record.id32) true
      | some (.series series) =>
        SERIES_load_body env dropped (k + 1) rest
          { load_max_id siridb record.id32 with
            series :=
              ct_add (load_max_id siridb record.id32).series (cstr_chars record.name) series
            series_map :=
              imap32_add (load_max_id siridb record.id32).series_map series.id series }
          siri_err

/-- The shard mask `SERIES_new` divides by for a type. -/
def shard_mask_of (siridb : siridb_t) (tp : Nat) : Nat :=
  if tp = SIRIDB_SERIES_TP_STRING then siridb.shard_mask_log else siridb.shard_mask_num

/-- The series `SERIES_new` makes for a record of `series.dat`. -/
def series_of_record (siridb : siridb_t) (record : series_record) : siridb_series_t :=
  { id := record.id32, tp := record.tp8, ref := 1, length := 0, start := UINT64_MAX, end_ := 0
    mask := (((pool_sn_sum 0 record.name).getD 0 / 11) % shard_mask_of siridb record.tp8)
      % UINT16_MOD
    buffer := none
    index := { has_overlap := 0, idx := [] } }

/-- A round of the loop of `SERIES_load` in which `SERIES_new` returns a series (or the
id is a dropped one): the database afterwards. -/
def load_one (dropped : List (Nat × Nat)) (siridb : siridb_t) (record : series_record) :
    siridb_t :=
  match imap32_get dropped record.id32 with
  | some _ => load_max_id siridb record.id32
  | none =>
    { load_max_id siridb record.id32 with
      series := ct_add (load_max_id siridb record.id32).series (cstr_chars record.name)
        (series_of_record siridb record)
      series_map := imap32_add (load_max_id siridb record.id32).series_map record.id32
        (series_of_record siridb record) }

/-- The rounds of the loop of `SERIES_load` for records one after another, each as in
`load_one`. -/
def load_all (dropped : List (Nat × Nat)) (siridb : siridb_t) (records : List series_record) :
    siridb_t :=
  records.foldl (load_one dropped) siridb

/-- The largest id among records, `0` without records. -/
def max_id32 (records : List series_record) : Nat :=
  (records.map series_record.id32).foldr max 0

/-- The records whose id is not a dropped one. -/
def live_records (dropped : List (Nat × Nat)) (records : List series_record) :
    List series_record :=
  records.filter (fun r => (imap32_get dropped r.id32).isNone)

/-- What the environment does during `SERIES_load`: the calls of `SERIES_new`, whether
`qp_unpacker_from_file` and the three calls of `qp_object_new` succeed, and
`SERIES_save`. -/
structure series_load_env where
  series_new : Nat → series_new_env
  unpacker_ok : Bool
  objects_ok : Bool
  save_failed : Option (Option (List qp_item))

/-- What a function of the loading path returns and leaves behind. -/
structure load_result where
  rc : Int
  siridb : siridb_t
  files : siridb_files
  siri_err : Bool
deriving DecidableEq, Repr

/-- The function `SERIES_load`. When `SERIES_save` fails in the branch of the missing
file the value returned is that of `siri_err`, given as `-1`. The assertion on
`max_series_id` is left out. There is no result when the loop has none. -/
def SERIES_load (env : series_load_env) (siridb : siridb_t) (dropped : List (Nat × Nat))
    (files : siridb_files) (siri_err : Bool) : Option load_result :=
  match files.series_dat with
  | none =>
    let s := SERIES_save env.save_failed siridb siri_err files
    some { rc := if s.siri_err then -1 else 0, siridb := siridb, files := s.files
           siri_err := s.siri_err }
  | some content =>
    if env.unpacker_ok = false then
      some { rc := -1, siridb := siridb, files := files, siri_err := siri_err }
    else
      match siridb_schema_check SIRIDB_SERIES_SCHEMA content with
      | none => some { rc := -1, siridb := siridb, files := files, siri_err := siri_err }
      | some unpacker =>
        if env.objects_ok = false ∨ siri_err = true then
          some { rc := -1, siridb := siridb, files := files, siri_err := true }
        else
          match SERIES_load_records (unpacker.length + 1) unpacker with
          | none => none
          | some (records, rest) =>
            match SERIES_load_body env.series_new dropped 0 records siridb false with
            | none => none
            | some (siridb, siri_err) =>
              if (qp_next rest).tp ≠ .QP_END then
                some { rc := -1, siridb := siridb, files := files, siri_err := siri_err }
              else if siri_err = true then
                some { rc := -1, siridb := siridb, files := files, siri_err := true }
              else
                let s := SERIES_save env.save_failed siridb false files
                some { rc := if s.siri_err then -1 else 0, siridb := siridb
                       files := s.files, siri_err := s.siri_err }

/-- What the environment does during `SERIES_read_dropped`: whether the size of the
file is read (`fseek`, `ftell`), `malloc` returns a buffer, and `fread` reads it. -/
structure read_dropped_env where
  size_ok : Bool
  malloc_ok : Bool
  fread_ok : Bool

/-- The function `SERIES_read_dropped`, on the map `dropped` and the file `.dropped`
as the 32-bit words it holds. The modelled `imap32_add` always adds, so the branch
for its failure is not taken. -/
def SERIES_read_dropped (env : read_dropped_env) (dropped : List (Nat × Nat))
    (file : Option (List Nat)) : Int × List (Nat × Nat) :=
  match file with
  | none => (0, dropped)
  | some ids =>
    if env.size_ok = false then (-1, dropped)
    else if ids = [] then (0, dropped)
    else if env.malloc_ok = false then (-1, dropped)
    else if env.fread_ok = true then
      (0, ids.foldl (fun map id => imap32_add map id DROPPED_DUMMY) dropped)
    else (-1, dropped)

/-- What the environment does during `SERIES_update_max_id`: whether `fread` and
`fclose` succeed on the file opened for reading, and `fopen`, `fwrite` and `fclose`
on the file opened for writing. -/
structure max_id_env where
  fread_ok : Bool
  fclose_read_ok : Bool
  fopen_write_ok : Bool
  fwrite_ok : Bool
  fclose_write_ok : Bool

/-- What `SERIES_update_max_id` returns and leaves behind: the return code, the
database, the file `.max_series_id`, and whether the file was opened for writing. -/
structure max_id_result where
  rc : Int
  siridb : siridb_t
  file : Option (List Nat)
  rewritten : Bool
deriving DecidableEq, Repr

/-- The first part of `SERIES_update_max_id`: the local `max_series_id` (`0` without a
file) and the database after the file was read, and `none` where the function
returns `-1`. -/
def max_id_read (env : max_id_env) (siridb : siridb_t) :
    Option (List Nat) → Option (Nat × siridb_t)
  | none => some (0, siridb)
  | some [] => none
  | some (max_series_id :: _) =>
    if env.fread_ok = false then none
    else if env.fclose_read_ok = false then none
    else if max_series_id > siridb.max_series_id then
      some (max_series_id, { siridb with max_series_id := max_series_id })
    else some (max_series_id, siridb)

/-- The function `SERIES_update_max_id`, on the file `.max_series_id` as the 32-bit
words it holds. Opening the file for writing empties it. -/
def SERIES_update_max_id (env : max_id_env) (siridb : siridb_t) (file : Option (List Nat)) :
    max_id_result :=
  match max_id_read env siridb file with
  | none => { rc := -1, siridb := siridb, file := file, rewritten := false }
  | some (max_series_id, siridb) =>
    if max_series_id < siridb.max_series_id then
      if env.fopen_write_ok = false then
        { rc := -1, siridb := siridb, file := file, rewritten := false }
      else
        { rc := if env.fwrite_ok = true ∧ env.fclose_write_ok = true then 0 else -1
          siridb := siridb
          file := some (if env.fwrite_ok = true then [siridb.max_series_id] else [])
          rewritten := true }
    else { rc := 0, siridb := siridb, file := file, rewritten := false }

/-- The function `SERIES_open_new_dropped_file`: the file `.dropped` is opened for
writing, which empties it, and nothing has been written through the new handle. -/
def SERIES_open_new_dropped_file (fopen_ok : Bool) (siridb : siridb_t)
    (files : siridb_files) : Int × siridb_t × siridb_files :=
  if fopen_ok = false then (-1, siridb, files)
  else (0, { siridb with dropped_fp := [] }, { files with dropped := some [] })

/-- The function `SERIES_open_store`: the file `series.dat` is opened for appending,
which creates it when it is missing, and nothing has been written through the new
handle. -/
def SERIES_open_store (qp_open_ok : Bool) (siridb : siridb_t) (files : siridb_files) :
    Int × siridb_t × siridb_files :=
  if qp_open_ok = false then (-1, siridb, files)
  else (0, { siridb with store := [] },
    { files with series_dat := some (files.series_dat.getD []) })

/-- What the environment does during `siridb_series_load`. -/
structure series_load_all_env where
  imap32_new_ok : Bool
  read_dropped : read_dropped_env
  load : series_load_env
  max_id : max_id_env
  open_dropped_ok : Bool
  open_store_ok : Bool

/-- The function `siridb_series_load`. -/
def siridb_series_load (env : series_load_all_env) (siridb : siridb_t)
    (files : siridb_files) (siri_err : Bool) : Option load_result :=
  if env.imap32_new_ok = false then
    some { rc := -1, siridb := siridb, files := files, siri_err := siri_err }
  else if (SERIES_read_dropped env.read_dropped [] files.dropped).1 ≠ 0 then
    some { rc := -1, siridb := siridb, files := files, siri_err := siri_err }
  else
    match SERIES_load env.load siridb
        (SERIES_read_dropped env.read_dropped [] files.dropped).2 files siri_err with
    | none => none
    | some r =>
      if r.rc ≠ 0 then some { r with rc := -1 }
      else
        let m := SERIES_update_max_id env.max_id r.siridb r.files.max_series_id
        if m.rc ≠ 0 then
          some { rc := -1, siridb := m.siridb
                 files := { r.files with max_series_id := m.file }, siri_err := r.siri_err }
        else
          let d := SERIES_open_new_dropped_file env.open_dropped_ok m.siridb
            { r.files with max_series_id := m.file }
          if d.1 ≠ 0 then
            some { rc := -1, siridb := d.2.1, files := d.2.2, siri_err := r.siri_err }
          else
            let o := SERIES_open_store env.open_store_ok d.2.1 d.2.2
            some { rc := if o.1 ≠ 0 then -1 else 0, siridb := o.2.1, files := o.2.2
                   siri_err := r.siri_err }

/-! ## Runs of creations, drops and restarts -/

/-- Modelled from the spec: the function that drops a series is not in `series.c`.
Spec: "Dropping a series: remove from catalog, decrement ref, append the 4-byte id to
`.dropped`". The series with the id leaves the trie and the id map, and the id is
written through the handle `siridb->dropped_fp`. -/
def series_drop (siridb : siridb_t) (id : Nat) : siridb_t :=
  { siridb with
    series := siridb.series.filter (fun p => p.2.id != id)
    series_map := siridb.series_map.filter (fun p => p.1 != id)
    dropped_fp := siridb.dropped_fp ++ [id % UINT32_MOD] }

/-- The steps of a run on the series catalog: a call of `siridb_series_new` in an
environment, for a name and a type; the drop of the series with an id; and a
restart, which ends the process and calls `siridb_series_load` in a new one. -/
inductive series_event where
  | create (env : series_new_env) (series_name : List Int) (tp : Nat)
  | drop (id : Nat)
  | restart

/-- What is observed during a run: the id given to a series that was created, and the
value the file `.max_series_id` stores after a load (`0` without the file). -/
inductive run_obs where
  | assigned (id : Nat)
  | saved (max_series_id : Nat)
deriving DecidableEq, Repr

/-- The number observed. -/
def run_obs.value : run_obs → Nat
  | .assigned id => id
  | .saved max_series_id => max_series_id

/-- The order of two observations, the first made before the second: an id assigned is
greater than everything observed before, and a value stored is at least everything
observed before. -/
def obs_before (a b : run_obs) : Prop :=
  match b with
  | .assigned id => a.value < id
  | .saved max_series_id => a.value ≤ max_series_id

/-- The ids assigned, in the order of a trace. -/
def assigned_ids (trace : List run_obs) : List Nat :=
  trace.filterMap (fun o => match o with
    | .assigned id => some id
    | .saved _ => none)

/-- The values stored in `.max_series_id` after the loads, in the order of a trace. -/
def saved_values (trace : List run_obs) : List Nat :=
  trace.filterMap (fun o => match o with
    | .assigned _ => none
    | .saved v => some v)

/-- A run so far: the database in memory, the files, and what was observed, the
latest observation last. -/
structure run_state where
  siridb : siridb_t
  files : siridb_files
  trace : List run_obs
deriving DecidableEq, Repr

/-- The files when the process ends: what was written through the handle
`siridb->store`, opened for appending, stands at the end of `series.dat`, and
`.dropped`, emptied when its handle was opened, holds what was written through
`siridb->dropped_fp`. -/
def files_at_exit (siridb : siridb_t) (files : siridb_files) : siridb_files :=
  { files with
    series_dat := some (files.series_dat.getD [] ++ siridb.store)
    dropped := some siridb.dropped_fp }

/-- The database of a process that has just started: the configuration is that of the
database, no series is known, `max_series_id` is `0` (as `SERIES_load` asserts) and
no handle is open. -/
def siridb_at_start (siridb : siridb_t) : siridb_t :=
  { siridb with max_series_id := 0, store := [], series_map := [], series := []
                dropped_fp := [] }

/-- The value the file `.max_series_id` stores, `0` without the file. -/
def max_id_stored (file : Option (List Nat)) : Nat :=
  (file.bind List.head?).getD 0

/-- A process starts on the files of a database: `siridb_series_load` is called, and
the run goes on when it returns `0`. -/
def series_load_state (env : series_load_all_env) (siridb : siridb_t) (files : siridb_files)
    (trace : List run_obs) : Option run_state :=
  match siridb_series_load env (siridb_at_start siridb) files false with
  | none => none
  | some r =>
    if r.rc = 0 then
      some { siridb := r.siridb, files := r.files
             trace := trace ++ [.saved (max_id_stored r.files.max_series_id)] }
    else none

/-- One step of a run. After `siridb_series_new` returns a series the caller adds it to
the trie under its name, as the comment in `siridb_series_new` asks. -/
def series_run_step (env : series_load_all_env) (st : run_state) :
    series_event → Option run_state
  | .create e series_name tp =>
    match siridb_series_new e st.siridb series_name tp with
    | none => none
    | some r =>
      match r.series with
      | none => some { st with siridb := r.siridb }
      | some series =>
        some { siridb := { r.siridb with
                 series := ct_add r.siridb.series (cstr_chars series_name) series }
               files := st.files
               trace := st.trace ++ [.assigned series.id] }
  | .drop id => some { st with siridb := series_drop st.siridb id }
  | .restart => series_load_state env st.siridb (files_at_exit st.siridb st.files) st.trace

/-- The steps of a run, one after another. -/
def series_run_from (env : series_load_all_env) :
    run_state → List series_event → Option run_state
  | st, [] => some st
  | st, e :: rest =>
    match series_run_step env st e with
    | none => none
    | some st => series_run_from env st rest

/-- A run on a new database: the first process starts in a directory without files,
then the steps follow. -/
def series_run (env : series_load_all_env) (siridb : siridb_t) (events : List series_event) :
    Option run_state :=
  match series_load_state env siridb {} [] with
  | none => none
  | some st => series_run_from env st events

/-- Nothing fails in the environment of `siridb_series_load`. -/
def series_load_all_env.ok (env : series_load_all_env) : Prop :=
  env.imap32_new_ok = true ∧
  (env.read_dropped.size_ok = true ∧ env.read_dropped.malloc_ok = true ∧
    env.read_dropped.fread_ok = true) ∧
  (env.load.unpacker_ok = true ∧ env.load.objects_ok = true ∧ env.load.save_failed = none ∧
    ∀ k, (env.load.series_new k).malloc_series_ok = true ∧
      (env.load.series_new k).malloc_index_ok = true) ∧
  (env.max_id.fread_ok = true ∧ env.max_id.fclose_read_ok = true ∧
    env.max_id.fopen_write_ok = true ∧ env.max_id.fwrite_ok = true ∧
    env.max_id.fclose_write_ok = true) ∧
  env.open_dropped_ok = true ∧ env.open_store_ok = true

/-- Nothing fails in the environment of a creation, and the name is terminated. -/
def series_event.ok : series_event → Prop
  | .create e series_name _ =>
    e.malloc_series_ok = true ∧ e.malloc_index_ok = true ∧ e.store_fail = none ∧
      (0 : Int) ∈ series_name
  | .drop _ => True
  | .restart => True

/-- The items of records of `series.dat`, each given by the characters of its name, its
id and its type, as `siridb_series_new` and `SERIES_pack` write them. -/
def store_records (l : List (List Int × Nat × Nat)) : List qp_item :=
  (l.map (fun x =>
    [.array3, .raw (x.1 ++ [0]), .int32 (to_int32 x.2.1), .int8 (to_int8 x.2.2)])).flatten

/-- What the loop of `SERIES_load` reads from the items of `store_records`. -/
def records_of (l : List (List Int × Nat × Nat)) : List series_record :=
  l.map (fun x => { name := x.1 ++ [0], id := to_int32 x.2.1, tp := to_int8 x.2.2 })

/-- What holds of a run after a load and every step that follows: the shard masks are
not `0`; `series.dat` holds the schema and records, and the store has written
records; `.max_series_id` is missing or holds one value; `max_series_id` in memory
is the largest of the ids of these records and the value stored; and everything
observed is in order, and at most `max_series_id`. -/
def run_inv (st : run_state) : Prop :=
  st.siridb.shard_mask_num ≠ 0 ∧ st.siridb.shard_mask_log ≠ 0 ∧
  (st.files.max_series_id = none ∨ ∃ v, st.files.max_series_id = some [v]) ∧
  (∃ l k, st.files.series_dat =
      some ([.array_open, .int16 SIRIDB_SERIES_SCHEMA] ++ store_records l) ∧
    st.siridb.store = store_records k ∧
    st.siridb.max_series_id =
      max (max_id32 (records_of (l ++ k))) (max_id_stored st.files.max_series_id)) ∧
  st.trace.Pairwise obs_before ∧ ∀ o ∈ st.trace, o.value ≤ st.siridb.max_series_id

/-! ## The users of a database (`users.c`) -/

/-- The macro `SIRIDB_MIN_USER_LEN`. -/
def SIRIDB_MIN_USER_LEN : Nat := 2

/-- The macro `SIRIDB_MAX_USER_LEN`. -/
def SIRIDB_MAX_USER_LEN : Nat := 60

/-- The macro `SIRIDB_USERS_SCHEMA`. -/
def SIRIDB_USERS_SCHEMA : Int := 1

/-- The function `USERS_cmp`: `strcmp(user->username, name) == 0`. -/
def USERS_cmp (user : siridb_user_t) (name : List Int) : Bool :=
  user.username = name

/-- Modelled from the spec: `llist_get` is defined in `llist.c`, which is missing. Spec:
"fetch by name", on the list of users: the first element for which the callback
returns a value other than `0`, and `none` (for `NULL`) when there is none. -/
def llist_get {α β : Type} : List α → (α → β → Bool) → β → Option α
  | [], _, _ => none
  | x :: rest, cb, args => if cb x args then some x else llist_get rest cb args

/-- Modelled from the spec: `llist_remove` is defined in `llist.c`, which is missing.
Spec: "Drop is a remove+save": the first element for which the callback returns a
value other than `0` is taken out of the list and returned; the list stays as it
is, and `none` (for `NULL`) is returned, when there is none. -/
def llist_remove {α β : Type} : List α → (α → β → Bool) → β → Option α × List α
  | [], _, _ => (none, [])
  | x :: rest, cb, args =>
    if cb x args then (some x, rest)
    else ((llist_remove rest cb args).1, x :: (llist_remove rest cb args).2)

/-- Modelled from the spec: `llist_append` is defined in `llist.c`, which is missing.
The element is added at the end of the list and `0` is returned; when the
allocation of the node fails (`ok = false`) the list stays as it is and `-1` is
returned. -/
def llist_append {α : Type} (ok : Bool) (list : List α) (data : α) : Int × List α :=
  if ok then (0, list ++ [data]) else (-1, list)

/-- Modelled from the spec: `strx_is_graph` is defined in `strextra.c`, which is
missing. Spec: "graphical characters only (no whitespace/control)": every char of
the string is one `isgraph` accepts, `33` to `126`. -/
def strx_is_graph (str : List Int) : Bool :=
  str.all (fun c => decide (33 ≤ c ∧ c ≤ 126))

/-- The items `USERS_save` writes for a user; `qp_fadd_string` writes the chars of a
string without the NUL. There is no result when `user->password` is `NULL`. -/
def USERS_save (user : siridb_user_t) : Option (List qp_item) :=
  match user.password with
  | none => none
  | some password =>
    some [.array3, .raw user.username, .raw password, .int32 (to_int32 user.access_bit)]

/-- The call `llist_walk(siridb->users, USERS_save, fpacker)`: the items written for
the users in the order of the list. -/
def USERS_save_walk : List siridb_user_t → Option (List qp_item)
  | [] => some []
  | user :: rest =>
    match USERS_save user, USERS_save_walk rest with
    | some a, some b => some (a ++ b)
    | _, _ => none

/-- What a function of `users.c` returns and leaves behind. -/
structure users_result where
  rc : Int
  siridb : siridb_t
  files : siridb_files
deriving DecidableEq, Repr

/-- The function `siridb_users_save`, with `EOF = -1`. `save_failed` tells whether one
of the calls on the file fails, and is then the content the file is left with.
Without failure the file holds `QP_ARRAY_OPEN`, the schema and the items of the
users. There is no result when `siridb->users` is `NULL` or a password is. The
signal of `ERR_FILE` is left out. -/
def siridb_users_save (save_failed : Option (Option (List qp_item))) (siridb : siridb_t)
    (files : siridb_files) : Option (Int × siridb_files) :=
  match save_failed with
  | some content => some (-1, { files with users_dat := content })
  | none =>
    match siridb.users with
    | none => none
    | some users =>
      match USERS_save_walk users with
      | none => none
      | some items =>
        some (0, { files with
          users_dat := some ([.array_open, .int16 SIRIDB_USERS_SCHEMA] ++ items) })

/-- What the environment does during `siridb_users_add_user`: whether `llist_append`
gets its node, and `siridb_users_save`. -/
structure users_env where
  llist_append_ok : Bool
  save_failed : Option (Option (List qp_item))

/-- The function `siridb_users_add_user`; the text written to `err_msg` is left out.
There is no result when `siridb->users` is `NULL`, or `siridb_users_save` has
none. -/
def siridb_users_add_user (env : users_env) (siridb : siridb_t) (files : siridb_files)
    (user : siridb_user_t) : Option users_result :=
  if user.username.length < SIRIDB_MIN_USER_LEN then
    some { rc := 1, siridb := siridb, files := files }
  else if user.username.length > SIRIDB_MAX_USER_LEN then
    some { rc := 1, siridb := siridb, files := files }
  else if strx_is_graph user.username = false then
    some { rc := 1, siridb := siridb, files := files }
  else
    match siridb.users with
    | none => none
    | some users =>
      if (llist_get users USERS_cmp user.username).isSome then
        some { rc := 1, siridb := siridb, files := files }
      else if (llist_append env.llist_append_ok users user).1 ≠ 0 then
        some { rc := -1
               siridb := { siridb with
                 users := some (llist_append env.llist_append_ok users user).2 }
               files := files }
      else
        match siridb_users_save env.save_failed
            { siridb with users := some (llist_append env.llist_append_ok users user).2 }
            files with
        | none => none
        | some s =>
          some { rc := if s.1 ≠ 0 then -1 else 0
                 siridb := { siridb with
                   users := some (llist_append env.llist_append_ok users user).2 }
                 files := s.2 }

/-- The function `siridb_users_get_user`, on the list `users`, for a name and a password
that is `none` for `NULL`. `crypt` is the function of the C library, `none` where it
returns `NULL`. The result is `some none` where the function returns `NULL`, and
there is none when `crypt` is given the `NULL` password of the user, or returns
`NULL`, which `strcmp` then reads. -/
def siridb_users_get_user (crypt : List Int → List Int → Option (List Int))
    (users : List siridb_user_t) (username : List Int) (password : Option (List Int)) :
    Option (Option siridb_user_t) :=
  match llist_get users USERS_cmp username with
  | none => some none
  | some user =>
    match password with
    | none => some (some user)
    | some password =>
      match user.password with
      | none => none
      | some stored =>
        match crypt password stored with
        | none => none
        | some pw => some (if pw = stored then some user else none)

/-- The function `siridb_users_drop_user`; the text written to `err_msg` is left out. A
failure of `siridb_users_save` is logged only. There is no result when
`siridb->users` is `NULL`, or `siridb_users_save` has none. -/
def siridb_users_drop_user (save_failed : Option (Option (List qp_item)))
    (siridb : siridb_t) (files : siridb_files) (username : List Int) :
    Option users_result :=
  match siridb.users with
  | none => none
  | some users =>
    match (llist_remove users USERS_cmp username).1 with
    | none => some { rc := 1, siridb := siridb, files := files }
    | some _ =>
      match siridb_users_save save_failed
          { siridb with users := some (llist_remove users USERS_cmp username).2 } files with
      | none => none
      | some s =>
        some { rc := 0
               siridb := { siridb with
                 users := some (llist_remove users USERS_cmp username).2 }
               files := s.2 }

/-- What the three objects hold when the test of the `while` loop of
`siridb_users_load` passes: the raw name, the raw password and the access bits. -/
structure users_record where
  username : List Int
  password : List Int
  access_bit : Int
deriving DecidableEq, Repr

/-- The test of the `while` loop of `siridb_users_load`, round after round: the records
for which the four calls of `qp_next` give an array, `QP_RAW`, `QP_RAW` and
`QP_INT64`, and the unpacker after the call that gives another type. The first
argument bounds the number of rounds. -/
def USERS_load_records : Nat → List qp_item → Option (List users_record × List qp_item)
  | 0, _ => none
  | fuel + 1, unpacker =>
    let n1 := qp_next unpacker
    if qp_is_array n1.tp then
      let n2 := qp_next n1.unpacker
      if n2.tp = .QP_RAW then
        let n3 := qp_next n2.unpacker
        if n3.tp = .QP_RAW then
          let n4 := qp_next n3.unpacker
          if n4.tp = .QP_INT64 then
            (USERS_load_records fuel n4.unpacker).map
              (fun r => ({ username := n2.raw, password := n3.raw, access_bit := n4.int64 }
                :: r.1, r.2))
          else some ([], n4.unpacker)
        else some ([], n3.unpacker)
      else some ([], n2.unpacker)
    else some ([], n1.unpacker)

/-- What the environment does during `siridb_users_load`: whether `llist_new` returns a
list; whether the call of `siridb_user_new` numbered `k` returns a user; whether
`strdup("iris")` returns a string; `siridb_user_set_password` (`user.c` is missing),
as its return code and the password it leaves in the user; `siridb_users_add_user`;
whether `qp_unpacker_from_file` and the three calls of `qp_object_new` succeed;
whether the two calls of `strndup` of round `k` return a string; and whether
`llist_append` of round `k` gets its node. -/
structure users_load_env where
  llist_new_ok : Bool
  siridb_user_new_ok : Nat → Bool
  strdup_ok : Bool
  siridb_user_set_password : siridb_user_t → List Int → Int × Option (List Int)
  add_user : users_env
  unpacker_ok : Bool
  objects_ok : Bool
  strndup_ok : Nat → Bool × Bool
  llist_append_ok : Nat → Bool

/-- The body of the `while` loop of `siridb_users_load`, for the records in turn, on
the list of users and `rc`. `strndup` copies the chars before the first NUL. -/
def USERS_load_body (env : users_load_env) :
    Nat → List users_record → List siridb_user_t → Int → List siridb_user_t × Int
  | _, [], users, rc => (users, rc)
  | k, record :: rest, users, rc =>
    if env.siridb_user_new_ok k = false then USERS_load_body env (k + 1) rest users (-1)
    else if (env.strndup_ok k).1 = false ∨ (env.strndup_ok k).2 = false then
      USERS_load_body env (k + 1) rest users (-1)
    else
      USERS_load_body env (k + 1) rest
        (llist_append (env.llist_append_ok k) users
          { username := cstr_chars record.username
            password := some (cstr_chars record.password)
            access_bit := (record.access_bit % (UINT32_MOD : Int)).toNat }).2
        (if (llist_append (env.llist_append_ok k) users
          { username := cstr_chars record.username
            password := some (cstr_chars record.password)
            access_bit := (record.access_bit % (UINT32_MOD : Int)).toNat }).1 ≠ 0 then -1
         else rc)

/-- The string `"iris"`. -/
def str_iris : List Int := [105, 114, 105, 115]

/-- The string `"siri"`. -/
def str_siri : List Int := [115, 105, 114, 105]

/-- The function `siridb_users_load`. The macro `SIRIDB_ACCESS_PROFILE_FULL` is defined
in a header that is missing, and is an argument. `siridb_user_new` is taken to
return a user without password. The assertion on `siridb->users` is left out.
There is no result when `siridb_users_add_user` has none. -/
def siridb_users_load (env : users_load_env) (SIRIDB_ACCESS_PROFILE_FULL : Nat)
    (siridb : siridb_t) (files : siridb_files) : Option users_result :=
  if env.llist_new_ok = false then
    some { rc := -1, siridb := { siridb with users := none }, files := files }
  else
    match files.users_dat with
    | none =>
      if env.siridb_user_new_ok 0 = false then
        some { rc := -1, siridb := { siridb with users := some [] }, files := files }
      else if env.strdup_ok = false then
        some { rc := -1, siridb := { siridb with users := some [] }, files := files }
      else if (env.siridb_user_set_password
          { username := str_iris, password := none, access_bit := SIRIDB_ACCESS_PROFILE_FULL }
          str_siri).1 ≠ 0 then
        some { rc := -1, siridb := { siridb with users := some [] }, files := files }
      else
        match siridb_users_add_user env.add_user { siridb with users := some [] } files
            { username := str_iris
              password := (env.siridb_user_set_password
                { username := str_iris, password := none
                  access_bit := SIRIDB_ACCESS_PROFILE_FULL } str_siri).2
              access_bit := SIRIDB_ACCESS_PROFILE_FULL } with
        | none => none
        | some r => some { r with rc := if r.rc ≠ 0 then -1 else 0 }
    | some content =>
      if env.unpacker_ok = false then
        some { rc := -1, siridb := { siridb with users := some [] }, files := files }
      else
        match siridb_schema_check SIRIDB_USERS_SCHEMA content with
        | none => some { rc := -1, siridb := { siridb with users := some [] }, files := files }
        | some unpacker =>
          if env.objects_ok = false then
            some { rc := -1, siridb := { siridb with users := some [] }, files := files }
          else
            match USERS_load_records (unpacker.length + 1) unpacker with
            | none => none
            | some (records, _) =>
              some { rc := (USERS_load_body env 0 records [] 0).2
                     siridb := { siridb with
                       users := some (USERS_load_body env 0 records [] 0).1 }
                     files := files }

/-! ## The range `siridb_series_optimize_shard_num32` collects -/

/-- The variables `start`, `end` and `size` of `siridb_series_optimize_shard_num32`
after its first loop. -/
def optimize_range (siridb : siridb_t) (series : siridb_series_t) (shard : siridb_shard_t)
    (replacing : Nat) : Nat × Nat × Nat :=
  optimize_scan shard.ref replacing (optimize_max_ts siridb series shard) series.index.idx
    0 0 0 0

/-- The container `points` and the variable `size` of
`siridb_series_optimize_shard_num32` after its second loop. -/
def optimize_collect (env : optimize_env) (siridb : siridb_t) (series : siridb_series_t)
    (shard : siridb_shard_t) (replacing : Nat) : siridb_points_t × Nat :=
  optimize_read env replacing series.index.has_overlap
    ((series.index.idx.drop (optimize_range siridb series shard replacing).1).take
      ((optimize_range siridb series shard replacing).2.1 -
        (optimize_range siridb series shard replacing).1))
    (siridb_points_new (optimize_range siridb series shard replacing).2.2 series.tp)
    (optimize_range siridb series shard replacing).2.2

/-- What holds of the variables `start`, `end` and `size` of the first loop of
`siridb_series_optimize_shard_num32` once it has gone through the entries `done`:
nothing is collected yet, or the range `[start, end)` lies within `done`, `size` is
the sum of `len` over the entries of `shard->replacing` from `start` on, and there
are at most `end - start` of them. -/
def optimize_scan_inv (replacing : Nat) (done : List idx_num32_t) (start end_ size : Nat) :
    Prop :=
  (start = 0 ∧ end_ = 0 ∧ size = 0) ∨
  (start < end_ ∧ end_ ≤ done.length ∧
    size = sum_len ((done.drop start).filter (fun e => decide (e.shard = replacing))) ∧
    ((done.drop start).filter (fun e => decide (e.shard = replacing))).length ≤ end_ - start)

/-! ## Example data -/

/-- A container of `compress.c` with `n` points at `ts = 0` in a block of `n + 1`
slots. -/
def zero_points (n : Nat) : points_t :=
  { tp := 1, len := n, size := 0, data := List.replicate (n + 1) ⟨0, 0⟩ }

/-- A container of `compress.c` with 65535 points at `ts = 0` in a block of 65536
slots. -/
def full_points : points_t := zero_points 65535

/-- Buffer functions that always succeed; the flush leaves the index as it is. -/
def ops_ok : buffer_ops :=
  { siridb_buffer_to_shards := fun _ s => (0, s.index)
    siridb_buffer_write_len := fun _ _ => 0
    siridb_buffer_write_point := fun _ _ _ _ => 0 }

/-- A shard read that reads no point. -/
def read_nothing : shard_reader := fun points _ _ _ _ => points

/-- A numeric series as `SERIES_new` and `siridb_buffer_new_series` leave it: no
point, `start = -1`, `end = 0`, an empty index and an empty buffer. -/
def fresh_series : siridb_series_t :=
  { id := 1, tp := 0, ref := 1, length := 0, start := UINT64_MAX, end_ := 0, mask := 0
    buffer := some ⟨⟨0, []⟩⟩, index := ⟨0, []⟩ }

/-- Flag masks for the examples: one bit each. -/
def flag_masks : shard_flag_masks :=
  { SIRIDB_SHARD_HAS_NEW_VALUES := 1, SIRIDB_SHARD_IS_LOADING := 2
    SIRIDB_SHARD_HAS_OVERLAP := 4 }

/-- An index of two entries of shard `1`, for `[10, 30]` and `[40, 50]`. -/
def two_entries : siridb_series_idx_t :=
  { has_overlap := 0, idx := [⟨10, 30, 1, 0, 4⟩, ⟨40, 50, 1, 4, 4⟩] }

/-- Buffer functions of which the flush to the shards fails. -/
def ops_flush_fails : buffer_ops :=
  { siridb_buffer_to_shards := fun _ s => (-1, s.index)
    siridb_buffer_write_len := fun _ _ => 0
    siridb_buffer_write_point := fun _ _ _ _ => 0 }

/-- The series `fresh_series` after the points `(10, 1)`, `(20, 2)`, `(15, 3)`. -/
def three_points : siridb_series_t :=
  { id := 1, tp := 0, ref := 1, length := 3, start := 10, end_ := 20, mask := 0
    buffer := some ⟨⟨0, [⟨10, 1⟩, ⟨15, 3⟩, ⟨20, 2⟩]⟩⟩, index := ⟨0, []⟩ }

/-- The points of the chunks of the example: the chunk at `pos = 0` holds the
time-stamps `10` and `30`, every other chunk holds `20` and `25`. -/
def example_chunk (e : idx_num32_t) : List siridb_point_t :=
  if e.pos = 0 then [⟨10, 0⟩, ⟨30, 0⟩] else [⟨20, 0⟩, ⟨25, 0⟩]

/-- A shard read that appends the points of the chunk that lie within the bounds. -/
def read_appending : shard_reader :=
  fun pts e a b _ =>
    { pts with data := pts.data ++ List.filter (fun p => in_range a b p.ts) (example_chunk e) }

/-- The points of the chunk of an entry in the examples of the read path: a point at
`start_ts` and a point at `end_ts`. -/
def entry_chunk (e : idx_num32_t) : List siridb_point_t :=
  [⟨e.start_ts, 0⟩, ⟨e.end_ts, 0⟩]

/-- A shard read that appends the points of the chunk of its entry that lie within
the bounds. -/
def read_entry_chunk : shard_reader :=
  fun pts e a b _ =>
    { pts with data := pts.data ++ List.filter (fun p => in_range a b p.ts) (entry_chunk e) }

/-- A series with an entry for `[10, 20]`, an entry for `[30, 35]` and one point at
`40` in the buffer. -/
def disjoint_series : siridb_series_t :=
  { id := 1, tp := 0, ref := 1, length := 5, start := 10, end_ := 40, mask := 0
    buffer := some ⟨⟨0, [⟨40, 0⟩]⟩⟩
    index := ⟨0, [⟨10, 20, 1, 0, 2⟩, ⟨30, 35, 1, 32, 2⟩]⟩ }

/-- A series with the index `siridb_series_add_idx_num32` leaves when an entry for
`[5, 25]` is added to an entry for `[10, 30]`, the overlap flagged, and with one
point at `40` in the buffer. -/
def flagged_overlap_series : siridb_series_t :=
  { id := 1, tp := 0, ref := 1, length := 5, start := 5, end_ := 40, mask := 0
    buffer := some ⟨⟨0, [⟨40, 0⟩]⟩⟩
    index := ⟨1, [⟨5, 25, 1, 32, 2⟩, ⟨10, 30, 1, 0, 2⟩]⟩ }

/-- A series with the index `siridb_series_add_idx_num32` leaves when an entry for
`[20, 25]` is added to an entry for `[10, 30]`, and with one point in the buffer. -/
def overlapping_series : siridb_series_t :=
  { id := 1, tp := 0, ref := 1, length := 5, start := 10, end_ := 40, mask := 0
    buffer := some ⟨⟨0, [⟨40, 0⟩]⟩⟩
    index := ⟨0, [⟨10, 30, 1, 0, 2⟩, ⟨20, 25, 1, 32, 2⟩]⟩ }

/-- The block of the C string `"cpu.load"`. -/
def cpu_load : List Int := [99, 112, 117, 46, 108, 111, 97, 100, 0]

/-- A lookup table with pool `3` at position `790`, the sum of the bytes of
`"cpu.load"`, and pool `0` elsewhere. -/
def lookup_cpu_load : Nat → Nat := fun i => if i = 790 then 3 else 0

/-- The block of a name of one byte, `200`: as a signed `char` it is `-56`. -/
def name_byte_200 : List Int := [-56, 0]

/-- A lookup table that holds at every position the position itself. -/
def lookup_position : Nat → Nat := fun i => i

/-- The block of the C string `"café"` in UTF-8: the bytes `99, 97, 102, 195, 169`, of
which the last two are `-61` and `-87` as signed chars. -/
def cafe : List Int := [99, 97, 102, -61, -87, 0]

/-- A pool of three servers. -/
def three_servers : siridb_pool_t := ⟨[⟨0⟩, ⟨1⟩, ⟨2⟩]⟩

/-- Every server but server `0` is available. -/
def all_but_first : siridb_server_t → Bool := fun s => s.id != 0

/-- An environment in which nothing fails; `siridb_buffer_new_series` attaches an
empty buffer. -/
def env_ok : series_new_env :=
  { malloc_series_ok := true, malloc_index_ok := true, store_fail := none
    siridb_buffer_new_series := fun _ s => (0, some ⟨⟨s.tp, []⟩⟩) }

/-- An empty database with shard masks `16` and buffers of `4` points. -/
def empty_db : siridb_t :=
  { buffer_len := 4, duration_num := 604800, shard_mask_num := 16, shard_mask_log := 16 }

/-- A series with entries for `[10, 20]` of shard `1` and `[30, 40]` of shard `2`, no
point in the buffer, `start = 10`, `end = 40` and `length = 8`. -/
def two_shards : siridb_series_t :=
  { id := 1, tp := 0, ref := 1, length := 8, start := 10, end_ := 40, mask := 0
    buffer := some ⟨⟨0, []⟩⟩
    index := ⟨0, [⟨10, 20, 1, 0, 4⟩, ⟨30, 40, 2, 0, 4⟩]⟩ }

/-- A series as it is after the shards are loaded: `start = -1`, `end = 0`, and an
index in which the first entry `[0, 1000]` reaches beyond the entries after it. -/
def loaded_series : siridb_series_t :=
  { id := 1, tp := 0, ref := 1, length := 12, start := UINT64_MAX, end_ := 0, mask := 0
    buffer := some ⟨⟨0, []⟩⟩
    index := ⟨1, [⟨0, 1000, 1, 0, 4⟩, ⟨5, 6, 1, 4, 4⟩, ⟨10, 20, 1, 8, 4⟩]⟩ }

/-- A series with mask `0` in a database with time slices of `20`: four points in
`[5, 15]` in the shard `1` of the slice `[0, 20)`, four points in `[25, 35]` in the
shard `2` of the slice `[20, 40)`, an empty buffer, `start = 5` and `end = 35`. -/
def stale_end_series : siridb_series_t :=
  { id := 1, tp := 0, ref := 1, length := 8, start := 5, end_ := 35, mask := 0
    buffer := some ⟨⟨0, []⟩⟩
    index := ⟨0, [⟨5, 15, 1, 0, 4⟩, ⟨25, 35, 2, 0, 4⟩]⟩ }

/-- A database with time slices of `20` for numeric series. -/
def db_duration_20 : siridb_t := { buffer_len := 4, duration_num := 20 }

/-- A shard read that succeeds and appends `len` points, at the time-stamps from
`start_ts` on. -/
def read_len_points (points : siridb_points_t) (e : idx_num32_t) (_has_overlap : Nat) :
    Int × siridb_points_t :=
  (0, { points with
    data := points.data ++ (List.range e.len).map (fun k => ⟨e.start_ts + k, 0⟩) })

/-- An environment with `max_chunk_points = 10` in which every read and every write
succeeds; a write returns the position `16 * pstart`. -/
def env_optimize : optimize_env :=
  { max_chunk_points := 10
    siridb_points_new_ok := true
    siridb_shard_get_points_num32 := read_len_points
    siridb_shard_write_points := fun _ pstart _ => 16 * (pstart : Int) }

/-- A series with six chunks of three points in the shard `1`. -/
def six_chunks : siridb_series_t :=
  { id := 1, tp := 0, ref := 1, length := 18, start := 0, end_ := 52, mask := 0
    buffer := some ⟨⟨0, []⟩⟩
    index := ⟨0, [⟨0, 2, 1, 0, 3⟩, ⟨10, 12, 1, 3, 3⟩, ⟨20, 22, 1, 6, 3⟩, ⟨30, 32, 1, 9, 3⟩,
      ⟨40, 42, 1, 12, 3⟩, ⟨50, 52, 1, 15, 3⟩]⟩ }

/-- A database with time slices of `100` for numeric series. -/
def db_duration_100 : siridb_t := { buffer_len := 4, duration_num := 100 }

/-- A database with shard masks `16` in which the name `"b"` is in the trie. -/
def db_with_b : siridb_t :=
  { empty_db with
    series := [([98], { id := 7, tp := 0, ref := 1, length := 0, start := UINT64_MAX, end_ := 0
                        mask := 0, buffer := none, index := ⟨0, []⟩ })] }

/-- An environment of `SERIES_update_max_id` in which no call fails. -/
def max_id_env_ok : max_id_env :=
  { fread_ok := true, fclose_read_ok := true, fopen_write_ok := true, fwrite_ok := true
    fclose_write_ok := true }

/-- An environment of `SERIES_load` in which nothing fails. -/
def load_env_ok : series_load_env :=
  { series_new := fun _ => env_ok, unpacker_ok := true, objects_ok := true
    save_failed := none }

/-- A file `series.dat` with the records of `"a"`, `"b"` and `"c"`, ids `1`, `2` and
`3`. -/
def series_dat_abc : List qp_item :=
  [.array_open, .int16 1, .array3, .raw [97, 0], .int32 1, .int8 0,
   .array3, .raw [98, 0], .int32 2, .int8 0, .array3, .raw [99, 0], .int32 3, .int8 0]

/-- A file `series.dat` with the records of `"a"` and `"b"`, both with the id `1`. -/
def series_dat_same_id : List qp_item :=
  [.array_open, .int16 1, .array3, .raw [97, 0], .int32 1, .int8 0,
   .array3, .raw [98, 0], .int32 1, .int8 1]


/-- An environment of `siridb_series_load` in which nothing fails. -/
def load_all_env_ok : series_load_all_env :=
  { imap32_new_ok := true
    read_dropped := { size_ok := true, malloc_ok := true, fread_ok := true }
    load := load_env_ok
    max_id := max_id_env_ok
    open_dropped_ok := true
    open_store_ok := true }

/-- The run of the scenario: the series `"a"`, `"b"` and `"c"` are created, the series
with the id `2` is dropped, the process restarts, and `"d"` is created. -/
def run_abc_d : List series_event :=
  [.create env_ok [97, 0] 0, .create env_ok [98, 0] 0, .create env_ok [99, 0] 0, .drop 2,
   .restart, .create env_ok [100, 0] 0]


/-- An environment of `siridb_users_add_user` in which nothing fails. -/
def users_env_ok : users_env :=
  { llist_append_ok := true, save_failed := none }

/-- The user `"ann"` with a password and the access bits `1`. -/
def user_ann : siridb_user_t :=
  { username := [97, 110, 110], password := some [36, 49], access_bit := 1 }

/-- The user `"bob"` with a password and the access bits `3`. -/
def user_bob : siridb_user_t :=
  { username := [98, 111, 98], password := some [36, 50], access_bit := 3 }

/-- An environment of `siridb_users_load` in which nothing fails;
`siridb_user_set_password` leaves the password `"$6"`. -/
def users_load_env_ok : users_load_env :=
  { llist_new_ok := true
    siridb_user_new_ok := fun _ => true
    strdup_ok := true
    siridb_user_set_password := fun _ _ => (0, some [36, 54])
    add_user := users_env_ok
    unpacker_ok := true
    objects_ok := true
    strndup_ok := fun _ => (true, true)
    llist_append_ok := fun _ => true }


/-- A user whose access bits have the top bit set. -/
def user_top_bit : siridb_user_t :=
  { username := [116, 111, 112], password := some [36, 55], access_bit := 2147483649 }

/-- A file `users.dat` whose schema value is `2`. -/
def users_dat_schema_2 : List qp_item :=
  [.array_open, .int16 2, .array3, .raw [97, 110, 110], .raw [36, 49], .int32 1]


/-- An index with entries of the shards `1`, `2` and `1`. -/
def three_entries : siridb_series_idx_t :=
  { has_overlap := 0, idx := [⟨10, 20, 1, 0, 4⟩, ⟨30, 40, 2, 0, 4⟩, ⟨50, 60, 1, 4, 4⟩] }


/-- A series with two chunks of three points in the shard `1`, a chunk of two points in
the shard `2` that replaces it between them, and a chunk of the shard `3` in the
next time slice. -/
def chunks_and_next : siridb_series_t :=
  { id := 1, tp := 0, ref := 1, length := 12, start := 0, end_ := 130, mask := 0
    buffer := some ⟨⟨0, []⟩⟩
    index := ⟨0, [⟨0, 2, 1, 0, 3⟩, ⟨10, 11, 2, 0, 2⟩, ⟨20, 22, 1, 3, 3⟩,
      ⟨100, 130, 3, 0, 4⟩]⟩ }

/-! ## Lists: cutting at the end, and sorted lists -/

theorem rdropWhile_append_rtakeWhile {α : Type} (q : α → Bool) (l : List α) :
    l.rdropWhile q ++ l.rtakeWhile q = l := by
  induction l using List.reverseRecOn with
  | nil => simp
  | append_singleton ys e ih =>
    by_cases h : q e = true
    · rw [List.rdropWhile_concat_pos _ _ _ h, List.rtakeWhile_concat_pos _ _ _ h,
        ← List.append_assoc, ih]
    · rw [List.rdropWhile_concat_neg _ _ _ h, List.rtakeWhile_concat_neg _ _ _ h]
      simp

/-- On a list sorted for `R`, cutting from the end while `q` holds is filtering, when
`q` passes from an element to every later one. -/
theorem rdropWhile_eq_filter_of_sorted {α : Type} (R : α → α → Prop) (q : α → Bool)
    (l : List α) (hs : l.Pairwise R) (hq : ∀ a b, R a b → q a = true → q b = true) :
    l.rdropWhile q = l.filter (fun a => !q a) ∧ l.rtakeWhile q = l.filter q := by
  induction l using List.reverseRecOn with
  | nil => simp
  | append_singleton ys e ih =>
    rw [List.pairwise_append] at hs
    obtain ⟨hys, -, hle⟩ := hs
    have hle1 : ∀ a ∈ ys, R a e := fun a ha => hle a ha e (by simp)
    obtain ⟨ih1, ih2⟩ := ih hys
    by_cases h : q e = true
    · rw [List.rdropWhile_concat_pos _ _ _ h, List.rtakeWhile_concat_pos _ _ _ h, ih1, ih2]
      simp [List.filter_append, h]
    · rw [List.rdropWhile_concat_neg _ _ _ h, List.rtakeWhile_concat_neg _ _ _ h]
      have hall : ∀ a ∈ ys, ¬ q a = true := fun a ha hqa => h (hq a e (hle1 a ha) hqa)
      constructor
      · rw [List.filter_append, List.filter_eq_self.mpr (by simpa using hall)]
        simp [h]
      · rw [List.filter_append, List.filter_eq_nil_iff.mpr hall]
        simp [h]

/-- On a list sorted for `R`, skipping from the front while `q` holds is filtering,
when `q` passes from an element to every earlier one. -/
theorem dropWhile_eq_filter_of_sorted {α : Type} (R : α → α → Prop) (q : α → Bool)
    (l : List α) (hs : l.Pairwise R) (hq : ∀ a b, R a b → q b = true → q a = true) :
    l.dropWhile q = l.filter (fun a => !q a) := by
  induction l with
  | nil => simp
  | cons a l ih =>
    rw [List.pairwise_cons] at hs
    obtain ⟨ha, hl⟩ := hs
    by_cases h : q a = true
    · simp [List.dropWhile_cons, List.filter_cons, h, ih hl]
    · have hall : ∀ b ∈ l, ¬ q b = true := fun b hb hqb => h (hq a b (ha b hb) hqb)
      simp only [List.dropWhile_cons, List.filter_cons, h]
      simp only [Bool.not_eq_true] at h
      simp only [h, Bool.not_false, if_true, Bool.false_eq_true, if_false]
      rw [List.filter_eq_self.mpr (by simpa using hall)]

/-- Cutting a list sorted by `key` from the end while `key > t` splits it into the
elements with `key ≤ t` and those with `key > t`. -/
theorem rsplit_eq_filter {α : Type} (key : α → Nat) (t : Nat) (l : List α)
    (hs : l.Pairwise (fun a b => key a ≤ key b)) :
    l.rdropWhile (fun a => decide (key a > t)) = l.filter (fun a => decide (key a ≤ t)) ∧
    l.rtakeWhile (fun a => decide (key a > t)) = l.filter (fun a => decide (key a > t)) := by
  have h := rdropWhile_eq_filter_of_sorted (fun a b => key a ≤ key b)
    (fun a => decide (key a > t)) l hs
    (by intro a b hab ha; simp only [decide_eq_true_eq] at ha ⊢; omega)
  refine ⟨?_, h.2⟩
  rw [h.1]
  apply List.filter_congr
  intro a _
  by_cases hk : key a ≤ t
  · have : ¬ key a > t := by omega
    simp [hk, this]
  · have : key a > t := by omega
    simp [hk, this]

/-- Putting `x` between the elements with `key ≤ key x` and those with `key > key x`
of a sorted list gives a sorted list. -/
theorem sorted_insert_filter {α : Type} (key : α → Nat) (x : α) (l : List α)
    (hs : l.Pairwise (fun a b => key a ≤ key b)) :
    (l.filter (fun a => decide (key a ≤ key x)) ++
      x :: l.filter (fun a => decide (key a > key x))).Pairwise
        (fun a b => key a ≤ key b) := by
  rw [List.pairwise_append]
  refine ⟨hs.filter _, ?_, ?_⟩
  · rw [List.pairwise_cons]
    refine ⟨?_, hs.filter _⟩
    intro a ha
    have := (List.mem_filter.mp ha).2
    simp only [decide_eq_true_eq] at this
    omega
  · intro a ha b hb
    have h1 := (List.mem_filter.mp ha).2
    simp only [decide_eq_true_eq] at h1
    rcases List.mem_cons.mp hb with rfl | hb
    · exact h1
    · have h2 := (List.mem_filter.mp hb).2
      simp only [decide_eq_true_eq] at h2
      omega

/-- Inserting from the end into a sorted list: the result is sorted. -/
theorem sorted_rinsert {α : Type} (key : α → Nat) (x : α) (l : List α)
    (hs : l.Pairwise (fun a b => key a ≤ key b)) :
    (l.rdropWhile (fun a => decide (key a > key x)) ++
      x :: l.rtakeWhile (fun a => decide (key a > key x))).Pairwise
        (fun a b => key a ≤ key b) := by
  rw [(rsplit_eq_filter key (key x) l hs).1, (rsplit_eq_filter key (key x) l hs).2]
  exact sorted_insert_filter key x l hs

/-- Inserting from the end keeps the elements: the result is a permutation of the new
element and the old list. -/
theorem perm_rinsert {α : Type} (q : α → Bool) (x : α) (l : List α) :
    (l.rdropWhile q ++ x :: l.rtakeWhile q).Perm (x :: l) := by
  have h : (l.rdropWhile q ++ x :: l.rtakeWhile q).Perm
      (x :: (l.rdropWhile q ++ l.rtakeWhile q)) := List.perm_middle
  rwa [rdropWhile_append_rtakeWhile] at h

/-! ## The shift loops -/

/-- The loop of `points_add_point` on a block that holds `xs` followed by at least
one more slot: the points with `ts > ts` of the new point move one slot up, the
others stay, and the slot returned is the one between them. -/
theorem points_add_point_loop_spec (ts : Nat) (xs : List point_t) :
    ∀ (g : point_t) (rest : List point_t), ∃ g1 : point_t,
      points_add_point_loop ts xs.length (xs ++ g :: rest)
        = ((xs.rdropWhile (fun p => decide (p.ts > ts))).length,
           xs.rdropWhile (fun p => decide (p.ts > ts)) ++ g1 ::
             (xs.rtakeWhile (fun p => decide (p.ts > ts)) ++ rest)) := by
  induction xs using List.reverseRecOn with
  | nil => intro g rest; exact ⟨g, by simp [points_add_point_loop]⟩
  | append_singleton ys e ih =>
    intro g rest
    have hget : (ys ++ [e] ++ g :: rest)[ys.length]? = some e := by
      rw [List.append_assoc, List.getElem?_append_right (le_refl _)]
      simp
    by_cases h : e.ts > ts
    · obtain ⟨g1, hg1⟩ := ih e (e :: rest)
      refine ⟨g1, ?_⟩
      have hset : (ys ++ [e] ++ g :: rest).set (ys.length + 1) e = ys ++ e :: e :: rest := by
        simp [List.set_append]
      rw [List.length_append, List.length_singleton, points_add_point_loop, hget]
      simp only [h, if_true, hset, hg1]
      rw [List.rdropWhile_concat_pos _ _ _ (by simpa using h),
        List.rtakeWhile_concat_pos _ _ _ (by simpa using h)]
      simp
    · refine ⟨g, ?_⟩
      rw [List.length_append, List.length_singleton, points_add_point_loop, hget]
      simp only [h, if_false]
      rw [List.rdropWhile_concat_neg _ _ _ (by simpa using h),
        List.rtakeWhile_concat_neg _ _ _ (by simpa using h)]
      simp

/-- The block of a container with room: the points held, the slot after them, and
the slots above. -/
theorem points_data_split (points : points_t) (h : points.len < points.data.length) :
    ∃ g, points.data = points.held ++ g :: points.data.drop (points.len + 1) ∧
      points.held.length = points.len := by
  refine ⟨points.data[points.len], ?_, ?_⟩
  · rw [← List.drop_eq_getElem_cons h]
    exact (List.take_append_drop _ _).symm
  · simp only [points_t.held, List.length_take]
    omega

/-- The function `points_add_point` in closed form: on a container with room the new
point is put after the points held that are left once the trailing points with a
larger `ts` are cut off, those follow it, and the slots above `len` are untouched. -/
theorem points_add_point_eq (points : points_t) (ts val : Nat)
    (h : points.len < points.data.length) :
    points_add_point points ts val = some
      { points with
        len := (points.len + 1) % UINT16_MOD
        data := points.held.rdropWhile (fun p => decide (p.ts > ts)) ++
          ⟨ts, val⟩ :: (points.held.rtakeWhile (fun p => decide (p.ts > ts)) ++
            points.data.drop (points.len + 1)) } := by
  obtain ⟨g, hdata, hlen⟩ := points_data_split points h
  obtain ⟨g1, hloop⟩ := points_add_point_loop_spec ts points.held g
    (points.data.drop (points.len + 1))
  rw [hlen, ← hdata] at hloop
  simp only [points_add_point, h, if_true, hloop]
  simp [List.set_append]


/-! ## The points container of `compress.c` -/

/-- The points held after `points_add_point`, when the 16-bit length does not wrap. -/
theorem points_add_point_held (points : points_t) (ts val : Nat)
    (hcap : points.len < points.data.length) (hlen : points.len + 1 < UINT16_MOD) :
    ∃ r, points_add_point points ts val = some r ∧ r.len = points.len + 1 ∧
      r.held = points.held.rdropWhile (fun p => decide (p.ts > ts)) ++
        ⟨ts, val⟩ :: points.held.rtakeWhile (fun p => decide (p.ts > ts)) := by
  refine ⟨_, points_add_point_eq points ts val hcap, ?_, ?_⟩
  · exact Nat.mod_eq_of_lt hlen
  · obtain ⟨g, -, hheld⟩ := points_data_split points hcap
    have hsplit := rdropWhile_append_rtakeWhile (fun p : point_t => decide (p.ts > ts))
      points.held
    have hl : (points.held.rdropWhile (fun p => decide (p.ts > ts)) ++
        ⟨ts, val⟩ :: points.held.rtakeWhile (fun p => decide (p.ts > ts))).length
        = (points.len + 1) % UINT16_MOD := by
      rw [Nat.mod_eq_of_lt hlen, ← hheld]
      conv_rhs => rw [← hsplit]
      simp only [List.length_append, List.length_cons]
      omega
    simp only [points_t.held]
    rw [← List.cons_append, ← List.append_assoc]
    exact List.take_left' hl

/-- C2 (as amended): on a container whose points held are sorted by `ts`, with room for
one more point and with `len` below 65535 (so that the 16-bit `len` does not wrap),
`points_add_point` returns a container whose points held are sorted by `ts`, whose
`len` is one more, and which holds the old points and the new one. -/
theorem points_add_point_keeps_sorted (points : points_t) (ts val : Nat)
    (hs : sorted_by_ts points.held) (hcap : points.len < points.data.length)
    (hlen : points.len + 1 < UINT16_MOD) :
    ∃ r, points_add_point points ts val = some r ∧ sorted_by_ts r.held ∧
      r.len = points.len + 1 ∧ r.held.Perm (⟨ts, val⟩ :: points.held) := by
  obtain ⟨r, hr, hrlen, hheld⟩ := points_add_point_held points ts val hcap hlen
  refine ⟨r, hr, ?_, hrlen, ?_⟩
  · rw [hheld]
    exact sorted_rinsert point_t.ts ⟨ts, val⟩ points.held hs
  · rw [hheld]
    exact perm_rinsert _ _ _

theorem points_add_point_keeps_sorted_witness :
    ∃ r, points_add_point ⟨1, 3, 0, [⟨1, 0⟩, ⟨5, 0⟩, ⟨9, 0⟩, ⟨0, 0⟩]⟩ 5 7 = some r ∧
      sorted_by_ts r.held ∧ r.len = 3 + 1 ∧
      r.held.Perm (⟨5, 7⟩ :: [⟨1, 0⟩, ⟨5, 0⟩, ⟨9, 0⟩]) :=
  points_add_point_keeps_sorted ⟨1, 3, 0, [⟨1, 0⟩, ⟨5, 0⟩, ⟨9, 0⟩, ⟨0, 0⟩]⟩ 5 7
    (by decide) (by decide) (by decide)

/-- A sorted container with room whose `len` is `n`: after `points_add_point` its
`len` is `(n + 1) mod 65536`. -/
theorem zero_points_add (n : Nat) :
    sorted_by_ts (zero_points n).held ∧ (zero_points n).len < (zero_points n).data.length ∧
    ∃ r, points_add_point (zero_points n) 0 0 = some r ∧ r.len = (n + 1) % UINT16_MOD := by
  have hcap : (zero_points n).len < (zero_points n).data.length := by
    show n < (List.replicate (n + 1) (⟨0, 0⟩ : point_t)).length
    rw [List.length_replicate]
    exact Nat.lt_succ_self n
  refine ⟨?_, hcap, _, points_add_point_eq (zero_points n) 0 0 hcap, rfl⟩
  show sorted_by_ts ((List.replicate (n + 1) (⟨0, 0⟩ : point_t)).take n)
  rw [List.take_replicate]
  exact List.pairwise_replicate.mpr (Or.inr (le_refl _))

/-- C2 (counterexample): a container with 65535 points, all at `ts = 0`, in a block
of 65536 slots is sorted and has room; after `points_add_point` its `len` is `0`, not
65536, and it holds no point at all. -/
theorem points_add_point_len_wraps :
    sorted_by_ts full_points.held ∧ full_points.len < full_points.data.length ∧
    ∃ r, points_add_point full_points 0 0 = some r ∧ r.len = 0 ∧
      r.len ≠ full_points.len + 1 ∧ r.held = [] ∧
      ¬ r.held.Perm (⟨0, 0⟩ :: full_points.held) := by
  unfold full_points
  obtain ⟨hs, hcap, r, hr, hlen⟩ := zero_points_add 65535
  have h0 : r.len = 0 := by rw [hlen]; norm_num [UINT16_MOD]
  have hheld : r.held = [] := by
    show r.data.take r.len = []
    rw [h0, List.take_zero]
  refine ⟨hs, hcap, r, hr, h0, ?_, hheld, ?_⟩
  · rw [h0]
    omega
  · rw [hheld]
    intro h
    have := h.length_eq
    rw [List.length_nil, List.length_cons] at this
    omega

/-- C3: on a container whose points held are sorted by `ts` and which has room,
`points_add_point` splits the points held into those with `ts ≤ ts` of the new point
and those with a larger `ts`, writes the new point right after the first group (at
slot `0` when that group is empty), moves the second group one slot up, and leaves
every other slot as it was. -/
theorem points_add_point_position (points : points_t) (ts val : Nat)
    (hs : sorted_by_ts points.held) (hcap : points.len < points.data.length) :
    ∃ r, points_add_point points ts val = some r ∧
      points.held = points.held.filter (fun p => decide (p.ts ≤ ts)) ++
        points.held.filter (fun p => decide (p.ts > ts)) ∧
      r.data = points.held.filter (fun p => decide (p.ts ≤ ts)) ++
        ⟨ts, val⟩ :: (points.held.filter (fun p => decide (p.ts > ts)) ++
          points.data.drop (points.len + 1)) ∧
      r.data[(points.held.filter (fun p => decide (p.ts ≤ ts))).length]? = some ⟨ts, val⟩ := by
  obtain ⟨h1, h2⟩ := rsplit_eq_filter point_t.ts ts points.held hs
  have hr := points_add_point_eq points ts val hcap
  rw [h1, h2] at hr
  refine ⟨_, hr, ?_, rfl, ?_⟩
  · rw [← h1, ← h2]
    exact (rdropWhile_append_rtakeWhile _ _).symm
  · rw [List.getElem?_append_right (le_refl _)]
    simp

theorem points_add_point_position_witness :
    ∃ r, points_add_point ⟨1, 3, 0, [⟨1, 0⟩, ⟨5, 0⟩, ⟨9, 0⟩, ⟨0, 0⟩]⟩ 5 7 = some r ∧
      [⟨1, 0⟩, ⟨5, 0⟩, ⟨9, 0⟩] = [(⟨1, 0⟩ : point_t), ⟨5, 0⟩] ++ [⟨9, 0⟩] ∧
      r.data = [⟨1, 0⟩, ⟨5, 0⟩] ++ ⟨5, 7⟩ :: ([⟨9, 0⟩] ++ []) ∧
      r.data[2]? = some ⟨5, 7⟩ :=
  points_add_point_position ⟨1, 3, 0, [⟨1, 0⟩, ⟨5, 0⟩, ⟨9, 0⟩, ⟨0, 0⟩]⟩ 5 7
    (by decide) (by decide)


/-! ## The points container of the engine -/

theorem siridb_points_add_point_perm (points : siridb_points_t) (ts val : Nat) :
    (siridb_points_add_point points ts val).data.Perm (⟨ts, val⟩ :: points.data) :=
  perm_rinsert _ _ _

theorem siridb_points_add_point_len (points : siridb_points_t) (ts val : Nat) :
    (siridb_points_add_point points ts val).len = points.len + 1 := by
  have h := (siridb_points_add_point_perm points ts val).length_eq
  simpa [siridb_points_t.len] using h

theorem siridb_points_add_point_sorted (points : siridb_points_t) (ts val : Nat)
    (hs : sorted_by_ts points.data) :
    sorted_by_ts (siridb_points_add_point points ts val).data :=
  sorted_rinsert point_t.ts ⟨ts, val⟩ points.data hs

/-- The copy of the insertion in `compress.c` computes what the model of
`siridb_points_add_point` computes, on the points held. -/
theorem points_add_point_agrees (points : points_t) (ts val : Nat)
    (hcap : points.len < points.data.length) (hlen : points.len + 1 < UINT16_MOD) :
    (points_add_point points ts val).map points_t.held =
      some (siridb_points_add_point ⟨points.tp, points.held⟩ ts val).data := by
  obtain ⟨r, hr, -, hheld⟩ := points_add_point_held points ts val hcap hlen
  rw [hr, Option.map_some', hheld]
  rfl

theorem add_buffer_points_perm (w : List siridb_point_t) :
    ∀ points : siridb_points_t, (add_buffer_points points w).data.Perm (points.data ++ w) := by
  induction w with
  | nil => intro points; simp [add_buffer_points]
  | cons p w ih =>
    intro points
    have h1 := ih (siridb_points_add_point points p.ts p.val)
    have h2 : ((siridb_points_add_point points p.ts p.val).data ++ w).Perm
        ((p :: points.data) ++ w) :=
      (siridb_points_add_point_perm points p.ts p.val).append_right w
    have h3 : ((p :: points.data) ++ w).Perm (points.data ++ p :: w) :=
      List.perm_middle.symm
    exact (h1.trans h2).trans h3

theorem add_buffer_points_sorted (w : List siridb_point_t) :
    ∀ points : siridb_points_t, sorted_by_ts points.data →
      sorted_by_ts (add_buffer_points points w).data := by
  induction w with
  | nil => intro points h; exact h
  | cons p w ih =>
    intro points h
    exact ih _ (siridb_points_add_point_sorted points p.ts p.val h)

/-! ## Adding points to a series -/

/-- A call of `siridb_series_add_point` that does not fill the buffer: the series
afterwards, and the one buffer call made. -/
theorem add_point_no_flush (ops : buffer_ops) (siridb : siridb_t) (series : siridb_series_t)
    (b : siridb_buffer_t) (ts val : Nat) (hb : series.buffer = some b)
    (hlen : b.points.len + 1 ≠ siridb.buffer_len) :
    (siridb_series_add_point ops siridb series ts val).series =
      { add_point_props series ts with
        buffer := some ⟨siridb_points_add_point b.points ts val⟩ } ∧
    (siridb_series_add_point ops siridb series ts val).calls =
      [.write_point
        { add_point_props series ts with
          buffer := some ⟨siridb_points_add_point b.points ts val⟩ } ts val
        (ops.siridb_buffer_write_point siridb
          { add_point_props series ts with
            buffer := some ⟨siridb_points_add_point b.points ts val⟩ } ts val)] := by
  have hprops : (add_point_props series ts).buffer = some b := hb
  have hne : ¬ (siridb_points_add_point b.points ts val).len = siridb.buffer_len := by
    rw [siridb_points_add_point_len]; exact hlen
  simp only [siridb_series_add_point, hprops, hne, if_false]
  split <;> exact ⟨rfl, rfl⟩

/-- Fewer points than `buffer_len` stay in the buffer: after adding `pts` to a series
whose buffer has room for them, the index is as before and the buffer holds the old
points and `pts`, sorted when it was sorted. -/
theorem add_points_in_buffer (ops : buffer_ops) (siridb : siridb_t) :
    ∀ (pts : List siridb_point_t) (series : siridb_series_t) (b : siridb_buffer_t),
      series.buffer = some b → b.points.len + pts.length < siridb.buffer_len →
      ∃ b1, (add_points ops siridb series pts).buffer = some b1 ∧
        (add_points ops siridb series pts).index = series.index ∧
        (add_points ops siridb series pts).tp = series.tp ∧
        b1.points.data.Perm (b.points.data ++ pts) ∧
        (sorted_by_ts b.points.data → sorted_by_ts b1.points.data) := by
  intro pts
  induction pts with
  | nil =>
    intro series b hb _
    exact ⟨b, hb, rfl, rfl, by simp, fun h => h⟩
  | cons p pts ih =>
    intro series b hb hlen
    simp only [List.length_cons] at hlen
    obtain ⟨hser, -⟩ := add_point_no_flush ops siridb series b p.ts p.val hb (by omega)
    have hb1 : (siridb_series_add_point ops siridb series p.ts p.val).series.buffer
        = some ⟨siridb_points_add_point b.points p.ts p.val⟩ := by rw [hser]
    obtain ⟨b1, h1, h2, h3, h4, h5⟩ := ih _ _ hb1
      (by rw [siridb_points_add_point_len]; omega)
    refine ⟨b1, h1, ?_, ?_, ?_, ?_⟩
    · show (add_points ops siridb _ pts).index = _
      rw [h2, hser]; rfl
    · show (add_points ops siridb _ pts).tp = _
      rw [h3, hser]; rfl
    · have h6 : ((siridb_points_add_point b.points p.ts p.val).data ++ pts).Perm
          ((p :: b.points.data) ++ pts) :=
        (siridb_points_add_point_perm b.points p.ts p.val).append_right pts
      exact (h4.trans h6).trans List.perm_middle.symm
    · intro hs
      exact h5 (siridb_points_add_point_sorted b.points p.ts p.val hs)

/-- C1: `pts`, fewer than `buffer_len` points in any order, are added with
`siridb_series_add_point` to a series with an empty index and an empty buffer; then
`siridb_series_get_points_num32` without bounds returns a container that holds
exactly the points `pts` (as many, and a permutation of them), sorted by `ts`. -/
theorem series_roundtrip (ops : buffer_ops) (shard_get : shard_reader) (siridb : siridb_t)
    (series : siridb_series_t) (b : siridb_buffer_t) (pts : List siridb_point_t)
    (hidx : series.index.idx = []) (hb : series.buffer = some b)
    (hempty : b.points.data = []) (hN : pts.length < siridb.buffer_len) :
    ∃ r, siridb_series_get_points_num32 shard_get
        (add_points ops siridb series pts) none none = some r ∧
      r.data.Perm pts ∧ sorted_by_ts r.data ∧ r.len = pts.length := by
  obtain ⟨b1, h1, h2, -, h4, h5⟩ := add_points_in_buffer ops siridb pts series b hb
    (by simp [siridb_points_t.len, hempty]; exact hN)
  rw [hempty, List.nil_append] at h4
  have h6 : sorted_by_ts b1.points.data := h5 (by rw [hempty]; exact List.Pairwise.nil)
  have hget : siridb_series_get_points_num32 shard_get
      (add_points ops siridb series pts) none none =
      some (add_buffer_points
        (siridb_points_new (0 + b1.points.len) (add_points ops siridb series pts).tp)
        b1.points.data) := by
    simp only [siridb_series_get_points_num32, get_points_read, h1, h2, hidx,
      get_points_entries, get_points_scan, get_points_crop, List.filterMap_nil,
      List.foldl_nil]
  have hperm : (add_buffer_points
      (siridb_points_new (0 + b1.points.len) (add_points ops siridb series pts).tp)
      b1.points.data).data.Perm pts :=
    (add_buffer_points_perm _ _).trans (by simpa [siridb_points_new] using h4)
  exact ⟨_, hget, hperm, add_buffer_points_sorted _ _ List.Pairwise.nil, hperm.length_eq⟩

theorem series_roundtrip_witness :
    ∃ r, siridb_series_get_points_num32 read_nothing
        (add_points ops_ok { buffer_len := 4 } fresh_series [⟨100, 1⟩, ⟨50, 2⟩, ⟨75, 3⟩]) none none = some r ∧
      r.data.Perm [⟨100, 1⟩, ⟨50, 2⟩, ⟨75, 3⟩] ∧ sorted_by_ts r.data ∧ r.len = 3 ∧
      r.data.map point_t.ts = [50, 75, 100] := by
  obtain ⟨r, h1, h2, h3, h4⟩ := series_roundtrip ops_ok read_nothing { buffer_len := 4 } fresh_series
    ⟨⟨0, []⟩⟩ [⟨100, 1⟩, ⟨50, 2⟩, ⟨75, 3⟩] rfl rfl rfl (by decide)
  refine ⟨r, h1, h2, h3, h4, ?_⟩
  have e : siridb_series_get_points_num32 read_nothing
      (add_points ops_ok { buffer_len := 4 } fresh_series [⟨100, 1⟩, ⟨50, 2⟩, ⟨75, 3⟩]) none none
      = some ⟨0, [⟨50, 2⟩, ⟨75, 3⟩, ⟨100, 1⟩]⟩ := by decide
  rw [e] at h1
  cases h1
  rfl


/-! ## The series index -/

/-- The shift loop of `siridb_series_add_idx_num32` on a block that holds `xs`
followed by at least one more slot. -/
theorem add_idx_shift_spec (start_ts : Nat) (xs : List idx_num32_t) :
    ∀ (g : idx_num32_t) (rest : List idx_num32_t), ∃ g1 : idx_num32_t,
      add_idx_shift start_ts xs.length (xs ++ g :: rest)
        = ((xs.rdropWhile (fun e => decide (e.start_ts > start_ts))).length,
           xs.rdropWhile (fun e => decide (e.start_ts > start_ts)) ++ g1 ::
             (xs.rtakeWhile (fun e => decide (e.start_ts > start_ts)) ++ rest)) := by
  induction xs using List.reverseRecOn with
  | nil => intro g rest; exact ⟨g, by simp [add_idx_shift]⟩
  | append_singleton ys e ih =>
    intro g rest
    have hget : (ys ++ [e] ++ g :: rest)[ys.length]? = some e := by
      rw [List.append_assoc, List.getElem?_append_right (le_refl _)]
      simp
    by_cases h : start_ts < e.start_ts
    · obtain ⟨g1, hg1⟩ := ih e (e :: rest)
      refine ⟨g1, ?_⟩
      have hset : (ys ++ [e] ++ g :: rest).set (ys.length + 1) e = ys ++ e :: e :: rest := by
        simp [List.set_append]
      rw [List.length_append, List.length_singleton, add_idx_shift, hget]
      simp only [h, if_true, hset, hg1]
      rw [List.rdropWhile_concat_pos _ _ _ (by simpa using h),
        List.rtakeWhile_concat_pos _ _ _ (by simpa using h)]
      simp
    · refine ⟨g, ?_⟩
      rw [List.length_append, List.length_singleton, add_idx_shift, hget]
      simp only [h, if_false]
      rw [List.rdropWhile_concat_neg _ _ _ (by simpa using h),
        List.rtakeWhile_concat_neg _ _ _ (by simpa using h)]
      simp

/-- When `siridb_series_add_idx_num32` succeeds: the allocation succeeded and the
counter did not wrap. -/
theorem add_idx_rc (K : shard_flag_masks) (realloc_ok : Bool) (index : siridb_series_idx_t)
    (shard : siridb_shard_t) (start_ts end_ts pos len : Nat) :
    (siridb_series_add_idx_num32 K realloc_ok index shard start_ts end_ts pos len).rc = 0 ↔
      (realloc_ok = true ∧ index.len + 1 < 2 ^ 32) := by
  unfold siridb_series_add_idx_num32
  by_cases h : realloc_ok = true ∧ index.len + 1 < 2 ^ 32
  · rw [if_pos h]
    dsimp only
    split <;> exact ⟨fun _ => h, fun _ => rfl⟩
  · rw [if_neg h]
    exact ⟨fun h1 => absurd (show (-1 : Int) = 0 from h1) (by decide), fun h1 => absurd h1 h⟩

/-- The entries of the index after a successful `siridb_series_add_idx_num32`: the new
entry stands after the entries left once the trailing entries with a larger
`start_ts` are cut off, and those follow it. -/
theorem add_idx_entries (K : shard_flag_masks) (realloc_ok : Bool)
    (index : siridb_series_idx_t) (shard : siridb_shard_t) (start_ts end_ts pos len : Nat)
    (hok : realloc_ok = true ∧ index.len + 1 < 2 ^ 32) :
    (siridb_series_add_idx_num32 K realloc_ok index shard start_ts end_ts pos len).index.idx =
      index.idx.rdropWhile (fun e => decide (e.start_ts > start_ts)) ++
        ⟨start_ts, end_ts, shard.ref, pos, len⟩ ::
          index.idx.rtakeWhile (fun e => decide (e.start_ts > start_ts)) := by
  obtain ⟨g1, hloop⟩ := add_idx_shift_spec start_ts index.idx default []
  unfold siridb_series_add_idx_num32
  rw [if_pos hok]
  dsimp only
  simp only [siridb_series_idx_t.len, hloop]
  split <;> simp [List.set_append]

/-- C4: a successful `siridb_series_add_idx_num32` on an index sorted by `start_ts`
leaves an index sorted by `start_ts` that is one entry longer: the old entries with
`start_ts ≤` the new `start_ts`, in their order, then the new entry, then the old
entries with a larger `start_ts`, in their order. -/
theorem add_idx_sorted (K : shard_flag_masks) (realloc_ok : Bool)
    (index : siridb_series_idx_t) (shard : siridb_shard_t) (start_ts end_ts pos len : Nat)
    (hs : sorted_by_start_ts index.idx)
    (hrc : (siridb_series_add_idx_num32 K realloc_ok index shard start_ts end_ts pos len).rc
      = 0) :
    sorted_by_start_ts
      (siridb_series_add_idx_num32 K realloc_ok index shard start_ts end_ts pos len).index.idx ∧
    (siridb_series_add_idx_num32 K realloc_ok index shard start_ts end_ts pos len).index.len
      = index.len + 1 ∧
    index.idx = index.idx.filter (fun e => decide (e.start_ts ≤ start_ts)) ++
      index.idx.filter (fun e => decide (e.start_ts > start_ts)) ∧
    (siridb_series_add_idx_num32 K realloc_ok index shard start_ts end_ts pos len).index.idx =
      index.idx.filter (fun e => decide (e.start_ts ≤ start_ts)) ++
        ⟨start_ts, end_ts, shard.ref, pos, len⟩ ::
          index.idx.filter (fun e => decide (e.start_ts > start_ts)) := by
  have hok := (add_idx_rc K realloc_ok index shard start_ts end_ts pos len).mp hrc
  have hidx := add_idx_entries K realloc_ok index shard start_ts end_ts pos len hok
  obtain ⟨h1, h2⟩ := rsplit_eq_filter idx_num32_t.start_ts start_ts index.idx hs
  have hsplit := rdropWhile_append_rtakeWhile
    (fun e : idx_num32_t => decide (e.start_ts > start_ts)) index.idx
  refine ⟨?_, ?_, ?_, ?_⟩
  · rw [hidx]
    exact sorted_rinsert idx_num32_t.start_ts ⟨start_ts, end_ts, shard.ref, pos, len⟩
      index.idx hs
  · have := (perm_rinsert (fun e : idx_num32_t => decide (e.start_ts > start_ts))
      ⟨start_ts, end_ts, shard.ref, pos, len⟩ index.idx).length_eq
    simp only [siridb_series_idx_t.len, hidx]
    simpa using this
  · rw [← h1, ← h2]; exact hsplit.symm
  · rw [hidx, h1, h2]

theorem add_idx_sorted_witness :
    sorted_by_start_ts (siridb_series_add_idx_num32 flag_masks true two_entries
      ⟨1, 0, 0⟩ 20 45 8 2).index.idx ∧
    (siridb_series_add_idx_num32 flag_masks true two_entries ⟨1, 0, 0⟩ 20 45 8 2).index.len
      = two_entries.len + 1 ∧
    two_entries.idx = two_entries.idx.filter (fun e => decide (e.start_ts ≤ 20)) ++
      two_entries.idx.filter (fun e => decide (e.start_ts > 20)) ∧
    (siridb_series_add_idx_num32 flag_masks true two_entries ⟨1, 0, 0⟩ 20 45 8 2).index.idx =
      two_entries.idx.filter (fun e => decide (e.start_ts ≤ 20)) ++
        ⟨20, 45, 1, 8, 2⟩ :: two_entries.idx.filter (fun e => decide (e.start_ts > 20)) :=
  add_idx_sorted flag_masks true two_entries ⟨1, 0, 0⟩ 20 45 8 2 (by decide) (by decide)

/-- C5 (the code at the failing input): the index holds one entry for `[10, 30]`; an
entry for `[20, 25]` of another shard is added. It is placed after the old entry,
whose `end_ts = 30` is greater than the new `start_ts = 20`, yet `has_overlap` stays
`0` and the flags of the shard are unchanged, whatever the flag masks. -/
theorem add_idx_lower_overlap_missed (K : shard_flag_masks) (flags : Nat) :
    (siridb_series_add_idx_num32 K true ⟨0, [⟨10, 30, 1, 0, 4⟩]⟩ ⟨2, 0, flags⟩
      20 25 4 2).rc = 0 ∧
    (siridb_series_add_idx_num32 K true ⟨0, [⟨10, 30, 1, 0, 4⟩]⟩ ⟨2, 0, flags⟩
      20 25 4 2).index = ⟨0, [⟨10, 30, 1, 0, 4⟩, ⟨20, 25, 2, 4, 2⟩]⟩ ∧
    (siridb_series_add_idx_num32 K true ⟨0, [⟨10, 30, 1, 0, 4⟩]⟩ ⟨2, 0, flags⟩
      20 25 4 2).shard.flags = flags := by
  simp [siridb_series_add_idx_num32, add_idx_shift, siridb_series_idx_t.len,
    add_idx_new_values, add_idx_overlap]


/-! ## `siridb_series_add_point` case by case -/

/-- The series as `siridb_series_add_point` has it once the point is in the in-memory
buffer: counters updated, point inserted. -/
theorem add_point_cases (ops : buffer_ops) (siridb : siridb_t) (series : siridb_series_t)
    (ts val : Nat) :
    (series.buffer = none ∧
      siridb_series_add_point ops siridb series ts val =
        { rc := 0, series := add_point_props series ts, calls := [], err_file := false }) ∨
    (∃ b, series.buffer = some b ∧ b.points.len + 1 ≠ siridb.buffer_len ∧
      siridb_series_add_point ops siridb series ts val =
        { rc := if ops.siridb_buffer_write_point siridb (add_point_mem series b ts val) ts val
              ≠ 0 then -1 else 0
          series := add_point_mem series b ts val
          calls := [.write_point (add_point_mem series b ts val) ts val
            (ops.siridb_buffer_write_point siridb (add_point_mem series b ts val) ts val)]
          err_file := decide (ops.siridb_buffer_write_point siridb
            (add_point_mem series b ts val) ts val ≠ 0) }) ∨
    (∃ b, series.buffer = some b ∧ b.points.len + 1 = siridb.buffer_len ∧
      (ops.siridb_buffer_to_shards siridb (add_point_mem series b ts val)).1 ≠ 0 ∧
      siridb_series_add_point ops siridb series ts val =
        { rc := -1
          series := { add_point_mem series b ts val with
            index := (ops.siridb_buffer_to_shards siridb (add_point_mem series b ts val)).2 }
          calls := [.to_shards (add_point_mem series b ts val)
            (ops.siridb_buffer_to_shards siridb (add_point_mem series b ts val)).1]
          err_file := false }) ∨
    (∃ b, series.buffer = some b ∧ b.points.len + 1 = siridb.buffer_len ∧
      (ops.siridb_buffer_to_shards siridb (add_point_mem series b ts val)).1 = 0 ∧
      siridb_series_add_point ops siridb series ts val =
        { rc := if ops.siridb_buffer_write_len siridb
              (add_point_reset ops siridb series b ts val) ≠ 0 then -1 else 0
          series := add_point_reset ops siridb series b ts val
          calls := [.to_shards (add_point_mem series b ts val) 0,
            .write_len (add_point_reset ops siridb series b ts val)
              (ops.siridb_buffer_write_len siridb (add_point_reset ops siridb series b ts val))]
          err_file := decide (ops.siridb_buffer_write_len siridb
            (add_point_reset ops siridb series b ts val) ≠ 0) }) := by
  cases hb : series.buffer with
  | none =>
    left
    have hp : (add_point_props series ts).buffer = none := hb
    exact ⟨rfl, by simp only [siridb_series_add_point, hp]⟩
  | some b =>
    right
    have hp : (add_point_props series ts).buffer = some b := hb
    by_cases hlen : b.points.len + 1 = siridb.buffer_len
    · right
      have hfull : (siridb_points_add_point b.points ts val).len = siridb.buffer_len := by
        rw [siridb_points_add_point_len]; exact hlen
      by_cases hrc : (ops.siridb_buffer_to_shards siridb (add_point_mem series b ts val)).1 = 0
      · right
        refine ⟨b, rfl, hlen, hrc, ?_⟩
        simp only [add_point_mem] at hrc
        simp only [siridb_series_add_point, hp, hfull, if_true, hrc, ne_eq, not_true,
          if_false, add_point_reset, add_point_mem]
        split <;> simp_all
      · left
        refine ⟨b, rfl, hlen, hrc, ?_⟩
        simp only [add_point_mem] at hrc
        simp only [siridb_series_add_point, hp, hfull, if_true, ne_eq, hrc, not_false_eq_true,
          add_point_mem]
    · left
      have hne : ¬ (siridb_points_add_point b.points ts val).len = siridb.buffer_len := by
        rw [siridb_points_add_point_len]; exact hlen
      refine ⟨b, rfl, hlen, ?_⟩
      simp only [siridb_series_add_point, hp, hne, if_false, add_point_mem]
      split <;> simp_all


/-- The counters of the series after `siridb_series_add_point` are those set by lines
148-156, on every path. -/
theorem add_point_series_props (ops : buffer_ops) (siridb : siridb_t)
    (series : siridb_series_t) (ts val : Nat) :
    (siridb_series_add_point ops siridb series ts val).series.length =
      (series.length + 1) % UINT64_MOD ∧
    (siridb_series_add_point ops siridb series ts val).series.start =
      (if ts < series.start then ts else series.start) ∧
    (siridb_series_add_point ops siridb series ts val).series.end_ =
      (if ts > series.end_ then ts else series.end_) := by
  rcases add_point_cases ops siridb series ts val with
    ⟨-, h⟩ | ⟨b, -, -, h⟩ | ⟨b, -, -, -, h⟩ | ⟨b, -, -, -, h⟩ <;>
  · rw [h]
    exact ⟨rfl, rfl, rfl⟩

/-- C6: one call of `siridb_series_add_point` adds one to the unsigned 64-bit
`series.length` (the value afterwards is the old value plus one modulo `2^64`, which
is the old value plus one for every length below `2^64 - 1`), sets `series.start` to
the minimum of the old `start` and `ts` and `series.end` to the maximum of the old
`end` and `ts`; so `start ≤ ts ≤ end` afterwards, and any time-stamps that lay within
the old `start` and `end` lie, together with `ts`, within the new ones. -/
theorem add_point_counters (ops : buffer_ops) (siridb : siridb_t)
    (series : siridb_series_t) (ts val : Nat) :
    (siridb_series_add_point ops siridb series ts val).series.length =
      (series.length + 1) % UINT64_MOD ∧
    (series.length < UINT64_MAX →
      (siridb_series_add_point ops siridb series ts val).series.length = series.length + 1) ∧
    (siridb_series_add_point ops siridb series ts val).series.start = min series.start ts ∧
    (siridb_series_add_point ops siridb series ts val).series.end_ = max series.end_ ts ∧
    (siridb_series_add_point ops siridb series ts val).series.start ≤ ts ∧
    ts ≤ (siridb_series_add_point ops siridb series ts val).series.end_ ∧
    ∀ stored : List Nat, (∀ t ∈ stored, series.start ≤ t ∧ t ≤ series.end_) →
      ∀ t ∈ ts :: stored,
        (siridb_series_add_point ops siridb series ts val).series.start ≤ t ∧
        t ≤ (siridb_series_add_point ops siridb series ts val).series.end_ := by
  obtain ⟨h1, h2, h3⟩ := add_point_series_props ops siridb series ts val
  have hmin : (siridb_series_add_point ops siridb series ts val).series.start
      = min series.start ts := by
    rw [h2]; split <;> omega
  have hmax : (siridb_series_add_point ops siridb series ts val).series.end_
      = max series.end_ ts := by
    rw [h3]; split <;> omega
  refine ⟨h1, ?_, hmin, hmax, ?_, ?_, ?_⟩
  · intro hlt
    rw [h1]
    apply Nat.mod_eq_of_lt
    simp only [UINT64_MAX, UINT64_MOD] at hlt ⊢
    omega
  · rw [hmin]; exact Nat.min_le_right _ _
  · rw [hmax]; exact Nat.le_max_right _ _
  · intro stored hstored t ht
    rw [hmin, hmax]
    rcases List.mem_cons.mp ht with rfl | ht
    · exact ⟨Nat.min_le_right _ _, Nat.le_max_right _ _⟩
    · obtain ⟨ha, hb⟩ := hstored t ht
      exact ⟨le_trans (Nat.min_le_left _ _) ha, le_trans hb (Nat.le_max_left _ _)⟩

theorem add_point_counters_witness :
    (siridb_series_add_point ops_ok { buffer_len := 4 } three_points 5 9).series.length = 3 + 1 ∧
    (siridb_series_add_point ops_ok { buffer_len := 4 } three_points 5 9).series.start = 5 ∧
    (siridb_series_add_point ops_ok { buffer_len := 4 } three_points 5 9).series.end_ = 20 ∧
    ∀ t ∈ 5 :: [10, 15, 20],
      (siridb_series_add_point ops_ok { buffer_len := 4 } three_points 5 9).series.start ≤ t ∧
      t ≤ (siridb_series_add_point ops_ok { buffer_len := 4 } three_points 5 9).series.end_ :=
  ⟨(add_point_counters ops_ok { buffer_len := 4 } three_points 5 9).2.1 (by decide),
   (add_point_counters ops_ok { buffer_len := 4 } three_points 5 9).2.2.1,
   (add_point_counters ops_ok { buffer_len := 4 } three_points 5 9).2.2.2.1,
   (add_point_counters ops_ok { buffer_len := 4 } three_points 5 9).2.2.2.2.2.2 [10, 15, 20]
     (by decide)⟩

/-- C7: on a series whose buffer holds fewer than `buffer_len` points,
`siridb_series_add_point` inserts the point into the in-memory buffer, which is then
one point longer, and calls `siridb_buffer_to_shards` exactly when the buffer has
reached `buffer_len` points, handing it the series with the point inserted. After a
successful flush the buffer length is `0` and `siridb_buffer_write_len` is called on
that series; without a flush `siridb_buffer_write_point` is the one call made and the
buffer stays one point longer. After a call that returns `0` the buffer holds fewer
than `buffer_len` points. -/
theorem add_point_flush (ops : buffer_ops) (siridb : siridb_t) (series : siridb_series_t)
    (b : siridb_buffer_t) (ts val : Nat) (hb : series.buffer = some b)
    (hlen : b.points.len < siridb.buffer_len) :
    ((add_point_mem series b ts val).buffer = some ⟨siridb_points_add_point b.points ts val⟩ ∧
      (siridb_points_add_point b.points ts val).len = b.points.len + 1) ∧
    ((∃ c ∈ (siridb_series_add_point ops siridb series ts val).calls, c.is_to_shards = true) ↔
      b.points.len + 1 = siridb.buffer_len) ∧
    (b.points.len + 1 = siridb.buffer_len →
      (siridb_series_add_point ops siridb series ts val).calls.head? =
        some (.to_shards (add_point_mem series b ts val)
          (ops.siridb_buffer_to_shards siridb (add_point_mem series b ts val)).1)) ∧
    (b.points.len + 1 = siridb.buffer_len →
      (ops.siridb_buffer_to_shards siridb (add_point_mem series b ts val)).1 = 0 →
      (∃ b1, (siridb_series_add_point ops siridb series ts val).series.buffer = some b1 ∧
        b1.points.len = 0) ∧
      (siridb_series_add_point ops siridb series ts val).calls =
        [.to_shards (add_point_mem series b ts val) 0,
         .write_len (siridb_series_add_point ops siridb series ts val).series
          (ops.siridb_buffer_write_len siridb
            (siridb_series_add_point ops siridb series ts val).series)]) ∧
    (b.points.len + 1 ≠ siridb.buffer_len →
      (siridb_series_add_point ops siridb series ts val).series
        = add_point_mem series b ts val ∧
      (siridb_series_add_point ops siridb series ts val).calls =
        [.write_point (add_point_mem series b ts val) ts val
          (ops.siridb_buffer_write_point siridb (add_point_mem series b ts val) ts val)]) ∧
    ((siridb_series_add_point ops siridb series ts val).rc = 0 →
      ∃ b1, (siridb_series_add_point ops siridb series ts val).series.buffer = some b1 ∧
        b1.points.len < siridb.buffer_len) := by
  refine ⟨⟨rfl, siridb_points_add_point_len _ _ _⟩, ?_⟩
  rcases add_point_cases ops siridb series ts val with
    ⟨hn, -⟩ | ⟨b1, hb1, hne, h⟩ | ⟨b1, hb1, heq, hrc, h⟩ | ⟨b1, hb1, heq, hrc, h⟩
  · rw [hb] at hn; cases hn
  · rw [hb] at hb1; cases hb1
    rw [h]
    refine ⟨?_, fun he => absurd he hne, fun he => absurd he hne, fun _ => ⟨rfl, rfl⟩, ?_⟩
    · simp [buffer_call.is_to_shards, hne]
    · intro _
      refine ⟨_, rfl, ?_⟩
      rw [siridb_points_add_point_len]
      omega
  · rw [hb] at hb1; cases hb1
    rw [h]
    refine ⟨?_, fun _ => rfl, fun _ h0 => absurd h0 hrc, fun hne => absurd heq hne, ?_⟩
    · simp [buffer_call.is_to_shards, heq]
    · intro h0
      exact absurd (show (-1 : Int) = 0 from h0) (by decide)
  · rw [hb] at hb1; cases hb1
    rw [h]
    refine ⟨?_, fun _ => by rw [hrc]; rfl, fun _ _ => ⟨⟨_, rfl, rfl⟩, rfl⟩,
      fun hne => absurd heq hne, ?_⟩
    · simp [buffer_call.is_to_shards, heq]
    · intro _
      exact ⟨_, rfl, by show 0 < siridb.buffer_len; omega⟩

theorem add_point_flush_witness :
    three_points = add_points ops_ok { buffer_len := 4 } fresh_series [⟨10, 1⟩, ⟨20, 2⟩, ⟨15, 3⟩] ∧
    (siridb_series_add_point ops_ok { buffer_len := 4 } fresh_series 10 1).calls.any
      buffer_call.is_to_shards = false ∧
    (siridb_series_add_point ops_ok { buffer_len := 4 } (add_points ops_ok { buffer_len := 4 } fresh_series [⟨10, 1⟩])
      20 2).calls.any buffer_call.is_to_shards = false ∧
    (siridb_series_add_point ops_ok { buffer_len := 4 }
      (add_points ops_ok { buffer_len := 4 } fresh_series [⟨10, 1⟩, ⟨20, 2⟩]) 15 3).calls.any
      buffer_call.is_to_shards = false ∧
    (∃ c ∈ (siridb_series_add_point ops_ok { buffer_len := 4 } three_points 25 4).calls,
      c.is_to_shards = true) ∧
    (siridb_series_add_point ops_ok { buffer_len := 4 } three_points 25 4).calls.head? =
      some (.to_shards (add_point_mem three_points
        ⟨⟨0, [⟨10, 1⟩, ⟨15, 3⟩, ⟨20, 2⟩]⟩⟩ 25 4) 0) ∧
    (add_point_mem three_points ⟨⟨0, [⟨10, 1⟩, ⟨15, 3⟩, ⟨20, 2⟩]⟩⟩ 25 4).buffer =
      some ⟨⟨0, [⟨10, 1⟩, ⟨15, 3⟩, ⟨20, 2⟩, ⟨25, 4⟩]⟩⟩ ∧
    (∃ b1, (siridb_series_add_point ops_ok { buffer_len := 4 } three_points 25 4).series.buffer = some b1 ∧
      b1.points.len = 0) ∧
    (∃ b1, (siridb_series_add_point ops_ok { buffer_len := 4 } three_points 25 4).series.buffer = some b1 ∧
      b1.points.len < 4) :=
  ⟨by decide, by decide, by decide, by decide,
   (add_point_flush ops_ok { buffer_len := 4 } three_points ⟨⟨0, [⟨10, 1⟩, ⟨15, 3⟩, ⟨20, 2⟩]⟩⟩ 25 4 rfl
      (by decide)).2.1.mpr (by decide),
   (add_point_flush ops_ok { buffer_len := 4 } three_points ⟨⟨0, [⟨10, 1⟩, ⟨15, 3⟩, ⟨20, 2⟩]⟩⟩ 25 4 rfl
      (by decide)).2.2.1 (by decide),
   by decide,
   ((add_point_flush ops_ok { buffer_len := 4 } three_points ⟨⟨0, [⟨10, 1⟩, ⟨15, 3⟩, ⟨20, 2⟩]⟩⟩ 25 4 rfl
      (by decide)).2.2.2.1 (by decide) rfl).1,
   (add_point_flush ops_ok { buffer_len := 4 } three_points ⟨⟨0, [⟨10, 1⟩, ⟨15, 3⟩, ⟨20, 2⟩]⟩⟩ 25 4 rfl
      (by decide)).2.2.2.2.2 (by decide)⟩

/-- C8: `siridb_series_add_point` returns `0` or `-1`; it returns `0` exactly when
every buffer call it made returned `0`; and when the flush to the shards failed the
in-memory buffer still holds `buffer_len` points. -/
theorem add_point_rc (ops : buffer_ops) (siridb : siridb_t) (series : siridb_series_t)
    (ts val : Nat) :
    ((siridb_series_add_point ops siridb series ts val).rc = 0 ∨
      (siridb_series_add_point ops siridb series ts val).rc = -1) ∧
    ((siridb_series_add_point ops siridb series ts val).rc = 0 ↔
      ∀ c ∈ (siridb_series_add_point ops siridb series ts val).calls, c.rc = 0) ∧
    (∀ c ∈ (siridb_series_add_point ops siridb series ts val).calls,
      c.is_to_shards = true → c.rc ≠ 0 →
      ∃ b1, (siridb_series_add_point ops siridb series ts val).series.buffer = some b1 ∧
        b1.points.len = siridb.buffer_len) := by
  rcases add_point_cases ops siridb series ts val with
    ⟨-, h⟩ | ⟨b, -, -, h⟩ | ⟨b, -, heq, hrc, h⟩ | ⟨b, -, heq, hrc, h⟩
  · rw [h]
    simp
  · rw [h]
    by_cases h0 : ops.siridb_buffer_write_point siridb (add_point_mem series b ts val) ts val = 0
    · simp [h0, buffer_call.rc, buffer_call.is_to_shards]
    · simp [h0, buffer_call.rc, buffer_call.is_to_shards]
  · rw [h]
    refine ⟨Or.inr rfl, ?_, ?_⟩
    · simp [buffer_call.rc, hrc]
    · intro c _ _ _
      refine ⟨_, rfl, ?_⟩
      show (siridb_points_add_point b.points ts val).len = siridb.buffer_len
      rw [siridb_points_add_point_len]; exact heq
  · rw [h]
    by_cases h0 : ops.siridb_buffer_write_len siridb
        (add_point_reset ops siridb series b ts val) = 0
    · simp [h0, buffer_call.rc, buffer_call.is_to_shards]
    · simp [h0, buffer_call.rc, buffer_call.is_to_shards]

theorem add_point_rc_witness :
    (siridb_series_add_point ops_flush_fails { buffer_len := 4 } three_points 25 4).rc = -1 ∧
    ∃ b1, (siridb_series_add_point ops_flush_fails { buffer_len := 4 } three_points 25 4).series.buffer
        = some b1 ∧ b1.points.len = 4 :=
  ⟨by decide,
   (add_point_rc ops_flush_fails { buffer_len := 4 } three_points 25 4).2.2
    (.to_shards (add_point_mem three_points ⟨⟨0, [⟨10, 1⟩, ⟨15, 3⟩, ⟨20, 2⟩]⟩⟩ 25 4) (-1))
    (by decide) rfl (by decide)⟩


/-! ## The read path -/

/-- The first loop of `siridb_series_get_points_num32`, started at entry `pre.length`
of the index `pre ++ rest`: the positions it collects are those of the entries of
`rest` that pass the test. -/
theorem get_points_scan_entries (a b : Option Nat) :
    ∀ (rest pre : List idx_num32_t),
      (get_points_scan a b pre.length rest).2.filterMap (fun i => (pre ++ rest)[i]?) =
        rest.filter (get_points_selects a b) := by
  intro rest
  induction rest with
  | nil => intro pre; simp [get_points_scan]
  | cons e rest ih =>
    intro pre
    have h := ih (pre ++ [e])
    rw [List.length_append, List.length_singleton, List.append_assoc,
      List.singleton_append] at h
    have hget : (pre ++ e :: rest)[pre.length]? = some e := by
      rw [List.getElem?_append_right (le_refl _)]
      simp
    by_cases hsel : get_points_selects a b e = true
    · simp only [get_points_scan, hsel, if_true, List.filterMap_cons, hget, List.filter_cons]
      rw [h]
    · simp only [get_points_scan, hsel, if_false, List.filter_cons]
      simp only [Bool.false_eq_true, if_false]
      exact h

theorem get_points_entries_eq (idx : List idx_num32_t) (a b : Option Nat) :
    get_points_entries idx a b = idx.filter (get_points_selects a b) := by
  have h := get_points_scan_entries a b idx []
  simpa [get_points_entries] using h

/-- C9: the entries `siridb_series_get_points_num32` hands to the shard read are the
entries of the index with `end_ts ≥ start` (when `start` is given) and
`start_ts < end` (when `end` is given), in index order; the result of the call is
the buffer points added to the container the shard reads of exactly these entries
leave; and for an entry with `start_ts ≤ end_ts`, with `start < end` when both are
given, the test holds exactly when a time-stamp of `[start_ts, end_ts]` lies within
the bounds. -/
theorem get_points_entries_spec (shard_get : shard_reader) (series : siridb_series_t)
    (a b : Option Nat) :
    get_points_entries series.index.idx a b =
      series.index.idx.filter (get_points_selects a b) ∧
    (∀ e : idx_num32_t, get_points_selects a b e = true ↔
      ((∀ x, a = some x → e.end_ts ≥ x) ∧ (∀ y, b = some y → e.start_ts < y))) ∧
    (∀ buffer, series.buffer = some buffer →
      siridb_series_get_points_num32 shard_get series a b = some
        (add_buffer_points
          ((series.index.idx.filter (get_points_selects a b)).foldl
            (fun pts e => shard_get pts e a b series.index.has_overlap)
            (siridb_points_new
              ((get_points_scan a b 0 series.index.idx).1 + buffer.points.len) series.tp))
          (get_points_crop buffer.points.data a b))) ∧
    (∀ e : idx_num32_t, e.start_ts ≤ e.end_ts → (∀ x y, a = some x → b = some y → x < y) →
      (get_points_selects a b e = true ↔
        ∃ t, e.start_ts ≤ t ∧ t ≤ e.end_ts ∧ in_range a b t = true)) := by
  have hsel : ∀ e : idx_num32_t, get_points_selects a b e = true ↔
      ((∀ x, a = some x → e.end_ts ≥ x) ∧ (∀ y, b = some y → e.start_ts < y)) := by
    intro e
    cases a <;> cases b <;> simp [get_points_selects]
  refine ⟨get_points_entries_eq _ _ _, hsel, ?_, ?_⟩
  · intro buffer hb
    simp only [siridb_series_get_points_num32, hb, get_points_read, get_points_entries_eq]
  · intro e hle hab
    rw [hsel]
    constructor
    · rintro ⟨h1, h2⟩
      cases a with
      | none =>
        refine ⟨e.start_ts, le_refl _, hle, ?_⟩
        cases b with
        | none => rfl
        | some y => simpa [in_range] using h2 y rfl
      | some x =>
        have hx := h1 x rfl
        refine ⟨max e.start_ts x, Nat.le_max_left _ _, Nat.max_le.mpr ⟨hle, hx⟩, ?_⟩
        cases b with
        | none => simp [in_range]
        | some y =>
          have hy := h2 y rfl
          have hxy := hab x y rfl rfl
          simp [in_range]
          omega
    · rintro ⟨t, h1, h2, h3⟩
      constructor
      · intro x hx
        subst hx
        cases b <;> simp [in_range] at h3 <;> omega
      · intro y hy
        subst hy
        cases a <;> simp [in_range] at h3 <;> omega

theorem get_points_entries_spec_witness :
    get_points_entries overlapping_series.index.idx (some 35) (some 45) = [] ∧
    get_points_entries overlapping_series.index.idx (some 30) (some 45) = [⟨10, 30, 1, 0, 2⟩] ∧
    siridb_series_get_points_num32 read_appending overlapping_series (some 30) (some 45) =
      some ⟨0, [⟨30, 0⟩, ⟨40, 0⟩]⟩ ∧
    (get_points_selects (some 30) (some 45) ⟨10, 30, 1, 0, 2⟩ = true ↔
      ∃ t, 10 ≤ t ∧ t ≤ 30 ∧ in_range (some 30) (some 45) t = true) :=
  ⟨by decide, by decide,
   ((get_points_entries_spec read_appending overlapping_series (some 30) (some 45)).2.2.1
      ⟨⟨0, [⟨40, 0⟩]⟩⟩ rfl).trans (by decide),
   (get_points_entries_spec read_appending overlapping_series (some 30) (some 45)).2.2.2
      ⟨10, 30, 1, 0, 2⟩ (by decide)
      (fun x y hx hy => by cases hx; cases hy; decide)⟩


/-- The crop loops on a buffer sorted by `ts` keep exactly the points within the
bounds. -/
theorem get_points_crop_eq (data : List siridb_point_t) (a b : Option Nat)
    (hs : sorted_by_ts data) :
    get_points_crop data a b = data.filter (fun p => in_range a b p.ts) := by
  have hstart : ∀ x : Nat, data.dropWhile (fun p => decide (p.ts < x)) =
      data.filter (fun p => decide (x ≤ p.ts)) := by
    intro x
    rw [dropWhile_eq_filter_of_sorted (fun p q : point_t => p.ts ≤ q.ts)
      (fun p => decide (p.ts < x)) data hs
      (by intro p q hpq hq; simp only [decide_eq_true_eq] at hq ⊢; omega)]
    apply List.filter_congr
    intro p _
    by_cases hp : p.ts < x
    · have : ¬ x ≤ p.ts := by omega
      simp [hp, this]
    · have : x ≤ p.ts := by omega
      simp [hp, this]
  have hend : ∀ (y : Nat) (w : List siridb_point_t), sorted_by_ts w →
      w.rdropWhile (fun p => decide (p.ts ≥ y)) = w.filter (fun p => decide (p.ts < y)) := by
    intro y w hw
    rw [(rdropWhile_eq_filter_of_sorted (fun p q : point_t => p.ts ≤ q.ts)
      (fun p => decide (p.ts ≥ y)) w hw
      (by intro p q hpq hp; simp only [decide_eq_true_eq] at hp ⊢; omega)).1]
    apply List.filter_congr
    intro p _
    by_cases hp : p.ts < y
    · have : ¬ p.ts ≥ y := by omega
      simp [hp, this]
    · have : p.ts ≥ y := by omega
      simp [hp, this]
  cases a with
  | none =>
    cases b with
    | none => simp [get_points_crop, in_range]
    | some y =>
      simp only [get_points_crop, in_range, Bool.true_and]
      exact hend y data hs
  | some x =>
    cases b with
    | none =>
      simp only [get_points_crop, in_range, Bool.and_true]
      exact hstart x
    | some y =>
      simp only [get_points_crop, in_range]
      rw [hstart x, hend y _ (hs.filter _), List.filter_filter]
      apply List.filter_congr
      intro p _
      exact Bool.and_comm _ _

theorem add_buffer_points_mem (w : List siridb_point_t) (points : siridb_points_t)
    (p : siridb_point_t) :
    p ∈ (add_buffer_points points w).data ↔ p ∈ points.data ∨ p ∈ w := by
  rw [(add_buffer_points_perm w points).mem_iff, List.mem_append]

/-- The second loop of `siridb_series_get_points_num32` with a shard read that appends
only points of the chunk of its entry that lie within the bounds, run over the
entries `es` from the container `pts`: every point added lies within the bounds and
comes from the chunk of one of the entries; and the container stays sorted by `ts`
when the points of every chunk are sorted and lie within `[start_ts, end_ts]` of
their entry, no entry ends after the `start_ts` of a later one, and the points the
container held lie at or before the `start_ts` of every entry. -/
theorem get_points_read_appends (shard_get : shard_reader)
    (chunk : idx_num32_t → List siridb_point_t) (a b : Option Nat) (has_overlap : Nat)
    (hread : appends_chunk_in_range shard_get chunk a b) :
    ∀ (es : List idx_num32_t) (pts : siridb_points_t),
      (∀ p ∈ (es.foldl (fun pts e => shard_get pts e a b has_overlap) pts).data,
        p ∈ pts.data ∨ (in_range a b p.ts = true ∧ ∃ e ∈ es, p ∈ chunk e)) ∧
      (sorted_by_ts pts.data →
        es.Pairwise (fun e f => e.end_ts ≤ f.start_ts) →
        (∀ e ∈ es, sorted_by_ts (chunk e) ∧
          ∀ p ∈ chunk e, e.start_ts ≤ p.ts ∧ p.ts ≤ e.end_ts) →
        (∀ p ∈ pts.data, ∀ e ∈ es, p.ts ≤ e.start_ts) →
        sorted_by_ts (es.foldl (fun pts e => shard_get pts e a b has_overlap) pts).data) := by
  intro es
  induction es with
  | nil =>
    intro pts
    exact ⟨fun p hp => Or.inl hp, fun h _ _ _ => h⟩
  | cons e es ih =>
    intro pts
    obtain ⟨ps, hsub, hin, heq⟩ := hread pts e has_overlap
    obtain ⟨ih1, ih2⟩ := ih (shard_get pts e a b has_overlap)
    simp only [List.foldl_cons]
    constructor
    · intro p hp
      rcases ih1 p hp with h | ⟨h1, f, hf, h2⟩
      · rw [heq] at h
        rcases List.mem_append.mp h with h | h
        · exact Or.inl h
        · exact Or.inr ⟨hin p h, e, List.mem_cons_self _ _, hsub.subset h⟩
      · exact Or.inr ⟨h1, f, List.mem_cons_of_mem _ hf, h2⟩
    · intro hs hpair hchunk hbelow
      obtain ⟨hpair1, hpair2⟩ := List.pairwise_cons.mp hpair
      obtain ⟨hce, hcr⟩ := hchunk e (List.mem_cons_self _ _)
      apply ih2
      · rw [heq]
        apply List.pairwise_append.mpr
        refine ⟨hs, List.Pairwise.sublist hsub hce, ?_⟩
        intro p hp q hq
        have h1 := hbelow p hp e (List.mem_cons_self _ _)
        have h2 := (hcr q (hsub.subset hq)).1
        omega
      · exact hpair2
      · intro f hf
        exact hchunk f (List.mem_cons_of_mem _ hf)
      · intro p hp f hf
        rw [heq] at hp
        rcases List.mem_append.mp hp with h | h
        · exact hbelow p h f (List.mem_cons_of_mem _ hf)
        · have h1 := (hcr p (hsub.subset h)).2
          have h2 := hpair1 f hf
          omega

/-- C10 (as amended): on a series whose buffer is sorted by `ts`,
`siridb_series_get_points_num32` takes from the buffer exactly the points within the
bounds; when every shard read appends only points of the chunk of its entry that
lie within the bounds, the container returned holds the points the shard reads
appended and those buffer points, and every `ts` in it lies within the bounds; and
it is sorted by `ts` when, in addition, the points of every chunk are sorted by `ts`
and lie within `[start_ts, end_ts]` of their entry and no entry of the index ends
after the `start_ts` of a later entry. -/
theorem get_points_sorted_in_range (shard_get : shard_reader) (series : siridb_series_t)
    (buffer : siridb_buffer_t) (chunk : idx_num32_t → List siridb_point_t)
    (a b : Option Nat)
    (hb : series.buffer = some buffer) (hs : sorted_by_ts buffer.points.data)
    (hread : appends_chunk_in_range shard_get chunk a b) :
    get_points_crop buffer.points.data a b =
      buffer.points.data.filter (fun p => in_range a b p.ts) ∧
    ∃ r, siridb_series_get_points_num32 shard_get series a b = some r ∧
      r.data.Perm
        ((get_points_read shard_get series a b
            ((get_points_scan a b 0 series.index.idx).1 + buffer.points.len)).data ++
          buffer.points.data.filter (fun p => in_range a b p.ts)) ∧
      (∀ p ∈ r.data, in_range a b p.ts = true) ∧
      ((∀ e ∈ series.index.idx, sorted_by_ts (chunk e) ∧
          ∀ p ∈ chunk e, e.start_ts ≤ p.ts ∧ p.ts ≤ e.end_ts) →
        series.index.idx.Pairwise (fun e f => e.end_ts ≤ f.start_ts) →
        sorted_by_ts r.data) := by
  have hcrop := get_points_crop_eq buffer.points.data a b hs
  have hget : siridb_series_get_points_num32 shard_get series a b = some
      (add_buffer_points
        (get_points_read shard_get series a b
          ((get_points_scan a b 0 series.index.idx).1 + buffer.points.len))
        (get_points_crop buffer.points.data a b)) := by
    simp only [siridb_series_get_points_num32, hb]
  obtain ⟨hr1, hr2⟩ := get_points_read_appends shard_get chunk a b series.index.has_overlap
    hread (get_points_entries series.index.idx a b)
    (siridb_points_new ((get_points_scan a b 0 series.index.idx).1 + buffer.points.len)
      series.tp)
  refine ⟨hcrop, _, hget, ?_, ?_, ?_⟩
  · rw [hcrop]
    exact add_buffer_points_perm _ _
  · intro p hp
    rw [add_buffer_points_mem, hcrop] at hp
    rcases hp with hp | hp
    · rcases hr1 p hp with h | h
      · cases h
      · exact h.1
    · exact (List.mem_filter.mp hp).2
  · intro hchunk hidx
    apply add_buffer_points_sorted
    apply hr2 List.Pairwise.nil
    · rw [get_points_entries_eq]
      exact List.Pairwise.sublist (List.filter_sublist _) hidx
    · intro e he
      rw [get_points_entries_eq] at he
      exact hchunk e (List.mem_filter.mp he).1
    · intro p hp
      cases hp

theorem get_points_sorted_in_range_witness :
    ∃ r, siridb_series_get_points_num32 read_entry_chunk disjoint_series (some 15) (some 40)
        = some r ∧
      r.data.map point_t.ts = [20, 30, 35] ∧
      sorted_by_ts r.data ∧ ∀ p ∈ r.data, in_range (some 15) (some 40) p.ts = true := by
  obtain ⟨-, r, h1, -, h3, h4⟩ := get_points_sorted_in_range read_entry_chunk
    disjoint_series ⟨⟨0, [⟨40, 0⟩]⟩⟩ entry_chunk (some 15) (some 40) rfl (by decide)
    (fun pts e _ =>
      ⟨List.filter (fun p => in_range (some 15) (some 40) p.ts) (entry_chunk e),
        List.filter_sublist _, fun p hp => (List.mem_filter.mp hp).2, rfl⟩)
  refine ⟨r, h1, ?_, h4 (by decide) (by decide), h3⟩
  have e : siridb_series_get_points_num32 read_entry_chunk disjoint_series (some 15) (some 40)
      = some ⟨0, [⟨20, 0⟩, ⟨30, 0⟩, ⟨35, 0⟩]⟩ := by decide
  rw [e] at h1
  cases h1
  rfl

/-- C10 (counterexample): the index holds an entry for `[5, 25]` before an entry for
`[10, 30]`, as `siridb_series_add_idx_num32` leaves it (with the overlap flagged) when
the points of `[5, 25]` are written after those of `[10, 30]`; the buffer holds the
point at `40` and is sorted, and the shard read appends the points of the chunk
that lie within the bounds. Without bounds `siridb_series_get_points_num32` returns
the time-stamps `5, 25, 10, 30, 40`, which are not sorted. -/
theorem get_points_not_sorted :
    appends_chunk_in_range read_entry_chunk entry_chunk none none ∧
    (siridb_series_add_idx_num32 flag_masks true ⟨0, [⟨10, 30, 1, 0, 2⟩]⟩ ⟨1, 0, 0⟩
      5 25 32 2).index = flagged_overlap_series.index ∧
    sorted_by_start_ts flagged_overlap_series.index.idx ∧
    (∃ buffer, flagged_overlap_series.buffer = some buffer ∧
      sorted_by_ts buffer.points.data) ∧
    ∃ r, siridb_series_get_points_num32 read_entry_chunk flagged_overlap_series none none =
        some r ∧
      r.data.map point_t.ts = [5, 25, 10, 30, 40] ∧ ¬ sorted_by_ts r.data := by
  refine ⟨?_, by decide, by decide, ⟨_, rfl, by decide⟩,
    ⟨0, [⟨5, 0⟩, ⟨25, 0⟩, ⟨10, 0⟩, ⟨30, 0⟩, ⟨40, 0⟩]⟩, by decide, by decide, by decide⟩
  intro pts e _
  exact ⟨List.filter (fun p => in_range none none p.ts) (entry_chunk e),
    List.filter_sublist _, fun p hp => (List.mem_filter.mp hp).2, rfl⟩

/-! ## Pool lookup -/

/-- Reducing modulo `2^32` before adding a char changes nothing. -/
theorem add_char_wrap (z : Int) (c : Int) :
    add_char ((z % (UINT32_MOD : Int)).toNat) c = ((z + c) % (UINT32_MOD : Int)).toNat := by
  unfold add_char
  have hpos : (0 : Int) ≤ z % (UINT32_MOD : Int) :=
    Int.emod_nonneg _ (by simp [UINT32_MOD])
  rw [Int.toNat_of_nonneg hpos, Int.emod_add_emod]

/-- The front-to-back loop on a block with a NUL: the sum of the chars before the
first NUL, modulo `2^32`. -/
theorem pool_sn_sum_eq (sn : List Int) (h0 : (0 : Int) ∈ sn) :
    ∀ z : Int, pool_sn_sum ((z % (UINT32_MOD : Int)).toNat) sn =
      some (((z + (cstr_chars sn).sum) % (UINT32_MOD : Int)).toNat) := by
  induction sn with
  | nil => cases h0
  | cons c rest ih =>
    intro z
    by_cases hc : c = 0
    · simp [pool_sn_sum, cstr_chars, hc]
    · have hrest : (0 : Int) ∈ rest := by
        rcases List.mem_cons.mp h0 with h | h
        · exact absurd h.symm hc
        · exact h
      simp only [pool_sn_sum, hc, if_false, add_char_wrap, ih hrest]
      simp [cstr_chars, hc, add_assoc]

/-- The back-to-front loop over the first `len` chars of the block: their sum, modulo
`2^32`. -/
theorem pool_sn_raw_sum_eq (sn : List Int) :
    ∀ (len : Nat) (z : Int), len ≤ sn.length →
      pool_sn_raw_sum sn ((z % (UINT32_MOD : Int)).toNat) len =
        some (((z + (sn.take len).sum) % (UINT32_MOD : Int)).toNat) := by
  intro len
  induction len with
  | zero => intro z _; simp [pool_sn_raw_sum]
  | succ len ih =>
    intro z hlen
    have hlt : len < sn.length := hlen
    have hget : sn[len]? = some sn[len] := List.getElem?_eq_getElem hlt
    have ht : (sn.take (len + 1)).sum = sn[len] + (sn.take len).sum := by
      rw [List.take_succ, hget]
      simp only [Option.toList, List.sum_append, List.sum_cons, List.sum_nil, add_zero]
      omega
    simp only [pool_sn_raw_sum, hget, add_char_wrap, ih _ (Nat.le_of_lt hlt), ht, add_assoc]

/-- On a block with a NUL, `strlen` is the number of chars before the first NUL. -/
theorem strlen_eq (sn : List Int) (h0 : (0 : Int) ∈ sn) :
    strlen sn = some (cstr_chars sn).length ∧ sn.take (cstr_chars sn).length = cstr_chars sn ∧
      (cstr_chars sn).length < sn.length := by
  induction sn with
  | nil => cases h0
  | cons c rest ih =>
    by_cases hc : c = 0
    · simp [strlen, cstr_chars, hc]
    · have hrest : (0 : Int) ∈ rest := by
        rcases List.mem_cons.mp h0 with h | h
        · exact absurd h.symm hc
        · exact h
      obtain ⟨h1, h2, h3⟩ := ih hrest
      simp [strlen, cstr_chars, hc, h1, h2, h3]

/-- For a name of bytes up to 127 the sum of the chars is the sum of the byte
values. -/
theorem spec_byte_sum_ascii (sn : List Int) (h : ∀ c ∈ cstr_chars sn, 0 ≤ c ∧ c ≤ 127) :
    ((spec_byte_sum sn : Nat) : Int) = (cstr_chars sn).sum := by
  unfold spec_byte_sum
  generalize cstr_chars sn = l at h
  induction l with
  | nil => simp
  | cons c l ih =>
    have hc := h c (List.mem_cons_self _ _)
    have hl := ih (fun d hd => h d (List.mem_cons_of_mem _ hd))
    simp only [List.map_cons, List.sum_cons, Nat.cast_add, hl]
    omega

/-- C16: for every lookup table and every block of chars that holds a NUL,
`siridb_pool_sn` returns a pool id, and `siridb_pool_sn_raw` with the length
`strlen` gives returns the same pool id. -/
theorem pool_sn_eq_pool_sn_raw (lookup : Nat → Nat) (sn : List Int) (h0 : (0 : Int) ∈ sn) :
    ∃ len pool, strlen sn = some len ∧ siridb_pool_sn lookup sn = some pool ∧
      siridb_pool_sn_raw lookup sn len = some pool := by
  obtain ⟨h1, h2, h3⟩ := strlen_eq sn h0
  have hf := pool_sn_sum_eq sn h0 0
  have hr := pool_sn_raw_sum_eq sn (cstr_chars sn).length 0 (Nat.le_of_lt h3)
  rw [h2] at hr
  have hz : ((0 : Int) % (UINT32_MOD : Int)).toNat = 0 := by simp
  rw [hz] at hf hr
  refine ⟨(cstr_chars sn).length,
    lookup (((0 + (cstr_chars sn).sum) % (UINT32_MOD : Int)).toNat % SIRIDB_LOOKUP_SZ), h1, ?_, ?_⟩
  · simp only [siridb_pool_sn, hf, Option.map_some']
  · simp only [siridb_pool_sn_raw, hr, Option.map_some']

theorem pool_sn_eq_pool_sn_raw_witness :
    ∃ len pool, strlen cpu_load = some len ∧ siridb_pool_sn lookup_cpu_load cpu_load = some pool ∧
      siridb_pool_sn_raw lookup_cpu_load cpu_load len = some pool ∧ len = 8 ∧ pool = 3 := by
  obtain ⟨len, pool, h1, h2, h3⟩ := pool_sn_eq_pool_sn_raw lookup_cpu_load cpu_load (by decide)
  refine ⟨len, pool, h1, h2, h3, ?_, ?_⟩
  · have e : strlen cpu_load = some 8 := by decide
    rw [e] at h1
    exact (Option.some.inj h1).symm
  · have e : siridb_pool_sn lookup_cpu_load cpu_load = some 3 := by decide
    rw [e] at h2
    exact (Option.some.inj h2).symm

/-- C17, as stated, fails: the name holds the single byte `200`, which the signed
`char` of the source reads as `-56`. The sum of the byte values is `200`; the loop
adds `-56` to the 32-bit `n`, which becomes `2^32 - 56`, and the position read is
`65480`, not `200`. -/
theorem pool_sn_signed_char :
    spec_byte_sum name_byte_200 = 200 ∧
    pool_sn_sum 0 name_byte_200 = some 4294967240 ∧
    siridb_pool_sn lookup_position name_byte_200 = some 65480 ∧
    lookup_position (spec_byte_sum name_byte_200 % 65536) = 200 := by
  decide

/-- C17, amended: for every lookup table and every name (a block of chars with a
NUL), `siridb_pool_sn` returns the table entry at the sum of the chars of the name
modulo 65536, a position below 65536, a char above 127 as a byte counting with its
negative value; for chars that are not negative this is the sum of their values
modulo 65536, and for a name of bytes up to 127 it is the sum of the byte values
modulo 65536. -/
theorem pool_sn_lookup (lookup : Nat → Nat) (sn : List Int) (h0 : (0 : Int) ∈ sn) :
    siridb_pool_sn lookup sn =
      some (lookup (((cstr_chars sn).sum % (SIRIDB_LOOKUP_SZ : Int)).toNat)) ∧
    ((cstr_chars sn).sum % (SIRIDB_LOOKUP_SZ : Int)).toNat < 65536 ∧
    ((∀ c ∈ cstr_chars sn, 0 ≤ c) →
      siridb_pool_sn lookup sn =
        some (lookup (((cstr_chars sn).map Int.toNat).sum % 65536))) ∧
    ((∀ c ∈ cstr_chars sn, 0 ≤ c ∧ c ≤ 127) →
      siridb_pool_sn lookup sn = some (lookup (spec_byte_sum sn % 65536))) := by
  have hf := pool_sn_sum_eq sn h0 0
  have hz : ((0 : Int) % (UINT32_MOD : Int)).toNat = 0 := by simp
  rw [hz, zero_add] at hf
  have hidx : ((cstr_chars sn).sum % (UINT32_MOD : Int)).toNat % SIRIDB_LOOKUP_SZ =
      ((cstr_chars sn).sum % (SIRIDB_LOOKUP_SZ : Int)).toNat := by
    simp only [UINT32_MOD, SIRIDB_LOOKUP_SZ]
    omega
  have hlt : ((cstr_chars sn).sum % (SIRIDB_LOOKUP_SZ : Int)).toNat < 65536 := by
    simp only [SIRIDB_LOOKUP_SZ]
    omega
  have hmain : siridb_pool_sn lookup sn =
      some (lookup (((cstr_chars sn).sum % (SIRIDB_LOOKUP_SZ : Int)).toNat)) := by
    simp only [siridb_pool_sn, hf, Option.map_some', hidx]
  have hnat : ∀ x : Nat, ((x : Int) % (SIRIDB_LOOKUP_SZ : Int)).toNat = x % 65536 := by
    intro x
    simp only [SIRIDB_LOOKUP_SZ]
    omega
  refine ⟨hmain, hlt, ?_, ?_⟩
  rotate_left
  · intro hascii
    rw [hmain, ← spec_byte_sum_ascii sn hascii, hnat]
  intro hpos
  rw [hmain]
  have hsum : ∀ l : List Int, (∀ c ∈ l, 0 ≤ c) → l.sum = ((l.map Int.toNat).sum : Nat) := by
    intro l
    induction l with
    | nil => intro _; simp
    | cons c l ih =>
      intro h
      have hc : 0 ≤ c := h c (by simp)
      have hl := ih (fun d hd => h d (by simp [hd]))
      simp only [List.sum_cons, List.map_cons, Nat.cast_add, hl, Int.toNat_of_nonneg hc]
  rw [hsum _ hpos]
  have hnat : ∀ x : Nat, ((x : Int) % (SIRIDB_LOOKUP_SZ : Int)).toNat = x % 65536 := by
    intro x
    simp only [SIRIDB_LOOKUP_SZ]
    omega
  rw [hnat]

theorem pool_sn_lookup_witness :
    siridb_pool_sn lookup_cpu_load cpu_load = some 3 ∧
    (cstr_chars cpu_load).sum = 790 ∧ spec_byte_sum cpu_load = 790 ∧
    siridb_pool_sn lookup_cpu_load cpu_load =
      some (lookup_cpu_load (((cstr_chars cpu_load).map Int.toNat).sum % 65536)) ∧
    siridb_pool_sn lookup_cpu_load cpu_load =
      some (lookup_cpu_load (spec_byte_sum cpu_load % 65536)) :=
  ⟨by decide, by decide, by decide,
    (pool_sn_lookup lookup_cpu_load cpu_load (by decide)).2.2.1 (by decide),
    (pool_sn_lookup lookup_cpu_load cpu_load (by decide)).2.2.2 (by decide)⟩

/-! ## Sending a package to a pool -/

/-- The loop of `siridb_pool_send_pkg`, started after the servers `pre` with a state
that fits them: `server` ends as `NULL` exactly when no server of the pool is
available; a server it ends with is a server of the pool; and in a pool of at most
two servers it is an available one. -/
theorem send_pkg_select_spec (is_available : siridb_server_t → Bool) (rand : Nat → Nat)
    (pool : siridb_pool_t) :
    ∀ (rest pre : List siridb_server_t) (server : Option siridb_server_t) (k : Nat),
      pool.server = pre ++ rest →
      (server = none ↔ ∀ s ∈ pre, is_available s = false) →
      (∀ x, server = some x → x ∈ pool.server) →
      (pool.server.length ≤ 2 → ∀ x, server = some x → is_available x = true) →
      ((send_pkg_select is_available rand pool rest server k).1 = none ↔
        ∀ s ∈ pool.server, is_available s = false) ∧
      (∀ x, (send_pkg_select is_available rand pool rest server k).1 = some x →
        x ∈ pool.server) ∧
      (pool.server.length ≤ 2 →
        ∀ x, (send_pkg_select is_available rand pool rest server k).1 = some x →
          is_available x = true) := by
  intro rest
  induction rest with
  | nil =>
    intro pre server k hsplit hnone hmem hav
    rw [List.append_nil] at hsplit
    simp only [send_pkg_select]
    exact ⟨by rw [hsplit]; exact hnone, hmem, hav⟩
  | cons s rest ih =>
    intro pre server k hsplit hnone hmem hav
    have hsplit1 : pool.server = (pre ++ [s]) ++ rest := by
      rw [hsplit, List.append_assoc, List.singleton_append]
    have hs_mem : s ∈ pool.server := by rw [hsplit]; simp
    by_cases hs : is_available s = true
    · cases hserver : server with
      | none =>
        simp only [send_pkg_select, hs, if_true]
        refine ih (pre ++ [s]) (some s) k hsplit1 ?_ ?_ ?_
        · constructor
          · intro h; cases h
          · intro h
            have := h s (by simp)
            rw [hs] at this
            cases this
        · intro x hx; cases hx; exact hs_mem
        · intro _ x hx; cases hx; exact hs
      | some p =>
        simp only [send_pkg_select, hs, if_true]
        have hpre : ¬ ∀ t ∈ pre, is_available t = false := by
          intro h
          have := hnone.mpr h
          rw [hserver] at this
          cases this
        have hpre_ne : pre ≠ [] := by
          intro h
          apply hpre
          rw [h]
          intro t ht
          cases ht
        have hpre_len : 1 ≤ pre.length := List.length_pos.mpr hpre_ne
        have hlen : pre.length + (rest.length + 1) = pool.server.length := by
          rw [hsplit]; simp
        have hidx : rand k % 2 < pool.server.length := by
          have := Nat.mod_lt (rand k) (show 0 < 2 by decide)
          omega
        have hget : pool.server[rand k % 2]? = some pool.server[rand k % 2] :=
          List.getElem?_eq_getElem hidx
        refine ih (pre ++ [s]) (pool.server[rand k % 2]?) (k + 1) hsplit1 ?_ ?_ ?_
        · rw [hget]
          constructor
          · intro h; cases h
          · intro h
            have := h s (by simp)
            rw [hs] at this
            cases this
        · intro x hx
          rw [hget] at hx
          cases hx
          exact List.getElem_mem hidx
        · intro h2 x hx
          rw [hget] at hx
          cases hx
          have hp1 : pre.length = 1 := by omega
          have hr0 : rest = [] := List.eq_nil_of_length_eq_zero (by omega)
          obtain ⟨p0, hp0⟩ := List.length_eq_one.mp hp1
          have hpool : pool.server = [p0, s] := by rw [hsplit, hp0, hr0]; rfl
          have hp0av : is_available p0 = true := by
            by_contra hcon
            apply hpre
            rw [hp0]
            intro t ht
            rw [List.mem_singleton] at ht
            rw [ht]
            simpa using hcon
          have hcases : rand k % 2 = 0 ∨ rand k % 2 = 1 := by omega
          rcases hcases with h0 | h1
          · simp only [h0, hpool, List.getElem_cons_zero]
            exact hp0av
          · simp only [h1, hpool, List.getElem_cons_succ, List.getElem_cons_zero]
            exact hs
    · have hs' : is_available s = false := by simpa using hs
      simp only [send_pkg_select, hs', Bool.false_eq_true, if_false]
      refine ih (pre ++ [s]) server k hsplit1 ?_ hmem hav
      rw [hnone]
      constructor
      · intro h t ht
        rcases List.mem_append.mp ht with ht | ht
        · exact h t ht
        · rw [List.mem_singleton] at ht
          rw [ht]
          exact hs'
      · intro h t ht
        exact h t (List.mem_append_left _ ht)

/-- C18: `siridb_pool_send_pkg` returns `-1` exactly when no server of the pool is
available, and then `siridb_server_send_pkg` is not called; otherwise it returns `0`
and calls `siridb_server_send_pkg` once, with a server of the pool. -/
theorem pool_send_pkg_rc (is_available : siridb_server_t → Bool) (rand : Nat → Nat)
    (pool : siridb_pool_t) :
    ((siridb_pool_send_pkg is_available rand pool).rc = -1 ↔
      ∀ s ∈ pool.server, is_available s = false) ∧
    ((siridb_pool_send_pkg is_available rand pool).rc = -1 →
      (siridb_pool_send_pkg is_available rand pool).sent = []) ∧
    ((siridb_pool_send_pkg is_available rand pool).rc ≠ -1 →
      (siridb_pool_send_pkg is_available rand pool).rc = 0 ∧
      ∃ s ∈ pool.server, (siridb_pool_send_pkg is_available rand pool).sent = [s]) := by
  obtain ⟨h1, h2, -⟩ := send_pkg_select_spec is_available rand pool pool.server [] none 0
    rfl (by simp) (by intro x hx; cases hx) (by intro _ x hx; cases hx)
  unfold siridb_pool_send_pkg
  cases hsel : (send_pkg_select is_available rand pool pool.server none 0).1 with
  | none =>
    rw [hsel] at h1
    refine ⟨⟨fun _ => h1.mp rfl, fun _ => rfl⟩, fun _ => rfl, fun h => absurd rfl h⟩
  | some x =>
    rw [hsel] at h1 h2
    have hx : x ∈ pool.server := h2 x rfl
    have hne : ¬ ∀ s ∈ pool.server, is_available s = false := by
      intro h
      have := h1.mpr h
      cases this
    refine ⟨⟨fun h => ?_, fun h => absurd h hne⟩, fun h => ?_, fun _ => ⟨rfl, x, hx, rfl⟩⟩
    · exact absurd (show (0 : Int) = -1 from h) (by decide)
    · exact absurd (show (0 : Int) = -1 from h) (by decide)

theorem pool_send_pkg_rc_witness :
    (siridb_pool_send_pkg (fun _ => false) (fun _ => 0) three_servers).rc = -1 ∧
    (siridb_pool_send_pkg (fun _ => false) (fun _ => 0) three_servers).sent = [] ∧
    (siridb_pool_send_pkg all_but_first (fun _ => 1) three_servers).rc = 0 ∧
    ∃ s ∈ three_servers.server,
      (siridb_pool_send_pkg all_but_first (fun _ => 1) three_servers).sent = [s] :=
  ⟨by decide,
   (pool_send_pkg_rc (fun _ => false) (fun _ => 0) three_servers).2.1 (by decide),
   ((pool_send_pkg_rc all_but_first (fun _ => 1) three_servers).2.2 (by decide)).1,
   ((pool_send_pkg_rc all_but_first (fun _ => 1) three_servers).2.2 (by decide)).2⟩

/-- In a pool of at most two servers, whatever the availability of its servers and
the outcome of `rand()`, when `siridb_pool_send_pkg` returns `0` the server the
package was sent to is a server of the pool and is available: `pool->server[rand() % 2]`
is taken only after a second available server is met. -/
theorem pool_send_pkg_available (is_available : siridb_server_t → Bool) (rand : Nat → Nat)
    (pool : siridb_pool_t) (hlen : pool.len ≤ 2)
    (hrc : (siridb_pool_send_pkg is_available rand pool).rc = 0) :
    ∃ s, (siridb_pool_send_pkg is_available rand pool).sent = [s] ∧ s ∈ pool.server ∧
      is_available s = true := by
  obtain ⟨-, h2, h3⟩ := send_pkg_select_spec is_available rand pool pool.server [] none 0
    rfl (by simp) (by intro x hx; cases hx) (by intro _ x hx; cases hx)
  unfold siridb_pool_send_pkg at hrc ⊢
  cases hsel : (send_pkg_select is_available rand pool pool.server none 0).1 with
  | none =>
    rw [hsel] at hrc
    exact absurd (show (-1 : Int) = 0 from hrc) (by decide)
  | some x =>
    rw [hsel] at h2 h3
    exact ⟨x, rfl, h2 x rfl, h3 hlen x rfl⟩

/-- A series `SERIES_new` returns carries the id it was given. -/
theorem SERIES_new_id (env : series_new_env) (siridb : siridb_t) (id tp : Nat)
    (sn : List Int) (series : siridb_series_t)
    (h : SERIES_new env siridb id tp sn = some (.series series)) : series.id = id := by
  unfold SERIES_new at h
  by_cases h1 : env.malloc_series_ok = true
  · rw [if_pos h1] at h
    cases hs : pool_sn_sum 0 sn with
    | none => rw [hs] at h; cases h
    | some n =>
      rw [hs] at h
      dsimp only at h
      by_cases h2 : (if tp = SIRIDB_SERIES_TP_STRING then siridb.shard_mask_log
          else siridb.shard_mask_num) = 0
      · rw [if_pos h2] at h; cases h
      · rw [if_neg h2] at h
        by_cases h3 : env.malloc_index_ok = true
        · rw [if_pos h3] at h
          cases h
          rfl
        · rw [if_neg h3] at h
          cases h
  · rw [if_neg h1] at h
    cases h

/-- One call of `siridb_series_new`: `max_series_id` is incremented as a 32-bit
counter, and a series returned carries the incremented value as its id. -/
theorem series_new_id (env : series_new_env) (siridb : siridb_t) (series_name : List Int)
    (tp : Nat) (r : series_new_result)
    (h : siridb_series_new env siridb series_name tp = some r) :
    r.siridb.max_series_id = (siridb.max_series_id + 1) % UINT32_MOD ∧
    ∀ s, r.series = some s → s.id = r.siridb.max_series_id := by
  unfold siridb_series_new at h
  cases hlen : strlen series_name with
  | none => rw [hlen] at h; cases h
  | some len =>
    rw [hlen] at h
    dsimp only at h
    cases hnew : SERIES_new env
        { siridb with max_series_id := (siridb.max_series_id + 1) % UINT32_MOD }
        ((siridb.max_series_id + 1) % UINT32_MOD) tp series_name with
    | none => rw [hnew] at h; cases h
    | some res =>
      rw [hnew] at h
      cases res with
      | null =>
        cases h
        exact ⟨rfl, fun s hs => by cases hs⟩
      | freed => cases h
      | series series =>
        have hid := SERIES_new_id _ _ _ _ _ _ hnew
        dsimp only at h
        cases hfail : env.store_fail with
        | some k =>
          rw [hfail] at h
          cases h
          exact ⟨rfl, fun s hs => by cases hs⟩
        | none =>
          rw [hfail] at h
          dsimp only at h
          split at h
          · split at h
            · cases h
              exact ⟨rfl, fun s hs => by cases hs⟩
            · cases h
              refine ⟨rfl, fun s hs => ?_⟩
              cases hs
              exact hid
          · cases h
            refine ⟨rfl, fun s hs => ?_⟩
            cases hs
            exact hid

/-- The function `siridb_series_new` has a result when the name holds a NUL, the shard
mask of the type is not `0`, and the `malloc` of the index succeeds. -/
theorem series_new_defined (env : series_new_env) (siridb : siridb_t)
    (series_name : List Int) (tp : Nat) (hname : (0 : Int) ∈ series_name)
    (hmask : (if tp = SIRIDB_SERIES_TP_STRING then siridb.shard_mask_log
      else siridb.shard_mask_num) ≠ 0)
    (hindex : env.malloc_index_ok = true) :
    ∃ r, siridb_series_new env siridb series_name tp = some r := by
  obtain ⟨hlen, -, -⟩ := strlen_eq series_name hname
  have hsum := pool_sn_sum_eq series_name hname 0
  have hz : ((0 : Int) % (UINT32_MOD : Int)).toNat = 0 := by simp
  rw [hz] at hsum
  unfold siridb_series_new
  rw [hlen]
  dsimp only
  unfold SERIES_new
  by_cases hs : env.malloc_series_ok = true
  · simp only [hs, if_true, hsum, hindex]
    rw [if_neg hmask]
    dsimp only
    cases env.store_fail with
    | some k => exact ⟨_, rfl⟩
    | none =>
      dsimp only
      split
      · split <;> exact ⟨_, rfl⟩
      · exact ⟨_, rfl⟩
  · simp only [hs]
    exact ⟨_, rfl⟩

/-- Series created one after another, as long as the 32-bit `max_series_id` does not
wrap: `max_series_id` grows by the number of calls, and the ids returned are
strictly increasing, above the old `max_series_id` and at most the new one. -/
theorem series_new_run_ids :
    ∀ (calls : List series_new_call) (siridb db : siridb_t) (ids : List Nat),
      siridb.max_series_id + calls.length < UINT32_MOD →
      series_new_run siridb calls = some (db, ids) →
      db.max_series_id = siridb.max_series_id + calls.length ∧
      ids.Pairwise (fun a b => a < b) ∧
      ∀ id ∈ ids, siridb.max_series_id < id ∧ id ≤ db.max_series_id := by
  intro calls
  induction calls with
  | nil =>
    intro siridb db ids _ h
    simp only [series_new_run] at h
    cases h
    exact ⟨rfl, List.Pairwise.nil, fun id hid => by cases hid⟩
  | cons c rest ih =>
    intro siridb db ids hlt h
    simp only [List.length_cons] at hlt
    simp only [series_new_run] at h
    cases hnew : siridb_series_new c.env siridb c.series_name c.tp with
    | none => rw [hnew] at h; cases h
    | some r =>
      rw [hnew] at h
      dsimp only at h
      obtain ⟨hmax, hid⟩ := series_new_id _ _ _ _ _ hnew
      have hmax1 : r.siridb.max_series_id = siridb.max_series_id + 1 := by
        rw [hmax]
        exact Nat.mod_eq_of_lt (by omega)
      cases hrun : series_new_run r.siridb rest with
      | none => rw [hrun] at h; cases h
      | some p =>
        obtain ⟨db1, ids1⟩ := p
        rw [hrun] at h
        dsimp only at h
        obtain ⟨h1, h2, h3⟩ := ih r.siridb db1 ids1 (by omega) hrun
        cases hser : r.series with
        | none =>
          rw [hser] at h
          cases h
          refine ⟨by simp only [List.length_cons]; omega, h2, fun id hi => ?_⟩
          have := h3 id hi
          omega
        | some s =>
          rw [hser] at h
          cases h
          have hs := hid s hser
          refine ⟨by simp only [List.length_cons]; omega, ?_, fun id hi => ?_⟩
          · rw [List.pairwise_cons]
            refine ⟨fun id hi => ?_, h2⟩
            have := h3 id hi
            omega
          · rcases List.mem_cons.mp hi with rfl | hi
            · omega
            · have := h3 id hi
              omega

/-- C20: every call of `siridb_series_new` increments the 32-bit `max_series_id`, and
a series it returns has the incremented value as its id; a call is defined when the
name is terminated, the shard mask is not `0` and the index is allocated. For
`max_series_id` below `2^32 - 1` the value grows by exactly one, and series created
one after another without reaching `2^32` get strictly increasing, hence pairwise
distinct, ids, each above the old `max_series_id` and so above every id in use that
`max_series_id` bounds. -/
theorem series_new_ids (env : series_new_env) (siridb : siridb_t) (series_name : List Int)
    (tp : Nat) :
    (∀ r, siridb_series_new env siridb series_name tp = some r →
      r.siridb.max_series_id = (siridb.max_series_id + 1) % UINT32_MOD ∧
      (siridb.max_series_id < UINT32_MOD - 1 →
        r.siridb.max_series_id = siridb.max_series_id + 1) ∧
      ∀ s, r.series = some s → s.id = r.siridb.max_series_id) ∧
    ((0 : Int) ∈ series_name →
      (if tp = SIRIDB_SERIES_TP_STRING then siridb.shard_mask_log
        else siridb.shard_mask_num) ≠ 0 →
      env.malloc_index_ok = true →
      ∃ r, siridb_series_new env siridb series_name tp = some r) ∧
    (∀ (calls : List series_new_call) (db : siridb_t) (ids : List Nat),
      siridb.max_series_id + calls.length < UINT32_MOD →
      series_new_run siridb calls = some (db, ids) →
      ids.Pairwise (fun a b => a < b) ∧ ids.Nodup ∧
      ∀ id ∈ ids, ∀ used : Nat, used ≤ siridb.max_series_id → used < id) := by
  refine ⟨fun r h => ?_, series_new_defined env siridb series_name tp, ?_⟩
  · obtain ⟨h1, h2⟩ := series_new_id env siridb series_name tp r h
    refine ⟨h1, fun hlt => ?_, h2⟩
    rw [h1]
    exact Nat.mod_eq_of_lt (by omega)
  · intro calls db ids hlt hrun
    obtain ⟨-, h2, h3⟩ := series_new_run_ids calls siridb db ids hlt hrun
    refine ⟨h2, ?_, fun id hid used hused => ?_⟩
    · exact h2.imp (fun h => Nat.ne_of_lt h)
    · have := h3 id hid
      omega

theorem series_new_ids_witness :
    series_new_run empty_db
      [⟨env_ok, [97, 0], 0⟩, ⟨env_ok, [98, 0], 0⟩, ⟨env_ok, [99, 0], 0⟩] ≠ none ∧
    (∀ db ids, series_new_run empty_db
      [⟨env_ok, [97, 0], 0⟩, ⟨env_ok, [98, 0], 0⟩, ⟨env_ok, [99, 0], 0⟩] = some (db, ids) →
      ids = [1, 2, 3] ∧ db.max_series_id = 3 ∧
      ids.Pairwise (fun a b => a < b) ∧ ids.Nodup) := by
  have e : series_new_run empty_db
      [⟨env_ok, [97, 0], 0⟩, ⟨env_ok, [98, 0], 0⟩, ⟨env_ok, [99, 0], 0⟩] =
      some ((series_new_run empty_db
        [⟨env_ok, [97, 0], 0⟩, ⟨env_ok, [98, 0], 0⟩, ⟨env_ok, [99, 0], 0⟩]).get
          (by decide)) := by simp
  have hid : ((series_new_run empty_db
      [⟨env_ok, [97, 0], 0⟩, ⟨env_ok, [98, 0], 0⟩, ⟨env_ok, [99, 0], 0⟩]).map
        (fun p => (p.2, p.1.max_series_id))) = some ([1, 2, 3], 3) := by decide
  refine ⟨by rw [e]; exact Option.some_ne_none _, fun db ids h => ?_⟩
  rw [h] at hid
  simp only [Option.map_some', Option.some.injEq, Prod.mk.injEq] at hid
  obtain ⟨hids, hmax⟩ := hid
  have hp := (series_new_ids env_ok empty_db [97, 0] 0).2.2 _ db ids (by decide) h
  exact ⟨hids, hmax, hp.1, hp.2.1⟩

/-! ## Removing a shard -/

/-- The loop of `siridb_series_remove_shard_num32`: the entries kept are those that
do not refer to the shard, `offset` counts the others, and `length` has their `len`
subtracted, modulo `2^64`. -/
theorem remove_shard_loop_spec (shard : Nat) :
    ∀ (rest kept : List idx_num32_t) (offset length : Nat),
      (remove_shard_loop shard rest kept offset length).1 = kept ++ entries_not_of shard rest ∧
      (remove_shard_loop shard rest kept offset length).2.1 =
        offset + (entries_of shard rest).length ∧
      ((remove_shard_loop shard rest kept offset length).2.2 + sum_len (entries_of shard rest))
        % UINT64_MOD = length % UINT64_MOD ∧
      (entries_of shard rest = [] →
        (remove_shard_loop shard rest kept offset length).2.2 = length) ∧
      (sum_len (entries_of shard rest) ≤ length → length < UINT64_MOD →
        (remove_shard_loop shard rest kept offset length).2.2 =
          length - sum_len (entries_of shard rest)) := by
  intro rest
  induction rest with
  | nil =>
    intro kept offset length
    simp [remove_shard_loop, entries_not_of, entries_of, sum_len]
  | cons e rest ih =>
    intro kept offset length
    by_cases he : e.shard = shard
    · obtain ⟨h1, h2, h3, -, h5⟩ := ih kept (offset + 1) (length_sub length e.len)
      have hof : entries_of shard (e :: rest) = e :: entries_of shard rest := by
        simp [entries_of, he]
      have hnot : entries_not_of shard (e :: rest) = entries_not_of shard rest := by
        simp [entries_not_of, he]
      simp only [remove_shard_loop, he, if_true, hof, hnot, List.length_cons]
      refine ⟨h1, (by rw [h2]; omega), ?_, (fun h => by cases h), ?_⟩
      · have hs : sum_len (e :: entries_of shard rest) = e.len + sum_len (entries_of shard rest) := by
          simp [sum_len]
        rw [hs]
        have hsub : (length_sub length e.len + e.len) % UINT64_MOD = length % UINT64_MOD := by
          simp only [length_sub, UINT64_MOD]
          omega
        simp only [UINT64_MOD] at h3 hsub ⊢
        omega
      · intro hle hlt
        have hs : sum_len (e :: entries_of shard rest) = e.len + sum_len (entries_of shard rest) := by
          simp [sum_len]
        rw [hs] at hle ⊢
        have hsub : length_sub length e.len = length - e.len := by
          simp only [length_sub, UINT64_MOD] at hlt ⊢
          omega
        rw [h5 (by rw [hsub]; omega) (by rw [hsub]; omega), hsub]
        omega
    · obtain ⟨h1, h2, h3, h4, h5⟩ := ih (kept ++ [e]) offset length
      have hof : entries_of shard (e :: rest) = entries_of shard rest := by
        simp [entries_of, he]
      have hnot : entries_not_of shard (e :: rest) = e :: entries_not_of shard rest := by
        simp [entries_not_of, he]
      simp only [remove_shard_loop, he, if_false, hof, hnot]
      exact ⟨by rw [h1]; simp, h2, h3, h4, h5⟩

/-- The properties `start` and `end` are the only fields the two update functions
change. -/
theorem update_start_frame (series s1 : siridb_series_t)
    (h : SERIES_update_start_num32 series = some s1) :
    s1.index = series.index ∧ s1.length = series.length ∧ s1.buffer = series.buffer ∧
      s1.end_ = series.end_ := by
  unfold SERIES_update_start_num32 at h
  cases hb : series.buffer with
  | none => rw [hb] at h; cases h
  | some b =>
    rw [hb] at h
    cases h
    exact ⟨rfl, rfl, rfl, rfl⟩

theorem update_end_frame (series s1 : siridb_series_t)
    (h : SERIES_update_end_num32 series = some s1) :
    s1.index = series.index ∧ s1.length = series.length ∧ s1.buffer = series.buffer ∧
      s1.start = series.start := by
  unfold SERIES_update_end_num32 at h
  cases hb : series.buffer with
  | none => rw [hb] at h; cases h
  | some b =>
    rw [hb] at h
    cases h
    exact ⟨rfl, rfl, rfl, rfl⟩

/-- On a series with a buffer both update functions have a result. -/
theorem update_start_defined (series : siridb_series_t) (b : siridb_buffer_t)
    (hb : series.buffer = some b) : ∃ s1, SERIES_update_start_num32 series = some s1 := by
  unfold SERIES_update_start_num32
  rw [hb]
  exact ⟨_, rfl⟩

theorem update_end_defined (series : siridb_series_t) (b : siridb_buffer_t)
    (hb : series.buffer = some b) : ∃ s1, SERIES_update_end_num32 series = some s1 := by
  unfold SERIES_update_end_num32
  rw [hb]
  exact ⟨_, rfl⟩

/-- The series `siridb_series_remove_shard_num32` returns on a series with a buffer:
index, length and buffer are those the loop leaves. -/
theorem remove_shard_frame (siridb : siridb_t) (series : siridb_series_t)
    (shard : siridb_shard_t) (b : siridb_buffer_t) (hb : series.buffer = some b) :
    ∃ s1, siridb_series_remove_shard_num32 siridb series shard = some s1 ∧
      s1.index.idx = entries_not_of shard.ref series.index.idx ∧
      s1.index.has_overlap = series.index.has_overlap ∧
      s1.length = (remove_shard_loop shard.ref series.index.idx [] 0 series.length).2.2 ∧
      s1.buffer = some b := by
  obtain ⟨h1, -, -, -, -⟩ := remove_shard_loop_spec shard.ref series.index.idx [] 0 series.length
  rw [List.nil_append] at h1
  unfold siridb_series_remove_shard_num32
  dsimp only
  split
  · split
    · rename_i hstart
      split at hstart
      · obtain ⟨s2, hs2⟩ := update_start_defined
          { series with
            length := (remove_shard_loop shard.ref series.index.idx [] 0 series.length).2.2
            index := { series.index with
              idx := (remove_shard_loop shard.ref series.index.idx [] 0 series.length).1 } }
          b hb
        rw [hs2] at hstart
        cases hstart
      · cases hstart
    · rename_i s2 hstart
      have hs2 : s2.index.idx = entries_not_of shard.ref series.index.idx ∧
          s2.index.has_overlap = series.index.has_overlap ∧
          s2.length = (remove_shard_loop shard.ref series.index.idx [] 0 series.length).2.2 ∧
          s2.buffer = some b := by
        split at hstart
        · obtain ⟨f1, f2, f3, -⟩ := update_start_frame _ _ hstart
          rw [f1, f2, f3]
          exact ⟨h1, rfl, rfl, hb⟩
        · cases hstart
          exact ⟨h1, rfl, rfl, hb⟩
      split
      · obtain ⟨s3, hs3⟩ := update_end_defined s2 b hs2.2.2.2
        obtain ⟨f1, f2, f3, -⟩ := update_end_frame _ _ hs3
        refine ⟨s3, hs3, ?_, ?_, ?_, ?_⟩
        · rw [f1]; exact hs2.1
        · rw [f1]; exact hs2.2.1
        · rw [f2]; exact hs2.2.2.1
        · rw [f3]; exact hs2.2.2.2
      · exact ⟨s2, rfl, hs2⟩
  · exact ⟨_, rfl, h1, rfl, rfl, hb⟩

/-- When no entry refers to the shard, `siridb_series_remove_shard_num32` returns the
series as it was. -/
theorem remove_shard_none (siridb : siridb_t) (series : siridb_series_t)
    (shard : siridb_shard_t) (hnone : entries_of shard.ref series.index.idx = []) :
    siridb_series_remove_shard_num32 siridb series shard = some series := by
  obtain ⟨h1, h2, -, h4, -⟩ :=
    remove_shard_loop_spec shard.ref series.index.idx [] 0 series.length
  rw [List.nil_append] at h1
  have hall : entries_not_of shard.ref series.index.idx = series.index.idx := by
    unfold entries_not_of
    unfold entries_of at hnone
    rw [List.filter_eq_self]
    intro e he
    have := List.filter_eq_nil_iff.mp hnone e he
    simpa using this
  unfold siridb_series_remove_shard_num32
  dsimp only
  rw [h2, hnone, h1, hall, h4 hnone]
  simp

/-- C11: on a numeric series `siridb_series_remove_shard_num32` leaves the index with
exactly the entries that do not refer to the shard, unchanged and in their order;
`series.length` has the sum of `len` of the removed entries subtracted (in the
64-bit arithmetic of the counter, and exactly when that sum is at most the length),
so that `sum of entry.len + buffer.len == length` holds afterwards when it held
before; and when no entry refers to the shard the series is returned unchanged. -/
theorem remove_shard_index (siridb : siridb_t) (series : siridb_series_t)
    (shard : siridb_shard_t) (b : siridb_buffer_t) (hb : series.buffer = some b) :
    (∃ s1, siridb_series_remove_shard_num32 siridb series shard = some s1 ∧
      s1.index.idx = series.index.idx.filter (fun e => !decide (e.shard = shard.ref)) ∧
      s1.buffer = some b ∧
      (s1.length + sum_len (entries_of shard.ref series.index.idx)) % UINT64_MOD =
        series.length % UINT64_MOD ∧
      (sum_len (entries_of shard.ref series.index.idx) ≤ series.length →
        series.length < UINT64_MOD →
        s1.length = series.length - sum_len (entries_of shard.ref series.index.idx)) ∧
      (sum_len series.index.idx + b.points.len = series.length →
        series.length < UINT64_MOD →
        s1.length = series.length - sum_len (entries_of shard.ref series.index.idx) ∧
        sum_len s1.index.idx + b.points.len = s1.length)) ∧
    (entries_of shard.ref series.index.idx = [] →
      siridb_series_remove_shard_num32 siridb series shard = some series) := by
  refine ⟨?_, remove_shard_none siridb series shard⟩
  obtain ⟨s1, hs1, hidx, -, hlen, hbuf⟩ := remove_shard_frame siridb series shard b hb
  obtain ⟨-, -, h3, -, h5⟩ :=
    remove_shard_loop_spec shard.ref series.index.idx [] 0 series.length
  have hsplit : sum_len series.index.idx =
      sum_len (entries_of shard.ref series.index.idx) +
        sum_len (entries_not_of shard.ref series.index.idx) := by
    unfold sum_len entries_of entries_not_of
    generalize series.index.idx = l
    induction l with
    | nil => simp
    | cons e l ih =>
      by_cases he : e.shard = shard.ref
      · simp only [List.map_cons, List.sum_cons, List.filter_cons, he, decide_True,
          Bool.not_true, if_true, Bool.false_eq_true, if_false, ih]
        omega
      · simp only [List.map_cons, List.sum_cons, List.filter_cons, he, decide_False,
          Bool.not_false, if_true, Bool.false_eq_true, if_false, ih]
        omega
  refine ⟨s1, hs1, hidx, hbuf, ?_, ?_, ?_⟩
  · rw [hlen]; exact h3
  · intro hle hlt
    rw [hlen]; exact h5 hle hlt
  · intro hinv hlt
    have hle : sum_len (entries_of shard.ref series.index.idx) ≤ series.length := by omega
    have hl := h5 hle hlt
    rw [hlen, hl, hidx]
    refine ⟨rfl, ?_⟩
    omega

theorem remove_shard_index_witness :
    (∃ s1, siridb_series_remove_shard_num32 db_duration_20 two_shards ⟨2, 30, 0⟩ = some s1 ∧
      s1.index.idx = [⟨10, 20, 1, 0, 4⟩] ∧ s1.length = 4 ∧
      sum_len s1.index.idx + 0 = s1.length) ∧
    siridb_series_remove_shard_num32 db_duration_20 two_shards ⟨3, 60, 0⟩ = some two_shards := by
  obtain ⟨⟨s1, h1, h2, -, -, -, h6⟩, h7⟩ :=
    remove_shard_index db_duration_20 two_shards ⟨2, 30, 0⟩ ⟨⟨0, []⟩⟩ rfl
  refine ⟨⟨s1, h1, ?_, ?_, ?_⟩, ?_⟩
  · rw [h2]; decide
  · rw [(h6 (by decide) (by decide)).1]; decide
  · exact (h6 (by decide) (by decide)).2
  · exact (remove_shard_index db_duration_20 two_shards ⟨3, 60, 0⟩ ⟨⟨0, []⟩⟩ rfl).2 (by decide)

/-! ## The properties `start` and `end` -/

/-- The loop of `SERIES_update_end_num32` never lowers `series->end`, and leaves it at
or above the `end_ts` of every entry it visits. -/
theorem update_end_scan_ge :
    ∀ (l : List idx_num32_t) (start end_ : Nat),
      end_ ≤ update_end_scan start end_ l ∧
      ∀ e ∈ update_end_run start l, e.end_ts ≤ update_end_scan start end_ l := by
  intro l
  induction l with
  | nil =>
    intro start end_
    simp [update_end_scan, update_end_run]
  | cons a l ih =>
    intro start end_
    by_cases h : a.end_ts < start
    · simp [update_end_scan, update_end_run, h]
    · have hm : end_ ≤ (if a.end_ts > end_ then a.end_ts else end_) ∧
          a.end_ts ≤ (if a.end_ts > end_ then a.end_ts else end_) := by
        split <;> omega
      obtain ⟨h1, h2⟩ := ih a.start_ts (if a.end_ts > end_ then a.end_ts else end_)
      simp only [update_end_scan, update_end_run, h, if_false, List.mem_cons]
      refine ⟨le_trans hm.1 h1, ?_⟩
      intro e he
      rcases he with rfl | he
      · exact le_trans hm.2 h1
      · exact h2 e he

/-- From the value `0` the loop of `SERIES_update_end_num32` gives the largest `end_ts`
of the entries it visits. -/
theorem update_end_scan_le :
    ∀ (l : List idx_num32_t) (start end_ bound : Nat), end_ ≤ bound →
      (∀ e ∈ update_end_run start l, e.end_ts ≤ bound) →
      update_end_scan start end_ l ≤ bound := by
  intro l
  induction l with
  | nil =>
    intro start end_ bound h _
    simpa [update_end_scan] using h
  | cons a l ih =>
    intro start end_ bound h hall
    by_cases ha : a.end_ts < start
    · simpa [update_end_scan, ha] using h
    · simp only [update_end_run, ha, if_false, List.mem_cons] at hall
      simp only [update_end_scan, ha, if_false]
      apply ih
      · have := hall a (Or.inl rfl)
        split <;> omega
      · intro e he
        exact hall e (Or.inr he)

/-- The loop of `SERIES_update_end_num32` visits every entry when no entry ends before
the `start_ts` of the entry after it. -/
theorem update_end_run_all :
    ∀ (l : List idx_num32_t) (start : Nat),
      (∀ e, l.head? = some e → start ≤ e.end_ts) →
      List.Chain' (fun later earlier => later.start_ts ≤ earlier.end_ts) l →
      update_end_run start l = l := by
  intro l
  induction l with
  | nil =>
    intro start _ _
    rfl
  | cons a l ih =>
    intro start h0 hc
    have ha : ¬ a.end_ts < start := by
      have := h0 a rfl
      omega
    simp only [update_end_run, ha, if_false]
    rw [ih a.start_ts]
    · intro e he
      cases l with
      | nil => cases he
      | cons c l =>
        cases he
        exact (List.chain'_cons.mp hc).1
    · exact hc.tail

/-- The value `SERIES_update_start_num32` computes is at or below the `start_ts` of
every entry of a sorted index and the time-stamp of every point of a sorted
buffer. -/
theorem update_start_value_le (idx : List idx_num32_t) (points : List siridb_point_t)
    (hidx : sorted_by_start_ts idx) (hpts : sorted_by_ts points) :
    (∀ e ∈ idx, update_start_value idx points ≤ e.start_ts) ∧
    (∀ p ∈ points, update_start_value idx points ≤ p.ts) := by
  have hi : ∀ e ∈ idx, first_start_ts idx ≤ e.start_ts := by
    intro e he
    cases idx with
    | nil => cases he
    | cons a l =>
      rcases List.mem_cons.mp he with rfl | h
      · exact Nat.le_refl _
      · exact (List.pairwise_cons.mp hidx).1 e h
  have hs : update_start_value idx points ≤ first_start_ts idx := by
    cases points with
    | nil => exact Nat.le_refl _
    | cons q points =>
      simp only [update_start_value]
      split <;> omega
  refine ⟨fun e he => Nat.le_trans hs (hi e he), ?_⟩
  intro p hp
  cases points with
  | nil => cases hp
  | cons q points =>
    have hq : update_start_value idx (q :: points) ≤ q.ts := by
      simp only [update_start_value]
      split <;> omega
    rcases List.mem_cons.mp hp with rfl | h
    · exact hq
    · exact Nat.le_trans hq ((List.pairwise_cons.mp hpts).1 p h)

/-- The value `SERIES_update_end_num32` computes is at or above the `end_ts` of every
entry the loop visits and the time-stamp of the last point of the buffer, so of
every point of a sorted buffer. -/
theorem update_end_value_ge (end_ : Nat) (idx : List idx_num32_t)
    (points : List siridb_point_t) :
    (∀ e ∈ update_end_run 0 idx.reverse, e.end_ts ≤ update_end_value end_ idx points) ∧
    (∀ p, points.getLast? = some p → p.ts ≤ update_end_value end_ idx points) ∧
    (sorted_by_ts points → ∀ p ∈ points, p.ts ≤ update_end_value end_ idx points) := by
  have hrun : ∀ e ∈ update_end_run 0 idx.reverse,
      e.end_ts ≤ (if idx.length ≠ 0 then update_end_scan 0 end_ idx.reverse else 0) := by
    intro e he
    by_cases hl : idx.length ≠ 0
    · rw [if_pos hl]
      exact (update_end_scan_ge idx.reverse 0 end_).2 e he
    · have : idx = [] := List.length_eq_zero.mp (not_not.mp hl)
      subst this
      cases he
  have hge : (if idx.length ≠ 0 then update_end_scan 0 end_ idx.reverse else 0) ≤
      update_end_value end_ idx points := by
    simp only [update_end_value]
    generalize (if idx.length ≠ 0 then update_end_scan 0 end_ idx.reverse else 0) = m
    cases points.getLast? with
    | none => exact Nat.le_refl _
    | some q =>
      dsimp only
      split <;> omega
  have hlast : ∀ p, points.getLast? = some p → p.ts ≤ update_end_value end_ idx points := by
    intro p hp
    simp only [update_end_value, hp]
    generalize (if idx.length ≠ 0 then update_end_scan 0 end_ idx.reverse else 0) = m
    split <;> omega
  refine ⟨fun e he => Nat.le_trans (hrun e he) hge, hlast, ?_⟩
  intro hpts p hp
  have hne : points ≠ [] := List.ne_nil_of_mem hp
  have hl := hlast _ (List.getLast?_eq_getLast _ hne)
  have hp_le : p.ts ≤ (points.getLast hne).ts := by
    have hsplit := List.dropLast_append_getLast hne
    rw [← hsplit] at hp hpts
    rcases List.mem_append.mp hp with h | h
    · exact (List.pairwise_append.mp hpts).2.2 p h _ (List.mem_singleton.mpr rfl)
    · rw [List.mem_singleton.mp h]
  omega

/-- The value `SERIES_update_end_num32` computes is below every bound of the value
`series->end` has, of the `end_ts` of the entries the loop visits, and of the
time-stamp of the last point of the buffer. -/
theorem update_end_value_le (end_ bound : Nat) (idx : List idx_num32_t)
    (points : List siridb_point_t) (hend : end_ ≤ bound)
    (hrun : ∀ e ∈ update_end_run 0 idx.reverse, e.end_ts ≤ bound)
    (hlast : ∀ p, points.getLast? = some p → p.ts ≤ bound) :
    update_end_value end_ idx points ≤ bound := by
  have hm : (if idx.length ≠ 0 then update_end_scan 0 end_ idx.reverse else 0) ≤ bound := by
    split
    · exact update_end_scan_le idx.reverse 0 end_ bound hend hrun
    · exact Nat.zero_le _
  simp only [update_end_value]
  generalize (if idx.length ≠ 0 then update_end_scan 0 end_ idx.reverse else 0) = m at hm
  cases hl : points.getLast? with
  | none => exact hm
  | some q =>
    have := hlast q hl
    dsimp only
    split <;> omega

/-- The entries the loop of `SERIES_update_end_num32` visits are entries of the list
it goes through. -/
theorem update_end_run_sublist :
    ∀ (l : List idx_num32_t) (start : Nat), ∀ e ∈ update_end_run start l, e ∈ l := by
  intro l
  induction l with
  | nil =>
    intro start e he
    simp [update_end_run] at he
  | cons a l ih =>
    intro start e he
    by_cases h : a.end_ts < start
    · simp [update_end_run, h] at he
    · simp only [update_end_run, h, if_false, List.mem_cons] at he
      rcases he with rfl | he
      · exact List.mem_cons_self _ _
      · exact List.mem_cons_of_mem _ (ih _ e he)

/-- The last entry of an index is visited by the loop of `SERIES_update_end_num32`. -/
theorem update_end_run_last (l : List idx_num32_t) (a : idx_num32_t) :
    a ∈ update_end_run 0 (l ++ [a]).reverse := by
  simp [update_end_run]

/-- The result of `siridb_series_update_props` on a series with a buffer. -/
theorem update_props_eq (series : siridb_series_t) (b : siridb_buffer_t)
    (hb : series.buffer = some b) :
    siridb_series_update_props series = some { series with
      start := update_start_value series.index.idx b.points.data
      end_ := update_end_value series.end_ series.index.idx b.points.data } := by
  unfold siridb_series_update_props SERIES_update_start_num32
  rw [hb]
  simp only [Option.bind]
  unfold SERIES_update_end_num32
  simp only [hb]

/-- The result of `siridb_series_remove_shard_num32` on a series with a buffer when
an entry refers to the shard. -/
theorem remove_shard_some (siridb : siridb_t) (series : siridb_series_t)
    (shard : siridb_shard_t) (b : siridb_buffer_t) (hb : series.buffer = some b)
    (hsome : entries_of shard.ref series.index.idx ≠ []) :
    siridb_series_remove_shard_num32 siridb series shard = some { series with
      length := (remove_shard_loop shard.ref series.index.idx [] 0 series.length).2.2
      index := { series.index with idx := entries_not_of shard.ref series.index.idx }
      start :=
        if slice_start series shard ≤ series.start ∧
            series.start < slice_end siridb series shard then
          update_start_value (entries_not_of shard.ref series.index.idx) b.points.data
        else series.start
      end_ :=
        if series.end_ < slice_end siridb series shard ∧
            slice_start series shard < series.end_ then
          update_end_value series.end_ (entries_not_of shard.ref series.index.idx)
            b.points.data
        else series.end_ } := by
  obtain ⟨h1, h2, -, -, -⟩ :=
    remove_shard_loop_spec shard.ref series.index.idx [] 0 series.length
  rw [List.nil_append] at h1
  have hoff : (remove_shard_loop shard.ref series.index.idx [] 0 series.length).2.1 ≠ 0 := by
    rw [h2]
    have := List.length_pos.mpr hsome
    omega
  unfold siridb_series_remove_shard_num32
  dsimp only
  rw [if_pos hoff, h1]
  simp only [slice_start, slice_end, SERIES_update_start_num32, SERIES_update_end_num32, hb,
    ge_iff_le, gt_iff_lt]
  split_ifs with c1 c2 c2 <;> dsimp only <;> first | rfl | rw [if_pos c2] | rw [if_neg c2]

/-- The values `siridb_series_remove_shard_num32` leaves in `start` and `end` when at
least one entry is removed from a series with a buffer. `start` is recomputed only
when it lies in the time slice `[start, end)` of the shard, and is then the smaller
of the `start_ts` of the first entry left and the first time-stamp of the buffer
(`2^32 - 1` without either), which is at or below every `start_ts` left and every
buffer time-stamp when the index and the buffer are sorted. `end` is recomputed only
when it lies strictly inside the slice: without entries left it is the last
time-stamp of the buffer (`0` with an empty buffer); with entries left the loop
starts from the value `end` has, so the result is at or above the `end_ts` of every
entry the loop visits and the last buffer time-stamp, and at or below every bound of
these and of the previous `end`. -/
theorem remove_shard_props (siridb : siridb_t) (series : siridb_series_t)
    (shard : siridb_shard_t) (b : siridb_buffer_t) (hb : series.buffer = some b)
    (hsome : entries_of shard.ref series.index.idx ≠ []) :
    ∃ s1, siridb_series_remove_shard_num32 siridb series shard = some s1 ∧
      s1.index.idx = entries_not_of shard.ref series.index.idx ∧
      (slice_start series shard ≤ series.start ∧
          series.start < slice_end siridb series shard →
        s1.start = update_start_value s1.index.idx b.points.data ∧
        (sorted_by_start_ts series.index.idx → sorted_by_ts b.points.data →
          (∀ e ∈ s1.index.idx, s1.start ≤ e.start_ts) ∧
          (∀ p ∈ b.points.data, s1.start ≤ p.ts))) ∧
      (¬ (slice_start series shard ≤ series.start ∧
          series.start < slice_end siridb series shard) → s1.start = series.start) ∧
      (slice_start series shard < series.end_ ∧
          series.end_ < slice_end siridb series shard →
        (s1.index.idx = [] → b.points.data = [] → s1.end_ = 0) ∧
        (s1.index.idx = [] → ∀ p, b.points.data.getLast? = some p → s1.end_ = p.ts) ∧
        (∀ e ∈ update_end_run 0 s1.index.idx.reverse, e.end_ts ≤ s1.end_) ∧
        (∀ p, b.points.data.getLast? = some p → p.ts ≤ s1.end_) ∧
        (∀ bound, series.end_ ≤ bound →
          (∀ e ∈ update_end_run 0 s1.index.idx.reverse, e.end_ts ≤ bound) →
          (∀ p, b.points.data.getLast? = some p → p.ts ≤ bound) → s1.end_ ≤ bound)) ∧
      (¬ (slice_start series shard < series.end_ ∧
          series.end_ < slice_end siridb series shard) → s1.end_ = series.end_) := by
  refine ⟨_, remove_shard_some siridb series shard b hb hsome, rfl, ?_, ?_, ?_, ?_⟩
  · intro c1
    dsimp only
    rw [if_pos c1]
    refine ⟨rfl, ?_⟩
    intro hidx hpts
    exact update_start_value_le _ _ (List.Pairwise.sublist (List.filter_sublist _) hidx) hpts
  · intro c1
    dsimp only
    rw [if_neg c1]
  · intro c2
    have c2' : series.end_ < slice_end siridb series shard ∧
        slice_start series shard < series.end_ := ⟨c2.2, c2.1⟩
    dsimp only
    rw [if_pos c2']
    refine ⟨?_, ?_, ?_, ?_, ?_⟩
    · intro h0 hd
      rw [h0, hd]
      rfl
    · intro h0 p hp
      rw [h0]
      simp only [update_end_value, hp, List.length_nil, ne_eq, not_true_eq_false, if_false]
      split <;> omega
    · exact (update_end_value_ge series.end_ (entries_not_of shard.ref series.index.idx)
        b.points.data).1
    · exact (update_end_value_ge series.end_ (entries_not_of shard.ref series.index.idx)
        b.points.data).2.1
    · intro bound h1 h2 h3
      exact update_end_value_le _ _ _ _ h1 h2 h3
  · intro c2
    have c2' : ¬ (series.end_ < slice_end siridb series shard ∧
        slice_start series shard < series.end_) := fun h => c2 ⟨h.2, h.1⟩
    dsimp only
    rw [if_neg c2']

/-- With entries left in the index `siridb_series_remove_shard_num32` never lowers
`end`: `SERIES_update_end_num32` sets `series->end` to `0` only when the index is
empty, and its loop and the buffer only raise it. So when every entry left ends
before the previous `end` and the last point of the buffer lies before it, `end`
keeps its previous value. -/
theorem remove_shard_end_not_lowered (siridb : siridb_t) (series : siridb_series_t)
    (shard : siridb_shard_t) (b : siridb_buffer_t) (hb : series.buffer = some b)
    (hsome : entries_of shard.ref series.index.idx ≠ [])
    (hleft : entries_not_of shard.ref series.index.idx ≠ []) :
    ∃ s1, siridb_series_remove_shard_num32 siridb series shard = some s1 ∧
      s1.index.idx = entries_not_of shard.ref series.index.idx ∧
      series.end_ ≤ s1.end_ ∧
      ((∀ e ∈ s1.index.idx, e.end_ts ≤ series.end_) →
        (∀ p, b.points.data.getLast? = some p → p.ts ≤ series.end_) →
        s1.end_ = series.end_) := by
  refine ⟨_, remove_shard_some siridb series shard b hb hsome, rfl, ?_, ?_⟩
  · dsimp only
    split
    · have hlen : (entries_not_of shard.ref series.index.idx).length ≠ 0 :=
        fun h => hleft (List.length_eq_zero.mp h)
      have h1 := (update_end_scan_ge (entries_not_of shard.ref series.index.idx).reverse 0
        series.end_).1
      simp only [update_end_value, hlen, ne_eq, not_false_eq_true, if_true]
      generalize update_end_scan 0 series.end_
        (entries_not_of shard.ref series.index.idx).reverse = m at h1
      cases b.points.data.getLast? with
      | none => exact h1
      | some q =>
        dsimp only
        split <;> omega
    · exact Nat.le_refl _
  · intro hall hlast
    dsimp only at hall ⊢
    split
    · have hlen : (entries_not_of shard.ref series.index.idx).length ≠ 0 :=
        fun h => hleft (List.length_eq_zero.mp h)
      have h1 := (update_end_scan_ge (entries_not_of shard.ref series.index.idx).reverse 0
        series.end_).1
      have h2 := update_end_scan_le (entries_not_of shard.ref series.index.idx).reverse 0
        series.end_ series.end_ (Nat.le_refl _)
        (fun e he => hall e (List.mem_reverse.mp (update_end_run_sublist _ _ e he)))
      simp only [update_end_value, hlen, ne_eq, not_false_eq_true, if_true]
      generalize update_end_scan 0 series.end_
        (entries_not_of shard.ref series.index.idx).reverse = m at h1 h2
      cases hq : b.points.data.getLast? with
      | none =>
        dsimp only
        omega
      | some q =>
        have := hlast q hq
        dsimp only
        split <;> omega
    · rfl

/-- C12 (the code at the failing input): the series holds the entry `[5, 15]` of the
shard of the slice `[0, 20)` and the entry `[25, 35]` of the shard of the slice
`[20, 40)`, its buffer is empty and `end = 35` lies inside the slice of the second
shard. When that shard is removed the entry `[5, 15]` is left, and `end` is still
`35`: with entries left `SERIES_update_end_num32` starts its loop from the value
`series->end` has, and the entry left does not exceed it. The largest `end_ts` left
is `15`. -/
theorem remove_shard_end_stale :
    entries_of 2 stale_end_series.index.idx = [⟨25, 35, 2, 0, 4⟩] ∧
    slice_start stale_end_series ⟨2, 20, 0⟩ = 20 ∧
    slice_end db_duration_20 stale_end_series ⟨2, 20, 0⟩ = 40 ∧
    stale_end_series.end_ = 35 ∧
    siridb_series_remove_shard_num32 db_duration_20 stale_end_series ⟨2, 20, 0⟩ =
      some { id := 1, tp := 0, ref := 1, length := 4, start := 5, end_ := 35, mask := 0
             buffer := some ⟨⟨0, []⟩⟩, index := ⟨0, [⟨5, 15, 1, 0, 4⟩]⟩ } := by
  decide

/-- C13, as stated, fails: the index is sorted by `start_ts`, every entry has
`start_ts ≤ end_ts` and the buffer is empty, but the first entry `[0, 1000]` reaches
beyond the entries after it; the loop stops at the entry `[5, 6]`, and `end` is `20`,
below the `end_ts` `1000` of the first entry. -/
theorem update_props_end_below_entry :
    sorted_by_start_ts loaded_series.index.idx ∧
    (∀ e ∈ loaded_series.index.idx, e.start_ts ≤ e.end_ts) ∧
    loaded_series.buffer = some ⟨⟨0, []⟩⟩ ∧
    ∃ s1, siridb_series_update_props loaded_series = some s1 ∧
      s1.start = 0 ∧ s1.end_ = 20 ∧ ∃ e ∈ loaded_series.index.idx, s1.end_ < e.end_ts := by
  refine ⟨by decide, by decide, rfl, { loaded_series with start := 0, end_ := 20 },
    by decide, rfl, rfl, ⟨0, 1000, 1, 0, 4⟩, by decide, by decide⟩

/-- C13, amended: on a series with a buffer, an index sorted by `start_ts` and a
sorted buffer, `siridb_series_update_props` returns the series with `start` at or
below the `start_ts` of every entry and every buffer time-stamp, and `end` at or
above every buffer time-stamp and the `end_ts` of every entry of the trailing run
(the last entry and, going backwards, every entry that does not end before the
`start_ts` of the entry after it); `end` is at or above the `end_ts` of every entry
when `end_ts` does not decrease along the index, or when no entry ends before the
`start_ts` of the entry after it. With an empty index and an empty buffer `start` is
`2^32 - 1` (the `-1` of the 32-bit conditional expression) and `end` is `0`. -/
theorem update_props_bounds (series : siridb_series_t) (b : siridb_buffer_t)
    (hb : series.buffer = some b) (hidx : sorted_by_start_ts series.index.idx)
    (hpts : sorted_by_ts b.points.data) :
    ∃ s1, siridb_series_update_props series = some s1 ∧
      s1.index = series.index ∧ s1.buffer = series.buffer ∧ s1.length = series.length ∧
      s1.start = update_start_value series.index.idx b.points.data ∧
      (∀ e ∈ series.index.idx, s1.start ≤ e.start_ts) ∧
      (∀ p ∈ b.points.data, s1.start ≤ p.ts ∧ p.ts ≤ s1.end_) ∧
      (∀ e ∈ update_end_run 0 series.index.idx.reverse, e.end_ts ≤ s1.end_) ∧
      (series.index.idx.Pairwise (fun e f => e.end_ts ≤ f.end_ts) →
        ∀ e ∈ series.index.idx, e.end_ts ≤ s1.end_) ∧
      (List.Chain' (fun e f => f.start_ts ≤ e.end_ts) series.index.idx →
        ∀ e ∈ series.index.idx, e.end_ts ≤ s1.end_) ∧
      (series.index.idx = [] → b.points.data = [] →
        s1.start = 4294967295 ∧ s1.end_ = 0) := by
  obtain ⟨hs1, hs2⟩ := update_start_value_le series.index.idx b.points.data hidx hpts
  obtain ⟨he1, -, he3⟩ := update_end_value_ge series.end_ series.index.idx b.points.data
  refine ⟨_, update_props_eq series b hb, rfl, rfl, rfl, rfl, hs1,
    fun p hp => ⟨hs2 p hp, he3 hpts p hp⟩, he1, ?_, ?_, ?_⟩
  rotate_left 2
  · intro h0 hd
    dsimp only
    rw [h0, hd]
    exact ⟨rfl, rfl⟩
  · intro hmono e he
    have hne : series.index.idx ≠ [] := List.ne_nil_of_mem he
    have hsplit := List.dropLast_append_getLast hne
    have hlast := update_end_run_last series.index.idx.dropLast (series.index.idx.getLast hne)
    rw [hsplit] at hlast
    have h1 := he1 _ hlast
    have h2 : e.end_ts ≤ (series.index.idx.getLast hne).end_ts := by
      rw [← hsplit] at he hmono
      rcases List.mem_append.mp he with h | h
      · exact (List.pairwise_append.mp hmono).2.2 e h _ (List.mem_singleton.mpr rfl)
      · rw [List.mem_singleton.mp h]
    exact Nat.le_trans h2 h1
  · intro hchain e he
    have hall : update_end_run 0 series.index.idx.reverse = series.index.idx.reverse := by
      apply update_end_run_all
      · intro a _
        exact Nat.zero_le _
      · rw [List.chain'_reverse]
        exact hchain
    apply he1
    rw [hall]
    exact List.mem_reverse.mpr he

theorem update_props_bounds_witness :
    (∃ s1, siridb_series_update_props two_shards = some s1 ∧ s1.start ≤ 10 ∧ 40 ≤ s1.end_) ∧
    (∃ s1, siridb_series_update_props fresh_series = some s1 ∧ s1.start = 4294967295 ∧
      s1.end_ = 0) := by
  constructor
  · obtain ⟨s1, h1, -, -, -, -, h6, -, -, h9, -⟩ :=
      update_props_bounds two_shards ⟨⟨0, []⟩⟩ rfl (by decide) (by decide)
    exact ⟨s1, h1, h6 ⟨10, 20, 1, 0, 4⟩ (by decide),
      h9 (by decide) ⟨30, 40, 2, 0, 4⟩ (by decide)⟩
  · obtain ⟨s1, h1, -, -, -, -, -, -, -, -, -, h11⟩ :=
      update_props_bounds fresh_series ⟨⟨0, []⟩⟩ rfl (by decide) (by decide)
    exact ⟨s1, h1, h11 rfl rfl⟩

/-! ## Optimizing a shard -/

/-- Six chunks of three points are rewritten as two chunks of nine points. -/
theorem optimize_six_chunks :
    siridb_series_optimize_shard_num32 env_optimize db_duration_100 six_chunks ⟨2, 0, 0⟩ 1 =
      some ⟨0, { six_chunks with index := ⟨0, [⟨0, 22, 2, 0, 9⟩, ⟨30, 52, 2, 144, 9⟩]⟩ },
        18, [(0, 9), (9, 18)]⟩ := by
  decide

/-- The statement for `num_chunks`, without wrap-around for `1 ≤ size < 2^64`. -/
theorem optimize_num_chunks_eq (size max_chunk_points : Nat) (hsize : 1 ≤ size)
    (h64 : size < UINT64_MOD) (hmax : 1 ≤ max_chunk_points) :
    optimize_num_chunks size max_chunk_points = some ((size - 1) / max_chunk_points + 1) := by
  have hdiv : (size - 1) / max_chunk_points ≤ size - 1 := Nat.div_le_self _ _
  unfold optimize_num_chunks
  rw [if_neg (by omega)]
  have h1 : (size + UINT64_MOD - 1) % UINT64_MOD = size - 1 := by
    simp only [UINT64_MOD] at h64 ⊢
    omega
  have h2 : ((size - 1) / max_chunk_points + 1) % UINT64_MOD =
      (size - 1) / max_chunk_points + 1 := by
    apply Nat.mod_eq_of_lt
    simp only [UINT64_MOD] at h64 ⊢
    omega
  rw [h1, h2]

/-- The statement for `chunk_sz`: with `n = (size - 1) / max_chunk_points + 1` chunks
it is the ceiling of `size / n`, at least `1` and at most `max_chunk_points`. -/
theorem optimize_chunk_sz_eq (size max_chunk_points : Nat) (hsize : 1 ≤ size)
    (hmax : 1 ≤ max_chunk_points) (h16 : max_chunk_points < UINT16_MOD) :
    ∃ chunk_sz, optimize_chunk_sz size ((size - 1) / max_chunk_points + 1) = some chunk_sz ∧
      chunk_sz = (size + ((size - 1) / max_chunk_points + 1) - 1) /
        ((size - 1) / max_chunk_points + 1) ∧
      1 ≤ chunk_sz ∧ chunk_sz ≤ max_chunk_points ∧
      size ≤ chunk_sz * ((size - 1) / max_chunk_points + 1) := by
  generalize hn : (size - 1) / max_chunk_points + 1 = n
  have hn1 : 1 ≤ n := by
    rw [← hn]
    exact Nat.le_add_left 1 _
  have hcover : size ≤ n * max_chunk_points := by
    have := Nat.lt_mul_div_succ (size - 1) (show 0 < max_chunk_points by omega)
    rw [hn, Nat.mul_comm] at this
    omega
  have h16 : max_chunk_points < 65536 := h16
  have hdm := Nat.div_add_mod size n
  have hr : size % n < n := Nat.mod_lt _ (by omega)
  have hq : size / n ≤ max_chunk_points := Nat.div_le_of_le_mul hcover
  generalize hqd : size / n = q at hdm hq ⊢
  generalize hrd : size % n = r at hdm hr ⊢
  have hc : q + (if r ≠ 0 then 1 else 0) ≤ max_chunk_points := by
    split
    · rename_i hne
      by_contra hcon
      have hge : max_chunk_points ≤ q := by omega
      have := Nat.mul_le_mul_left n hge
      omega
    · omega
  have hpos : 1 ≤ q + (if r ≠ 0 then 1 else 0) := by
    split
    · omega
    · rename_i h0
      have h0 : r = 0 := by omega
      by_contra hcon
      have hq0 : q = 0 := by omega
      rw [hq0, h0] at hdm
      simp at hdm
      omega
  have hle : size ≤ (q + (if r ≠ 0 then 1 else 0)) * n := by
    split
    · rw [Nat.add_mul, Nat.mul_comm q n]
      omega
    · rw [Nat.add_zero, Nat.mul_comm]
      omega
  refine ⟨q + (if r ≠ 0 then 1 else 0), ?_, ?_, hpos, hc, hle⟩
  · unfold optimize_chunk_sz
    rw [if_neg (by omega), hqd, hrd, Nat.mod_eq_of_lt]
    show q + (if r ≠ 0 then 1 else 0) < 65536
    omega
  · symm
    apply Nat.div_eq_of_lt_le
    · split
      · rw [Nat.add_mul, Nat.mul_comm q n]
        omega
      · rw [Nat.add_zero, Nat.mul_comm]
        omega
    · split
      · rw [Nat.add_mul, Nat.add_mul, Nat.mul_comm q n]
        omega
      · rw [Nat.add_zero, Nat.add_mul, Nat.mul_comm q n]
        omega

/-- The ranges of the third loop: with `chunk_sz ≥ 1` the loop ends within
`size - pstart` rounds; the ranges are non-empty, each ends at the smaller of
`pstart + chunk_sz` and `size`, and together they go through `pstart, …, size - 1`
once, in order. -/
theorem optimize_chunks_spec (size chunk_sz : Nat) (hc : 1 ≤ chunk_sz) :
    ∀ (fuel pstart : Nat), size ≤ pstart + fuel →
      ∃ chunks, optimize_chunks size chunk_sz fuel pstart = some chunks ∧
        (∀ ch ∈ chunks, ch.1 < ch.2 ∧ ch.2 ≤ size ∧ ch.2 = min (ch.1 + chunk_sz) size) ∧
        (chunks.map (fun ch => List.range' ch.1 (ch.2 - ch.1))).flatten =
          List.range' pstart (size - pstart) ∧
        (chunks.map (fun ch => ch.2 - ch.1)).sum = size - pstart ∧
        chunks.length * chunk_sz < (size - pstart) + chunk_sz := by
  intro fuel
  induction fuel with
  | zero =>
    intro pstart h
    refine ⟨[], ?_, ?_, ?_, ?_, ?_⟩
    · simp only [optimize_chunks]
      rw [if_neg (by omega)]
    · intro ch hch
      cases hch
    · have : size - pstart = 0 := by omega
      rw [this]
      rfl
    · have : size - pstart = 0 := by omega
      rw [this]
      rfl
    · simp only [List.length_nil, Nat.zero_mul]
      omega
  | succ n ih =>
    intro pstart h
    by_cases hlt : pstart < size
    · obtain ⟨rest, h1, h2, h3, h4, h5⟩ := ih (pstart + chunk_sz) (by omega)
      refine ⟨(pstart, if pstart + chunk_sz > size then size else pstart + chunk_sz) :: rest,
        ?_, ?_, ?_, ?_, ?_⟩
      · simp only [optimize_chunks]
        rw [if_pos hlt, h1]
        rfl
      · intro ch hch
        rcases List.mem_cons.mp hch with rfl | hch
        · dsimp only
          split <;> omega
        · exact h2 ch hch
      · simp only [List.map_cons, List.flatten_cons]
        rw [h3]
        by_cases hover : pstart + chunk_sz > size
        · rw [if_pos hover]
          have : size - (pstart + chunk_sz) = 0 := by omega
          rw [this]
          simp
        · rw [if_neg hover]
          have := List.range'_append_1 pstart chunk_sz (size - (pstart + chunk_sz))
          have e1 : pstart + chunk_sz - pstart = chunk_sz := by omega
          have e2 : size - (pstart + chunk_sz) + chunk_sz = size - pstart := by omega
          rw [e1, this, e2]
      · simp only [List.map_cons, List.sum_cons]
        rw [h4]
        split <;> omega
      · simp only [List.length_cons]
        rw [Nat.add_mul, Nat.one_mul]
        by_cases hover : pstart + chunk_sz > size
        · have h0 : size - (pstart + chunk_sz) = 0 := by omega
          rw [h0] at h5
          have hlen : rest.length = 0 := by
            by_contra hne
            have : 1 * chunk_sz ≤ rest.length * chunk_sz :=
              Nat.mul_le_mul_right chunk_sz (by omega)
            omega
          rw [hlen]
          omega
        · omega
    · refine ⟨[], ?_, ?_, ?_, ?_, ?_⟩
      · simp only [optimize_chunks]
        rw [if_neg hlt]
      · intro ch hch
        cases hch
      · have : size - pstart = 0 := by omega
        rw [this]
        rfl
      · have : size - pstart = 0 := by omega
        rw [this]
        rfl
      · simp only [List.length_nil, Nat.zero_mul]
        omega

/-- The third loop passes every range to `siridb_shard_write_points`, in order. -/
theorem optimize_write_writes (env : optimize_env) (shard : Nat) (points : siridb_points_t) :
    ∀ (chunks : List (Nat × Nat)) (st st1 : optimize_state),
      optimize_write env shard points chunks st = some st1 →
      st1.writes = st.writes ++ chunks := by
  intro chunks
  induction chunks with
  | nil =>
    intro st st1 h
    simp only [optimize_write] at h
    cases h
    simp
  | cons ch rest ih =>
    intro st st1 h
    obtain ⟨pstart, pend⟩ := ch
    simp only [optimize_write] at h
    split at h
    · rw [ih _ _ h]
      simp
    · split at h
      · split at h
        · rw [ih _ _ h]
          simp
        · cases h
      · cases h

/-- The ranges written by `siridb_series_optimize_shard_num32` are those of the third
loop for the number of points collected. -/
theorem optimize_writes_eq (env : optimize_env) (siridb : siridb_t)
    (series : siridb_series_t) (shard : siridb_shard_t) (replacing : Nat)
    (r : optimize_result)
    (h : siridb_series_optimize_shard_num32 env siridb series shard replacing = some r)
    (hsize : 1 ≤ r.size) :
    ∃ num_chunks chunk_sz,
      optimize_num_chunks r.size env.max_chunk_points = some num_chunks ∧
      optimize_chunk_sz r.size num_chunks = some chunk_sz ∧
      optimize_chunks r.size chunk_sz r.size 0 = some r.writes := by
  unfold siridb_series_optimize_shard_num32 at h
  dsimp only at h
  split at h
  · cases h
    simp at hsize
  · split at h
    · cases h
      simp at hsize
    · split at h
      · cases h
      · rename_i n hn
        split at h
        · cases h
        · rename_i c hc
          split at h
          · cases h
          · rename_i chunks hchunks
            split at h
            · cases h
            · rename_i st hst
              have hw := optimize_write_writes _ _ _ _ _ _ hst
              rw [List.nil_append] at hw
              split at h
              · split at h
                · cases h
                · cases h
                  exact ⟨n, c, hn, hc, by rw [hw]; exact hchunks⟩
              · cases h
                exact ⟨n, c, hn, hc, by rw [hw]; exact hchunks⟩

/-- The first loop over entries that do not refer to `shard->replacing`, before an
entry that does has been met: nothing is collected. -/
theorem optimize_scan_pre (shard replacing max_ts : Nat) :
    ∀ (pre rest : List idx_num32_t) (i start : Nat),
      (∀ e ∈ pre, e.shard ≠ replacing ∧ e.start_ts < max_ts) →
      optimize_scan shard replacing max_ts (pre ++ rest) i start 0 0 =
        optimize_scan shard replacing max_ts rest (i + pre.length) start 0 0 := by
  intro pre
  induction pre with
  | nil =>
    intro rest i start _
    rfl
  | cons e pre ih =>
    intro rest i start h
    obtain ⟨h1, h2⟩ := h e (List.mem_cons_self _ _)
    simp only [List.cons_append, optimize_scan, h2, if_true, h1, if_false, ne_eq,
      not_true_eq_false, and_false, List.length_cons, List.append_eq]
    rw [ih rest (i + 1) start (fun a ha => h a (List.mem_cons_of_mem _ ha))]
    congr 1
    omega

/-- The first loop over entries at or beyond `max_ts`, or of other shards: nothing
changes. -/
theorem optimize_scan_post (shard replacing max_ts : Nat) :
    ∀ (post : List idx_num32_t) (i start end_ size : Nat),
      (∀ e ∈ post, max_ts ≤ e.start_ts ∨ (e.shard ≠ replacing ∧ e.shard ≠ shard)) →
      optimize_scan shard replacing max_ts post i start end_ size = (start, end_, size) := by
  intro post
  induction post with
  | nil =>
    intro i start end_ size _
    rfl
  | cons e post ih =>
    intro i start end_ size h
    by_cases hts : e.start_ts < max_ts
    · rcases h e (List.mem_cons_self _ _) with h1 | ⟨h1, h2⟩
      · omega
      · simp only [optimize_scan, hts, if_true, h1, if_false, h2, false_and]
        exact ih (i + 1) start end_ size (fun a ha => h a (List.mem_cons_of_mem _ ha))
    · simp only [optimize_scan, hts, if_false]

/-- Writing a slot of a block: the slots up to and with it are the old ones before it
and the new value. -/
theorem take_succ_set (l : List idx_num32_t) (s : Nat) (e : idx_num32_t)
    (h : s < l.length) : (l.set s e).take (s + 1) = l.take s ++ [e] := by
  rw [List.set_eq_take_append_cons_drop, if_pos h, List.take_append_eq_append_take]
  simp [List.length_take, Nat.min_eq_left (Nat.le_of_lt h)]

/-- The loop that moves the entries after the range down over the slots left: the
first `len` slots afterwards are the slots before `start` and the entries from
`start + i` on. -/
theorem optimize_shift_spec (i len : Nat) :
    ∀ (n start : Nat) (idx : List idx_num32_t), n = len - start → start ≤ len →
      len + i ≤ idx.length →
      ∃ r, optimize_shift i len n start idx = some r ∧
        r.take len = idx.take start ++ (idx.drop (start + i)).take (len - start) := by
  intro n
  induction n with
  | zero =>
    intro start idx hn hle _
    have hs : start = len := by omega
    subst hs
    refine ⟨idx, ?_, ?_⟩
    · simp only [optimize_shift, Nat.lt_irrefl, if_false]
    · simp
  | succ n ih =>
    intro start idx hn hle hlen
    have hlt : start < len := by omega
    have hget : start + i < idx.length := by omega
    obtain ⟨r, h1, h2⟩ := ih (start + 1) (idx.set start idx[start + i]) (by omega) (by omega)
      (by rw [List.length_set]; exact hlen)
    refine ⟨r, ?_, ?_⟩
    · simp only [optimize_shift, hlt, if_true, List.getElem?_eq_getElem hget]
      exact h1
    · rw [h2, take_succ_set _ _ _ (by omega), List.drop_set, if_pos (by omega)]
      have hd : idx.drop (start + i) = idx[start + i] :: idx.drop (start + i + 1) :=
        List.drop_eq_getElem_cons hget
      have hl : len - start = (len - (start + 1)) + 1 := by omega
      rw [hd, hl, List.take_succ_cons]
      have ha : start + 1 + i = start + i + 1 := by omega
      rw [ha]
      simp

/-- The sum of `len` over two lists of entries. -/
theorem sum_len_append (a b : List idx_num32_t) :
    sum_len (a ++ b) = sum_len a + sum_len b := by
  simp [sum_len]

/-- The sum of `len` over entries of at most `m` points each. -/
theorem sum_len_le (mid : List idx_num32_t) (m : Nat) (h : ∀ e ∈ mid, e.len ≤ m) :
    sum_len mid ≤ mid.length * m := by
  induction mid with
  | nil => simp [sum_len]
  | cons e mid ih =>
    have h1 := h e (List.mem_cons_self _ _)
    have h2 := ih (fun a ha => h a (List.mem_cons_of_mem _ ha))
    have hs : sum_len (e :: mid) = e.len + sum_len mid := by simp [sum_len]
    rw [hs, List.length_cons, Nat.add_mul, Nat.one_mul]
    omega

/-- The sum of `len` over entries of at least one point each. -/
theorem sum_len_ge (mid : List idx_num32_t) (h : ∀ e ∈ mid, 1 ≤ e.len) :
    mid.length ≤ sum_len mid := by
  induction mid with
  | nil => simp [sum_len]
  | cons e mid ih =>
    have h1 := h e (List.mem_cons_self _ _)
    have h2 := ih (fun a ha => h a (List.mem_cons_of_mem _ ha))
    have hs : sum_len (e :: mid) = e.len + sum_len mid := by simp [sum_len]
    rw [hs, List.length_cons]
    omega

/-- What the map holds under the id added last. -/
theorem imap32_get_add {α : Type} (map : List (Nat × α)) (id : Nat) (data : α) :
    imap32_get (imap32_add map id data) id = some data := by
  simp [imap32_add, imap32_get]

/-- Adding under one id leaves what the map holds under the other ids. -/
theorem imap32_get_add_ne {α : Type} (map : List (Nat × α)) (id k : Nat) (data : α)
    (h : id ≠ k) : imap32_get (imap32_add map id data) k = imap32_get map k := by
  simp [imap32_add, imap32_get, h]

/-- What `SERIES_new` returns case by case: a series only when both `malloc` calls
succeed, the name is terminated and the shard mask is not `0`. -/
theorem SERIES_new_cases (env : series_new_env) (siridb : siridb_t) (id tp : Nat)
    (sn : List Int) (res : SERIES_new_result)
    (h : SERIES_new env siridb id tp sn = some res) :
    (res = .null ∧ env.malloc_series_ok = false) ∨
    (∃ n, env.malloc_series_ok = true ∧ pool_sn_sum 0 sn = some n ∧
      (if tp = SIRIDB_SERIES_TP_STRING then siridb.shard_mask_log
        else siridb.shard_mask_num) ≠ 0 ∧
      ((res = .freed ∧ env.malloc_index_ok = false) ∨
       (env.malloc_index_ok = true ∧ res = .series
          { id := id, tp := tp, ref := 1, length := 0, start := UINT64_MAX, end_ := 0
            mask := ((n / 11) % (if tp = SIRIDB_SERIES_TP_STRING then siridb.shard_mask_log
              else siridb.shard_mask_num)) % UINT16_MOD
            buffer := none
            index := { has_overlap := 0, idx := [] } }))) := by
  unfold SERIES_new at h
  by_cases h1 : env.malloc_series_ok = true
  · rw [if_pos h1] at h
    cases hs : pool_sn_sum 0 sn with
    | none => rw [hs] at h; cases h
    | some n =>
      rw [hs] at h
      dsimp only at h
      by_cases h2 : (if tp = SIRIDB_SERIES_TP_STRING then siridb.shard_mask_log
          else siridb.shard_mask_num) = 0
      · rw [if_pos h2] at h; cases h
      · rw [if_neg h2] at h
        refine Or.inr ⟨n, h1, rfl, h2, ?_⟩
        by_cases h3 : env.malloc_index_ok = true
        · rw [if_pos h3] at h
          cases h
          exact Or.inr ⟨h3, rfl⟩
        · rw [if_neg h3] at h
          cases h
          exact Or.inl ⟨rfl, by simpa using h3⟩
  · rw [if_neg h1] at h
    cases h
    exact Or.inl ⟨rfl, by simpa using h1⟩

/-- What `siridb_series_new` leaves of the catalog: the trie `siridb->series` is not
touched, and a series returned has been added to `siridb->series_map`. -/
theorem series_new_catalog (env : series_new_env) (siridb : siridb_t)
    (series_name : List Int) (tp : Nat) (r : series_new_result)
    (h : siridb_series_new env siridb series_name tp = some r) :
    r.siridb.series = siridb.series ∧
    (∀ s, r.series = some s →
      r.siridb.series_map = imap32_add siridb.series_map s.id s) ∧
    (r.series = none → r.siridb.series_map = siridb.series_map) ∧
    (r.buffer_requested = true → tp ≠ SIRIDB_SERIES_TP_STRING) ∧
    (∀ s, r.series = some s →
      (r.buffer_requested = true ↔ tp ≠ SIRIDB_SERIES_TP_STRING) ∧
      (tp = SIRIDB_SERIES_TP_STRING → s.buffer = none)) ∧
    (tp ≠ SIRIDB_SERIES_TP_STRING → env.malloc_series_ok = true → env.store_fail = none →
      r.buffer_requested = true) := by
  unfold siridb_series_new at h
  cases hlen : strlen series_name with
  | none => rw [hlen] at h; cases h
  | some len =>
    rw [hlen] at h
    dsimp only at h
    cases hnew : SERIES_new env
        { siridb with max_series_id := (siridb.max_series_id + 1) % UINT32_MOD }
        ((siridb.max_series_id + 1) % UINT32_MOD) tp series_name with
    | none => rw [hnew] at h; cases h
    | some res =>
      rw [hnew] at h
      cases res with
      | null =>
        cases h
        refine ⟨rfl, (fun s hs => by cases hs), fun _ => rfl, (fun hb => by cases hb),
          (fun s hs => by cases hs), fun _ hm _ => ?_⟩
        rcases SERIES_new_cases _ _ _ _ _ _ hnew with ⟨-, hf⟩ | ⟨n, -, -, -, ⟨hf, -⟩ | ⟨-, hf⟩⟩
        · rw [hm] at hf
          cases hf
        · cases hf
        · cases hf
      | freed => cases h
      | series series =>
        have hbuf : series.buffer = none := by
          rcases SERIES_new_cases _ _ _ _ _ _ hnew with ⟨hf, -⟩ | ⟨n, -, -, -, ⟨hf, -⟩ | ⟨-, hf⟩⟩
          · cases hf
          · cases hf
          · cases hf
            rfl
        dsimp only at h
        cases hfail : env.store_fail with
        | some k =>
          rw [hfail] at h
          cases h
          exact ⟨rfl, (fun s hs => by cases hs), fun _ => rfl, (fun hb => by cases hb),
            (fun s hs => by cases hs), (fun _ _ hf => by cases hf)⟩
        | none =>
          rw [hfail] at h
          dsimp only at h
          by_cases htp : tp = SIRIDB_SERIES_TP_STRING
          · rw [if_neg (not_not.mpr htp)] at h
            cases h
            refine ⟨rfl, fun s hs => ?_, (fun hn => by cases hn), (fun hb => by cases hb),
              fun s hs => ?_, fun hne => absurd htp hne⟩
            · cases hs
              rfl
            · cases hs
              exact ⟨⟨(fun hb => by cases hb), fun hne => absurd htp hne⟩, fun _ => hbuf⟩
          · rw [if_pos htp] at h
            split at h
            · cases h
              exact ⟨rfl, (fun s hs => by cases hs), fun _ => rfl, fun _ => htp,
                (fun s hs => by cases hs), fun _ _ _ => rfl⟩
            · cases h
              refine ⟨rfl, fun s hs => ?_, (fun hn => by cases hn), fun _ => htp,
                fun s hs => ?_, fun _ _ _ => rfl⟩
              · cases hs
                rfl
              · cases hs
                exact ⟨⟨fun _ => htp, fun _ => rfl⟩, fun he => absurd he htp⟩

/-- C21, as stated, fails: the call succeeds and the series is in the map
`siridb->series_map` under its id, but the trie `siridb->series` is as empty as it
was, and holds nothing under the name. -/
theorem series_new_not_in_trie :
    ∃ r s, siridb_series_new env_ok empty_db [97, 0] 0 = some r ∧ r.series = some s ∧
      imap32_get r.siridb.series_map s.id = some s ∧
      r.siridb.series = [] ∧ ct_get r.siridb.series [97] = none := by
  have e : siridb_series_new env_ok empty_db [97, 0] 0 =
      some ((siridb_series_new env_ok empty_db [97, 0] 0).get (by decide)) := by simp
  obtain ⟨h1, h2, -⟩ := series_new_catalog _ _ _ _ _ e
  have hs : ((siridb_series_new env_ok empty_db [97, 0] 0).get (by decide)).series ≠ none := by
    decide
  obtain ⟨s, hs⟩ := Option.ne_none_iff_exists'.mp hs
  refine ⟨_, s, e, hs, ?_, h1, ?_⟩
  · rw [h2 s hs]
    exact imap32_get_add _ _ _
  · rw [h1]
    rfl

/-- C21, amended: after a successful `siridb_series_new` the series returned is in the
map `siridb->series_map` under its id; the trie `siridb->series` is left as it was,
so a name it did not hold is not in it (the caller is to add the series there). -/
theorem series_new_in_map (env : series_new_env) (siridb : siridb_t)
    (series_name : List Int) (tp : Nat) (r : series_new_result) (s : siridb_series_t)
    (h : siridb_series_new env siridb series_name tp = some r) (hs : r.series = some s) :
    imap32_get r.siridb.series_map s.id = some s ∧
    r.siridb.series = siridb.series ∧
    (∀ key, ct_get r.siridb.series key = ct_get siridb.series key) := by
  obtain ⟨h1, h2, -⟩ := series_new_catalog env siridb series_name tp r h
  refine ⟨?_, h1, fun key => by rw [h1]⟩
  rw [h2 s hs]
  exact imap32_get_add _ _ _

theorem series_new_in_map_witness :
    ∃ r s, siridb_series_new env_ok db_with_b [97, 0] 0 = some r ∧ r.series = some s ∧
      imap32_get r.siridb.series_map s.id = some s ∧
      ct_get r.siridb.series [97] = none ∧ ct_get r.siridb.series [98] ≠ none := by
  have e : siridb_series_new env_ok db_with_b [97, 0] 0 =
      some ((siridb_series_new env_ok db_with_b [97, 0] 0).get (by decide)) := by simp
  have hs : ((siridb_series_new env_ok db_with_b [97, 0] 0).get (by decide)).series ≠ none := by
    decide
  obtain ⟨s, hs⟩ := Option.ne_none_iff_exists'.mp hs
  obtain ⟨h1, -, h3⟩ := series_new_in_map env_ok db_with_b [97, 0] 0 _ s e hs
  refine ⟨_, s, e, hs, h1, ?_, ?_⟩
  · rw [h3]
    decide
  · rw [h3]
    decide

/-! ## The mask and the buffer of a new series -/

/-- The loop over the name has a result only on a block that holds a NUL. -/
theorem pool_sn_sum_mem : ∀ (sn : List Int) (n m : Nat),
    pool_sn_sum n sn = some m → (0 : Int) ∈ sn := by
  intro sn
  induction sn with
  | nil =>
    intro n m h
    cases h
  | cons c rest ih =>
    intro n m h
    by_cases hc : c = 0
    · rw [hc]
      exact List.mem_cons_self _ _
    · simp only [pool_sn_sum, hc, if_false] at h
      exact List.mem_cons_of_mem _ (ih _ _ h)

/-- The mask `SERIES_new` gives a series: the 32-bit sum of the chars of the name,
divided by `11`, modulo the shard mask of the type, as a 16-bit value. -/
theorem SERIES_new_mask (env : series_new_env) (siridb : siridb_t) (id tp : Nat)
    (sn : List Int) (s : siridb_series_t)
    (h : SERIES_new env siridb id tp sn = some (.series s)) :
    (if tp = SIRIDB_SERIES_TP_STRING then siridb.shard_mask_log
      else siridb.shard_mask_num) ≠ 0 ∧
    s.mask = ((((cstr_chars sn).sum % (UINT32_MOD : Int)).toNat / 11) %
      (if tp = SIRIDB_SERIES_TP_STRING then siridb.shard_mask_log
        else siridb.shard_mask_num)) % UINT16_MOD := by
  rcases SERIES_new_cases _ _ _ _ _ _ h with ⟨hf, -⟩ | ⟨n, -, hsum, hmask, ⟨hf, -⟩ | ⟨-, hf⟩⟩
  · cases hf
  · cases hf
  · cases hf
    refine ⟨hmask, ?_⟩
    have h0 := pool_sn_sum_mem _ _ _ hsum
    have hs := pool_sn_sum_eq sn h0 0
    have hz : ((0 : Int) % (UINT32_MOD : Int)).toNat = 0 := by simp
    rw [hz, hsum, Int.zero_add] at hs
    cases hs
    rfl

/-- C22, as stated, fails: the name `"café"` holds the bytes `99, 97, 102, 195, 169`,
of which the signed `char` of the source reads the last two as `-61` and `-87`. The
sum of the bytes is `662`, and `(662 / 11) mod 16 = 12`; the loop of `SERIES_new`
adds the chars, `150` in all, and the mask is `(150 / 11) mod 16 = 13`. -/
theorem series_new_mask_signed_char :
    spec_byte_sum cafe = 662 ∧
    (spec_byte_sum cafe / 11) % empty_db.shard_mask_num = 12 ∧
    pool_sn_sum 0 cafe = some 150 ∧
    SERIES_new env_ok empty_db 1 0 cafe = some (.series
      { id := 1, tp := 0, ref := 1, length := 0, start := UINT64_MAX, end_ := 0, mask := 13
        buffer := none, index := ⟨0, []⟩ }) := by
  decide

/-- C22, amended: a series constructed by `SERIES_new` has
`mask = (n / 11) mod shard_mask`, where `n` is the sum of the chars of the name as the
32-bit loop adds them (a char above 127 as a byte counting with its negative value)
and `shard_mask` is `shard_mask_log` for the string type and `shard_mask_num`
otherwise (the value is stored in 16 bits); with a sum below `2^32` and a shard mask
in 16 bits this is `(sum / 11) mod shard_mask`. The mask is smaller than the shard
mask used, and two series with the same chars in the name and the same type class
get the same mask. For a name of bytes up to 127 whose byte values add up to less
than `2^32`, with a shard mask in 16 bits, the mask is
`((sum of the bytes) / 11) mod shard_mask`. -/
theorem series_new_mask (env : series_new_env) (siridb : siridb_t) (id tp : Nat)
    (sn : List Int) (s : siridb_series_t)
    (h : SERIES_new env siridb id tp sn = some (.series s)) :
    s.mask = ((((cstr_chars sn).sum % (UINT32_MOD : Int)).toNat / 11) %
      (if tp = SIRIDB_SERIES_TP_STRING then siridb.shard_mask_log
        else siridb.shard_mask_num)) % UINT16_MOD ∧
    (0 ≤ (cstr_chars sn).sum → (cstr_chars sn).sum < (UINT32_MOD : Int) →
      (if tp = SIRIDB_SERIES_TP_STRING then siridb.shard_mask_log
        else siridb.shard_mask_num) ≤ UINT16_MOD →
      s.mask = ((cstr_chars sn).sum.toNat / 11) %
        (if tp = SIRIDB_SERIES_TP_STRING then siridb.shard_mask_log
          else siridb.shard_mask_num)) ∧
    s.mask < (if tp = SIRIDB_SERIES_TP_STRING then siridb.shard_mask_log
      else siridb.shard_mask_num) ∧
    (∀ (env1 : series_new_env) (id1 tp1 : Nat) (sn1 : List Int) (s1 : siridb_series_t),
      cstr_chars sn1 = cstr_chars sn →
      (tp1 = SIRIDB_SERIES_TP_STRING ↔ tp = SIRIDB_SERIES_TP_STRING) →
      SERIES_new env1 siridb id1 tp1 sn1 = some (.series s1) → s1.mask = s.mask) ∧
    ((∀ c ∈ cstr_chars sn, 0 ≤ c ∧ c ≤ 127) → spec_byte_sum sn < UINT32_MOD →
      (if tp = SIRIDB_SERIES_TP_STRING then siridb.shard_mask_log
        else siridb.shard_mask_num) ≤ UINT16_MOD →
      s.mask = (spec_byte_sum sn / 11) %
        (if tp = SIRIDB_SERIES_TP_STRING then siridb.shard_mask_log
          else siridb.shard_mask_num)) := by
  obtain ⟨hne, hmask⟩ := SERIES_new_mask env siridb id tp sn s h
  generalize hm : (if tp = SIRIDB_SERIES_TP_STRING then siridb.shard_mask_log
    else siridb.shard_mask_num) = m at hne hmask ⊢
  have hlt : ∀ x : Nat, x % m % UINT16_MOD < m :=
    fun x => Nat.lt_of_le_of_lt (Nat.mod_le _ _) (Nat.mod_lt _ (Nat.pos_of_ne_zero hne))
  have hplain : 0 ≤ (cstr_chars sn).sum → (cstr_chars sn).sum < (UINT32_MOD : Int) →
      m ≤ UINT16_MOD → s.mask = ((cstr_chars sn).sum.toNat / 11) % m := by
    intro h0 h32 h16
    rw [hmask, Int.emod_eq_of_lt h0 h32]
    apply Nat.mod_eq_of_lt
    exact Nat.lt_of_lt_of_le (Nat.mod_lt _ (Nat.pos_of_ne_zero hne)) h16
  refine ⟨hmask, hplain, ?_, ?_, ?_⟩
  rotate_left 2
  · intro hascii h32 h16
    have hsum := spec_byte_sum_ascii sn hascii
    have h1 := hplain (by rw [← hsum]; exact Int.natCast_nonneg _)
      (by rw [← hsum]; exact_mod_cast h32) h16
    rw [h1, ← hsum, Int.toNat_natCast]
  · rw [hmask]
    exact hlt _
  · intro env1 id1 tp1 sn1 s1 hchars htp h1
    obtain ⟨-, hmask1⟩ := SERIES_new_mask env1 siridb id1 tp1 sn1 s1 h1
    have hm1 : (if tp1 = SIRIDB_SERIES_TP_STRING then siridb.shard_mask_log
        else siridb.shard_mask_num) = m := by
      rw [← hm]
      by_cases ht : tp = SIRIDB_SERIES_TP_STRING
      · rw [if_pos ht, if_pos (htp.mpr ht)]
      · rw [if_neg ht, if_neg (fun h => ht (htp.mp h))]
    rw [hmask1, hmask, hm1, hchars]

theorem series_new_mask_witness :
    ∃ s, SERIES_new env_ok empty_db 1 0 cpu_load = some (.series s) ∧ s.mask = 7 ∧
      s.mask = (790 / 11) % 16 ∧ s.mask < 16 ∧
      s.mask = (spec_byte_sum cpu_load / 11) % 16 := by
  have e : SERIES_new env_ok empty_db 1 0 cpu_load = some (.series
      { id := 1, tp := 0, ref := 1, length := 0, start := UINT64_MAX, end_ := 0, mask := 7
        buffer := none, index := ⟨0, []⟩ }) := by decide
  obtain ⟨-, h2, h3, -, h5⟩ := series_new_mask env_ok empty_db 1 0 cpu_load _ e
  exact ⟨_, e, rfl, h2 (by decide) (by decide) (by decide), h3,
    h5 (by decide) (by decide) (by decide)⟩

/-- C23: a call of `siridb_series_new` calls `siridb_buffer_new_series` only for a type
other than string, and does call it for such a type once the series is allocated and
written to the store; so a series returned has had a buffer requested if and only if
its type is not string, and a string series has `buffer = NULL`. On a series without
buffer `siridb_series_add_point` makes no call on the buffer, changes `length`,
`start` and `end` only, and returns `0`. -/
theorem series_new_buffer (env : series_new_env) (siridb : siridb_t)
    (series_name : List Int) (tp : Nat) :
    (∀ r, siridb_series_new env siridb series_name tp = some r →
      (r.buffer_requested = true → tp ≠ SIRIDB_SERIES_TP_STRING) ∧
      (tp ≠ SIRIDB_SERIES_TP_STRING → env.malloc_series_ok = true →
        env.store_fail = none → r.buffer_requested = true) ∧
      (∀ s, r.series = some s →
        (r.buffer_requested = true ↔ tp ≠ SIRIDB_SERIES_TP_STRING) ∧
        (tp = SIRIDB_SERIES_TP_STRING → s.buffer = none))) ∧
    (∀ (ops : buffer_ops) (db : siridb_t) (series : siridb_series_t) (ts val : Nat),
      series.buffer = none →
      siridb_series_add_point ops db series ts val =
        { rc := 0
          series := { series with
            length := (series.length + 1) % UINT64_MOD
            start := if ts < series.start then ts else series.start
            end_ := if ts > series.end_ then ts else series.end_ }
          calls := [], err_file := false }) := by
  refine ⟨fun r h => ?_, ?_⟩
  · obtain ⟨-, -, -, h4, h5, h6⟩ := series_new_catalog env siridb series_name tp r h
    exact ⟨h4, h6, h5⟩
  · intro ops db series ts val hb
    unfold siridb_series_add_point add_point_props
    simp only [hb]

theorem series_new_buffer_witness :
    (∃ r s, siridb_series_new env_ok empty_db [97, 0] 0 = some r ∧ r.series = some s ∧
      r.buffer_requested = true ∧ s.buffer ≠ none) ∧
    (∃ r s, siridb_series_new env_ok empty_db [97, 0] SIRIDB_SERIES_TP_STRING = some r ∧
      r.series = some s ∧ r.buffer_requested = false ∧ s.buffer = none ∧
      (siridb_series_add_point ops_ok empty_db s 10 1).rc = 0 ∧
      (siridb_series_add_point ops_ok empty_db s 10 1).calls = [] ∧
      (siridb_series_add_point ops_ok empty_db s 10 1).series.length = s.length + 1) := by
  constructor
  · have e : siridb_series_new env_ok empty_db [97, 0] 0 =
        some ((siridb_series_new env_ok empty_db [97, 0] 0).get (by decide)) := by simp
    have hs : ((siridb_series_new env_ok empty_db [97, 0] 0).get (by decide)).series =
        some { id := 1, tp := 0, ref := 1, length := 0, start := UINT64_MAX, end_ := 0
               mask := 8, buffer := some ⟨⟨0, []⟩⟩, index := ⟨0, []⟩ } := by decide
    obtain ⟨-, h2, h3⟩ := (series_new_buffer env_ok empty_db [97, 0] 0).1 _ e
    exact ⟨_, _, e, hs, h2 (by decide) rfl rfl, by decide⟩
  · have e : siridb_series_new env_ok empty_db [97, 0] SIRIDB_SERIES_TP_STRING =
        some ((siridb_series_new env_ok empty_db [97, 0] SIRIDB_SERIES_TP_STRING).get
          (by decide)) := by simp
    have hs : ((siridb_series_new env_ok empty_db [97, 0] SIRIDB_SERIES_TP_STRING).get
        (by decide)).series ≠ none := by decide
    obtain ⟨s, hs⟩ := Option.ne_none_iff_exists'.mp hs
    obtain ⟨-, -, h3⟩ := (series_new_buffer env_ok empty_db [97, 0]
      SIRIDB_SERIES_TP_STRING).1 _ e
    obtain ⟨h4, h5⟩ := h3 s hs
    have hb := h5 rfl
    have hadd := (series_new_buffer env_ok empty_db [97, 0] SIRIDB_SERIES_TP_STRING).2
      ops_ok empty_db s 10 1 hb
    refine ⟨_, s, e, hs, ?_, hb, ?_, ?_, ?_⟩
    · cases hr : ((siridb_series_new env_ok empty_db [97, 0] SIRIDB_SERIES_TP_STRING).get
          (by decide)).buffer_requested with
      | false => rfl
      | true => exact absurd rfl (h4.mp hr)
    · rw [hadd]
    · rw [hadd]
    · have hlen : ((siridb_series_new env_ok empty_db [97, 0] SIRIDB_SERIES_TP_STRING).get
          (by decide)).series.map (fun x => x.length) = some 0 := by decide
      rw [hs] at hlen
      have hl : s.length = 0 := Option.some.inj hlen
      rw [hadd]
      show (s.length + 1) % UINT64_MOD = s.length + 1
      rw [hl]
      rfl

/-! ## The file `.max_series_id` -/

/-- The value the file `.max_series_id` stores: its first word, and `0` without a
file. -/
theorem max_id_read_spec (env : max_id_env) (siridb : siridb_t) (file : Option (List Nat))
    (m : Nat) (db : siridb_t) (h : max_id_read env siridb file = some (m, db)) :
    m = (file.bind List.head?).getD 0 ∧
    db = { siridb with max_series_id := max siridb.max_series_id m } ∧
    (file ≠ none → file.bind List.head? = some m) := by
  unfold max_id_read at h
  split at h
  · cases h
    refine ⟨rfl, ?_, fun hf => absurd rfl hf⟩
    simp
  · cases h
  · rename_i w rest
    split at h
    · cases h
    · split at h
      · cases h
      · split at h
        · rename_i hgt
          cases h
          refine ⟨rfl, ?_, fun _ => rfl⟩
          rw [Nat.max_eq_right (Nat.le_of_lt hgt)]
        · rename_i hle
          cases h
          refine ⟨rfl, ?_, fun _ => rfl⟩
          rw [Nat.max_eq_left (by omega)]

/-- C25: after a successful `SERIES_update_max_id` the in-memory `max_series_id` is the
larger of its previous value and the value stored in `.max_series_id` (`0` without
a file); the file is rewritten exactly when its old value is smaller than that
maximum, and then holds exactly the in-memory value, so that afterwards the file,
when it exists, stores the in-memory `max_series_id`. On every path the in-memory
value is not lowered. -/
theorem update_max_id_spec (env : max_id_env) (siridb : siridb_t)
    (file : Option (List Nat)) :
    siridb.max_series_id ≤ (SERIES_update_max_id env siridb file).siridb.max_series_id ∧
    ((SERIES_update_max_id env siridb file).rc = 0 →
      (SERIES_update_max_id env siridb file).siridb =
        { siridb with
          max_series_id := max siridb.max_series_id ((file.bind List.head?).getD 0) } ∧
      ((SERIES_update_max_id env siridb file).rewritten = true ↔
        (file.bind List.head?).getD 0 <
          max siridb.max_series_id ((file.bind List.head?).getD 0)) ∧
      ((SERIES_update_max_id env siridb file).rewritten = true →
        (SERIES_update_max_id env siridb file).file =
          some [(SERIES_update_max_id env siridb file).siridb.max_series_id]) ∧
      ((SERIES_update_max_id env siridb file).rewritten = false →
        (SERIES_update_max_id env siridb file).file = file) ∧
      ((SERIES_update_max_id env siridb file).file ≠ none →
        (SERIES_update_max_id env siridb file).file.bind List.head? =
          some (SERIES_update_max_id env siridb file).siridb.max_series_id)) := by
  unfold SERIES_update_max_id
  cases hr : max_id_read env siridb file with
  | none =>
    dsimp only
    exact ⟨Nat.le_refl _, fun h => by cases h⟩
  | some p =>
    obtain ⟨m, db⟩ := p
    obtain ⟨hm, hdb, hfile⟩ := max_id_read_spec env siridb file m db hr
    rw [← hm]
    dsimp only
    have hmax : db.max_series_id = max siridb.max_series_id m := by rw [hdb]
    by_cases hlt : m < db.max_series_id
    · rw [if_pos hlt]
      by_cases hopen : env.fopen_write_ok = false
      · rw [if_pos hopen]
        dsimp only
        refine ⟨?_, fun h => by cases h⟩
        rw [hmax]
        exact Nat.le_max_left _ _
      · rw [if_neg hopen]
        dsimp only
        refine ⟨(by rw [hmax]; exact Nat.le_max_left _ _), fun hrc => ?_⟩
        have hok : env.fwrite_ok = true ∧ env.fclose_write_ok = true := by
          by_contra hcon
          rw [if_neg hcon] at hrc
          cases hrc
        refine ⟨hdb, ⟨(fun _ => by rw [← hmax]; exact hlt), fun _ => rfl⟩, fun _ => ?_,
          (fun h => by cases h), fun _ => ?_⟩
        · rw [if_pos hok.1]
        · rw [if_pos hok.1]
          rfl
    · rw [if_neg hlt]
      dsimp only
      refine ⟨(by rw [hmax]; exact Nat.le_max_left _ _), fun _ => ?_⟩
      refine ⟨hdb, ⟨(fun h => by cases h), fun h => ?_⟩, (fun h => by cases h), fun _ => rfl,
        fun hne => ?_⟩
      · rw [← hmax] at h
        exact absurd h hlt
      · rw [hfile hne, hmax]
        congr 1
        have : m ≤ max siridb.max_series_id m := Nat.le_max_right _ _
        rw [← hmax] at this ⊢
        omega

theorem update_max_id_spec_witness :
    (SERIES_update_max_id max_id_env_ok { buffer_len := 4, max_series_id := 3 } none).rc = 0 ∧
    (SERIES_update_max_id max_id_env_ok { buffer_len := 4, max_series_id := 3 } none).file =
      some [3] ∧
    (SERIES_update_max_id max_id_env_ok { buffer_len := 4, max_series_id := 1 }
      (some [3])).siridb.max_series_id = 3 ∧
    (SERIES_update_max_id max_id_env_ok { buffer_len := 4, max_series_id := 1 }
      (some [3])).rewritten = false := by
  have h1 := (update_max_id_spec max_id_env_ok { buffer_len := 4, max_series_id := 3 }
    none).2 (by decide)
  have h2 := (update_max_id_spec max_id_env_ok { buffer_len := 4, max_series_id := 1 }
    (some [3])).2 (by decide)
  refine ⟨by decide, ?_, ?_, ?_⟩
  · rw [h1.2.2.1 (h1.2.1.mpr (by decide)), h1.1]
    rfl
  · rw [h2.1]
    rfl
  · cases hr : (SERIES_update_max_id max_id_env_ok { buffer_len := 4, max_series_id := 1 }
        (some [3])).rewritten with
    | false => rfl
    | true => exact absurd (h2.2.1.mp hr) (by decide)

/-! ## The trie and the map of the catalog -/

/-- What the trie holds under a key it did not hold, after the key is inserted. -/
theorem ct_get_insert {α : Type} (key : List Int) (data : α) :
    ∀ trie : List (List Int × α), ct_get trie key = none →
      ct_get (ct_insert key data trie) key = some data := by
  intro trie
  induction trie with
  | nil =>
    intro _
    simp [ct_insert, ct_get]
  | cons p trie ih =>
    intro h
    obtain ⟨k, d⟩ := p
    have hk : k ≠ key := by
      intro hk
      simp [ct_get, hk] at h
    have hrest : ct_get trie key = none := by
      simpa [ct_get, hk] using h
    by_cases hle : ct_key_le key k = true
    · simp [ct_insert, hle, ct_get]
    · simp [ct_insert, hle, ct_get, hk, ih hrest]

/-- Inserting a key leaves what the trie holds under the other keys. -/
theorem ct_get_insert_ne {α : Type} (key k : List Int) (data : α) (hne : key ≠ k) :
    ∀ trie : List (List Int × α),
      ct_get (ct_insert key data trie) k = ct_get trie k := by
  intro trie
  induction trie with
  | nil => simp [ct_insert, ct_get, hne]
  | cons p trie ih =>
    obtain ⟨k1, d⟩ := p
    by_cases hle : ct_key_le key k1 = true
    · simp [ct_insert, hle, ct_get, hne]
    · by_cases hk : k1 = k
      · subst hk
        simp [ct_insert, hle, ct_get]
      · simp [ct_insert, hle, ct_get, hk, ih]

/-- What the trie holds after `ct_add`: under the key added what it held before, or
the new data when it held nothing; under the other keys what it held before. -/
theorem ct_get_add {α : Type} (trie : List (List Int × α)) (key k : List Int) (data : α) :
    ct_get (ct_add trie key data) k =
      if k = key then (match ct_get trie key with
        | some d => some d
        | none => some data)
      else ct_get trie k := by
  unfold ct_add
  cases hg : ct_get trie key with
  | some d =>
    dsimp only
    by_cases hk : k = key
    · rw [if_pos hk, hk, hg]
    · rw [if_neg hk]
  | none =>
    dsimp only
    by_cases hk : k = key
    · rw [if_pos hk, hk]
      exact ct_get_insert key data trie hg
    · rw [if_neg hk]
      exact ct_get_insert_ne key k data (fun h => hk h.symm) trie

/-- What the map holds after `imap32_add`. -/
theorem imap32_get_add_eq {α : Type} (map : List (Nat × α)) (id k : Nat) (data : α) :
    imap32_get (imap32_add map id data) k =
      if k = id then some data else imap32_get map k := by
  by_cases hk : k = id
  · rw [if_pos hk, hk]
    exact imap32_get_add _ _ _
  · rw [if_neg hk]
    exact imap32_get_add_ne _ _ _ _ (fun h => hk h.symm)

/-! ## The loop of `SERIES_load` -/

/-- The series `SERIES_new` returns when both `malloc` calls succeed, the name is
terminated and the shard mask is not `0`. -/
theorem SERIES_new_ok (env : series_new_env) (siridb : siridb_t) (id tp : Nat)
    (sn : List Int) (h1 : env.malloc_series_ok = true) (h2 : env.malloc_index_ok = true)
    (h0 : (0 : Int) ∈ sn) (hm : shard_mask_of siridb tp ≠ 0) :
    SERIES_new env siridb id tp sn = some (.series
      { id := id, tp := tp, ref := 1, length := 0, start := UINT64_MAX, end_ := 0
        mask := (((pool_sn_sum 0 sn).getD 0 / 11) % shard_mask_of siridb tp) % UINT16_MOD
        buffer := none
        index := { has_overlap := 0, idx := [] } }) := by
  have hs := pool_sn_sum_eq sn h0 0
  have hz : ((0 : Int) % (UINT32_MOD : Int)).toNat = 0 := by simp
  rw [hz] at hs
  unfold SERIES_new
  unfold shard_mask_of at hm ⊢
  rw [if_pos h1, hs]
  dsimp only
  rw [if_neg hm, if_pos h2]
  rfl

/-- Lines 926-932 of `SERIES_load` leave `max_series_id` at the larger value. -/
theorem load_max_id_eq (siridb : siridb_t) (id : Nat) :
    load_max_id siridb id = { siridb with max_series_id := max siridb.max_series_id id } := by
  unfold load_max_id
  by_cases h : id > siridb.max_series_id
  · rw [if_pos h, Nat.max_eq_right (Nat.le_of_lt h)]
  · rw [if_neg h, Nat.max_eq_left (by omega)]

/-- A round of the loop keeps the shard masks. -/
theorem load_one_masks (dropped : List (Nat × Nat)) (siridb : siridb_t)
    (record : series_record) (tp : Nat) :
    shard_mask_of (load_one dropped siridb record) tp = shard_mask_of siridb tp := by
  unfold load_one shard_mask_of
  rw [load_max_id_eq]
  cases imap32_get dropped record.id32 <;> rfl

/-- The series made for a record depends on the database through the shard masks
only. -/
theorem series_of_record_masks (a b : siridb_t) (record : series_record)
    (h : ∀ tp, shard_mask_of a tp = shard_mask_of b tp) :
    series_of_record a record = series_of_record b record := by
  unfold series_of_record
  rw [h]

/-- The rounds of the loop keep the shard masks. -/
theorem load_all_masks (dropped : List (Nat × Nat)) :
    ∀ (records : List series_record) (siridb : siridb_t) (tp : Nat),
      shard_mask_of (load_all dropped siridb records) tp = shard_mask_of siridb tp := by
  intro records
  induction records with
  | nil =>
    intro siridb tp
    rfl
  | cons r rest ih =>
    intro siridb tp
    show shard_mask_of (load_all dropped (load_one dropped siridb r) rest) tp = _
    rw [ih, load_one_masks]

/-- The loop of `SERIES_load` when every `malloc` succeeds, the names of the records
that are not dropped are terminated and their shard masks are not `0`: the rounds
are those of `load_one`, and `siri_err` is as before. -/
theorem SERIES_load_body_eq (env : Nat → series_new_env) (dropped : List (Nat × Nat))
    (henv : ∀ k, (env k).malloc_series_ok = true ∧ (env k).malloc_index_ok = true) :
    ∀ (records : List series_record) (k : Nat) (siridb : siridb_t) (siri_err : Bool),
      (∀ r ∈ live_records dropped records,
        (0 : Int) ∈ r.name ∧ shard_mask_of siridb r.tp8 ≠ 0) →
      SERIES_load_body env dropped k records siridb siri_err =
        some (load_all dropped siridb records, siri_err) := by
  intro records
  induction records with
  | nil =>
    intro k siridb siri_err _
    rfl
  | cons r rest ih =>
    intro k siridb siri_err h
    have hrest : ∀ x ∈ live_records dropped rest,
        (0 : Int) ∈ x.name ∧ shard_mask_of (load_one dropped siridb r) x.tp8 ≠ 0 := by
      intro x hx
      rw [load_one_masks]
      apply h x
      unfold live_records at hx ⊢
      rw [List.filter_cons]
      split
      · exact List.mem_cons_of_mem _ hx
      · exact hx
    show _ = some (load_all dropped (load_one dropped siridb r) rest, siri_err)
    unfold SERIES_load_body
    cases hd : imap32_get dropped r.id32 with
    | some v =>
      dsimp only
      rw [ih k _ siri_err (by
        have := hrest
        unfold load_one at this
        rw [hd] at this
        exact this)]
      unfold load_one
      rw [hd]
    | none =>
      have hr : r ∈ live_records dropped (r :: rest) := by
        unfold live_records
        rw [List.filter_cons, hd]
        exact List.mem_cons_self _ _
      obtain ⟨h0, hm⟩ := h r hr
      have hm1 : shard_mask_of (load_max_id siridb r.id32) r.tp8 ≠ 0 := by
        rw [load_max_id_eq]
        exact hm
      have hnew := SERIES_new_ok (env k) (load_max_id siridb r.id32) r.id32 r.tp8 r.name
        (henv k).1 (henv k).2 h0 hm1
      have hsame : shard_mask_of (load_max_id siridb r.id32) r.tp8 =
          shard_mask_of siridb r.tp8 := by
        rw [load_max_id_eq]
        rfl
      rw [hsame] at hnew
      dsimp only
      rw [hnew]
      dsimp only
      have hone : load_one dropped siridb r =
          { load_max_id siridb r.id32 with
            series := ct_add (load_max_id siridb r.id32).series (cstr_chars r.name)
              (series_of_record siridb r)
            series_map := imap32_add (load_max_id siridb r.id32).series_map r.id32
              (series_of_record siridb r) } := by
        unfold load_one
        rw [hd]
      rw [hone] at hrest ⊢
      exact ih (k + 1) _ siri_err hrest

/-- The records that are not dropped, record by record. -/
theorem live_records_cons (dropped : List (Nat × Nat)) (r : series_record)
    (rest : List series_record) :
    live_records dropped (r :: rest) =
      if imap32_get dropped r.id32 = none then r :: live_records dropped rest
      else live_records dropped rest := by
  unfold live_records
  rw [List.filter_cons]
  cases imap32_get dropped r.id32 <;> simp

/-- A round of the loop raises `max_series_id` to the id of the record. -/
theorem load_one_max (dropped : List (Nat × Nat)) (siridb : siridb_t) (r : series_record) :
    (load_one dropped siridb r).max_series_id = max siridb.max_series_id r.id32 := by
  unfold load_one
  rw [load_max_id_eq]
  cases imap32_get dropped r.id32 <;> rfl

/-- What the trie holds after a round of the loop. -/
theorem load_one_trie (dropped : List (Nat × Nat)) (siridb : siridb_t) (r : series_record)
    (k : List Int) :
    ct_get (load_one dropped siridb r).series k =
      if imap32_get dropped r.id32 = none ∧ k = cstr_chars r.name then
        (match ct_get siridb.series (cstr_chars r.name) with
          | some s => some s
          | none => some (series_of_record siridb r))
      else ct_get siridb.series k := by
  unfold load_one
  rw [load_max_id_eq]
  cases hd : imap32_get dropped r.id32 with
  | some v =>
    dsimp only
    rw [if_neg (fun h => by cases h.1)]
  | none =>
    dsimp only
    rw [ct_get_add]
    by_cases hk : k = cstr_chars r.name
    · rw [if_pos hk, if_pos ⟨rfl, hk⟩]
      cases ct_get siridb.series (cstr_chars r.name) <;> rfl
    · rw [if_neg hk, if_neg (fun h => hk h.2)]

/-- What the map holds after a round of the loop. -/
theorem load_one_map (dropped : List (Nat × Nat)) (siridb : siridb_t) (r : series_record)
    (id : Nat) :
    imap32_get (load_one dropped siridb r).series_map id =
      if imap32_get dropped r.id32 = none ∧ id = r.id32 then some (series_of_record siridb r)
      else imap32_get siridb.series_map id := by
  unfold load_one
  rw [load_max_id_eq]
  cases hd : imap32_get dropped r.id32 with
  | some v =>
    dsimp only
    rw [if_neg (fun h => by cases h.1)]
  | none =>
    dsimp only
    rw [imap32_get_add_eq]
    by_cases hk : id = r.id32
    · rw [if_pos hk, if_pos ⟨rfl, hk⟩]
    · rw [if_neg hk, if_neg (fun h => hk h.2)]

/-- After the loop `max_series_id` is the largest of its old value and the ids of all
records. -/
theorem load_all_max (dropped : List (Nat × Nat)) :
    ∀ (records : List series_record) (siridb : siridb_t),
      (load_all dropped siridb records).max_series_id =
        max siridb.max_series_id (max_id32 records) := by
  intro records
  induction records with
  | nil =>
    intro siridb
    show siridb.max_series_id = max siridb.max_series_id 0
    rw [Nat.max_eq_left (Nat.zero_le _)]
  | cons r rest ih =>
    intro siridb
    show (load_all dropped (load_one dropped siridb r) rest).max_series_id = _
    rw [ih, load_one_max]
    show _ = max siridb.max_series_id (max r.id32 (max_id32 rest))
    rw [Nat.max_assoc]

/-- The loop leaves what the trie holds under a key that is not the name of a record
that is not dropped, and what the map holds under an id that is not the id of
one. -/
theorem load_all_untouched (dropped : List (Nat × Nat)) :
    ∀ (records : List series_record) (siridb : siridb_t),
      (∀ key, (∀ r ∈ live_records dropped records, cstr_chars r.name ≠ key) →
        ct_get (load_all dropped siridb records).series key = ct_get siridb.series key) ∧
      (∀ id, (∀ r ∈ live_records dropped records, r.id32 ≠ id) →
        imap32_get (load_all dropped siridb records).series_map id =
          imap32_get siridb.series_map id) := by
  intro records
  induction records with
  | nil =>
    intro siridb
    exact ⟨fun _ _ => rfl, fun _ _ => rfl⟩
  | cons r rest ih =>
    intro siridb
    obtain ⟨i1, i2⟩ := ih (load_one dropped siridb r)
    rw [live_records_cons]
    constructor
    · intro key h
      show ct_get (load_all dropped (load_one dropped siridb r) rest).series key = _
      by_cases hd : imap32_get dropped r.id32 = none
      · rw [if_pos hd] at h
        rw [i1 key (fun x hx => h x (List.mem_cons_of_mem _ hx)), load_one_trie,
          if_neg (fun hc => h r (List.mem_cons_self _ _) hc.2.symm)]
      · rw [if_neg hd] at h
        rw [i1 key h, load_one_trie, if_neg (fun hc => hd hc.1)]
    · intro id h
      show imap32_get (load_all dropped (load_one dropped siridb r) rest).series_map id = _
      by_cases hd : imap32_get dropped r.id32 = none
      · rw [if_pos hd] at h
        rw [i2 id (fun x hx => h x (List.mem_cons_of_mem _ hx)), load_one_map,
          if_neg (fun hc => h r (List.mem_cons_self _ _) hc.2.symm)]
      · rw [if_neg hd] at h
        rw [i2 id h, load_one_map, if_neg (fun hc => hd hc.1)]

/-- The loop never replaces what the trie holds under a key. -/
theorem load_all_trie_kept (dropped : List (Nat × Nat)) :
    ∀ (records : List series_record) (siridb : siridb_t) (key : List Int)
      (s : siridb_series_t), ct_get siridb.series key = some s →
      ct_get (load_all dropped siridb records).series key = some s := by
  intro records
  induction records with
  | nil =>
    intro siridb key s h
    exact h
  | cons r rest ih =>
    intro siridb key s h
    show ct_get (load_all dropped (load_one dropped siridb r) rest).series key = some s
    apply ih
    rw [load_one_trie]
    by_cases hc : imap32_get dropped r.id32 = none ∧ key = cstr_chars r.name
    · rw [if_pos hc, ← hc.2, h]
    · rw [if_neg hc, h]

/-- Everything the catalog holds after the loop was there before or is the series of
a record that is not dropped, under its name and under its id. -/
theorem load_all_sound (dropped : List (Nat × Nat)) :
    ∀ (records : List series_record) (siridb : siridb_t),
      (∀ key s, ct_get (load_all dropped siridb records).series key = some s →
        ct_get siridb.series key = some s ∨
        ∃ r ∈ live_records dropped records,
          key = cstr_chars r.name ∧ s = series_of_record siridb r) ∧
      (∀ id s, imap32_get (load_all dropped siridb records).series_map id = some s →
        imap32_get siridb.series_map id = some s ∨
        ∃ r ∈ live_records dropped records, id = r.id32 ∧ s = series_of_record siridb r) := by
  intro records
  induction records with
  | nil =>
    intro siridb
    exact ⟨fun _ _ h => Or.inl h, fun _ _ h => Or.inl h⟩
  | cons r rest ih =>
    intro siridb
    obtain ⟨i1, i2⟩ := ih (load_one dropped siridb r)
    have hser : ∀ x, series_of_record (load_one dropped siridb r) x =
        series_of_record siridb x :=
      fun x => series_of_record_masks _ _ x (fun tp => load_one_masks dropped siridb r tp)
    rw [live_records_cons]
    constructor
    · intro key s h
      rcases i1 key s h with h1 | ⟨x, hx, hk, hs⟩
      · rw [load_one_trie] at h1
        by_cases hc : imap32_get dropped r.id32 = none ∧ key = cstr_chars r.name
        · rw [if_pos hc] at h1
          cases hg : ct_get siridb.series (cstr_chars r.name) with
          | some d =>
            rw [hg] at h1
            left
            rw [hc.2, hg]
            exact h1
          | none =>
            rw [hg] at h1
            right
            refine ⟨r, ?_, hc.2, ?_⟩
            · rw [if_pos hc.1]
              exact List.mem_cons_self _ _
            · cases h1
              rfl
        · rw [if_neg hc] at h1
          exact Or.inl h1
      · right
        refine ⟨x, ?_, hk, by rw [hs, hser]⟩
        split
        · exact List.mem_cons_of_mem _ hx
        · exact hx
    · intro id s h
      rcases i2 id s h with h1 | ⟨x, hx, hk, hs⟩
      · rw [load_one_map] at h1
        by_cases hc : imap32_get dropped r.id32 = none ∧ id = r.id32
        · rw [if_pos hc] at h1
          right
          refine ⟨r, ?_, hc.2, ?_⟩
          · rw [if_pos hc.1]
            exact List.mem_cons_self _ _
          · cases h1
            rfl
        · rw [if_neg hc] at h1
          exact Or.inl h1
      · right
        refine ⟨x, ?_, hk, by rw [hs, hser]⟩
        split
        · exact List.mem_cons_of_mem _ hx
        · exact hx

/-- When the records that are not dropped have pairwise different names and pairwise
different ids, and the trie holds none of the names, each of them is found after the
loop under its name and under its id. -/
theorem load_all_complete (dropped : List (Nat × Nat)) :
    ∀ (records : List series_record) (siridb : siridb_t),
      (live_records dropped records).Pairwise
        (fun a b => cstr_chars a.name ≠ cstr_chars b.name) →
      (live_records dropped records).Pairwise (fun a b => a.id32 ≠ b.id32) →
      (∀ r ∈ live_records dropped records, ct_get siridb.series (cstr_chars r.name) = none) →
      ∀ r ∈ live_records dropped records,
        ct_get (load_all dropped siridb records).series (cstr_chars r.name) =
          some (series_of_record siridb r) ∧
        imap32_get (load_all dropped siridb records).series_map r.id32 =
          some (series_of_record siridb r) := by
  intro records
  induction records with
  | nil =>
    intro siridb _ _ _ r hr
    cases hr
  | cons x rest ih =>
    intro siridb hnames hids hfree r hr
    have hser : ∀ y, series_of_record (load_one dropped siridb x) y =
        series_of_record siridb y :=
      fun y => series_of_record_masks _ _ y (fun tp => load_one_masks dropped siridb x tp)
    show ct_get (load_all dropped (load_one dropped siridb x) rest).series _ = _ ∧
      imap32_get (load_all dropped (load_one dropped siridb x) rest).series_map _ = _
    rw [live_records_cons] at hnames hids hfree hr
    by_cases hd : imap32_get dropped x.id32 = none
    · rw [if_pos hd] at hnames hids hfree hr
      obtain ⟨hx1, hn⟩ := List.pairwise_cons.mp hnames
      obtain ⟨hx2, hi⟩ := List.pairwise_cons.mp hids
      have hfree1 : ∀ y ∈ live_records dropped rest,
          ct_get (load_one dropped siridb x).series (cstr_chars y.name) = none := by
        intro y hy
        rw [load_one_trie, if_neg (fun hc => hx1 y hy hc.2.symm)]
        exact hfree y (List.mem_cons_of_mem _ hy)
      rcases List.mem_cons.mp hr with rfl | hmem
      · constructor
        · apply load_all_trie_kept
          rw [load_one_trie, if_pos ⟨hd, rfl⟩, hfree r (List.mem_cons_self _ _)]
        · rw [(load_all_untouched dropped rest (load_one dropped siridb r)).2 r.id32
            (fun y hy hc => hx2 y hy hc.symm), load_one_map, if_pos ⟨hd, rfl⟩]
      · have := ih (load_one dropped siridb x) hn hi hfree1 r hmem
        rw [hser] at this
        exact this
    · rw [if_neg hd] at hnames hids hfree hr
      have hfree1 : ∀ y ∈ live_records dropped rest,
          ct_get (load_one dropped siridb x).series (cstr_chars y.name) = none := by
        intro y hy
        rw [load_one_trie, if_neg (fun hc => hd hc.1)]
        exact hfree y hy
      have := ih (load_one dropped siridb x) hnames hids hfree1 r hr
      rw [hser] at this
      exact this

/-- A call of `qp_next` leaves the unpacker with no more items than before, and with
fewer when the type returned is not `QP_END`. -/
theorem qp_next_length (l : List qp_item) :
    (qp_next l).unpacker.length ≤ l.length ∧
    ((qp_next l).tp ≠ .QP_END → (qp_next l).unpacker.length < l.length) := by
  cases l with
  | nil => exact ⟨Nat.le_refl _, fun h => absurd rfl h⟩
  | cons a rest =>
    cases a with
    | other b => cases b <;> exact ⟨Nat.le_succ _, fun _ => Nat.lt_succ_self _⟩
    | _ => exact ⟨Nat.le_succ _, fun _ => Nat.lt_succ_self _⟩

/-- The test of the loop of `SERIES_load` fails after at most as many rounds as the
unpacker has items. -/
theorem SERIES_load_records_defined :
    ∀ (fuel : Nat) (unpacker : List qp_item), unpacker.length < fuel →
      ∃ p, SERIES_load_records fuel unpacker = some p := by
  intro fuel
  induction fuel with
  | zero =>
    intro unpacker h
    omega
  | succ n ih =>
    intro unpacker h
    unfold SERIES_load_records
    dsimp only
    split
    · rename_i h1
      split
      · split
        · split
          · have l1 := (qp_next_length unpacker).2 (by rw [h1]; decide)
            have l2 := (qp_next_length (qp_next unpacker).unpacker).1
            have l3 := (qp_next_length (qp_next (qp_next unpacker).unpacker).unpacker).1
            have l4 := (qp_next_length
              (qp_next (qp_next (qp_next unpacker).unpacker).unpacker).unpacker).1
            obtain ⟨p, hp⟩ := ih (qp_next (qp_next (qp_next (qp_next unpacker).unpacker
              ).unpacker).unpacker).unpacker (by omega)
            rw [hp]
            exact ⟨_, rfl⟩
          · exact ⟨_, rfl⟩
        · exact ⟨_, rfl⟩
      · exact ⟨_, rfl⟩
    · exact ⟨_, rfl⟩

/-! ## The catalog after `SERIES_load` -/

/-- The function `SERIES_load` on a file that passes the schema check and ends after
its records, when nothing fails in the environment and the names of the records
that are not dropped are terminated, with shard masks other than `0`: the catalog
is that of the rounds of `load_one`, and `series.dat` is written anew from the
trie. -/
theorem SERIES_load_ok (env : series_load_env) (siridb : siridb_t)
    (dropped : List (Nat × Nat)) (files : siridb_files) (content unpacker : List qp_item)
    (records : List series_record) (rest : List qp_item)
    (hfile : files.series_dat = some content)
    (hschema : siridb_schema_check SIRIDB_SERIES_SCHEMA content = some unpacker)
    (hrecs : SERIES_load_records (unpacker.length + 1) unpacker = some (records, rest))
    (hend : (qp_next rest).tp = .QP_END)
    (hunp : env.unpacker_ok = true) (hobj : env.objects_ok = true)
    (hsave : env.save_failed = none)
    (hnew : ∀ k, (env.series_new k).malloc_series_ok = true ∧
      (env.series_new k).malloc_index_ok = true)
    (hnames : ∀ r ∈ live_records dropped records,
      (0 : Int) ∈ r.name ∧ shard_mask_of siridb r.tp8 ≠ 0) :
    SERIES_load env siridb dropped files false = some
      { rc := 0
        siridb := load_all dropped siridb records
        files := { files with
          series_dat := some ([.array_open, .int16 SIRIDB_SERIES_SCHEMA] ++
            ((load_all dropped siridb records).series.map
              (fun p => SERIES_pack p.1 p.2)).flatten) }
        siri_err := false } := by
  unfold SERIES_load
  rw [hfile]
  dsimp only
  rw [if_neg (by rw [hunp]; decide), hschema]
  dsimp only
  rw [if_neg (by rw [hobj]; decide), hrecs]
  dsimp only
  rw [SERIES_load_body_eq env.series_new dropped hnew records 0 siridb false hnames]
  dsimp only
  rw [if_neg (by rw [hend]; decide), if_neg (by decide)]
  unfold SERIES_save
  rw [hsave]
  rfl

/-- C24, as stated, fails: the file has a valid schema and two records with the id `1`,
no id is dropped, and `SERIES_load` returns `0`; both series are in the trie under
their names, but the map holds under the id `1` the series of `"b"` only, so the
record of `"a"` is not found by its id. -/
theorem series_load_same_id :
    siridb_schema_check SIRIDB_SERIES_SCHEMA series_dat_same_id ≠ none ∧
    ∃ r sa sb, SERIES_load load_env_ok empty_db [] { series_dat := some series_dat_same_id }
        false = some r ∧ r.rc = 0 ∧
      ct_get r.siridb.series [97] = some sa ∧ ct_get r.siridb.series [98] = some sb ∧
      sa.id = 1 ∧ sb.id = 1 ∧ sa.tp = 0 ∧ sb.tp = 1 ∧
      imap32_get r.siridb.series_map 1 = some sb ∧
      imap32_get r.siridb.series_map 1 ≠ some sa := by
  refine ⟨by decide, (SERIES_load load_env_ok empty_db []
    { series_dat := some series_dat_same_id } false).get (by decide),
    { id := 1, tp := 0, ref := 1, length := 0, start := UINT64_MAX, end_ := 0, mask := 8
      buffer := none, index := ⟨0, []⟩ },
    { id := 1, tp := 1, ref := 1, length := 0, start := UINT64_MAX, end_ := 0, mask := 8
      buffer := none, index := ⟨0, []⟩ },
    by simp, by decide, by decide, by decide, rfl, rfl, rfl, rfl, by decide, by decide⟩

/-- C24, amended: for every `series.dat` that passes the schema check and ends after
its records, every set of dropped ids and a database without series and with
`max_series_id = 0`, when nothing fails in the environment and the records that are
not dropped have terminated names and a shard mask other than `0`, `SERIES_load`
returns `0`; `max_series_id` is then the largest id among all records of the file,
the dropped ones included (`0` without records); everything in the trie and in the
id map is the series of a record that is not dropped, under its name and under its
id; and when the records that are not dropped have pairwise different names and
pairwise different ids, each of them is found both by name in the trie and by id
in the id map. -/
theorem series_load_catalog (env : series_load_env) (siridb : siridb_t)
    (dropped : List (Nat × Nat)) (files : siridb_files) (content unpacker : List qp_item)
    (records : List series_record) (rest : List qp_item)
    (hfile : files.series_dat = some content)
    (hschema : siridb_schema_check SIRIDB_SERIES_SCHEMA content = some unpacker)
    (hrecs : SERIES_load_records (unpacker.length + 1) unpacker = some (records, rest))
    (hend : (qp_next rest).tp = .QP_END)
    (hmax : siridb.max_series_id = 0) (htrie : siridb.series = [])
    (hmap : siridb.series_map = [])
    (hunp : env.unpacker_ok = true) (hobj : env.objects_ok = true)
    (hsave : env.save_failed = none)
    (hnew : ∀ k, (env.series_new k).malloc_series_ok = true ∧
      (env.series_new k).malloc_index_ok = true)
    (hnames : ∀ r ∈ live_records dropped records,
      (0 : Int) ∈ r.name ∧ shard_mask_of siridb r.tp8 ≠ 0) :
    ∃ res, SERIES_load env siridb dropped files false = some res ∧ res.rc = 0 ∧
      res.siridb.max_series_id = max_id32 records ∧
      (∀ key s, ct_get res.siridb.series key = some s →
        ∃ r ∈ records, imap32_get dropped r.id32 = none ∧ key = cstr_chars r.name ∧
          s = series_of_record siridb r ∧ s.id = r.id32 ∧ s.tp = r.tp8) ∧
      (∀ id s, imap32_get res.siridb.series_map id = some s →
        ∃ r ∈ records, imap32_get dropped r.id32 = none ∧ id = r.id32 ∧
          s = series_of_record siridb r ∧ s.id = r.id32 ∧ s.tp = r.tp8) ∧
      ((live_records dropped records).Pairwise
          (fun a b => cstr_chars a.name ≠ cstr_chars b.name) →
        (live_records dropped records).Pairwise (fun a b => a.id32 ≠ b.id32) →
        ∀ r ∈ records, imap32_get dropped r.id32 = none →
          ct_get res.siridb.series (cstr_chars r.name) = some (series_of_record siridb r) ∧
          imap32_get res.siridb.series_map r.id32 = some (series_of_record siridb r)) := by
  have hlive : ∀ r, r ∈ live_records dropped records ↔
      r ∈ records ∧ imap32_get dropped r.id32 = none := by
    intro r
    unfold live_records
    rw [List.mem_filter]
    cases imap32_get dropped r.id32 <;> simp
  refine ⟨_, SERIES_load_ok env siridb dropped files content unpacker records rest hfile
    hschema hrecs hend hunp hobj hsave hnew hnames, rfl, ?_, ?_, ?_, ?_⟩
  · dsimp only
    rw [load_all_max, hmax, Nat.max_eq_right (Nat.zero_le _)]
  · intro key s h
    rcases (load_all_sound dropped records siridb).1 key s h with h1 | ⟨r, hr, hk, hs⟩
    · rw [htrie] at h1
      cases h1
    · exact ⟨r, ((hlive r).mp hr).1, ((hlive r).mp hr).2, hk, hs, by rw [hs]; rfl,
        by rw [hs]; rfl⟩
  · intro id s h
    rcases (load_all_sound dropped records siridb).2 id s h with h1 | ⟨r, hr, hk, hs⟩
    · rw [hmap] at h1
      cases h1
    · exact ⟨r, ((hlive r).mp hr).1, ((hlive r).mp hr).2, hk, hs, by rw [hs]; rfl,
        by rw [hs]; rfl⟩
  · intro hn hi r hr hd
    exact load_all_complete dropped records siridb hn hi
      (fun y _ => by rw [htrie]; rfl) r ((hlive r).mpr ⟨hr, hd⟩)

theorem series_load_catalog_witness :
    ∃ res, SERIES_load load_env_ok empty_db [(2, 1)] { series_dat := some series_dat_abc }
        false = some res ∧ res.rc = 0 ∧ res.siridb.max_series_id = 3 ∧
      ct_get res.siridb.series [97] ≠ none ∧ ct_get res.siridb.series [98] = none ∧
      ct_get res.siridb.series [99] ≠ none ∧
      imap32_get res.siridb.series_map 1 ≠ none ∧ imap32_get res.siridb.series_map 2 = none ∧
      imap32_get res.siridb.series_map 3 ≠ none := by
  obtain ⟨res, h1, h2, h3, h4, h5, h6⟩ := series_load_catalog load_env_ok empty_db [(2, 1)]
    { series_dat := some series_dat_abc } series_dat_abc
    [.array3, .raw [97, 0], .int32 1, .int8 0, .array3, .raw [98, 0], .int32 2, .int8 0,
     .array3, .raw [99, 0], .int32 3, .int8 0]
    [⟨[97, 0], 1, 0⟩, ⟨[98, 0], 2, 0⟩, ⟨[99, 0], 3, 0⟩] [] rfl (by decide) (by decide)
    (by decide) rfl rfl rfl rfl rfl rfl (fun _ => ⟨rfl, rfl⟩) (by decide)
  have ha := h6 (by decide) (by decide) ⟨[97, 0], 1, 0⟩ (by decide) (by decide)
  have hc := h6 (by decide) (by decide) ⟨[99, 0], 3, 0⟩ (by decide) (by decide)
  refine ⟨res, h1, h2, ?_, ?_, ?_, ?_, ?_, ?_, ?_⟩
  · rw [h3]
    decide
  · have e : cstr_chars (⟨[97, 0], 1, 0⟩ : series_record).name = [97] := by decide
    rw [← e, ha.1]
    exact Option.some_ne_none _
  · cases hb : ct_get res.siridb.series [98] with
    | none => rfl
    | some s =>
      obtain ⟨r, hr, hd, hk, -⟩ := h4 [98] s hb
      exfalso
      revert hr hd hk
      revert r
      decide
  · have e : cstr_chars (⟨[99, 0], 3, 0⟩ : series_record).name = [99] := by decide
    rw [← e, hc.1]
    exact Option.some_ne_none _
  · have e : (⟨[97, 0], 1, 0⟩ : series_record).id32 = 1 := by decide
    rw [← e, ha.2]
    exact Option.some_ne_none _
  · cases hb : imap32_get res.siridb.series_map 2 with
    | none => rfl
    | some s =>
      obtain ⟨r, hr, hd, hk, -⟩ := h5 2 s hb
      exfalso
      revert hr hd hk
      revert r
      decide
  · have e : (⟨[99, 0], 3, 0⟩ : series_record).id32 = 3 := by decide
    rw [← e, hc.2]
    exact Option.some_ne_none _


/-! ## Runs of creations, drops and restarts -/

/-- The id read back from the item written for a 32-bit id. -/
theorem id32_to_int32 (name : List Int) (x : Nat) (tp : Int) :
    (⟨name, to_int32 x, tp⟩ : series_record).id32 = x % UINT32_MOD := by
  unfold series_record.id32 to_int32
  simp only [UINT32_MOD]
  split <;> omega

/-- The loop of `SERIES_load` reads the items of `store_records` back as the records
of `records_of`, up to the end of the items. -/
theorem load_records_store :
    ∀ (l : List (List Int × Nat × Nat)) (fuel : Nat), l.length < fuel →
      SERIES_load_records fuel (store_records l) = some (records_of l, []) := by
  intro l
  induction l with
  | nil =>
    intro fuel h
    cases fuel with
    | zero => omega
    | succ n => rfl
  | cons x rest ih =>
    intro fuel h
    cases fuel with
    | zero => omega
    | succ n =>
      have hr := ih n (by simpa using h)
      show SERIES_load_records (n + 1)
        (.array3 :: .raw (x.1 ++ [0]) :: .int32 (to_int32 x.2.1) :: .int8 (to_int8 x.2.2) ::
          store_records rest) = _
      simp only [SERIES_load_records, qp_next, if_true, hr]
      rfl

/-- The items of `store_records` are four for each record. -/
theorem store_records_length (l : List (List Int × Nat × Nat)) :
    (store_records l).length = 4 * l.length := by
  induction l with
  | nil => rfl
  | cons x rest ih =>
    show (_ :: _ :: _ :: _ :: store_records rest).length = _
    simp only [List.length_cons, ih]
    omega

/-- The items of records one after another. -/
theorem store_records_append (l k : List (List Int × Nat × Nat)) :
    store_records (l ++ k) = store_records l ++ store_records k := by
  unfold store_records
  rw [List.map_append, List.flatten_append]

/-- No id is above the largest id. -/
theorem id32_le_max_id32 (records : List series_record) (r : series_record)
    (h : r ∈ records) : r.id32 ≤ max_id32 records := by
  induction records with
  | nil => cases h
  | cons x rest ih =>
    show r.id32 ≤ max x.id32 (max_id32 rest)
    rcases List.mem_cons.mp h with h | h
    · rw [h]
      exact Nat.le_max_left _ _
    · exact Nat.le_trans (ih h) (Nat.le_max_right _ _)

/-- The largest id is below every bound of the ids. -/
theorem max_id32_le (records : List series_record) (b : Nat)
    (h : ∀ r ∈ records, r.id32 ≤ b) : max_id32 records ≤ b := by
  induction records with
  | nil => exact Nat.zero_le _
  | cons x rest ih =>
    show max x.id32 (max_id32 rest) ≤ b
    exact Nat.max_le.mpr ⟨h x (List.mem_cons_self _ _),
      ih (fun r hr => h r (List.mem_cons_of_mem _ hr))⟩

/-- The largest id of records one after another. -/
theorem max_id32_append (a b : List series_record) :
    max_id32 (a ++ b) = max (max_id32 a) (max_id32 b) := by
  induction a with
  | nil =>
    show max_id32 b = max 0 (max_id32 b)
    rw [Nat.max_eq_right (Nat.zero_le _)]
  | cons x rest ih =>
    show max x.id32 (max_id32 (rest ++ b)) = max (max x.id32 (max_id32 rest)) (max_id32 b)
    rw [ih, Nat.max_assoc]

/-- What the trie holds after `ct_add` was there before, or is the pair added. -/
theorem ct_add_mem {α : Type} (trie : List (List Int × α)) (key : List Int) (data : α)
    (p : List Int × α) (h : p ∈ ct_add trie key data) : p ∈ trie ∨ p = (key, data) := by
  unfold ct_add at h
  cases hg : ct_get trie key with
  | some v =>
    rw [hg] at h
    exact Or.inl h
  | none =>
    rw [hg] at h
    dsimp only at h
    clear hg
    induction trie with
    | nil =>
      simp only [ct_insert, List.mem_singleton] at h
      exact Or.inr h
    | cons q rest ih =>
      unfold ct_insert at h
      split at h
      · rcases List.mem_cons.mp h with h | h
        · exact Or.inr h
        · exact Or.inl h
      · rcases List.mem_cons.mp h with h | h
        · exact Or.inl (by rw [h]; exact List.mem_cons_self _ _)
        · rcases ih h with h | h
          · exact Or.inl (List.mem_cons_of_mem _ h)
          · exact Or.inr h

/-- Every series of the trie after the rounds of the loop was there before or carries
the id of a record. -/
theorem load_all_series_ids (dropped : List (Nat × Nat)) :
    ∀ (records : List series_record) (siridb : siridb_t),
      ∀ p ∈ (load_all dropped siridb records).series,
        p ∈ siridb.series ∨ ∃ r ∈ records, p.2.id = r.id32 := by
  intro records
  induction records with
  | nil =>
    intro siridb p h
    exact Or.inl h
  | cons r rest ih =>
    intro siridb p h
    rcases ih (load_one dropped siridb r) p h with h1 | ⟨x, hx, hid⟩
    · unfold load_one at h1
      rw [load_max_id_eq] at h1
      cases hd : imap32_get dropped r.id32 with
      | some v =>
        rw [hd] at h1
        exact Or.inl h1
      | none =>
        rw [hd] at h1
        dsimp only at h1
        rcases ct_add_mem _ _ _ _ h1 with h2 | h2
        · exact Or.inl h2
        · refine Or.inr ⟨r, List.mem_cons_self _ _, ?_⟩
          rw [h2]
          rfl
    · exact Or.inr ⟨x, List.mem_cons_of_mem _ hx, hid⟩

/-- A call of `siridb_series_new` in which no `malloc` and no call on the store fails,
for a terminated name and shard masks other than `0`: `max_series_id` is
incremented, the record of the series is written to the store, the configuration
stays, and a series returned carries the new `max_series_id` as its id. -/
theorem series_new_store (env : series_new_env) (siridb : siridb_t) (series_name : List Int)
    (tp : Nat) (h1 : env.malloc_series_ok = true) (h2 : env.malloc_index_ok = true)
    (h3 : env.store_fail = none) (h0 : (0 : Int) ∈ series_name)
    (hnum : siridb.shard_mask_num ≠ 0) (hlog : siridb.shard_mask_log ≠ 0) :
    ∃ r, siridb_series_new env siridb series_name tp = some r ∧
      r.siridb.max_series_id = (siridb.max_series_id + 1) % UINT32_MOD ∧
      r.siridb.store = siridb.store ++
        store_records [(cstr_chars series_name, (siridb.max_series_id + 1) % UINT32_MOD, tp)] ∧
      r.siridb.shard_mask_num = siridb.shard_mask_num ∧
      r.siridb.shard_mask_log = siridb.shard_mask_log ∧
      ∀ s, r.series = some s → s.id = (siridb.max_series_id + 1) % UINT32_MOD := by
  obtain ⟨hlen, -, -⟩ := strlen_eq series_name h0
  have hm : shard_mask_of
      { siridb with max_series_id := (siridb.max_series_id + 1) % UINT32_MOD } tp ≠ 0 := by
    unfold shard_mask_of
    split
    · exact hlog
    · exact hnum
  unfold siridb_series_new
  rw [hlen]
  dsimp only
  rw [SERIES_new_ok env _ _ tp series_name h1 h2 h0 hm, h3]
  dsimp only
  by_cases htp : tp = SIRIDB_SERIES_TP_STRING
  · rw [if_neg (not_not.mpr htp)]
    refine ⟨_, rfl, rfl, ?_, rfl, rfl, fun s hs => ?_⟩
    · simp [store_records, series_store_items]
    · cases hs
      rfl
  · rw [if_pos htp]
    split
    · refine ⟨_, rfl, rfl, ?_, rfl, rfl, fun s hs => by cases hs⟩
      simp [store_records, series_store_items]
    · refine ⟨_, rfl, rfl, ?_, rfl, rfl, fun s hs => ?_⟩
      · simp [store_records, series_store_items]
      · cases hs
        rfl

/-- The function `SERIES_update_max_id` when no call on the file fails and the file is
missing or holds one value: it returns `0`, `max_series_id` is the larger of its old
value and the value stored, and the file, missing or with one value, stores the new
`max_series_id`. -/
theorem update_max_id_ok (env : max_id_env) (siridb : siridb_t) (file : Option (List Nat))
    (henv : env.fread_ok = true ∧ env.fclose_read_ok = true ∧ env.fopen_write_ok = true ∧
      env.fwrite_ok = true ∧ env.fclose_write_ok = true)
    (hfile : file = none ∨ ∃ v, file = some [v]) :
    (SERIES_update_max_id env siridb file).rc = 0 ∧
    (SERIES_update_max_id env siridb file).siridb =
      { siridb with max_series_id := max siridb.max_series_id (max_id_stored file) } ∧
    ((SERIES_update_max_id env siridb file).file = none ∨
      ∃ v, (SERIES_update_max_id env siridb file).file = some [v]) ∧
    max_id_stored (SERIES_update_max_id env siridb file).file =
      max siridb.max_series_id (max_id_stored file) := by
  obtain ⟨e1, e2, e3, e4, e5⟩ := henv
  rcases hfile with hf | ⟨v, hf⟩
  · subst hf
    have hv : max_id_stored (none : Option (List Nat)) = 0 := rfl
    rw [hv, Nat.max_eq_left (Nat.zero_le _)]
    by_cases h : 0 < siridb.max_series_id
    · have hres : SERIES_update_max_id env siridb none =
          { rc := 0, siridb := siridb, file := some [siridb.max_series_id]
            rewritten := true } := by
        unfold SERIES_update_max_id max_id_read
        simp [h, e3, e4, e5]
      rw [hres]
      exact ⟨rfl, rfl, Or.inr ⟨_, rfl⟩, rfl⟩
    · have hres : SERIES_update_max_id env siridb none =
          { rc := 0, siridb := siridb, file := none, rewritten := false } := by
        unfold SERIES_update_max_id max_id_read
        simp [h]
      rw [hres]
      refine ⟨rfl, rfl, Or.inl rfl, ?_⟩
      show 0 = siridb.max_series_id
      omega
  · subst hf
    have hv : max_id_stored (some [v]) = v := rfl
    rw [hv]
    by_cases h : v > siridb.max_series_id
    · have hres : SERIES_update_max_id env siridb (some [v]) =
          { rc := 0, siridb := { siridb with max_series_id := v }, file := some [v]
            rewritten := false } := by
        unfold SERIES_update_max_id max_id_read
        simp [h, e1, e2]
      rw [hres, Nat.max_eq_right (Nat.le_of_lt h)]
      exact ⟨rfl, rfl, Or.inr ⟨_, rfl⟩, rfl⟩
    · by_cases h4 : v < siridb.max_series_id
      · have hres : SERIES_update_max_id env siridb (some [v]) =
            { rc := 0, siridb := siridb, file := some [siridb.max_series_id]
              rewritten := true } := by
          unfold SERIES_update_max_id max_id_read
          simp [h, h4, e1, e2, e3, e4, e5]
        rw [hres, Nat.max_eq_left (Nat.le_of_lt h4)]
        exact ⟨rfl, rfl, Or.inr ⟨_, rfl⟩, rfl⟩
      · have hres : SERIES_update_max_id env siridb (some [v]) =
            { rc := 0, siridb := siridb, file := some [v], rewritten := false } := by
          unfold SERIES_update_max_id max_id_read
          simp [h, h4, e1, e2]
        have hveq : v = siridb.max_series_id := by omega
        rw [hres, Nat.max_eq_left (by omega)]
        exact ⟨rfl, rfl, Or.inr ⟨_, rfl⟩, hveq⟩

/-- The function `SERIES_load` in a run, when nothing fails: on a database without
series and with `max_series_id = 0`, and a file `series.dat` that is missing or
holds the schema and records, it returns `0`; `max_series_id` is the largest id of
the records, and `series.dat` holds the schema and records again, none with a
larger id. -/
theorem SERIES_load_run (env : series_load_env) (siridb : siridb_t)
    (dropped : List (Nat × Nat)) (files : siridb_files) (l : List (List Int × Nat × Nat))
    (hunp : env.unpacker_ok = true) (hobj : env.objects_ok = true)
    (hsave : env.save_failed = none)
    (hnew : ∀ k, (env.series_new k).malloc_series_ok = true ∧
      (env.series_new k).malloc_index_ok = true)
    (hnum : siridb.shard_mask_num ≠ 0) (hlog : siridb.shard_mask_log ≠ 0)
    (hmax : siridb.max_series_id = 0) (htrie : siridb.series = [])
    (hstore : siridb.store = [])
    (hdat : (files.series_dat = none ∧ l = []) ∨ files.series_dat =
      some ([.array_open, .int16 SIRIDB_SERIES_SCHEMA] ++ store_records l)) :
    ∃ db k, SERIES_load env siridb dropped files false = some
        { rc := 0, siridb := db
          files := { files with
            series_dat := some ([.array_open, .int16 SIRIDB_SERIES_SCHEMA] ++ store_records k) }
          siri_err := false } ∧
      db.max_series_id = max_id32 (records_of l) ∧
      db.shard_mask_num = siridb.shard_mask_num ∧ db.shard_mask_log = siridb.shard_mask_log ∧
      db.store = [] ∧
      max_id32 (records_of k) ≤ max_id32 (records_of l) := by
  rcases hdat with ⟨hnone, hl⟩ | hsome
  · subst hl
    refine ⟨siridb, [], ?_, hmax, rfl, rfl, hstore, Nat.le_refl _⟩
    unfold SERIES_load SERIES_save
    rw [hnone, hsave, htrie]
    rfl
  · have hnames : ∀ r ∈ live_records dropped (records_of l),
        (0 : Int) ∈ r.name ∧ shard_mask_of siridb r.tp8 ≠ 0 := by
      intro r hr
      unfold live_records at hr
      have hmem := (List.mem_filter.mp hr).1
      unfold records_of at hmem
      obtain ⟨x, -, hx⟩ := List.mem_map.mp hmem
      refine ⟨?_, ?_⟩
      · rw [← hx]
        exact List.mem_append_right _ (List.mem_singleton_self _)
      · unfold shard_mask_of
        split
        · exact hlog
        · exact hnum
    have hload := SERIES_load_ok env siridb dropped files _ (store_records l) (records_of l) []
      hsome (by simp [siridb_schema_check])
      (load_records_store l _ (by rw [store_records_length]; omega)) rfl hunp hobj hsave hnew
      hnames
    refine ⟨load_all dropped siridb (records_of l),
      (load_all dropped siridb (records_of l)).series.map (fun p => (p.1, p.2.id, p.2.tp)),
      ?_, ?_, ?_, ?_, ?_, ?_⟩
    · rw [hload]
      have e : ((load_all dropped siridb (records_of l)).series.map
          (fun p => SERIES_pack p.1 p.2)).flatten =
          store_records ((load_all dropped siridb (records_of l)).series.map
            (fun p => (p.1, p.2.id, p.2.tp))) := by
        unfold store_records
        rw [List.map_map]
        rfl
      rw [e]
    · rw [load_all_max, hmax, Nat.max_eq_right (Nat.zero_le _)]
    · have h := load_all_masks dropped (records_of l) siridb 0
      exact h
    · have h := load_all_masks dropped (records_of l) siridb SIRIDB_SERIES_TP_STRING
      exact h
    · have hkeep : ∀ (records : List series_record) (db : siridb_t),
          (load_all dropped db records).store = db.store := by
        intro records
        induction records with
        | nil =>
          intro db
          rfl
        | cons r rest ih =>
          intro db
          show (load_all dropped (load_one dropped db r) rest).store = _
          rw [ih]
          unfold load_one
          rw [load_max_id_eq]
          cases imap32_get dropped r.id32 <;> rfl
      rw [hkeep, hstore]
    · apply max_id32_le
      intro r hr
      unfold records_of at hr
      obtain ⟨x, hx, hxr⟩ := List.mem_map.mp hr
      obtain ⟨p, hp, hpx⟩ := List.mem_map.mp hx
      rw [← hxr, id32_to_int32, ← hpx]
      dsimp only
      rcases load_all_series_ids dropped (records_of l) siridb p hp with h | ⟨y, hy, hid⟩
      · rw [htrie] at h
        cases h
      · rw [hid]
        exact Nat.le_trans (Nat.mod_le _ _) (id32_le_max_id32 _ _ hy)

/-- The function `siridb_series_load` in a run, when nothing fails: it returns `0`, the
shard masks stay, `max_series_id` is the largest of the ids of the records of
`series.dat` and the value stored in `.max_series_id`, which the file stores
afterwards; the store is opened anew, and `series.dat` holds the schema and
records, none with an id above those read. -/
theorem series_load_run (env : series_load_all_env) (siridb : siridb_t)
    (files : siridb_files) (l : List (List Int × Nat × Nat)) (henv : env.ok)
    (hnum : siridb.shard_mask_num ≠ 0) (hlog : siridb.shard_mask_log ≠ 0)
    (hmax : siridb.max_series_id = 0) (htrie : siridb.series = [])
    (hstore : siridb.store = [])
    (hdat : (files.series_dat = none ∧ l = []) ∨ files.series_dat =
      some ([.array_open, .int16 SIRIDB_SERIES_SCHEMA] ++ store_records l))
    (hfile : files.max_series_id = none ∨ ∃ v, files.max_series_id = some [v]) :
    ∃ r k, siridb_series_load env siridb files false = some r ∧ r.rc = 0 ∧
      r.siridb.shard_mask_num = siridb.shard_mask_num ∧
      r.siridb.shard_mask_log = siridb.shard_mask_log ∧
      r.siridb.max_series_id =
        max (max_id32 (records_of l)) (max_id_stored files.max_series_id) ∧
      r.siridb.store = [] ∧
      (r.files.max_series_id = none ∨ ∃ v, r.files.max_series_id = some [v]) ∧
      max_id_stored r.files.max_series_id = r.siridb.max_series_id ∧
      r.files.series_dat =
        some ([.array_open, .int16 SIRIDB_SERIES_SCHEMA] ++ store_records k) ∧
      max_id32 (records_of k) ≤ max_id32 (records_of l) := by
  obtain ⟨i1, ⟨d1, d2, d3⟩, ⟨u1, u2, u3, u4⟩, hm, o1, o2⟩ := henv
  have hrd : (SERIES_read_dropped env.read_dropped [] files.dropped).1 = 0 := by
    unfold SERIES_read_dropped
    cases files.dropped with
    | none => rfl
    | some ids =>
      simp only [d1, d2, d3]
      by_cases hi : ids = []
      · simp [hi]
      · simp [hi]
  obtain ⟨db, k, hload, hdbmax, hdbnum, hdblog, hdbstore, hk⟩ :=
    SERIES_load_run env.load siridb (SERIES_read_dropped env.read_dropped [] files.dropped).2
      files l u1 u2 u3 u4 hnum hlog hmax htrie hstore hdat
  obtain ⟨m1, m2, m3, m4⟩ := update_max_id_ok env.max_id db files.max_series_id hm hfile
  have hres : siridb_series_load env siridb files false = some
      { rc := 0
        siridb := { (SERIES_update_max_id env.max_id db files.max_series_id).siridb with
          dropped_fp := [], store := [] }
        files :=
          { series_dat := some ([.array_open, .int16 SIRIDB_SERIES_SCHEMA] ++ store_records k)
            dropped := some []
            max_series_id := (SERIES_update_max_id env.max_id db files.max_series_id).file
            users_dat := files.users_dat }
        siri_err := false } := by
    unfold siridb_series_load
    rw [if_neg (by rw [i1]; decide), if_neg (not_not.mpr hrd), hload]
    dsimp only
    rw [if_neg (by decide), if_neg (not_not.mpr m1)]
    unfold SERIES_open_new_dropped_file SERIES_open_store
    simp [o1, o2]
  refine ⟨_, k, hres, rfl, ?_, ?_, ?_, rfl, m3, ?_, rfl, hk⟩
  · show (SERIES_update_max_id env.max_id db files.max_series_id).siridb.shard_mask_num = _
    rw [m2]
    exact hdbnum
  · show (SERIES_update_max_id env.max_id db files.max_series_id).siridb.shard_mask_log = _
    rw [m2]
    exact hdblog
  · show (SERIES_update_max_id env.max_id db files.max_series_id).siridb.max_series_id = _
    rw [m2, ← hdbmax]
  · show max_id_stored (SERIES_update_max_id env.max_id db files.max_series_id).file =
      (SERIES_update_max_id env.max_id db files.max_series_id).siridb.max_series_id
    rw [m4, m2]

/-- A process that starts in a run, when nothing fails: the load returns `0`,
`max_series_id` is the largest of the ids of the records of `series.dat` and the
value stored in `.max_series_id`, and `run_inv` holds afterwards. -/
theorem series_load_state_inv (env : series_load_all_env) (siridb : siridb_t)
    (files : siridb_files) (trace : List run_obs) (l : List (List Int × Nat × Nat))
    (henv : env.ok) (hnum : siridb.shard_mask_num ≠ 0) (hlog : siridb.shard_mask_log ≠ 0)
    (hdat : (files.series_dat = none ∧ l = []) ∨ files.series_dat =
      some ([.array_open, .int16 SIRIDB_SERIES_SCHEMA] ++ store_records l))
    (hfile : files.max_series_id = none ∨ ∃ v, files.max_series_id = some [v])
    (htrace : trace.Pairwise obs_before)
    (hval : ∀ o ∈ trace,
      o.value ≤ max (max_id32 (records_of l)) (max_id_stored files.max_series_id)) :
    ∃ st, series_load_state env siridb files trace = some st ∧ run_inv st ∧
      st.siridb.max_series_id =
        max (max_id32 (records_of l)) (max_id_stored files.max_series_id) := by
  obtain ⟨r, k, hres, hrc, rnum, rlog, rmax, rstore, rfile, rstored, rdat, rk⟩ :=
    series_load_run env (siridb_at_start siridb) files l henv hnum hlog rfl rfl rfl hdat hfile
  unfold series_load_state
  rw [hres]
  dsimp only
  rw [if_pos hrc]
  refine ⟨_, rfl, ⟨?_, ?_, rfile, ⟨k, [], rdat, rstore, ?_⟩, ?_, ?_⟩, rmax⟩
  · rw [rnum]
    exact hnum
  · rw [rlog]
    exact hlog
  · dsimp only
    rw [List.append_nil, rstored, Nat.max_eq_right]
    rw [rmax]
    exact Nat.le_trans rk (Nat.le_max_left _ _)
  · dsimp only
    rw [List.pairwise_append]
    refine ⟨htrace, List.pairwise_singleton _ _, fun a ha b hb => ?_⟩
    rw [List.mem_singleton.mp hb, rstored, rmax]
    exact hval a ha
  · intro o ho
    dsimp only at ho ⊢
    rcases List.mem_append.mp ho with h | h
    · rw [rmax]
      exact hval o h
    · rw [List.mem_singleton.mp h, rstored]
      exact Nat.le_refl _

/-- A step of a run, when nothing fails and `max_series_id` does not wrap: the step has
a result, `run_inv` holds afterwards, and `max_series_id` has grown by at most
one. -/
theorem series_run_step_inv (env : series_load_all_env) (st : run_state) (e : series_event)
    (henv : env.ok) (hinv : run_inv st) (he : e.ok)
    (hwrap : st.siridb.max_series_id + 1 < UINT32_MOD) :
    ∃ st2, series_run_step env st e = some st2 ∧ run_inv st2 ∧
      st2.siridb.max_series_id ≤ st.siridb.max_series_id + 1 := by
  obtain ⟨hnum, hlog, hfile, ⟨l, k, hdat, hstore, hmax⟩, htrace, hval⟩ := hinv
  cases e with
  | create e series_name tp =>
    obtain ⟨e1, e2, e3, e0⟩ := he
    obtain ⟨r, hr, rmax, rstore, rnum, rlog, rid⟩ :=
      series_new_store e st.siridb series_name tp e1 e2 e3 e0 hnum hlog
    have hmod : (st.siridb.max_series_id + 1) % UINT32_MOD = st.siridb.max_series_id + 1 :=
      Nat.mod_eq_of_lt hwrap
    rw [hmod] at rmax rstore rid
    have hnewmax : r.siridb.max_series_id =
        max (max_id32 (records_of (l ++ (k ++
          [(cstr_chars series_name, st.siridb.max_series_id + 1, tp)]))))
          (max_id_stored st.files.max_series_id) := by
      rw [← List.append_assoc]
      unfold records_of
      rw [List.map_append, max_id32_append]
      have h1 : max_id32 (List.map (fun x : List Int × Nat × Nat =>
          ({ name := x.1 ++ [0], id := to_int32 x.2.1, tp := to_int8 x.2.2 } : series_record))
          [(cstr_chars series_name, st.siridb.max_series_id + 1, tp)]) =
          st.siridb.max_series_id + 1 := by
        show max (series_record.id32 _) 0 = _
        rw [id32_to_int32, hmod, Nat.max_eq_left (Nat.zero_le _)]
      rw [h1, rmax]
      unfold records_of at hmax
      rw [hmax]
      omega
    have hnewstore : r.siridb.store = store_records (k ++
        [(cstr_chars series_name, st.siridb.max_series_id + 1, tp)]) := by
      rw [rstore, hstore, store_records_append]
    simp only [series_run_step, hr]
    cases hs : r.series with
    | none =>
      dsimp only
      refine ⟨_, rfl, ⟨?_, ?_, hfile, ⟨l, _, hdat, hnewstore, hnewmax⟩, htrace, ?_⟩, ?_⟩
      · rw [rnum]
        exact hnum
      · rw [rlog]
        exact hlog
      · intro o ho
        have := hval o ho
        dsimp only
        omega
      · dsimp only
        omega
    | some s =>
      dsimp only
      have hid := rid s hs
      refine ⟨_, rfl, ⟨?_, ?_, hfile, ⟨l, _, hdat, hnewstore, hnewmax⟩, ?_, ?_⟩, ?_⟩
      · show r.siridb.shard_mask_num ≠ 0
        rw [rnum]
        exact hnum
      · show r.siridb.shard_mask_log ≠ 0
        rw [rlog]
        exact hlog
      · dsimp only
        rw [List.pairwise_append]
        refine ⟨htrace, List.pairwise_singleton _ _, fun a ha b hb => ?_⟩
        rw [List.mem_singleton.mp hb]
        show a.value < s.id
        have := hval a ha
        omega
      · intro o ho
        dsimp only at ho
        show o.value ≤ r.siridb.max_series_id
        rcases List.mem_append.mp ho with h | h
        · have := hval o h
          omega
        · rw [List.mem_singleton.mp h]
          show s.id ≤ _
          omega
      · show r.siridb.max_series_id ≤ _
        omega
  | drop id =>
    exact ⟨_, rfl, ⟨hnum, hlog, hfile, ⟨l, k, hdat, hstore, hmax⟩, htrace, hval⟩,
      Nat.le_succ _⟩
  | restart =>
    have hdat2 : ((files_at_exit st.siridb st.files).series_dat = none ∧ l ++ k = []) ∨
        (files_at_exit st.siridb st.files).series_dat =
          some ([.array_open, .int16 SIRIDB_SERIES_SCHEMA] ++ store_records (l ++ k)) := by
      refine Or.inr ?_
      unfold files_at_exit
      dsimp only
      rw [hdat, hstore, store_records_append]
      simp
    obtain ⟨st2, h1, h2, h3⟩ := series_load_state_inv env st.siridb
      (files_at_exit st.siridb st.files) st.trace (l ++ k) henv hnum hlog hdat2 hfile htrace
      (fun o ho => by
        have := hval o ho
        rw [hmax] at this
        exact this)
    refine ⟨st2, h1, h2, ?_⟩
    rw [h3]
    have e : (files_at_exit st.siridb st.files).max_series_id = st.files.max_series_id := rfl
    rw [e, ← hmax]
    exact Nat.le_succ _

/-- The steps of a run, when nothing fails and `max_series_id` does not wrap: the run
has a result, and `run_inv` holds at its end. -/
theorem series_run_from_inv (env : series_load_all_env) (henv : env.ok) :
    ∀ (events : List series_event) (st : run_state), run_inv st →
      (∀ e ∈ events, e.ok) → st.siridb.max_series_id + events.length < UINT32_MOD →
      ∃ st2, series_run_from env st events = some st2 ∧ run_inv st2 := by
  intro events
  induction events with
  | nil =>
    intro st hinv _ _
    exact ⟨st, rfl, hinv⟩
  | cons e rest ih =>
    intro st hinv hev hwrap
    rw [List.length_cons] at hwrap
    obtain ⟨st1, h1, h2, h3⟩ := series_run_step_inv env st e henv hinv
      (hev e (List.mem_cons_self _ _)) (by omega)
    obtain ⟨st2, h4, h5⟩ := ih st1 h2 (fun x hx => hev x (List.mem_cons_of_mem _ hx))
      (by omega)
    refine ⟨st2, ?_, h5⟩
    unfold series_run_from
    rw [h1]
    exact h4

/-- C26: for every run on a new database made of creations (`siridb_series_new`), drops
and restarts (`siridb_series_load`), when nothing fails in the environment, the
names are terminated, the shard masks are not `0` and the 32-bit `max_series_id`
cannot wrap: the run has a result; every id given to a created series is strictly
greater than every id assigned earlier in the run and than every value
`.max_series_id` stored after an earlier load; every value stored after a load is
at least every id assigned before and every value stored before. So the ids
assigned are strictly increasing over the whole run, and the values stored after
the loads never decrease. -/
theorem series_run_ids (env : series_load_all_env) (siridb : siridb_t)
    (events : List series_event) (henv : env.ok)
    (hnum : siridb.shard_mask_num ≠ 0) (hlog : siridb.shard_mask_log ≠ 0)
    (hev : ∀ e ∈ events, e.ok) (hlen : events.length < UINT32_MOD) :
    ∃ st, series_run env siridb events = some st ∧
      st.trace.Pairwise obs_before ∧
      (assigned_ids st.trace).Pairwise (fun a b => a < b) ∧
      (saved_values st.trace).Pairwise (fun a b => a ≤ b) := by
  obtain ⟨st0, h0, hinv0, hmax0⟩ := series_load_state_inv env siridb {} [] [] henv hnum hlog
    (Or.inl ⟨rfl, rfl⟩) (Or.inl rfl) List.Pairwise.nil (fun o ho => by cases ho)
  have hz : st0.siridb.max_series_id = 0 := by
    rw [hmax0]
    rfl
  obtain ⟨st, h1, hinv⟩ := series_run_from_inv env henv events st0 hinv0 hev
    (by rw [hz]; omega)
  have htrace := hinv.2.2.2.2.1
  refine ⟨st, ?_, htrace, ?_, ?_⟩
  · unfold series_run
    rw [h0]
    exact h1
  · unfold assigned_ids
    refine List.Pairwise.filterMap _ (fun a b hab x hx y hy => ?_) htrace
    cases a with
    | saved v => cases hx
    | assigned i =>
      cases b with
      | saved v => cases hy
      | assigned j =>
        cases hx
        cases hy
        exact hab
  · unfold saved_values
    refine List.Pairwise.filterMap _ (fun a b hab x hx y hy => ?_) htrace
    cases a with
    | assigned i => cases hx
    | saved v =>
      cases b with
      | assigned j => cases hy
      | saved w =>
        cases hx
        cases hy
        exact hab

/-- The scenario, evaluated. -/
theorem run_abc_d_trace :
    (series_run load_all_env_ok empty_db run_abc_d).map (fun st => st.trace) =
      some [.saved 0, .assigned 1, .assigned 2, .assigned 3, .saved 3, .assigned 4] := by
  decide

theorem series_run_ids_witness :
    ∃ st, series_run load_all_env_ok empty_db run_abc_d = some st ∧
      st.trace = [.saved 0, .assigned 1, .assigned 2, .assigned 3, .saved 3, .assigned 4] ∧
      st.trace.Pairwise obs_before ∧
      (assigned_ids st.trace).Pairwise (fun a b => a < b) ∧
      (saved_values st.trace).Pairwise (fun a b => a ≤ b) := by
  obtain ⟨st, h1, h2, h3, h4⟩ := series_run_ids load_all_env_ok empty_db run_abc_d
    ⟨rfl, ⟨rfl, rfl, rfl⟩, ⟨rfl, rfl, rfl, fun _ => ⟨rfl, rfl⟩⟩, ⟨rfl, rfl, rfl, rfl, rfl⟩,
      rfl, rfl⟩
    (by decide) (by decide)
    (fun e he => by
      simp only [run_abc_d, List.mem_cons, List.mem_singleton, List.not_mem_nil,
        or_false] at he
      rcases he with h | h | h | h | h | h <;> rw [h] <;>
        first
          | exact trivial
          | exact ⟨rfl, rfl, rfl, by decide⟩)
    (by simp [run_abc_d, UINT32_MOD])
  have ht := run_abc_d_trace
  rw [h1] at ht
  exact ⟨st, h1, Option.some.inj ht, h2, h3, h4⟩


/-! ## The users of a database -/

/-- The element `llist_get` finds for `USERS_cmp` is the first user with the name. -/
theorem llist_get_first (pre post : List siridb_user_t) (u : siridb_user_t)
    (name : List Int) (hpre : ∀ x ∈ pre, x.username ≠ name) (hu : u.username = name) :
    llist_get (pre ++ u :: post) USERS_cmp name = some u := by
  induction pre with
  | nil => simp [llist_get, USERS_cmp, hu]
  | cons x rest ih =>
    have hx : x.username ≠ name := hpre x (List.mem_cons_self _ _)
    simp only [List.cons_append, llist_get, USERS_cmp, hx, decide_False, Bool.false_eq_true,
      if_false]
    exact ih (fun y hy => hpre y (List.mem_cons_of_mem _ hy))

/-- What `llist_get` returns for `USERS_cmp` is in the list and has the name. -/
theorem llist_get_some (users : List siridb_user_t) (name : List Int) (u : siridb_user_t)
    (h : llist_get users USERS_cmp name = some u) :
    ∃ pre post, users = pre ++ u :: post ∧ (∀ x ∈ pre, x.username ≠ name) ∧
      u.username = name := by
  induction users with
  | nil => cases h
  | cons x rest ih =>
    by_cases hx : x.username = name
    · simp only [llist_get, USERS_cmp, hx, decide_True, if_true] at h
      cases h
      exact ⟨[], rest, rfl, (fun y hy => by cases hy), hx⟩
    · simp only [llist_get, USERS_cmp, hx, decide_False, Bool.false_eq_true, if_false] at h
      obtain ⟨pre, post, h1, h2, h3⟩ := ih h
      refine ⟨x :: pre, post, by rw [h1]; rfl, fun y hy => ?_, h3⟩
      rcases List.mem_cons.mp hy with hy | hy
      · rw [hy]
        exact hx
      · exact h2 y hy

/-- The function `llist_get` finds nothing for `USERS_cmp` exactly when no user has the
name. -/
theorem llist_get_none (users : List siridb_user_t) (name : List Int) :
    llist_get users USERS_cmp name = none ↔ ∀ x ∈ users, x.username ≠ name := by
  induction users with
  | nil => simp [llist_get]
  | cons x rest ih =>
    by_cases hx : x.username = name
    · simp [llist_get, USERS_cmp, hx]
    · simp [llist_get, USERS_cmp, hx, ih]

/-- The function `llist_remove` takes the first user with the name out of the list. -/
theorem llist_remove_first (pre post : List siridb_user_t) (u : siridb_user_t)
    (name : List Int) (hpre : ∀ x ∈ pre, x.username ≠ name) (hu : u.username = name) :
    llist_remove (pre ++ u :: post) USERS_cmp name = (some u, pre ++ post) := by
  induction pre with
  | nil => simp [llist_remove, USERS_cmp, hu]
  | cons x rest ih =>
    have hx : x.username ≠ name := hpre x (List.mem_cons_self _ _)
    simp only [List.cons_append, llist_remove, USERS_cmp, hx, decide_False,
      Bool.false_eq_true, if_false, List.append_eq]
    rw [ih (fun y hy => hpre y (List.mem_cons_of_mem _ hy))]

/-- The function `llist_remove` returns nothing, and leaves the list, when no user has
the name. -/
theorem llist_remove_none (users : List siridb_user_t) (name : List Int)
    (h : ∀ x ∈ users, x.username ≠ name) :
    llist_remove users USERS_cmp name = (none, users) := by
  induction users with
  | nil => rfl
  | cons x rest ih =>
    have hx : x.username ≠ name := h x (List.mem_cons_self _ _)
    simp only [llist_remove, USERS_cmp, hx, decide_False, Bool.false_eq_true, if_false]
    rw [ih (fun y hy => h y (List.mem_cons_of_mem _ hy))]

/-- The walk of `USERS_save` writes items when every user has a password. -/
theorem USERS_save_walk_defined (users : List siridb_user_t)
    (h : ∀ u ∈ users, u.password ≠ none) : ∃ items, USERS_save_walk users = some items := by
  induction users with
  | nil => exact ⟨[], rfl⟩
  | cons u rest ih =>
    obtain ⟨items, hi⟩ := ih (fun y hy => h y (List.mem_cons_of_mem _ hy))
    have hu := h u (List.mem_cons_self _ _)
    cases hp : u.password with
    | none => exact absurd hp hu
    | some pw =>
      unfold USERS_save_walk USERS_save
      rw [hp, hi]
      exact ⟨_, rfl⟩

/-- The function `strx_is_graph` rejects a string exactly when it holds a char outside
`33` to `126`. -/
theorem strx_is_graph_false (str : List Int) :
    strx_is_graph str = false ↔ ∃ c ∈ str, c < 33 ∨ 126 < c := by
  unfold strx_is_graph
  rw [List.all_eq_false]
  constructor
  · rintro ⟨c, hc, h⟩
    refine ⟨c, hc, ?_⟩
    simp only [decide_eq_true_eq] at h
    omega
  · rintro ⟨c, hc, h⟩
    refine ⟨c, hc, ?_⟩
    simp only [decide_eq_true_eq]
    omega

/-- The function `siridb_users_add_user` on a database with a list of users, branch by
branch. -/
theorem users_add_user_eq (env : users_env) (siridb : siridb_t) (files : siridb_files)
    (users : List siridb_user_t) (user : siridb_user_t) (hus : siridb.users = some users) :
    siridb_users_add_user env siridb files user =
      if user.username.length < 2 ∨ 60 < user.username.length ∨
          strx_is_graph user.username = false ∨
          llist_get users USERS_cmp user.username ≠ none then
        some { rc := 1, siridb := siridb, files := files }
      else if env.llist_append_ok = false then
        some { rc := -1, siridb := siridb, files := files }
      else
        match siridb_users_save env.save_failed
            { siridb with users := some (users ++ [user]) } files with
        | none => none
        | some s =>
          some { rc := if s.1 ≠ 0 then -1 else 0
                 siridb := { siridb with users := some (users ++ [user]) }
                 files := s.2 } := by
  have hsame : { siridb with users := some users } = siridb := by
    rw [← hus]
  unfold siridb_users_add_user
  simp only [SIRIDB_MIN_USER_LEN, SIRIDB_MAX_USER_LEN, gt_iff_lt]
  by_cases h1 : user.username.length < 2
  · rw [if_pos h1, if_pos (Or.inl h1)]
  · rw [if_neg h1]
    by_cases h2 : 60 < user.username.length
    · rw [if_pos h2, if_pos (Or.inr (Or.inl h2))]
    · rw [if_neg h2]
      by_cases h3 : strx_is_graph user.username = false
      · rw [if_pos h3, if_pos (Or.inr (Or.inr (Or.inl h3)))]
      · rw [if_neg h3, hus]
        dsimp only
        cases h4 : llist_get users USERS_cmp user.username with
        | some u =>
          rw [if_pos (show (some u).isSome = true from rfl),
            if_pos (Or.inr (Or.inr (Or.inr (by simp))))]
        | none =>
          have hbad : ¬ (user.username.length < 2 ∨ 60 < user.username.length ∨
              strx_is_graph user.username = false ∨
              (none : Option siridb_user_t) ≠ none) := by
            simp [h1, h2, h3]
          rw [if_neg (show ¬ ((none : Option siridb_user_t).isSome = true) by simp),
            if_neg hbad]
          unfold llist_append
          by_cases h5 : env.llist_append_ok = true
          · simp only [h5, if_true, ne_eq, not_true_eq_false, if_false, Bool.true_eq_false]
          · have h5f : env.llist_append_ok = false := by simpa using h5
            simp only [h5f, Bool.false_eq_true, if_false, if_true, hsame]
            rfl

/-- C27: on a database with a list of users, `siridb_users_add_user` returns `1`, with
the list and the files as they were, when the name is shorter than `2` chars,
longer than `60` chars, not accepted by `strx_is_graph`, or the name of a user of
the list; it returns `1` in these cases only; for every other name, when
`llist_append` and `siridb_users_save` succeed (and every password is set), it
returns `0`, the user is the new last element of the list, and `users.dat` holds
the schema and the items of all users; and whatever it returns, names that were
pairwise different in the list stay pairwise different. -/
theorem users_add_user_spec (env : users_env) (siridb : siridb_t) (files : siridb_files)
    (users : List siridb_user_t) (user : siridb_user_t) (hus : siridb.users = some users) :
    ((user.username.length < 2 ∨ 60 < user.username.length ∨
        strx_is_graph user.username = false ∨ ∃ u ∈ users, u.username = user.username) →
      siridb_users_add_user env siridb files user =
        some { rc := 1, siridb := siridb, files := files }) ∧
    (∀ r, siridb_users_add_user env siridb files user = some r → r.rc = 1 →
      user.username.length < 2 ∨ 60 < user.username.length ∨
        strx_is_graph user.username = false ∨ ∃ u ∈ users, u.username = user.username) ∧
    (2 ≤ user.username.length → user.username.length ≤ 60 →
      strx_is_graph user.username = true → (∀ u ∈ users, u.username ≠ user.username) →
      env.llist_append_ok = true → env.save_failed = none →
      (∀ u ∈ users ++ [user], u.password ≠ none) →
      ∃ items, USERS_save_walk (users ++ [user]) = some items ∧
        siridb_users_add_user env siridb files user = some
          { rc := 0
            siridb := { siridb with users := some (users ++ [user]) }
            files := { files with
              users_dat := some ([.array_open, .int16 SIRIDB_USERS_SCHEMA] ++ items) } }) ∧
    (users.Pairwise (fun a b => a.username ≠ b.username) →
      ∀ r us, siridb_users_add_user env siridb files user = some r →
        r.siridb.users = some us → us.Pairwise (fun a b => a.username ≠ b.username)) := by
  have hget : llist_get users USERS_cmp user.username ≠ none ↔
      ∃ u ∈ users, u.username = user.username := by
    rw [Ne, llist_get_none]
    push_neg
    rfl
  rw [users_add_user_eq env siridb files users user hus]
  refine ⟨fun hbad => ?_, fun r hr hrc => ?_, fun h1 h2 h3 h4 h5 h6 h7 => ?_,
    fun hpw r us hr hu => ?_⟩
  · rw [if_pos]
    rcases hbad with h | h | h | h
    · exact Or.inl h
    · exact Or.inr (Or.inl h)
    · exact Or.inr (Or.inr (Or.inl h))
    · exact Or.inr (Or.inr (Or.inr (hget.mpr h)))
  · by_cases hbad : user.username.length < 2 ∨ 60 < user.username.length ∨
        strx_is_graph user.username = false ∨
        llist_get users USERS_cmp user.username ≠ none
    · rcases hbad with h | h | h | h
      · exact Or.inl h
      · exact Or.inr (Or.inl h)
      · exact Or.inr (Or.inr (Or.inl h))
      · exact Or.inr (Or.inr (Or.inr (hget.mp h)))
    · exfalso
      rw [if_neg hbad] at hr
      by_cases h5 : env.llist_append_ok = false
      · rw [if_pos h5] at hr
        cases hr
        exact absurd (show (-1 : Int) = 1 from hrc) (by decide)
      · rw [if_neg h5] at hr
        cases hs : siridb_users_save env.save_failed
            { siridb with users := some (users ++ [user]) } files with
        | none =>
          rw [hs] at hr
          cases hr
        | some s =>
          rw [hs] at hr
          cases hr
          dsimp only at hrc
          split at hrc
          · exact absurd (show (-1 : Int) = 1 from hrc) (by decide)
          · exact absurd (show (0 : Int) = 1 from hrc) (by decide)
  · obtain ⟨items, hi⟩ := USERS_save_walk_defined (users ++ [user]) h7
    refine ⟨items, hi, ?_⟩
    have hgood : ¬ (user.username.length < 2 ∨ 60 < user.username.length ∨
        strx_is_graph user.username = false ∨
        llist_get users USERS_cmp user.username ≠ none) := by
      rintro (h | h | h | h)
      · omega
      · omega
      · rw [h3] at h
        cases h
      · exact h ((llist_get_none users user.username).mpr h4)
    rw [if_neg hgood, if_neg (by rw [h5]; decide)]
    unfold siridb_users_save
    rw [h6]
    dsimp only
    rw [hi]
    rfl
  · by_cases hbad : user.username.length < 2 ∨ 60 < user.username.length ∨
        strx_is_graph user.username = false ∨
        llist_get users USERS_cmp user.username ≠ none
    · rw [if_pos hbad] at hr
      cases hr
      rw [hus] at hu
      cases hu
      exact hpw
    · rw [if_neg hbad] at hr
      by_cases h5 : env.llist_append_ok = false
      · rw [if_pos h5] at hr
        cases hr
        rw [hus] at hu
        cases hu
        exact hpw
      · rw [if_neg h5] at hr
        cases hs : siridb_users_save env.save_failed
            { siridb with users := some (users ++ [user]) } files with
        | none =>
          rw [hs] at hr
          cases hr
        | some s =>
          rw [hs] at hr
          cases hr
          cases hu
          rw [List.pairwise_append]
          refine ⟨hpw, List.pairwise_singleton _ _, fun a ha b hb => ?_⟩
          rw [List.mem_singleton.mp hb]
          have hnone : llist_get users USERS_cmp user.username = none := by
            by_contra hne
            exact hbad (Or.inr (Or.inr (Or.inr hne)))
          exact (llist_get_none users user.username).mp hnone a ha

theorem users_add_user_spec_witness :
    siridb_users_add_user users_env_ok { buffer_len := 4, users := some [user_ann] } {}
        user_ann =
      some { rc := 1, siridb := { buffer_len := 4, users := some [user_ann] }, files := {} } ∧
    siridb_users_add_user users_env_ok { buffer_len := 4, users := some [user_ann] } {}
        user_bob =
      some { rc := 0, siridb := { buffer_len := 4, users := some [user_ann, user_bob] }
             files := { users_dat := some [.array_open, .int16 1,
               .array3, .raw [97, 110, 110], .raw [36, 49], .int32 1,
               .array3, .raw [98, 111, 98], .raw [36, 50], .int32 3] } } := by
  have h := users_add_user_spec users_env_ok { buffer_len := 4, users := some [user_ann] } {}
    [user_ann] user_ann rfl
  have h2 := users_add_user_spec users_env_ok { buffer_len := 4, users := some [user_ann] } {}
    [user_ann] user_bob rfl
  refine ⟨h.1 (Or.inr (Or.inr (Or.inr ⟨user_ann, by decide, rfl⟩))), ?_⟩
  obtain ⟨items, hi, hr⟩ := h2.2.2.1 (by decide) (by decide) (by decide) (by decide) rfl rfl
    (by decide)
  rw [hr]
  have e : USERS_save_walk ([user_ann] ++ [user_bob]) = some [.array3, .raw [97, 110, 110],
      .raw [36, 49], .int32 1, .array3, .raw [98, 111, 98], .raw [36, 50], .int32 3] := by
    decide
  rw [e] at hi
  cases hi
  rfl

/-- C28: for every list of users, name and optional password, `siridb_users_get_user`
returns `NULL` when no user of the list has the name; it returns the first user
with the name when no password is given; and when a password is given (the user
has a password and `crypt` returns a string) it returns that user if and only if
`crypt(password, user->password)` equals `user->password`, and `NULL` otherwise. -/
theorem users_get_user_spec (crypt : List Int → List Int → Option (List Int))
    (users : List siridb_user_t) (username : List Int) (password : Option (List Int)) :
    ((∀ x ∈ users, x.username ≠ username) →
      siridb_users_get_user crypt users username password = some none) ∧
    (∀ pre u post, users = pre ++ u :: post → (∀ x ∈ pre, x.username ≠ username) →
      u.username = username →
      (password = none →
        siridb_users_get_user crypt users username password = some (some u)) ∧
      (∀ p stored pw, password = some p → u.password = some stored →
        crypt p stored = some pw →
        (siridb_users_get_user crypt users username password = some (some u) ↔
          pw = stored) ∧
        (pw ≠ stored →
          siridb_users_get_user crypt users username password = some none))) := by
  refine ⟨fun h => ?_, fun pre u post hl hpre hu => ⟨fun hp => ?_,
    fun p stored pw hp hs hc => ?_⟩⟩
  · unfold siridb_users_get_user
    rw [(llist_get_none users username).mpr h]
  · unfold siridb_users_get_user
    rw [hl, llist_get_first pre post u username hpre hu, hp]
  · have e : siridb_users_get_user crypt users username password =
        some (if pw = stored then some u else none) := by
      unfold siridb_users_get_user
      rw [hl, llist_get_first pre post u username hpre hu, hp]
      dsimp only
      rw [hs]
      dsimp only
      rw [hc]
    rw [e]
    by_cases hpw : pw = stored
    · rw [if_pos hpw]
      exact ⟨⟨fun _ => hpw, fun _ => rfl⟩, fun hne => absurd hpw hne⟩
    · rw [if_neg hpw]
      refine ⟨⟨fun h => ?_, fun h => absurd h hpw⟩, fun _ => rfl⟩
      cases h

theorem users_get_user_spec_witness :
    siridb_users_get_user (fun p _ => some (36 :: p)) [user_ann, user_bob] [98, 111, 98]
      (some [50]) = some (some user_bob) ∧
    siridb_users_get_user (fun p _ => some (36 :: p)) [user_ann, user_bob] [98, 111, 98]
      (some [49]) = some none ∧
    siridb_users_get_user (fun p _ => some (36 :: p)) [user_ann, user_bob] [98, 111, 98]
      none = some (some user_bob) ∧
    siridb_users_get_user (fun p _ => some (36 :: p)) [user_ann, user_bob] [99, 111, 98]
      none = some none := by
  have h := fun pw => (users_get_user_spec (fun p _ => some (36 :: p)) [user_ann, user_bob]
    [98, 111, 98] pw).2 [user_ann] user_bob [] rfl (by decide) rfl
  refine ⟨((h (some [50])).2 [50] [36, 50] [36, 50] rfl rfl rfl).1.mpr rfl,
    ((h (some [49])).2 [49] [36, 50] [36, 49] rfl rfl rfl).2 (by decide),
    (h none).1 rfl, ?_⟩
  exact (users_get_user_spec (fun p _ => some (36 :: p)) [user_ann, user_bob]
    [99, 111, 98] none).1 (by decide)

/-- After the first user with a name is taken out of a list with pairwise different
names, no user of the list has the name. -/
theorem users_without_name (pre post : List siridb_user_t) (u : siridb_user_t)
    (h : (pre ++ u :: post).Pairwise (fun a b => a.username ≠ b.username)) :
    ∀ x ∈ pre ++ post, x.username ≠ u.username := by
  rw [List.pairwise_append] at h
  obtain ⟨-, h2, h3⟩ := h
  intro x hx
  rcases List.mem_append.mp hx with hx | hx
  · exact h3 x hx u (List.mem_cons_self _ _)
  · exact fun e => (List.rel_of_pairwise_cons h2 hx) e.symm

/-- C29: on a database with a list of users, `siridb_users_drop_user` returns `1`, with
the list and the files as they were, when no user of the list has the name, and
returns `1` in that case only; otherwise it takes the first user with the name out
of the list, the other users staying in their order, and returns `0`; when
`siridb_users_save` does not fail, `users.dat` then holds the schema and the items
of the users that remain; and when the names were pairwise different,
`siridb_users_get_user` finds nothing under the name afterwards. -/
theorem users_drop_user_spec (save_failed : Option (Option (List qp_item)))
    (siridb : siridb_t) (files : siridb_files) (users : List siridb_user_t)
    (username : List Int) (hus : siridb.users = some users) :
    ((∀ x ∈ users, x.username ≠ username) →
      siridb_users_drop_user save_failed siridb files username =
        some { rc := 1, siridb := siridb, files := files }) ∧
    (∀ r, siridb_users_drop_user save_failed siridb files username = some r → r.rc = 1 →
      ∀ x ∈ users, x.username ≠ username) ∧
    (∀ pre u post, users = pre ++ u :: post → (∀ x ∈ pre, x.username ≠ username) →
      u.username = username → (∀ x ∈ pre ++ post, x.password ≠ none) →
      ∃ r, siridb_users_drop_user save_failed siridb files username = some r ∧ r.rc = 0 ∧
        r.siridb = { siridb with users := some (pre ++ post) } ∧
        (save_failed = none → ∃ items, USERS_save_walk (pre ++ post) = some items ∧
          r.files = { files with
            users_dat := some ([.array_open, .int16 SIRIDB_USERS_SCHEMA] ++ items) }) ∧
        (users.Pairwise (fun a b => a.username ≠ b.username) →
          ∀ crypt password,
            siridb_users_get_user crypt (pre ++ post) username password = some none)) := by
  refine ⟨fun h => ?_, fun r hr hrc => ?_, fun pre u post hl hpre hu hpw => ?_⟩
  · unfold siridb_users_drop_user
    rw [hus]
    dsimp only
    rw [llist_remove_none users username h]
  · by_contra hcon
    have hne : llist_get users USERS_cmp username ≠ none :=
      fun e => hcon ((llist_get_none users username).mp e)
    cases hg : llist_get users USERS_cmp username with
    | none => exact hne hg
    | some u =>
      obtain ⟨pre, post, hl, hpre, hu⟩ := llist_get_some users username u hg
      unfold siridb_users_drop_user at hr
      rw [hus] at hr
      dsimp only at hr
      rw [hl, llist_remove_first pre post u username hpre hu] at hr
      dsimp only at hr
      cases hs : siridb_users_save save_failed { siridb with users := some (pre ++ post) }
          files with
      | none =>
        rw [hs] at hr
        cases hr
      | some s =>
        rw [hs] at hr
        cases hr
        exact absurd (show (0 : Int) = 1 from hrc) (by decide)
  · obtain ⟨items, hi⟩ := USERS_save_walk_defined (pre ++ post) hpw
    have hsave : ∃ s, siridb_users_save save_failed
        { siridb with users := some (pre ++ post) } files = some s ∧
        (save_failed = none → s.2 = { files with
          users_dat := some ([.array_open, .int16 SIRIDB_USERS_SCHEMA] ++ items) }) := by
      unfold siridb_users_save
      cases save_failed with
      | some content => exact ⟨_, rfl, fun h => by cases h⟩
      | none =>
        dsimp only
        rw [hi]
        exact ⟨_, rfl, fun _ => rfl⟩
    obtain ⟨s, hs, hfiles⟩ := hsave
    refine ⟨{ rc := 0, siridb := { siridb with users := some (pre ++ post) }, files := s.2 },
      ?_, rfl, rfl, fun hnone => ⟨items, hi, hfiles hnone⟩, fun hpair crypt password => ?_⟩
    · unfold siridb_users_drop_user
      rw [hus]
      dsimp only
      rw [hl, llist_remove_first pre post u username hpre hu]
      dsimp only
      rw [hs]
    · rw [hl] at hpair
      have hno := users_without_name pre post u hpair
      rw [hu] at hno
      unfold siridb_users_get_user
      rw [(llist_get_none (pre ++ post) username).mpr hno]

theorem users_drop_user_spec_witness :
    siridb_users_drop_user none { buffer_len := 4, users := some [user_ann, user_bob] } {}
        [97, 110, 110] =
      some { rc := 0, siridb := { buffer_len := 4, users := some [user_bob] }
             files := { users_dat := some [.array_open, .int16 1,
               .array3, .raw [98, 111, 98], .raw [36, 50], .int32 3] } } ∧
    siridb_users_get_user (fun p _ => some (36 :: p)) [user_bob] [97, 110, 110] none =
      some none ∧
    siridb_users_drop_user none { buffer_len := 4, users := some [user_ann, user_bob] } {}
        [99] =
      some { rc := 1, siridb := { buffer_len := 4, users := some [user_ann, user_bob] }
             files := {} } := by
  have h := users_drop_user_spec none { buffer_len := 4, users := some [user_ann, user_bob] }
    {} [user_ann, user_bob] [97, 110, 110] rfl
  obtain ⟨r, h1, h2, h3, h4, h5⟩ := h.2.2 [] user_ann [user_bob] rfl (by decide) rfl
    (by decide)
  obtain ⟨items, hi, hf⟩ := h4 rfl
  have e : USERS_save_walk ([] ++ [user_bob]) =
      some [.array3, .raw [98, 111, 98], .raw [36, 50], .int32 3] := by
    decide
  rw [e] at hi
  cases hi
  refine ⟨?_, h5 (by decide) _ none, ?_⟩
  · rw [h1]
    cases r
    dsimp only at h2 h3 hf
    rw [h2, h3, hf]
    rfl
  · exact (users_drop_user_spec none { buffer_len := 4, users := some [user_ann, user_bob] }
      {} [user_ann, user_bob] [99] rfl).1 (by decide)

/-- C30: when `users.dat` does not exist and `siridb_users_load` returns `0`, the list
of users holds exactly one user, named `"iris"`, with the access bits
`SIRIDB_ACCESS_PROFILE_FULL` and the password `siridb_user_set_password` has set
from `"siri"` (with return code `0`); `siridb_users_add_user` was called for this
user on the empty list and returned `0`, leaving the database and the files of the
result, with the user saved in `users.dat` after the schema. -/
theorem users_load_default (env : users_load_env) (SIRIDB_ACCESS_PROFILE_FULL : Nat)
    (siridb : siridb_t) (files : siridb_files) (r : users_result)
    (hfile : files.users_dat = none)
    (hload : siridb_users_load env SIRIDB_ACCESS_PROFILE_FULL siridb files = some r)
    (hrc : r.rc = 0) :
    ∃ pw, env.siridb_user_set_password
        { username := str_iris, password := none, access_bit := SIRIDB_ACCESS_PROFILE_FULL }
        str_siri = (0, some pw) ∧
      r.siridb.users = some
        [{ username := str_iris, password := some pw
           access_bit := SIRIDB_ACCESS_PROFILE_FULL }] ∧
      siridb_users_add_user env.add_user { siridb with users := some [] } files
        { username := str_iris, password := some pw
          access_bit := SIRIDB_ACCESS_PROFILE_FULL } = some r ∧
      r.files.users_dat = some [.array_open, .int16 SIRIDB_USERS_SCHEMA, .array3,
        .raw str_iris, .raw pw, .int32 (to_int32 SIRIDB_ACCESS_PROFILE_FULL)] := by
  unfold siridb_users_load at hload
  rw [hfile] at hload
  dsimp only at hload
  by_cases h1 : env.llist_new_ok = false
  · rw [if_pos h1] at hload
    cases hload
    exact absurd (show (-1 : Int) = 0 from hrc) (by decide)
  rw [if_neg h1] at hload
  by_cases h2 : env.siridb_user_new_ok 0 = false
  · rw [if_pos h2] at hload
    cases hload
    exact absurd (show (-1 : Int) = 0 from hrc) (by decide)
  rw [if_neg h2] at hload
  by_cases h3 : env.strdup_ok = false
  · rw [if_pos h3] at hload
    cases hload
    exact absurd (show (-1 : Int) = 0 from hrc) (by decide)
  rw [if_neg h3] at hload
  by_cases h4 : (env.siridb_user_set_password
      { username := str_iris, password := none, access_bit := SIRIDB_ACCESS_PROFILE_FULL }
      str_siri).1 ≠ 0
  · rw [if_pos h4] at hload
    cases hload
    exact absurd (show (-1 : Int) = 0 from hrc) (by decide)
  rw [if_neg h4] at hload
  have h4z := not_not.mp h4
  cases hadd : siridb_users_add_user env.add_user { siridb with users := some [] } files
      { username := str_iris
        password := (env.siridb_user_set_password
          { username := str_iris, password := none
            access_bit := SIRIDB_ACCESS_PROFILE_FULL } str_siri).2
        access_bit := SIRIDB_ACCESS_PROFILE_FULL } with
  | none =>
    rw [hadd] at hload
    cases hload
  | some a =>
    rw [hadd] at hload
    dsimp only at hload
    have harc : a.rc = 0 := by
      by_contra hne
      rw [if_pos hne] at hload
      cases hload
      exact absurd (show (-1 : Int) = 0 from hrc) (by decide)
    have har : a = r := by
      rw [if_neg (not_not.mpr harc)] at hload
      cases hload
      cases a
      dsimp only at harc
      rw [harc]
    subst har
    rw [users_add_user_eq env.add_user { siridb with users := some [] } files [] _ rfl]
      at hadd
    split at hadd
    · cases hadd
      exact absurd (show (1 : Int) = 0 from hrc) (by decide)
    · split at hadd
      · cases hadd
        exact absurd (show (-1 : Int) = 0 from hrc) (by decide)
      · cases hp : (env.siridb_user_set_password
            { username := str_iris, password := none
              access_bit := SIRIDB_ACCESS_PROFILE_FULL } str_siri).2 with
        | none =>
          rw [hp] at hadd
          unfold siridb_users_save at hadd
          cases hsf : env.add_user.save_failed with
          | some content =>
            rw [hsf] at hadd
            cases hadd
            exact absurd (show (-1 : Int) = 0 from hrc) (by decide)
          | none =>
            rw [hsf] at hadd
            simp [USERS_save_walk, USERS_save] at hadd
        | some pw =>
          refine ⟨pw, ?_, ?_, ?_, ?_⟩
          · rw [← h4z, ← hp]
          · rw [hp] at hadd
            unfold siridb_users_save at hadd
            cases hsf : env.add_user.save_failed with
            | some content =>
              rw [hsf] at hadd
              cases hadd
              exact absurd (show (-1 : Int) = 0 from hrc) (by decide)
            | none =>
              rw [hsf] at hadd
              simp only [USERS_save_walk, USERS_save, List.nil_append] at hadd
              cases hadd
              rfl
          · rw [hp] at hadd
            rw [users_add_user_eq env.add_user { siridb with users := some [] } files [] _
              rfl]
            unfold siridb_users_save at hadd ⊢
            cases hsf : env.add_user.save_failed with
            | some content =>
              rw [hsf] at hadd
              cases hadd
              exact absurd (show (-1 : Int) = 0 from hrc) (by decide)
            | none =>
              rw [hsf] at hadd
              simp only [USERS_save_walk, USERS_save, List.nil_append] at hadd
              cases hadd
              rename_i hg1 hg2
              rw [if_neg hg1, if_neg hg2]
              simp only [USERS_save_walk, USERS_save, List.nil_append]
          · rw [hp] at hadd
            unfold siridb_users_save at hadd
            cases hsf : env.add_user.save_failed with
            | some content =>
              rw [hsf] at hadd
              cases hadd
              exact absurd (show (-1 : Int) = 0 from hrc) (by decide)
            | none =>
              rw [hsf] at hadd
              simp only [USERS_save_walk, USERS_save, List.nil_append] at hadd
              cases hadd
              rfl

theorem users_load_default_witness :
    ∃ r, siridb_users_load users_load_env_ok 4294967295 { buffer_len := 4 } {} = some r ∧
      r.rc = 0 ∧
      r.siridb.users = some
        [{ username := str_iris, password := some [36, 54], access_bit := 4294967295 }] ∧
      r.files.users_dat = some [.array_open, .int16 1, .array3, .raw str_iris,
        .raw [36, 54], .int32 (-1)] := by
  have hload : siridb_users_load users_load_env_ok 4294967295 { buffer_len := 4 } {} =
      some ((siridb_users_load users_load_env_ok 4294967295 { buffer_len := 4 } {}).get
        (by decide)) := by
    simp
  obtain ⟨pw, h1, h2, h3, h4⟩ := users_load_default users_load_env_ok 4294967295
    { buffer_len := 4 } {} _ rfl hload (by decide)
  have hpw : pw = [36, 54] := by
    have := congrArg Prod.snd h1
    exact (Option.some.inj this).symm
  subst hpw
  exact ⟨_, hload, by decide, h2, h4⟩


/-! ## Loading the users -/

/-- C31: for every `users.dat` that starts with `QP_ARRAY_OPEN` and a schema value
other than `1`, `siridb_users_load` returns `-1`, leaves the files as they are, and
leaves no user in `siridb->users`: the list is empty (or `NULL`, when `llist_new`
has failed), and it is the empty list whenever `llist_new` succeeds. Nothing else
of the database is changed. -/
theorem users_load_schema (env : users_load_env) (SIRIDB_ACCESS_PROFILE_FULL : Nat)
    (siridb : siridb_t) (files : siridb_files) (v : Int) (rest : List qp_item)
    (hfile : files.users_dat = some (.array_open :: .int16 v :: rest))
    (hv : v ≠ 1) :
    ∃ r, siridb_users_load env SIRIDB_ACCESS_PROFILE_FULL siridb files = some r ∧
      r.rc = -1 ∧ r.files = files ∧
      (r.siridb.users = some [] ∨ r.siridb.users = none) ∧
      (env.llist_new_ok = true → r.siridb = { siridb with users := some [] }) ∧
      { r.siridb with users := siridb.users } = siridb := by
  have hcheck : siridb_schema_check SIRIDB_USERS_SCHEMA (.array_open :: .int16 v :: rest) =
      none := by
    simp only [siridb_schema_check, SIRIDB_USERS_SCHEMA, hv, if_false]
  unfold siridb_users_load
  by_cases h1 : env.llist_new_ok = false
  · rw [if_pos h1]
    refine ⟨_, rfl, rfl, rfl, Or.inr rfl, fun h => ?_, rfl⟩
    rw [h1] at h
    cases h
  · rw [if_neg h1, hfile]
    dsimp only
    by_cases h2 : env.unpacker_ok = false
    · rw [if_pos h2]
      exact ⟨_, rfl, rfl, rfl, Or.inl rfl, fun _ => rfl, rfl⟩
    · rw [if_neg h2, hcheck]
      exact ⟨_, rfl, rfl, rfl, Or.inl rfl, fun _ => rfl, rfl⟩

theorem users_load_schema_witness :
    siridb_users_load users_load_env_ok 4294967295 { buffer_len := 4 }
        { users_dat := some users_dat_schema_2 } =
      some { rc := -1, siridb := { buffer_len := 4, users := some [] }
             files := { users_dat := some users_dat_schema_2 } } := by
  obtain ⟨r, h1, h2, h3, -, h5, -⟩ := users_load_schema users_load_env_ok 4294967295
    { buffer_len := 4 } { users_dat := some users_dat_schema_2 } 2
    [.array3, .raw [97, 110, 110], .raw [36, 49], .int32 1] rfl (by decide)
  rw [h1]
  cases r
  dsimp only at h2 h3 h5
  rw [h2, h3, h5 rfl]

/-- The chars before the first NUL of a string without NUL are the string. -/
theorem cstr_chars_eq (l : List Int) (h : (0 : Int) ∉ l) : cstr_chars l = l := by
  induction l with
  | nil => rfl
  | cons c rest ih =>
    have hc : c ≠ 0 := fun e => h (by rw [e]; exact List.mem_cons_self _ _)
    have hr : (0 : Int) ∉ rest := fun e => h (List.mem_cons_of_mem _ e)
    simp only [cstr_chars, hc, if_false, ih hr]

/-- The value `(uint32_t)` of the integer read back from the item written for
`(int32_t) x`. -/
theorem to_int32_mod (x : Nat) :
    ((to_int32 x) % (UINT32_MOD : Int)).toNat = x % UINT32_MOD := by
  unfold to_int32
  simp only [UINT32_MOD]
  split <;> omega

/-- The loop of `siridb_users_load` reads the items `USERS_save` has written for users
with passwords back as one record for each user, up to the end of the items. -/
theorem USERS_load_records_save :
    ∀ (users : List siridb_user_t) (fuel : Nat), users.length < fuel →
      (∀ u ∈ users, u.password ≠ none) →
      ∃ items, USERS_save_walk users = some items ∧ items.length = 4 * users.length ∧
        USERS_load_records fuel items = some (users.map (fun u =>
          { username := u.username, password := u.password.getD []
            access_bit := to_int32 u.access_bit }), []) := by
  intro users
  induction users with
  | nil =>
    intro fuel h _
    refine ⟨[], rfl, rfl, ?_⟩
    cases fuel with
    | zero => omega
    | succ n => rfl
  | cons u rest ih =>
    intro fuel h hpw
    cases fuel with
    | zero => omega
    | succ n =>
      obtain ⟨items, h1, h2, h3⟩ := ih n (by simpa using h)
        (fun x hx => hpw x (List.mem_cons_of_mem _ hx))
      have hu := hpw u (List.mem_cons_self _ _)
      cases hp : u.password with
      | none => exact absurd hp hu
      | some pw =>
        refine ⟨.array3 :: .raw u.username :: .raw pw :: .int32 (to_int32 u.access_bit) ::
          items, ?_, ?_, ?_⟩
        · simp only [USERS_save_walk, USERS_save, hp, h1]
          rfl
        · simp only [List.length_cons, h2]
          omega
        · simp only [USERS_load_records, qp_next, qp_is_array, h3, List.map_cons, hp]
          rfl

/-- The body of the loop of `siridb_users_load` when no allocation fails: one user is
appended for each record, in the order of the records, and `rc` stays. -/
theorem USERS_load_body_ok (env : users_load_env)
    (hnew : ∀ k, env.siridb_user_new_ok k = true)
    (hdup : ∀ k, env.strndup_ok k = (true, true))
    (happ : ∀ k, env.llist_append_ok k = true) :
    ∀ (records : List users_record) (k : Nat) (users : List siridb_user_t) (rc : Int),
      USERS_load_body env k records users rc =
        (users ++ records.map (fun r =>
          { username := cstr_chars r.username, password := some (cstr_chars r.password)
            access_bit := (r.access_bit % (UINT32_MOD : Int)).toNat }), rc) := by
  intro records
  induction records with
  | nil =>
    intro k users rc
    simp [USERS_load_body]
  | cons r rest ih =>
    intro k users rc
    simp only [USERS_load_body, hnew k, hdup k, happ k, llist_append, Bool.true_eq_false,
      if_false, or_self, if_true, ne_eq, not_true_eq_false, ih, List.map_cons,
      List.append_assoc, List.singleton_append]

/-- C32: for every list of users whose names and password hashes hold no NUL and whose
access bits are 32-bit values (the top bit may be set), `siridb_users_save` writes
items to `users.dat` which `siridb_users_load`, when no allocation fails, reads
back as the same users in the same order, each with its name, its password hash
and its access bits, and returns `0`. -/
theorem users_save_load (env : users_load_env) (siridb : siridb_t) (files : siridb_files)
    (users : List siridb_user_t) (hus : siridb.users = some users)
    (hnul : ∀ u ∈ users, (0 : Int) ∉ u.username ∧
      ∃ pw, u.password = some pw ∧ (0 : Int) ∉ pw)
    (hbits : ∀ u ∈ users, u.access_bit < UINT32_MOD)
    (hlist : env.llist_new_ok = true) (hunp : env.unpacker_ok = true)
    (hobj : env.objects_ok = true)
    (hnew : ∀ k, env.siridb_user_new_ok k = true)
    (hdup : ∀ k, env.strndup_ok k = (true, true))
    (happ : ∀ k, env.llist_append_ok k = true) :
    ∃ items, USERS_save_walk users = some items ∧
      siridb_users_save none siridb files =
        some (0, { files with
          users_dat := some ([.array_open, .int16 SIRIDB_USERS_SCHEMA] ++ items) }) ∧
      ∀ (SIRIDB_ACCESS_PROFILE_FULL : Nat) (db : siridb_t) (files2 : siridb_files),
        files2.users_dat = some ([.array_open, .int16 SIRIDB_USERS_SCHEMA] ++ items) →
        siridb_users_load env SIRIDB_ACCESS_PROFILE_FULL db files2 =
          some { rc := 0, siridb := { db with users := some users }, files := files2 } := by
  have hpw : ∀ u ∈ users, u.password ≠ none := by
    intro u hu
    obtain ⟨-, pw, h, -⟩ := hnul u hu
    rw [h]
    exact Option.some_ne_none _
  obtain ⟨items, h1, h2, h3⟩ := USERS_load_records_save users (4 * users.length + 1)
    (by omega) hpw
  rw [← h2] at h3
  have hmap : users.map ((fun r : users_record =>
      ({ username := cstr_chars r.username, password := some (cstr_chars r.password)
         access_bit := (r.access_bit % (UINT32_MOD : Int)).toNat } : siridb_user_t)) ∘
      (fun u : siridb_user_t =>
        ({ username := u.username, password := u.password.getD []
           access_bit := to_int32 u.access_bit } : users_record))) = users := by
    conv_rhs => rw [← List.map_id users]
    apply List.map_congr_left
    intro u hu
    obtain ⟨hn, pw, hp, hq⟩ := hnul u hu
    have hb := hbits u hu
    cases u with
    | mk username password access_bit =>
      dsimp only at hn hp hb ⊢
      subst hp
      simp only [Function.comp, Option.getD_some, cstr_chars_eq _ hn, cstr_chars_eq _ hq,
        to_int32_mod, Nat.mod_eq_of_lt hb, id]
  refine ⟨items, h1, ?_, fun FULL db files2 hf => ?_⟩
  · unfold siridb_users_save
    simp only [hus, h1]
  · have hcheck : siridb_schema_check SIRIDB_USERS_SCHEMA
        ([.array_open, .int16 SIRIDB_USERS_SCHEMA] ++ items) = some items := by
      simp [siridb_schema_check]
    unfold siridb_users_load
    rw [if_neg (by rw [hlist]; decide), hf]
    dsimp only
    rw [if_neg (by rw [hunp]; decide), hcheck]
    dsimp only
    rw [if_neg (by rw [hobj]; decide), h3]
    dsimp only
    rw [USERS_load_body_ok env hnew hdup happ, List.nil_append, List.map_map, hmap]

theorem users_save_load_witness :
    ∃ items, siridb_users_save none { buffer_len := 4, users := some [user_ann, user_top_bit] }
        {} = some (0, { users_dat := some items }) ∧
      items = [.array_open, .int16 1, .array3, .raw [97, 110, 110], .raw [36, 49], .int32 1,
        .array3, .raw [116, 111, 112], .raw [36, 55], .int32 (-2147483647)] ∧
      siridb_users_load users_load_env_ok 4294967295 { buffer_len := 4 }
          { users_dat := some items } =
        some { rc := 0, siridb := { buffer_len := 4, users := some [user_ann, user_top_bit] }
               files := { users_dat := some items } } := by
  obtain ⟨items, h1, h2, h3⟩ := users_save_load users_load_env_ok
    { buffer_len := 4, users := some [user_ann, user_top_bit] } {} [user_ann, user_top_bit] rfl
    (by decide) (by decide) rfl rfl rfl (fun _ => rfl) (fun _ => rfl) (fun _ => rfl)
  have e : USERS_save_walk [user_ann, user_top_bit] = some [.array3, .raw [97, 110, 110],
      .raw [36, 49], .int32 1, .array3, .raw [116, 111, 112], .raw [36, 55],
      .int32 (-2147483647)] := by
    decide
  rw [e] at h1
  cases h1
  exact ⟨_, h2, rfl, h3 4294967295 { buffer_len := 4 } _ rfl⟩


/-! ## The flags `siridb_series_add_idx_num32` sets -/

/-- A flag word has no bit of two masks exactly when it has no bit of either. -/
theorem and_or_eq_zero (x a b : Nat) : x &&& (a ||| b) = 0 ↔ x &&& a = 0 ∧ x &&& b = 0 := by
  rw [Nat.and_or_distrib_left]
  constructor
  · intro h
    constructor
    · apply Nat.eq_of_testBit_eq
      intro i
      have := congrArg (fun n => n.testBit i) h
      simp only [Nat.testBit_or, Nat.zero_testBit, Bool.or_eq_false_iff] at this
      rw [this.1, Nat.zero_testBit]
    · apply Nat.eq_of_testBit_eq
      intro i
      have := congrArg (fun n => n.testBit i) h
      simp only [Nat.testBit_or, Nat.zero_testBit, Bool.or_eq_false_iff] at this
      rw [this.2, Nat.zero_testBit]
  · rintro ⟨h1, h2⟩
    rw [h1, h2]
    rfl

/-- After `flags |= mask` the bits of the mask are set. -/
theorem or_and_mask (x n : Nat) : (x ||| n) &&& n = n := by
  apply Nat.eq_of_testBit_eq
  intro i
  simp only [Nat.testBit_and, Nat.testBit_or]
  cases x.testBit i <;> cases n.testBit i <;> rfl

/-- The statement `flags |= other` leaves the bits of a mask that shares no bit with
`other`. -/
theorem or_and_other (x o n : Nat) (h : o &&& n = 0) : (x ||| o) &&& n = x &&& n := by
  apply Nat.eq_of_testBit_eq
  intro i
  have := congrArg (fun m => m.testBit i) h
  simp only [Nat.testBit_and, Nat.zero_testBit] at this
  simp only [Nat.testBit_and, Nat.testBit_or]
  cases hx : x.testBit i <;> cases ho : o.testBit i <;> cases hn : n.testBit i <;>
    simp_all

/-- The statement `flags |= mask` clears no bit. -/
theorem or_keeps_bits (x n i : Nat) (h : x.testBit i = true) : (x ||| n).testBit i = true := by
  rw [Nat.testBit_or, h]
  rfl

/-- The shift loop of `siridb_series_add_idx_num32` on a block that holds `xs`
followed by at least one more slot: the slot the loop stops at still holds the
entry it held, which has been copied one slot up when there is one. -/
theorem add_idx_shift_slot (start_ts : Nat) (xs : List idx_num32_t) :
    ∀ (g : idx_num32_t) (rest : List idx_num32_t),
      add_idx_shift start_ts xs.length (xs ++ g :: rest)
        = ((xs.rdropWhile (fun e => decide (e.start_ts > start_ts))).length,
           xs.rdropWhile (fun e => decide (e.start_ts > start_ts)) ++
             ((xs.rtakeWhile (fun e => decide (e.start_ts > start_ts))).head?.getD g) ::
             (xs.rtakeWhile (fun e => decide (e.start_ts > start_ts)) ++ rest)) := by
  induction xs using List.reverseRecOn with
  | nil =>
    intro g rest
    simp [add_idx_shift]
  | append_singleton ys e ih =>
    intro g rest
    have hget : (ys ++ [e] ++ g :: rest)[ys.length]? = some e := by
      rw [List.append_assoc, List.getElem?_append_right (le_refl _)]
      simp
    by_cases h : start_ts < e.start_ts
    · have hg1 := ih e (e :: rest)
      have hset : (ys ++ [e] ++ g :: rest).set (ys.length + 1) e = ys ++ e :: e :: rest := by
        simp [List.set_append]
      rw [List.length_append, List.length_singleton, add_idx_shift, hget]
      simp only [h, if_true, hset, hg1]
      rw [List.rdropWhile_concat_pos _ _ _ (by simpa using h),
        List.rtakeWhile_concat_pos _ _ _ (by simpa using h)]
      cases hrt : ys.rtakeWhile (fun e => decide (e.start_ts > start_ts)) with
      | nil => simp
      | cons a l => simp
    · rw [List.length_append, List.length_singleton, add_idx_shift, hget]
      simp only [h, if_false]
      rw [List.rdropWhile_concat_neg _ _ _ (by simpa using h),
        List.rtakeWhile_concat_neg _ _ _ (by simpa using h)]
      simp

/-- The last of the entries the shift loop leaves below the new entry does not start
after it. -/
theorem rdropWhile_last_le (start_ts : Nat) (xs : List idx_num32_t) (e : idx_num32_t)
    (h : (xs.rdropWhile (fun e => decide (e.start_ts > start_ts))).getLast? = some e) :
    ¬ start_ts < e.start_ts := by
  induction xs using List.reverseRecOn with
  | nil => simp at h
  | append_singleton ys a ih =>
    by_cases ha : start_ts < a.start_ts
    · rw [List.rdropWhile_concat_pos _ _ _ (by simpa using ha)] at h
      exact ih h
    · rw [List.rdropWhile_concat_neg _ _ _ (by simpa using ha)] at h
      rw [List.getLast?_concat] at h
      cases h
      exact ha

/-- The test for `SIRIDB_SHARD_HAS_NEW_VALUES` on the block the shift loop leaves: the
shard has neither flag, and the entry below the slot or the entry the slot still
holds, which is the entry directly after the new one, refers to the shard. -/
theorem add_idx_new_values_eq (K : shard_flag_masks) (shard : siridb_shard_t)
    (pre post : List idx_num32_t) :
    add_idx_new_values K shard pre.length (pre.length + post.length + 1)
        (pre ++ (post.head?.getD default) :: post) = true ↔
      shard.flags &&& K.SIRIDB_SHARD_HAS_NEW_VALUES = 0 ∧
      shard.flags &&& K.SIRIDB_SHARD_IS_LOADING = 0 ∧
      ((∃ e, pre.getLast? = some e ∧ e.shard = shard.ref) ∨
       (∃ e, post.head? = some e ∧ e.shard = shard.ref)) := by
  have hbelow : (decide (pre.length > 0) &&
      ((pre ++ (post.head?.getD default) :: post).getD (pre.length - 1) default).shard ==
        shard.ref) = true ↔ ∃ e, pre.getLast? = some e ∧ e.shard = shard.ref := by
    induction pre using List.reverseRecOn with
    | nil => simp
    | append_singleton ys a _ =>
      have hg : (ys ++ [a] ++ (post.head?.getD default) :: post).getD
          ((ys ++ [a]).length - 1) default = a := by
        rw [List.length_append, List.length_singleton, Nat.add_sub_cancel,
          List.append_assoc, List.getD_append_right _ _ _ _ (Nat.le_refl _), Nat.sub_self]
        rfl
      rw [hg, List.getLast?_concat]
      simp
  have habove : (decide (pre.length < pre.length + post.length + 1 - 1) &&
      ((pre ++ (post.head?.getD default) :: post).getD pre.length default).shard ==
        shard.ref) = true ↔ ∃ e, post.head? = some e ∧ e.shard = shard.ref := by
    have hg : (pre ++ (post.head?.getD default) :: post).getD pre.length default =
        post.head?.getD default := by
      rw [List.getD_append_right _ _ _ _ (Nat.le_refl _), Nat.sub_self]
      rfl
    rw [hg]
    cases post with
    | nil => simp
    | cons b l => simp
  unfold add_idx_new_values
  rw [Bool.and_eq_true, Bool.or_eq_true, hbelow, habove, beq_iff_eq, and_or_eq_zero]
  exact ⟨fun h => ⟨h.1.1, h.1.2, h.2⟩, fun h => ⟨⟨h.1, h.2.1⟩, h.2.2⟩⟩

/-- The test for `SIRIDB_SHARD_HAS_OVERLAP` on the block with the new entry in its
slot: the new entry starts before the entry directly below it, or ends after the
start of the entry directly after it. -/
theorem add_idx_overlap_eq (start_ts end_ts : Nat) (new : idx_num32_t)
    (pre post : List idx_num32_t) :
    add_idx_overlap start_ts end_ts pre.length (pre.length + post.length + 1)
        (pre ++ new :: post) = true ↔
      ((∃ e, pre.getLast? = some e ∧ start_ts < e.start_ts) ∨
       (∃ e, post.head? = some e ∧ e.start_ts < end_ts)) := by
  have hbelow : (decide (pre.length > 0) &&
      decide (start_ts < ((pre ++ new :: post).getD (pre.length - 1) default).start_ts)) =
        true ↔ ∃ e, pre.getLast? = some e ∧ start_ts < e.start_ts := by
    induction pre using List.reverseRecOn with
    | nil => simp
    | append_singleton ys a _ =>
      have hg : (ys ++ [a] ++ new :: post).getD ((ys ++ [a]).length - 1) default = a := by
        rw [List.length_append, List.length_singleton, Nat.add_sub_cancel,
          List.append_assoc, List.getD_append_right _ _ _ _ (Nat.le_refl _), Nat.sub_self]
        rfl
      rw [hg, List.getLast?_concat]
      simp
  have habove : (decide (pre.length + 1 < pre.length + post.length + 1) &&
      decide (end_ts > ((pre ++ new :: post).getD (pre.length + 1) default).start_ts)) =
        true ↔ ∃ e, post.head? = some e ∧ e.start_ts < end_ts := by
    have hg : (pre ++ new :: post).getD (pre.length + 1) default =
        post.head?.getD default := by
      rw [List.getD_append_right _ _ _ _ (Nat.le_add_right _ _), Nat.add_sub_cancel_left]
      cases post <;> rfl
    rw [hg]
    cases post with
    | nil => simp
    | cons b l => simp
  unfold add_idx_overlap
  rw [Bool.or_eq_true, hbelow, habove]

/-- A successful `siridb_series_add_idx_num32`, written out: the index, the flags of
the shard and the call of `siridb_shard_write_flags` in terms of the two tests,
with `pre` the entries the shift loop leaves below the new entry and `post` the
entries it has moved up. -/
theorem add_idx_eq (K : shard_flag_masks) (realloc_ok : Bool) (index : siridb_series_idx_t)
    (shard : siridb_shard_t) (start_ts end_ts pos len : Nat) (pre post : List idx_num32_t)
    (hok : realloc_ok = true ∧ index.len + 1 < 2 ^ 32)
    (hpre : index.idx.rdropWhile (fun e => decide (e.start_ts > start_ts)) = pre)
    (hpost : index.idx.rtakeWhile (fun e => decide (e.start_ts > start_ts)) = post) :
    index.idx = pre ++ post ∧
    siridb_series_add_idx_num32 K realloc_ok index shard start_ts end_ts pos len =
      { rc := 0
        index :=
          { has_overlap :=
              if add_idx_overlap start_ts end_ts pre.length (pre.length + post.length + 1)
                (pre ++ ⟨start_ts, end_ts, shard.ref, pos, len⟩ :: post) then 1
              else index.has_overlap
            idx := pre ++ ⟨start_ts, end_ts, shard.ref, pos, len⟩ :: post }
        shard :=
          { shard with
            flags :=
              if add_idx_overlap start_ts end_ts pre.length (pre.length + post.length + 1)
                (pre ++ ⟨start_ts, end_ts, shard.ref, pos, len⟩ :: post) then
                (if add_idx_new_values K shard pre.length (pre.length + post.length + 1)
                    (pre ++ (post.head?.getD default) :: post) then
                  shard.flags ||| K.SIRIDB_SHARD_HAS_NEW_VALUES else shard.flags) |||
                  K.SIRIDB_SHARD_HAS_OVERLAP
              else
                (if add_idx_new_values K shard pre.length (pre.length + post.length + 1)
                    (pre ++ (post.head?.getD default) :: post) then
                  shard.flags ||| K.SIRIDB_SHARD_HAS_NEW_VALUES else shard.flags) }
        flags_written := add_idx_new_values K shard pre.length (pre.length + post.length + 1)
          (pre ++ (post.head?.getD default) :: post) } := by
  have hsplit := rdropWhile_append_rtakeWhile
    (fun e : idx_num32_t => decide (e.start_ts > start_ts)) index.idx
  rw [hpre, hpost] at hsplit
  have hloop := add_idx_shift_slot start_ts index.idx default []
  rw [hpre, hpost, List.append_nil] at hloop
  have hlen : index.idx.length = pre.length + post.length := by
    rw [← hsplit, List.length_append]
  have hset : (pre ++ (post.head?.getD default) :: post).set pre.length
      ⟨start_ts, end_ts, shard.ref, pos, len⟩ =
      pre ++ ⟨start_ts, end_ts, shard.ref, pos, len⟩ :: post := by
    simp [List.set_append]
  refine ⟨hsplit.symm, ?_⟩
  unfold siridb_series_add_idx_num32
  rw [if_pos hok]
  dsimp only
  rw [hlen] at hloop
  simp only [siridb_series_idx_t.len, hlen, hloop, hset]
  by_cases hO : add_idx_overlap start_ts end_ts pre.length (pre.length + post.length + 1)
      (pre ++ ⟨start_ts, end_ts, shard.ref, pos, len⟩ :: post) = true
  · rw [if_pos hO, if_pos hO, if_pos hO]
  · rw [if_neg hO, if_neg hO, if_neg hO]

/-- C33: a call of `siridb_series_add_idx_num32` that fails leaves the shard as it is.
A call that succeeds puts the new entry between `pre`, the old entries the shift
loop leaves below it, and `post`, the old entries it has moved up; it sets
`SIRIDB_SHARD_HAS_NEW_VALUES` and calls `siridb_shard_write_flags` if and only if
the shard had neither `SIRIDB_SHARD_HAS_NEW_VALUES` nor `SIRIDB_SHARD_IS_LOADING`
set and the last entry of `pre` or the first entry of `post` refers to the shard.
When it does, the bits of `SIRIDB_SHARD_HAS_NEW_VALUES` are set afterwards; when it
does not, they are as before (the mask of `SIRIDB_SHARD_HAS_OVERLAP` sharing no bit
with it). So a shard with `SIRIDB_SHARD_IS_LOADING` set does not gain the flag, and
neither does a shard to which no entry of the index refers. -/
theorem add_idx_new_values_flag (K : shard_flag_masks) (realloc_ok : Bool)
    (index : siridb_series_idx_t) (shard : siridb_shard_t) (start_ts end_ts pos len : Nat)
    (pre post : List idx_num32_t)
    (hpre : index.idx.rdropWhile (fun e => decide (e.start_ts > start_ts)) = pre)
    (hpost : index.idx.rtakeWhile (fun e => decide (e.start_ts > start_ts)) = post) :
    ((siridb_series_add_idx_num32 K realloc_ok index shard start_ts end_ts pos len).rc ≠ 0 →
      (siridb_series_add_idx_num32 K realloc_ok index shard start_ts end_ts pos
        len).flags_written = false ∧
      (siridb_series_add_idx_num32 K realloc_ok index shard start_ts end_ts pos
        len).shard = shard) ∧
    ((siridb_series_add_idx_num32 K realloc_ok index shard start_ts end_ts pos len).rc = 0 →
      index.idx = pre ++ post ∧
      (siridb_series_add_idx_num32 K realloc_ok index shard start_ts end_ts pos
        len).index.idx = pre ++ ⟨start_ts, end_ts, shard.ref, pos, len⟩ :: post ∧
      ((siridb_series_add_idx_num32 K realloc_ok index shard start_ts end_ts pos
          len).flags_written = true ↔
        shard.flags &&& K.SIRIDB_SHARD_HAS_NEW_VALUES = 0 ∧
        shard.flags &&& K.SIRIDB_SHARD_IS_LOADING = 0 ∧
        ((∃ e, pre.getLast? = some e ∧ e.shard = shard.ref) ∨
         (∃ e, post.head? = some e ∧ e.shard = shard.ref))) ∧
      ((siridb_series_add_idx_num32 K realloc_ok index shard start_ts end_ts pos
          len).flags_written = true →
        (siridb_series_add_idx_num32 K realloc_ok index shard start_ts end_ts pos
          len).shard.flags &&& K.SIRIDB_SHARD_HAS_NEW_VALUES =
          K.SIRIDB_SHARD_HAS_NEW_VALUES) ∧
      ((siridb_series_add_idx_num32 K realloc_ok index shard start_ts end_ts pos
          len).flags_written = false →
        K.SIRIDB_SHARD_HAS_OVERLAP &&& K.SIRIDB_SHARD_HAS_NEW_VALUES = 0 →
        (siridb_series_add_idx_num32 K realloc_ok index shard start_ts end_ts pos
          len).shard.flags &&& K.SIRIDB_SHARD_HAS_NEW_VALUES =
          shard.flags &&& K.SIRIDB_SHARD_HAS_NEW_VALUES) ∧
      (shard.flags &&& K.SIRIDB_SHARD_IS_LOADING ≠ 0 →
        (siridb_series_add_idx_num32 K realloc_ok index shard start_ts end_ts pos
          len).flags_written = false) ∧
      ((∀ e ∈ index.idx, e.shard ≠ shard.ref) →
        (siridb_series_add_idx_num32 K realloc_ok index shard start_ts end_ts pos
          len).flags_written = false)) := by
  by_cases hok : realloc_ok = true ∧ index.len + 1 < 2 ^ 32
  · obtain ⟨hidx, hr⟩ := add_idx_eq K realloc_ok index shard start_ts end_ts pos len pre post
      hok hpre hpost
    have hnv := add_idx_new_values_eq K shard pre post
    rw [hr]
    dsimp only
    refine ⟨fun h => absurd rfl h, fun _ => ⟨hidx, rfl, hnv, fun hw => ?_, fun hw ho => ?_,
      fun hl => ?_, fun hnone => ?_⟩⟩
    · rw [hw]
      simp only [if_true]
      split
      · apply Nat.eq_of_testBit_eq
        intro i
        simp only [Nat.testBit_or, Nat.testBit_and]
        cases shard.flags.testBit i <;> cases K.SIRIDB_SHARD_HAS_NEW_VALUES.testBit i <;>
          cases K.SIRIDB_SHARD_HAS_OVERLAP.testBit i <;> rfl
      · exact or_and_mask _ _
    · rw [hw]
      simp only [Bool.false_eq_true, if_false]
      split
      · exact or_and_other _ _ _ ho
      · rfl
    · cases hb : add_idx_new_values K shard pre.length (pre.length + post.length + 1)
          (pre ++ (post.head?.getD default) :: post) with
      | false => rfl
      | true => exact absurd (hnv.mp hb).2.1 hl
    · cases hb : add_idx_new_values K shard pre.length (pre.length + post.length + 1)
          (pre ++ (post.head?.getD default) :: post) with
      | false => rfl
      | true =>
        exfalso
        rcases (hnv.mp hb).2.2 with ⟨e, he, hs⟩ | ⟨e, he, hs⟩
        · refine hnone e ?_ hs
          rw [hidx]
          exact List.mem_append_left _ (List.mem_of_mem_getLast? he)
        · refine hnone e ?_ hs
          rw [hidx]
          exact List.mem_append_right _ (List.mem_of_mem_head? he)
  · have hr : siridb_series_add_idx_num32 K realloc_ok index shard start_ts end_ts pos len =
        { rc := -1, index := index, shard := shard, flags_written := false } := by
      unfold siridb_series_add_idx_num32
      rw [if_neg hok]
    rw [hr]
    exact ⟨fun _ => ⟨rfl, rfl⟩, fun h => absurd (show (-1 : Int) = 0 from h) (by decide)⟩

theorem add_idx_new_values_flag_witness :
    (siridb_series_add_idx_num32 flag_masks true three_entries ⟨1, 0, 0⟩ 35 45 8 2).index.idx =
      [⟨10, 20, 1, 0, 4⟩, ⟨30, 40, 2, 0, 4⟩, ⟨35, 45, 1, 8, 2⟩, ⟨50, 60, 1, 4, 4⟩] ∧
    (siridb_series_add_idx_num32 flag_masks true three_entries ⟨1, 0, 0⟩ 35 45 8
      2).flags_written = true ∧
    (siridb_series_add_idx_num32 flag_masks true three_entries ⟨1, 0, 0⟩ 35 45 8
      2).shard.flags &&& 1 = 1 ∧
    (siridb_series_add_idx_num32 flag_masks true three_entries ⟨1, 0, 2⟩ 35 45 8
      2).flags_written = false ∧
    (siridb_series_add_idx_num32 flag_masks true three_entries ⟨3, 0, 0⟩ 35 45 8
      2).flags_written = false := by
  obtain ⟨-, h⟩ := add_idx_new_values_flag flag_masks true three_entries ⟨1, 0, 0⟩ 35 45 8 2
    [⟨10, 20, 1, 0, 4⟩, ⟨30, 40, 2, 0, 4⟩] [⟨50, 60, 1, 4, 4⟩] (by decide) (by decide)
  obtain ⟨-, h2, h3, h4, -, -, -⟩ := h (by decide)
  have hw := h3.mpr ⟨by decide, by decide, Or.inr ⟨_, rfl, rfl⟩⟩
  obtain ⟨-, k⟩ := add_idx_new_values_flag flag_masks true three_entries ⟨1, 0, 2⟩ 35 45 8 2
    [⟨10, 20, 1, 0, 4⟩, ⟨30, 40, 2, 0, 4⟩] [⟨50, 60, 1, 4, 4⟩] (by decide) (by decide)
  obtain ⟨-, m⟩ := add_idx_new_values_flag flag_masks true three_entries ⟨3, 0, 0⟩ 35 45 8 2
    [⟨10, 20, 1, 0, 4⟩, ⟨30, 40, 2, 0, 4⟩] [⟨50, 60, 1, 4, 4⟩] (by decide) (by decide)
  exact ⟨h2, hw, h4 hw, (k (by decide)).2.2.2.2.2.1 (by decide),
    (m (by decide)).2.2.2.2.2.2 (by decide)⟩

/-- C36: for every index, sorted or not, a call of `siridb_series_add_idx_num32` that
succeeds puts the new entry between `pre`, the old entries the shift loop leaves
below it, and `post`, the old entries it has moved up. The test before
`shard->flags |= SIRIDB_SHARD_HAS_OVERLAP` holds if and only if `post` is not empty
and the new `end_ts` is greater than the `start_ts` of its first entry; the
comparison with the last entry of `pre` is never true. When the test holds
`has_overlap` is `1` and the flags of the shard have the mask added; when it does
not, both are what they were before the test. On every path, no bit of the flags
is cleared and `has_overlap` does not go back from `1`. -/
theorem add_idx_overlap_flag (K : shard_flag_masks) (realloc_ok : Bool)
    (index : siridb_series_idx_t) (shard : siridb_shard_t) (start_ts end_ts pos len : Nat)
    (pre post : List idx_num32_t)
    (hpre : index.idx.rdropWhile (fun e => decide (e.start_ts > start_ts)) = pre)
    (hpost : index.idx.rtakeWhile (fun e => decide (e.start_ts > start_ts)) = post) :
    ((siridb_series_add_idx_num32 K realloc_ok index shard start_ts end_ts pos len).rc = 0 →
      index.idx = pre ++ post ∧
      (siridb_series_add_idx_num32 K realloc_ok index shard start_ts end_ts pos
        len).index.idx = pre ++ ⟨start_ts, end_ts, shard.ref, pos, len⟩ :: post ∧
      (add_idx_overlap start_ts end_ts pre.length (index.len + 1)
          (siridb_series_add_idx_num32 K realloc_ok index shard start_ts end_ts pos
            len).index.idx = true ↔
        ∃ e, post.head? = some e ∧ e.start_ts < end_ts) ∧
      (∀ e, pre.getLast? = some e → ¬ start_ts < e.start_ts) ∧
      ((∃ e, post.head? = some e ∧ e.start_ts < end_ts) →
        (siridb_series_add_idx_num32 K realloc_ok index shard start_ts end_ts pos
          len).index.has_overlap = 1 ∧
        (siridb_series_add_idx_num32 K realloc_ok index shard start_ts end_ts pos
          len).shard.flags =
          (if (siridb_series_add_idx_num32 K realloc_ok index shard start_ts end_ts pos
              len).flags_written = true
            then shard.flags ||| K.SIRIDB_SHARD_HAS_NEW_VALUES else shard.flags) |||
            K.SIRIDB_SHARD_HAS_OVERLAP) ∧
      ((¬ ∃ e, post.head? = some e ∧ e.start_ts < end_ts) →
        (siridb_series_add_idx_num32 K realloc_ok index shard start_ts end_ts pos
          len).index.has_overlap = index.has_overlap ∧
        (siridb_series_add_idx_num32 K realloc_ok index shard start_ts end_ts pos
          len).shard.flags =
          (if (siridb_series_add_idx_num32 K realloc_ok index shard start_ts end_ts pos
              len).flags_written = true
            then shard.flags ||| K.SIRIDB_SHARD_HAS_NEW_VALUES else shard.flags))) ∧
    (∀ i, shard.flags.testBit i = true →
      (siridb_series_add_idx_num32 K realloc_ok index shard start_ts end_ts pos
        len).shard.flags.testBit i = true) ∧
    (index.has_overlap = 1 →
      (siridb_series_add_idx_num32 K realloc_ok index shard start_ts end_ts pos
        len).index.has_overlap = 1) := by
  by_cases hok : realloc_ok = true ∧ index.len + 1 < 2 ^ 32
  · obtain ⟨hidx, hr⟩ := add_idx_eq K realloc_ok index shard start_ts end_ts pos len pre post
      hok hpre hpost
    have hbelow : ∀ e, pre.getLast? = some e → ¬ start_ts < e.start_ts := by
      intro e he
      rw [← hpre] at he
      exact rdropWhile_last_le start_ts index.idx e he
    have hov : add_idx_overlap start_ts end_ts pre.length (pre.length + post.length + 1)
        (pre ++ ⟨start_ts, end_ts, shard.ref, pos, len⟩ :: post) = true ↔
        ∃ e, post.head? = some e ∧ e.start_ts < end_ts := by
      rw [add_idx_overlap_eq]
      constructor
      · rintro (⟨e, he, hlt⟩ | h)
        · exact absurd hlt (hbelow e he)
        · exact h
      · exact fun h => Or.inr h
    have hlen : index.len = pre.length + post.length := by
      unfold siridb_series_idx_t.len
      rw [hidx, List.length_append]
    rw [hr, hlen]
    dsimp only
    refine ⟨fun _ => ⟨hidx, rfl, hov, hbelow, fun h => ?_, fun h => ?_⟩, fun i hi => ?_,
      fun h1 => ?_⟩
    · rw [if_pos (hov.mpr h), if_pos (hov.mpr h)]
      exact ⟨rfl, rfl⟩
    · rw [if_neg (fun c => h (hov.mp c)), if_neg (fun c => h (hov.mp c))]
      exact ⟨rfl, rfl⟩
    · split
      · split
        · exact or_keeps_bits _ _ _ (or_keeps_bits _ _ _ hi)
        · exact or_keeps_bits _ _ _ hi
      · split
        · exact or_keeps_bits _ _ _ hi
        · exact hi
    · split
      · rfl
      · exact h1
  · have hr : siridb_series_add_idx_num32 K realloc_ok index shard start_ts end_ts pos len =
        { rc := -1, index := index, shard := shard, flags_written := false } := by
      unfold siridb_series_add_idx_num32
      rw [if_neg hok]
    rw [hr]
    exact ⟨fun h => absurd (show (-1 : Int) = 0 from h) (by decide), fun i hi => hi,
      fun h => h⟩

theorem add_idx_overlap_flag_witness :
    (siridb_series_add_idx_num32 flag_masks true three_entries ⟨1, 0, 0⟩ 35 55 8 2).index =
      ⟨1, [⟨10, 20, 1, 0, 4⟩, ⟨30, 40, 2, 0, 4⟩, ⟨35, 55, 1, 8, 2⟩, ⟨50, 60, 1, 4, 4⟩]⟩ ∧
    (siridb_series_add_idx_num32 flag_masks true three_entries ⟨1, 0, 0⟩ 35 55 8
      2).shard.flags = 5 ∧
    (siridb_series_add_idx_num32 flag_masks true three_entries ⟨1, 0, 0⟩ 35 45 8
      2).index.has_overlap = 0 := by
  obtain ⟨h, -, -⟩ := add_idx_overlap_flag flag_masks true three_entries ⟨1, 0, 0⟩ 35 55 8 2
    [⟨10, 20, 1, 0, 4⟩, ⟨30, 40, 2, 0, 4⟩] [⟨50, 60, 1, 4, 4⟩] (by decide) (by decide)
  obtain ⟨-, h2, -, -, h5, -⟩ := h (by decide)
  obtain ⟨k, -, -⟩ := add_idx_overlap_flag flag_masks true three_entries ⟨1, 0, 0⟩ 35 45 8 2
    [⟨10, 20, 1, 0, 4⟩, ⟨30, 40, 2, 0, 4⟩] [⟨50, 60, 1, 4, 4⟩] (by decide) (by decide)
  obtain ⟨-, -, -, -, -, k6⟩ := k (by decide)
  obtain ⟨h6, h7⟩ := h5 ⟨_, rfl, by decide⟩
  refine ⟨?_, ?_, (k6 (by decide)).1⟩
  · cases hx : (siridb_series_add_idx_num32 flag_masks true three_entries ⟨1, 0, 0⟩ 35 55 8
        2).index with
    | mk ho idx =>
      rw [hx] at h2 h6
      dsimp only at h2 h6
      rw [h2, h6]
      rfl
  · rw [h7]
    decide


/-! ## The range collected by `siridb_series_optimize_shard_num32` -/

/-- The function `siridb_series_optimize_shard_num32` in terms of the range and the
points collected. -/
theorem optimize_eq (env : optimize_env) (siridb : siridb_t) (series : siridb_series_t)
    (shard : siridb_shard_t) (replacing : Nat) :
    siridb_series_optimize_shard_num32 env siridb series shard replacing =
      if (optimize_range siridb series shard replacing).2.1 = 0 then some ⟨0, series, 0, []⟩
      else if env.siridb_points_new_ok = false then some ⟨-1, series, 0, []⟩
      else
        match optimize_num_chunks (optimize_collect env siridb series shard replacing).2
            env.max_chunk_points with
        | none => none
        | some num_chunks =>
          match optimize_chunk_sz (optimize_collect env siridb series shard replacing).2
              num_chunks with
          | none => none
          | some chunk_sz =>
            match optimize_chunks (optimize_collect env siridb series shard replacing).2
                chunk_sz (optimize_collect env siridb series shard replacing).2 0 with
            | none => none
            | some chunks =>
              match optimize_write env shard.ref
                  (optimize_collect env siridb series shard replacing).1 chunks
                  ⟨series.index.idx, (optimize_range siridb series shard replacing).1, 0,
                    []⟩ with
              | none => none
              | some st =>
                if st.start < (optimize_range siridb series shard replacing).2.1 then
                  match optimize_shift
                      ((optimize_range siridb series shard replacing).2.1 - st.start)
                      (st.idx.length -
                        ((optimize_range siridb series shard replacing).2.1 - st.start))
                      (st.idx.length -
                        ((optimize_range siridb series shard replacing).2.1 - st.start) -
                        st.start) st.start st.idx with
                  | none => none
                  | some idx =>
                    some ⟨st.rc,
                      { series with
                        index := { series.index with
                          idx := idx.take (st.idx.length -
                            ((optimize_range siridb series shard replacing).2.1 -
                              st.start)) } },
                      (optimize_collect env siridb series shard replacing).2, st.writes⟩
                else
                  some ⟨st.rc, { series with index := { series.index with idx := st.idx } },
                    (optimize_collect env siridb series shard replacing).2, st.writes⟩ := by
  rfl

/-- The first loop keeps `optimize_scan_inv`: after the loop it holds of the entries
gone through, which are the first entries of the index. -/
theorem optimize_scan_keeps_inv (shard replacing max_ts : Nat) :
    ∀ (rest done : List idx_num32_t) (start end_ size : Nat),
      optimize_scan_inv replacing done start end_ size →
      ∃ taken, taken <+: rest ∧
        optimize_scan_inv replacing (done ++ taken)
          (optimize_scan shard replacing max_ts rest done.length start end_ size).1
          (optimize_scan shard replacing max_ts rest done.length start end_ size).2.1
          (optimize_scan shard replacing max_ts rest done.length start end_ size).2.2 := by
  intro rest
  induction rest with
  | nil =>
    intro done start end_ size h
    refine ⟨[], List.prefix_refl _, ?_⟩
    rw [List.append_nil]
    exact h
  | cons e rest ih =>
    intro done start end_ size h
    have hstep : ∀ (s1 e1 z1 : Nat), optimize_scan_inv replacing (done ++ [e]) s1 e1 z1 →
        ∃ taken, taken <+: e :: rest ∧
          optimize_scan_inv replacing (done ++ taken)
            (optimize_scan shard replacing max_ts rest (done.length + 1) s1 e1 z1).1
            (optimize_scan shard replacing max_ts rest (done.length + 1) s1 e1 z1).2.1
            (optimize_scan shard replacing max_ts rest (done.length + 1) s1 e1 z1).2.2 := by
      intro s1 e1 z1 h1
      obtain ⟨taken, ht, hinv⟩ := ih (done ++ [e]) s1 e1 z1 h1
      rw [List.length_append, List.length_singleton] at hinv
      refine ⟨e :: taken, ?_, ?_⟩
      · obtain ⟨t, htt⟩ := ht
        exact ⟨t, by rw [← htt]; rfl⟩
      · rw [List.append_assoc] at hinv
        exact hinv
    by_cases hts : e.start_ts < max_ts
    · by_cases hrep : e.shard = replacing
      · simp only [optimize_scan, hts, if_true, hrep]
        apply hstep
        rcases h with ⟨h1, h2, h3⟩ | ⟨h1, h2, h3, h4⟩
        · refine Or.inr ?_
          rw [if_pos h2, if_pos h2, h3]
          refine ⟨Nat.lt_succ_self _, by simp, ?_, ?_⟩
          · simp [sum_len, hrep]
          · simp [hrep]
        · have he0 : end_ ≠ 0 := by omega
          refine Or.inr ?_
          rw [if_neg he0, if_neg he0]
          have hdrop : (done ++ [e]).drop start = done.drop start ++ [e] :=
            List.drop_append_of_le_length (by omega)
          rw [hdrop, List.filter_append]
          refine ⟨by omega, by simp; omega, ?_, ?_⟩
          · rw [sum_len_append, h3]
            simp [sum_len, hrep]
          · simp only [List.length_append]
            simp only [List.filter_cons, hrep, decide_True, if_true, List.filter_nil,
              List.length_singleton]
            omega
      · by_cases hnew : e.shard = shard ∧ end_ ≠ 0
        · simp only [optimize_scan, hts, if_true]
          rw [if_neg hrep, if_pos hnew]
          apply hstep
          rcases h with ⟨h1, h2, h3⟩ | ⟨h1, h2, h3, h4⟩
          · exact absurd h2 hnew.2
          · refine Or.inr ?_
            have hdrop : (done ++ [e]).drop start = done.drop start ++ [e] :=
              List.drop_append_of_le_length (by omega)
            rw [hdrop, List.filter_append]
            have hf : [e].filter (fun x => decide (x.shard = replacing)) = [] := by
              simp [hrep]
            rw [hf, List.append_nil]
            refine ⟨by omega, by simp; omega, h3, by omega⟩
        · simp only [optimize_scan, hts, if_true]
          rw [if_neg hrep, if_neg hnew]
          apply hstep
          rcases h with ⟨h1, h2, h3⟩ | ⟨h1, h2, h3, h4⟩
          · exact Or.inl ⟨h1, h2, h3⟩
          · refine Or.inr ?_
            have hdrop : (done ++ [e]).drop start = done.drop start ++ [e] :=
              List.drop_append_of_le_length (by omega)
            rw [hdrop, List.filter_append]
            have hf : [e].filter (fun x => decide (x.shard = replacing)) = [] := by
              simp [hrep]
            rw [hf, List.append_nil]
            refine ⟨h1, by simp; omega, h3, h4⟩
    · simp only [optimize_scan, hts, if_false]
      refine ⟨[], List.nil_prefix, ?_⟩
      rw [List.append_nil]
      exact h

/-- After the first loop of `siridb_series_optimize_shard_num32`, `optimize_scan_inv`
holds of the range and of the first entries of the index. -/
theorem optimize_range_inv (siridb : siridb_t) (series : siridb_series_t)
    (shard : siridb_shard_t) (replacing : Nat) :
    ∃ done, done <+: series.index.idx ∧
      optimize_scan_inv replacing done (optimize_range siridb series shard replacing).1
        (optimize_range siridb series shard replacing).2.1
        (optimize_range siridb series shard replacing).2.2 := by
  obtain ⟨taken, h1, h2⟩ := optimize_scan_keeps_inv shard.ref replacing
    (optimize_max_ts siridb series shard) series.index.idx [] 0 0 0 (Or.inl ⟨rfl, rfl, rfl⟩)
  exact ⟨taken, h1, by simpa using h2⟩

/-- The sum of `len` over the entries of a shard among the first entries of a list is
at most the sum over those of the whole list. -/
theorem sum_len_filter_take (p : idx_num32_t → Bool) (l : List idx_num32_t) (n : Nat) :
    sum_len ((l.take n).filter p) ≤ sum_len (l.filter p) := by
  conv_rhs => rw [← List.take_append_drop n l]
  rw [List.filter_append, sum_len_append]
  exact Nat.le_add_right _ _

/-- The range collected by the first loop, when the entries of `shard->replacing` hold
at most `m` points each: it lies within the index, `size` is at most `m` points for
each of its slots, and at least the sum of `len` over the entries of
`shard->replacing` in it. -/
theorem optimize_range_bounds (siridb : siridb_t) (series : siridb_series_t)
    (shard : siridb_shard_t) (replacing m : Nat)
    (hlen : ∀ e ∈ series.index.idx, e.shard = replacing → e.len ≤ m) :
    (optimize_range siridb series shard replacing).1 ≤
      (optimize_range siridb series shard replacing).2.1 ∧
    (optimize_range siridb series shard replacing).2.1 ≤ series.index.len ∧
    (optimize_range siridb series shard replacing).2.2 ≤
      ((optimize_range siridb series shard replacing).2.1 -
        (optimize_range siridb series shard replacing).1) * m ∧
    sum_len (((series.index.idx.drop (optimize_range siridb series shard replacing).1).take
        ((optimize_range siridb series shard replacing).2.1 -
          (optimize_range siridb series shard replacing).1)).filter
        (fun e => decide (e.shard = replacing))) ≤
      (optimize_range siridb series shard replacing).2.2 := by
  obtain ⟨done, ⟨t, ht⟩, hinv⟩ := optimize_range_inv siridb series shard replacing
  generalize (optimize_range siridb series shard replacing).1 = start at hinv ⊢
  generalize (optimize_range siridb series shard replacing).2.1 = end_ at hinv ⊢
  generalize (optimize_range siridb series shard replacing).2.2 = size at hinv ⊢
  rcases hinv with ⟨h1, h2, h3⟩ | ⟨h1, h2, h3, h4⟩
  · subst h1 h2 h3
    simp [sum_len]
  · have hlenidx : series.index.len = done.length + t.length := by
      unfold siridb_series_idx_t.len
      rw [← ht, List.length_append]
    refine ⟨Nat.le_of_lt h1, by omega, ?_, ?_⟩
    · have hb := sum_len_le ((done.drop start).filter (fun e => decide (e.shard = replacing)))
        m (fun e he => by
          obtain ⟨hm, hs⟩ := List.mem_filter.mp he
          refine hlen e ?_ (by simpa using hs)
          rw [← ht]
          exact List.mem_append_left _ (List.mem_of_mem_drop hm))
      rw [h3]
      exact Nat.le_trans hb (Nat.mul_le_mul_right _ h4)
    · have hdrop : series.index.idx.drop start = done.drop start ++ t := by
        rw [← ht]
        exact List.drop_append_of_le_length (by omega)
      have htake : (series.index.idx.drop start).take (end_ - start) =
          (done.drop start).take (end_ - start) := by
        rw [hdrop]
        exact List.take_append_of_le_length (by rw [List.length_drop]; omega)
      rw [htake, h3]
      exact sum_len_filter_take _ _ _

/-- The second loop never raises `size`, when `size` is at least the sum of `len` over
the entries of `shard->replacing` it goes through. -/
theorem optimize_read_size (env : optimize_env) (replacing has_overlap : Nat) :
    ∀ (l : List idx_num32_t) (points : siridb_points_t) (size : Nat),
      sum_len (l.filter (fun e => decide (e.shard = replacing))) ≤ size →
      size < UINT64_MOD →
      (optimize_read env replacing has_overlap l points size).2 ≤ size := by
  intro l
  induction l with
  | nil =>
    intro points size _ _
    exact Nat.le_refl _
  | cons e rest ih =>
    intro points size hsum h64
    by_cases hrep : e.shard = replacing
    · have hf : (e :: rest).filter (fun x => decide (x.shard = replacing)) =
          e :: rest.filter (fun x => decide (x.shard = replacing)) := by
        simp [hrep]
      have hs : sum_len (e :: rest.filter (fun x => decide (x.shard = replacing))) =
          e.len + sum_len (rest.filter (fun x => decide (x.shard = replacing))) := by
        simp [sum_len]
      rw [hf, hs] at hsum
      simp only [optimize_read, hrep, if_true]
      split
      · have hsub : length_sub size e.len = size - e.len := by
          unfold length_sub
          simp only [UINT64_MOD] at h64 ⊢
          omega
        rw [hsub]
        exact Nat.le_trans (ih _ _ (by omega) (by omega)) (Nat.sub_le _ _)
      · exact ih _ _ (by omega) h64
    · have hf : (e :: rest).filter (fun x => decide (x.shard = replacing)) =
          rest.filter (fun x => decide (x.shard = replacing)) := by
        simp [hrep]
      rw [hf] at hsum
      simp only [optimize_read, hrep, if_false]
      exact ih _ _ hsum h64

/-- The number of rounds of the third loop: when `size` is at most `m` points for each
of `slots` slots, the loop ends after at most `slots` rounds, whenever the two
divisions before it are defined. -/
theorem optimize_chunk_count (size m slots : Nat) (hsize : size ≤ slots * m)
    (h16 : m < UINT16_MOD) (hslots : slots < UINT32_MOD) :
    ∀ n c, optimize_num_chunks size m = some n → optimize_chunk_sz size n = some c →
      ∃ chunks, optimize_chunks size c size 0 = some chunks ∧ chunks.length ≤ slots := by
  intro n c hn hc
  by_cases h0 : size = 0
  · subst h0
    exact ⟨[], rfl, Nat.zero_le _⟩
  · have hsize1 : 1 ≤ size := by omega
    have hm1 : 1 ≤ m := by
      by_contra hcon
      have : m = 0 := by omega
      rw [this, Nat.mul_zero] at hsize
      omega
    have h16n : m < 65536 := h16
    have h32n : slots < 4294967296 := hslots
    have hsize64 : size < UINT64_MOD := by
      have h1 : slots * m ≤ 4294967296 * 65536 :=
        Nat.mul_le_mul (Nat.le_of_lt h32n) (Nat.le_of_lt h16n)
      simp only [UINT64_MOD]
      omega
    have hnum := optimize_num_chunks_eq size m hsize1 hsize64 hm1
    rw [hnum] at hn
    cases hn
    obtain ⟨chunk_sz, hsz, -, hpos, -, hcover⟩ := optimize_chunk_sz_eq size m hsize1 hm1 h16
    rw [hsz] at hc
    cases hc
    obtain ⟨chunks, hch, -, -, -, hcount⟩ :=
      optimize_chunks_spec size c hpos size 0 (by omega)
    rw [Nat.sub_zero] at hcount
    refine ⟨chunks, hch, ?_⟩
    have hn_le : (size - 1) / m + 1 ≤ slots := by
      have : (size - 1) / m < slots := by
        rw [Nat.div_lt_iff_lt_mul (by omega)]
        omega
      omega
    generalize (size - 1) / m + 1 = N at hcover hn_le
    have e : (N + 1) * c = c * N + c := by
      rw [Nat.add_mul, Nat.one_mul, Nat.mul_comm]
    have h1 : chunks.length * c < (N + 1) * c := by
      rw [e]
      omega
    have := Nat.lt_of_mul_lt_mul_right h1
    omega

/-- The third loop writes the slots from `start` on only, one for each range at most:
`start` grows by the number of ranges, the block keeps its length, and the slots
below the old `start` and from the new `start` on are as before. -/
theorem optimize_write_frame (env : optimize_env) (shard : Nat) (points : siridb_points_t) :
    ∀ (chunks : List (Nat × Nat)) (st st1 : optimize_state),
      optimize_write env shard points chunks st = some st1 →
      st1.start = st.start + chunks.length ∧ st1.idx.length = st.idx.length ∧
      ∀ j, j < st.start ∨ st.start + chunks.length ≤ j → st1.idx[j]? = st.idx[j]? := by
  intro chunks
  induction chunks with
  | nil =>
    intro st st1 h
    simp only [optimize_write] at h
    cases h
    exact ⟨rfl, rfl, fun _ _ => rfl⟩
  | cons ch rest ih =>
    intro st st1 h
    obtain ⟨pstart, pend⟩ := ch
    simp only [optimize_write] at h
    split at h
    · obtain ⟨h1, h2, h3⟩ := ih _ _ h
      dsimp only at h1 h2 h3
      refine ⟨by rw [h1, List.length_cons]; omega, h2, fun j hj => ?_⟩
      rw [List.length_cons] at hj
      exact h3 j (by omega)
    · split at h
      · split at h
        · obtain ⟨h1, h2, h3⟩ := ih _ _ h
          dsimp only at h1 h2 h3
          rw [List.length_set] at h2
          refine ⟨by rw [h1, List.length_cons]; omega, h2, fun j hj => ?_⟩
          rw [List.length_cons] at hj
          rw [h3 j (by omega), List.getElem?_set_ne (by omega)]
        · cases h
      · cases h

/-- The two divisions before the third loop are defined when points were collected, or
when `max_chunk_points` is at least `2`. -/
theorem optimize_divisions_defined (size m : Nat) (h : (1 ≤ size ∧ 1 ≤ m) ∨ 2 ≤ m)
    (h64 : size < UINT64_MOD) (h16 : m < UINT16_MOD) :
    ∃ n c, optimize_num_chunks size m = some n ∧ optimize_chunk_sz size n = some c := by
  by_cases h0 : size = 0
  · subst h0
    have hm2 : 2 ≤ m := by omega
    have hq : 18446744073709551615 / m ≤ 9223372036854775807 := by
      have h2 : 18446744073709551615 / m ≤ 18446744073709551615 / 2 :=
        Nat.div_le_div_left hm2 (by decide)
      exact Nat.le_trans h2 (by decide)
    generalize hqe : 18446744073709551615 / m = q at hq
    have hn : optimize_num_chunks 0 m = some (q + 1) := by
      unfold optimize_num_chunks
      rw [if_neg (by omega)]
      simp only [UINT64_MOD]
      have e1 : (0 + 18446744073709551616 - 1) % 18446744073709551616 =
          18446744073709551615 := by decide
      rw [e1, hqe, Nat.mod_eq_of_lt (by omega)]
    refine ⟨q + 1,
      (0 / (q + 1) + (if 0 % (q + 1) ≠ 0 then 1 else 0)) % UINT16_MOD, hn, ?_⟩
    unfold optimize_chunk_sz
    rw [if_neg (by omega)]
  · have hs1 : 1 ≤ size := by omega
    have hm1 : 1 ≤ m := by omega
    obtain ⟨c, hc, -⟩ := optimize_chunk_sz_eq size m hs1 hm1 h16
    exact ⟨_, c, optimize_num_chunks_eq size m hs1 h64 hm1, hc⟩

/-- C34: when every index entry of the series that refers to `shard->replacing` has
`len ≤ max_chunk_points` (a value of 16 bits, as `chunk_sz` is), the range
`[start, end)` collected by `siridb_series_optimize_shard_num32` lies within the
index, and whenever the two divisions before it are defined (they are when points
were collected, or `max_chunk_points ≥ 2`) the third loop ends after at most
`end - start` rounds: `start` plus the number of chunks is at most `end`. So the
loop writes no slot at or beyond `end`, the slots from `end` on are as before, and
after the loop `start == end` holds whenever `start < end` does not. Every result
of the function has written at most `end - start` chunks. -/
theorem optimize_chunks_in_range (env : optimize_env) (siridb : siridb_t)
    (series : siridb_series_t) (shard : siridb_shard_t) (replacing : Nat)
    (hlen : ∀ e ∈ series.index.idx, e.shard = replacing → e.len ≤ env.max_chunk_points)
    (h16 : env.max_chunk_points < UINT16_MOD) (h32 : series.index.len < UINT32_MOD) :
    (optimize_range siridb series shard replacing).1 ≤
      (optimize_range siridb series shard replacing).2.1 ∧
    (optimize_range siridb series shard replacing).2.1 ≤ series.index.len ∧
    (1 ≤ (optimize_collect env siridb series shard replacing).2 ∨ 2 ≤ env.max_chunk_points →
      ∃ n c, optimize_num_chunks (optimize_collect env siridb series shard replacing).2
          env.max_chunk_points = some n ∧
        optimize_chunk_sz (optimize_collect env siridb series shard replacing).2 n = some c) ∧
    (∀ n c, optimize_num_chunks (optimize_collect env siridb series shard replacing).2
        env.max_chunk_points = some n →
      optimize_chunk_sz (optimize_collect env siridb series shard replacing).2 n = some c →
      ∃ chunks, optimize_chunks (optimize_collect env siridb series shard replacing).2 c
          (optimize_collect env siridb series shard replacing).2 0 = some chunks ∧
        (optimize_range siridb series shard replacing).1 + chunks.length ≤
          (optimize_range siridb series shard replacing).2.1 ∧
        ∀ st, optimize_write env shard.ref
            (optimize_collect env siridb series shard replacing).1 chunks
            ⟨series.index.idx, (optimize_range siridb series shard replacing).1, 0, []⟩ =
            some st →
          st.start = (optimize_range siridb series shard replacing).1 + chunks.length ∧
          (¬ st.start < (optimize_range siridb series shard replacing).2.1 →
            st.start = (optimize_range siridb series shard replacing).2.1) ∧
          st.idx.length = series.index.idx.length ∧
          ∀ j, (optimize_range siridb series shard replacing).2.1 ≤ j →
            st.idx[j]? = series.index.idx[j]?) ∧
    (∀ r, siridb_series_optimize_shard_num32 env siridb series shard replacing = some r →
      (optimize_range siridb series shard replacing).1 + r.writes.length ≤
        (optimize_range siridb series shard replacing).2.1) := by
  obtain ⟨b1, b2, b3, b4⟩ := optimize_range_bounds siridb series shard replacing
    env.max_chunk_points hlen
  have h16n : env.max_chunk_points < 65536 := h16
  have h32n : series.index.len < 4294967296 := h32
  have hslots : (optimize_range siridb series shard replacing).2.1 -
      (optimize_range siridb series shard replacing).1 < UINT32_MOD := by
    show _ < 4294967296
    omega
  have hsize0 : (optimize_range siridb series shard replacing).2.2 < UINT64_MOD := by
    have h1 : ((optimize_range siridb series shard replacing).2.1 -
        (optimize_range siridb series shard replacing).1) * env.max_chunk_points ≤
        4294967296 * 65536 :=
      Nat.mul_le_mul (Nat.le_of_lt hslots) (Nat.le_of_lt h16n)
    simp only [UINT64_MOD]
    omega
  have hsize : (optimize_collect env siridb series shard replacing).2 ≤
      (optimize_range siridb series shard replacing).2.2 :=
    optimize_read_size env replacing series.index.has_overlap _ _ _ b4 hsize0
  have hbound : (optimize_collect env siridb series shard replacing).2 ≤
      ((optimize_range siridb series shard replacing).2.1 -
        (optimize_range siridb series shard replacing).1) * env.max_chunk_points :=
    Nat.le_trans hsize b3
  have hloop := optimize_chunk_count _ _ _ hbound h16 hslots
  refine ⟨b1, b2, fun hdef => ?_, fun n c hn hc => ?_, fun r hr => ?_⟩
  · apply optimize_divisions_defined _ _ _ (Nat.lt_of_le_of_lt hsize hsize0) h16
    rcases hdef with h | h
    · refine Or.inl ⟨h, ?_⟩
      by_contra hcon
      have hz : env.max_chunk_points = 0 := by omega
      rw [hz, Nat.mul_zero] at hbound
      omega
    · exact Or.inr h
  · obtain ⟨chunks, hch, hk⟩ := hloop n c hn hc
    refine ⟨chunks, hch, by omega, fun st hst => ?_⟩
    obtain ⟨f1, f2, f3⟩ := optimize_write_frame env shard.ref _ chunks _ st hst
    dsimp only at f1 f2 f3
    exact ⟨f1, fun _ => by omega, f2, fun j hj => f3 j (Or.inr (by omega))⟩
  · rw [optimize_eq] at hr
    split at hr
    · cases hr
      simp only [List.length_nil]
      omega
    · split at hr
      · cases hr
        simp only [List.length_nil]
        omega
      · split at hr
        · cases hr
        · rename_i n hn
          split at hr
          · cases hr
          · rename_i c hc
            obtain ⟨chunks, hch, hk⟩ := hloop n c hn hc
            rw [hch] at hr
            dsimp only at hr
            split at hr
            · cases hr
            · rename_i st hst
              have hw := optimize_write_writes _ _ _ _ _ _ hst
              rw [List.nil_append] at hw
              have hlenw : st.writes.length = chunks.length := by rw [hw]
              split at hr
              · split at hr
                · cases hr
                · cases hr
                  dsimp only
                  omega
              · cases hr
                dsimp only
                omega

theorem optimize_chunks_in_range_witness :
    optimize_range db_duration_100 six_chunks ⟨2, 0, 0⟩ 1 = (0, 6, 18) ∧
    ∃ r, siridb_series_optimize_shard_num32 env_optimize db_duration_100 six_chunks
        ⟨2, 0, 0⟩ 1 = some r ∧ r.writes.length = 2 ∧
      (optimize_range db_duration_100 six_chunks ⟨2, 0, 0⟩ 1).1 + r.writes.length ≤
        (optimize_range db_duration_100 six_chunks ⟨2, 0, 0⟩ 1).2.1 := by
  obtain ⟨-, -, -, -, h⟩ := optimize_chunks_in_range env_optimize db_duration_100 six_chunks
    ⟨2, 0, 0⟩ 1 (by decide) (by decide) (by decide)
  exact ⟨by decide, _, optimize_six_chunks, rfl, h _ optimize_six_chunks⟩


/-! ## The index after `siridb_series_optimize_shard_num32` -/

/-- The first loop over entries of `shard->replacing` and of the shard, after the first
entry of `shard->replacing`: each adds one to `end`, and those of
`shard->replacing` add their `len` to `size`. -/
theorem optimize_scan_mixed (shard replacing max_ts : Nat) :
    ∀ (mid rest : List idx_num32_t) (i start end_ size : Nat), end_ ≠ 0 →
      (∀ e ∈ mid, (e.shard = replacing ∨ e.shard = shard) ∧ e.start_ts < max_ts) →
      optimize_scan shard replacing max_ts (mid ++ rest) i start end_ size =
        optimize_scan shard replacing max_ts rest (i + mid.length) start
          (end_ + mid.length)
          (size + sum_len (mid.filter (fun e => decide (e.shard = replacing)))) := by
  intro mid
  induction mid with
  | nil =>
    intro rest i start end_ size _ _
    rfl
  | cons e mid ih =>
    intro rest i start end_ size hend h
    obtain ⟨h1, h2⟩ := h e (List.mem_cons_self _ _)
    have hrest := fun a ha => h a (List.mem_cons_of_mem _ ha)
    by_cases hrep : e.shard = replacing
    · have hf : (e :: mid).filter (fun x => decide (x.shard = replacing)) =
          e :: mid.filter (fun x => decide (x.shard = replacing)) := by
        simp [hrep]
      have hs : sum_len (e :: mid.filter (fun x => decide (x.shard = replacing))) =
          e.len + sum_len (mid.filter (fun x => decide (x.shard = replacing))) := by
        simp [sum_len]
      simp only [List.cons_append, optimize_scan, h2, if_true, List.append_eq]
      rw [if_pos hrep, if_neg hend, if_neg hend,
        ih rest (i + 1) start (end_ + 1) (size + e.len) (by omega) hrest, hf, hs]
      simp only [List.length_cons]
      congr 1 <;> omega
    · have hsh : e.shard = shard := by
        rcases h1 with h1 | h1
        · exact absurd h1 hrep
        · exact h1
      have hf : (e :: mid).filter (fun x => decide (x.shard = replacing)) =
          mid.filter (fun x => decide (x.shard = replacing)) := by
        simp [hrep]
      simp only [List.cons_append, optimize_scan, h2, if_true, List.append_eq]
      rw [if_neg hrep, if_pos ⟨hsh, hend⟩,
        ih rest (i + 1) start (end_ + 1) size (by omega) hrest, hf]
      simp only [List.length_cons]
      congr 1 <;> omega

/-- The first loop on an index in which the entries from the first entry of
`shard->replacing` up to the end of the range refer to `shard->replacing` or to the
shard: the range collected is theirs, and `size` is the sum of `len` over those of
`shard->replacing`. -/
theorem optimize_scan_range_mixed (shard replacing max_ts : Nat)
    (pre mid post : List idx_num32_t)
    (hpre : ∀ e ∈ pre, e.shard ≠ replacing ∧ e.start_ts < max_ts)
    (hfirst : ∃ f more, mid = f :: more ∧ f.shard = replacing)
    (hmid : ∀ e ∈ mid, (e.shard = replacing ∨ e.shard = shard) ∧ e.start_ts < max_ts)
    (hpost : ∀ e ∈ post, max_ts ≤ e.start_ts ∨ (e.shard ≠ replacing ∧ e.shard ≠ shard)) :
    optimize_scan shard replacing max_ts (pre ++ mid ++ post) 0 0 0 0 =
      (pre.length, pre.length + mid.length,
        sum_len (mid.filter (fun e => decide (e.shard = replacing)))) := by
  obtain ⟨f, more, hm, hf⟩ := hfirst
  subst hm
  rw [List.append_assoc, optimize_scan_pre shard replacing max_ts pre _ 0 0 hpre]
  obtain ⟨-, h2⟩ := hmid f (List.mem_cons_self _ _)
  simp only [List.cons_append, optimize_scan, h2, if_true, List.append_eq]
  rw [if_pos hf]
  rw [optimize_scan_mixed shard replacing max_ts more post (0 + pre.length + 1)
    (0 + pre.length) (0 + pre.length + 1) (0 + f.len) (by omega)
    (fun a ha => hmid a (List.mem_cons_of_mem _ ha)),
    optimize_scan_post shard replacing max_ts post _ _ _ _ hpost]
  have hfl : (f :: more).filter (fun x => decide (x.shard = replacing)) =
      f :: more.filter (fun x => decide (x.shard = replacing)) := by
    simp [hf]
  have hs : sum_len (f :: more.filter (fun x => decide (x.shard = replacing))) =
      f.len + sum_len (more.filter (fun x => decide (x.shard = replacing))) := by
    simp [sum_len]
  rw [hfl, hs]
  simp only [List.length_cons, Nat.zero_add]
  congr 2
  omega

/-- The second loop when every read succeeds and adds the `len` points of its entry:
`size` is kept and the container holds the points of the entries of
`shard->replacing`. -/
theorem optimize_read_mixed (env : optimize_env) (replacing has_overlap : Nat) :
    ∀ (mid : List idx_num32_t) (points : siridb_points_t) (size : Nat),
      (∀ (points : siridb_points_t) (e : idx_num32_t), e ∈ mid → e.shard = replacing →
        (env.siridb_shard_get_points_num32 points e has_overlap).1 = 0 ∧
        (env.siridb_shard_get_points_num32 points e has_overlap).2.len =
          points.len + e.len) →
      (optimize_read env replacing has_overlap mid points size).2 = size ∧
      (optimize_read env replacing has_overlap mid points size).1.len =
        points.len + sum_len (mid.filter (fun e => decide (e.shard = replacing))) := by
  intro mid
  induction mid with
  | nil =>
    intro points size _
    exact ⟨rfl, rfl⟩
  | cons e mid ih =>
    intro points size hr
    have hrest := fun p a ha => hr p a (List.mem_cons_of_mem _ ha)
    by_cases hrep : e.shard = replacing
    · obtain ⟨h1, h2⟩ := hr points e (List.mem_cons_self _ _) hrep
      obtain ⟨i1, i2⟩ := ih (env.siridb_shard_get_points_num32 points e has_overlap).2 size
        hrest
      have hf : (e :: mid).filter (fun x => decide (x.shard = replacing)) =
          e :: mid.filter (fun x => decide (x.shard = replacing)) := by
        simp [hrep]
      have hs : sum_len (e :: mid.filter (fun x => decide (x.shard = replacing))) =
          e.len + sum_len (mid.filter (fun x => decide (x.shard = replacing))) := by
        simp [sum_len]
      simp only [optimize_read, hrep, if_true, h1, ne_eq, not_true_eq_false, if_false]
      refine ⟨i1, ?_⟩
      rw [i2, h2, hf, hs]
      omega
    · obtain ⟨i1, i2⟩ := ih points size hrest
      have hf : (e :: mid).filter (fun x => decide (x.shard = replacing)) =
          mid.filter (fun x => decide (x.shard = replacing)) := by
        simp [hrep]
      simp only [optimize_read, hrep, if_false]
      rw [hf]
      exact ⟨i1, i2⟩

/-- The third loop when every write succeeds, the ranges lie within the points read,
and the block has a slot for every range: the slots from `start` on are given, one
for each range in turn, the entry made from the first and the last point of the
range and the position returned for it. -/
theorem optimize_write_entries (env : optimize_env) (shard : Nat) (points : siridb_points_t)
    (hw : ∀ a b, env.siridb_shard_write_points points a b ≠ EOF) :
    ∀ (chunks : List (Nat × Nat)) (st : optimize_state),
      st.start + chunks.length ≤ st.idx.length →
      (∀ ch ∈ chunks, ch.1 < ch.2 ∧ ch.2 ≤ points.len) →
      ∃ st1, optimize_write env shard points chunks st = some st1 ∧
        st1.rc = st.rc ∧ st1.start = st.start + chunks.length ∧
        st1.idx = st.idx.take st.start ++
          chunks.map (fun ch => optimize_entry shard (points.data.getD ch.1 default)
            (points.data.getD (ch.2 - 1) default)
            (env.siridb_shard_write_points points ch.1 ch.2) ch.1 ch.2) ++
          st.idx.drop (st.start + chunks.length) := by
  intro chunks
  induction chunks with
  | nil =>
    intro st _ _
    refine ⟨st, rfl, rfl, rfl, ?_⟩
    simp
  | cons ch rest ih =>
    intro st hlen hch
    obtain ⟨pstart, pend⟩ := ch
    obtain ⟨h1, h2⟩ := hch (pstart, pend) (List.mem_cons_self _ _)
    dsimp only at h1 h2
    have hlt : st.start < st.idx.length := by
      simp only [List.length_cons] at hlen
      omega
    have hp1 : pstart < points.data.length := by
      unfold siridb_points_t.len at h2
      omega
    have hp2 : pend - 1 < points.data.length := by
      unfold siridb_points_t.len at h2
      omega
    obtain ⟨st1, e1, e2, e3, e5⟩ := ih
      { st with
        idx := st.idx.set st.start
          (optimize_entry shard points.data[pstart] points.data[pend - 1]
            (env.siridb_shard_write_points points pstart pend) pstart pend)
        start := st.start + 1
        writes := st.writes ++ [(pstart, pend)] }
      (by
        simp only [List.length_set, List.length_cons] at hlen ⊢
        omega)
      (fun c hc => hch c (List.mem_cons_of_mem _ hc))
    dsimp only at e2 e3 e5
    refine ⟨st1, ?_, e2, ?_, ?_⟩
    · simp only [optimize_write, hw pstart pend, if_false, List.getElem?_eq_getElem hp1,
        List.getElem?_eq_getElem hp2, hlt, if_true]
      exact e1
    · rw [e3]
      simp only [List.length_cons]
      omega
    · have hadd : st.start + 1 + rest.length = st.start + (rest.length + 1) := by omega
      rw [e5, take_succ_set _ _ _ hlt, List.drop_set, if_pos (by omega), hadd]
      simp only [List.length_cons, List.append_assoc, List.singleton_append, List.cons_append,
        List.nil_append, List.map_cons, List.getD_eq_getElem _ _ hp1,
        List.getD_eq_getElem _ _ hp2]

/-- The function `siridb_series_optimize_shard_num32` on an index `pre ++ mid ++ post`
in which `mid` starts with an entry of `shard->replacing` and holds entries of
`shard->replacing`, each with between `1` and `max_chunk_points` points, and of the
shard, when every read and every write succeeds: `mid` is replaced by one entry
for each chunk written. -/
theorem optimize_mixed (env : optimize_env) (siridb : siridb_t)
    (series : siridb_series_t) (shard : siridb_shard_t) (replacing : Nat)
    (pre mid post : List idx_num32_t)
    (hidx : series.index.idx = pre ++ mid ++ post)
    (hpre : ∀ e ∈ pre, e.shard ≠ replacing ∧
      e.start_ts < optimize_max_ts siridb series shard)
    (hfirst : ∃ f more, mid = f :: more ∧ f.shard = replacing)
    (hmid : ∀ e ∈ mid, (e.shard = replacing ∨ e.shard = shard.ref) ∧
      e.start_ts < optimize_max_ts siridb series shard)
    (hmidlen : ∀ e ∈ mid, e.shard = replacing → 1 ≤ e.len ∧ e.len ≤ env.max_chunk_points)
    (hpost : ∀ e ∈ post, optimize_max_ts siridb series shard ≤ e.start_ts ∨
      (e.shard ≠ replacing ∧ e.shard ≠ shard.ref))
    (h16 : env.max_chunk_points < UINT16_MOD) (h32 : series.index.len < UINT32_MOD)
    (halloc : env.siridb_points_new_ok = true)
    (hread : ∀ (points : siridb_points_t) (e : idx_num32_t), e ∈ mid → e.shard = replacing →
      (env.siridb_shard_get_points_num32 points e series.index.has_overlap).1 = 0 ∧
      (env.siridb_shard_get_points_num32 points e series.index.has_overlap).2.len =
        points.len + e.len)
    (hwrite : ∀ (points : siridb_points_t) (a b : Nat),
      env.siridb_shard_write_points points a b ≠ EOF) :
    ∃ chunks, siridb_series_optimize_shard_num32 env siridb series shard replacing = some
        ⟨0, { series with index := { series.index with
            idx := pre ++ chunks.map (fun ch => optimize_entry shard.ref
              ((optimize_collect env siridb series shard replacing).1.data.getD ch.1 default)
              ((optimize_collect env siridb series shard replacing).1.data.getD (ch.2 - 1)
                default)
              (env.siridb_shard_write_points
                (optimize_collect env siridb series shard replacing).1 ch.1 ch.2)
              ch.1 ch.2) ++ post } },
          sum_len (mid.filter (fun e => decide (e.shard = replacing))), chunks⟩ ∧
      1 ≤ chunks.length ∧ chunks.length ≤ mid.length ∧
      (optimize_collect env siridb series shard replacing).1.len =
        sum_len (mid.filter (fun e => decide (e.shard = replacing))) ∧
      (∀ ch ∈ chunks, ch.1 < ch.2 ∧
        ch.2 ≤ sum_len (mid.filter (fun e => decide (e.shard = replacing))) ∧
        ch.2 - ch.1 ≤ env.max_chunk_points) ∧
      (chunks.map (fun ch => ch.2 - ch.1)).sum =
        sum_len (mid.filter (fun e => decide (e.shard = replacing))) := by
  generalize hR : mid.filter (fun e => decide (e.shard = replacing)) = R
  have hRlen : R.length ≤ mid.length := by
    rw [← hR]
    exact List.length_filter_le _ _
  have hRmem : ∀ e ∈ R, e ∈ mid ∧ e.shard = replacing := by
    intro e he
    rw [← hR] at he
    obtain ⟨h1, h2⟩ := List.mem_filter.mp he
    exact ⟨h1, by simpa using h2⟩
  obtain ⟨f, more, hm, hf⟩ := hfirst
  have hfR : f ∈ R := by
    rw [← hR, hm]
    exact List.mem_filter.mpr ⟨List.mem_cons_self _ _, by simpa using hf⟩
  have hR1 : 1 ≤ R.length := List.length_pos_of_mem hfR
  have hmax1 : 1 ≤ env.max_chunk_points := by
    have := hmidlen f (by rw [hm]; exact List.mem_cons_self _ _) hf
    omega
  -- the first loop
  have hrange : optimize_range siridb series shard replacing =
      (pre.length, pre.length + mid.length, sum_len R) := by
    unfold optimize_range
    rw [hidx, ← hR]
    exact optimize_scan_range_mixed shard.ref replacing _ pre mid post hpre
      ⟨f, more, hm, hf⟩ hmid hpost
  have hrangelist : ((pre ++ mid ++ post).drop pre.length).take
      (pre.length + mid.length - pre.length) = mid := by
    rw [List.append_assoc, List.drop_left' rfl, Nat.add_sub_cancel_left, List.take_left' rfl]
  -- the second loop
  have hcollect : optimize_collect env siridb series shard replacing =
      optimize_read env replacing series.index.has_overlap mid
        (siridb_points_new (sum_len R) series.tp) (sum_len R) := by
    unfold optimize_collect
    rw [hrange]
    dsimp only
    rw [hidx, hrangelist]
  obtain ⟨hr2, hr1⟩ := optimize_read_mixed env replacing series.index.has_overlap mid
    (siridb_points_new (sum_len R) series.tp) (sum_len R) hread
  rw [← hcollect] at hr2 hr1
  rw [hR] at hr1
  have hnew : (siridb_points_new (sum_len R) series.tp).len = 0 := rfl
  rw [hnew, Nat.zero_add] at hr1
  generalize hP : (optimize_collect env siridb series shard replacing).1 = points at hr1 ⊢
  -- the sizes
  have hsize1 : 1 ≤ sum_len R :=
    Nat.le_trans hR1 (sum_len_ge R (fun e he =>
      (hmidlen e (hRmem e he).1 (hRmem e he).2).1))
  have hsum_le := sum_len_le R env.max_chunk_points (fun e he =>
    (hmidlen e (hRmem e he).1 (hRmem e he).2).2)
  have hmid32 : mid.length < 4294967296 := by
    have : series.index.idx.length < 4294967296 := h32
    rw [hidx] at this
    simp only [List.length_append] at this
    omega
  have h16n : env.max_chunk_points < 65536 := h16
  have hsize64 : sum_len R < UINT64_MOD := by
    have h1 : R.length * env.max_chunk_points ≤ 4294967296 * 65536 :=
      Nat.mul_le_mul (by omega) (Nat.le_of_lt h16n)
    simp only [UINT64_MOD]
    omega
  have hnum := optimize_num_chunks_eq (sum_len R) env.max_chunk_points hsize1 hsize64 hmax1
  obtain ⟨chunk_sz, hsz, -, hpos, hcle, -⟩ :=
    optimize_chunk_sz_eq (sum_len R) env.max_chunk_points hsize1 hmax1 h16
  obtain ⟨chunks, hch, hall, -, hsum, -⟩ :=
    optimize_chunks_spec (sum_len R) chunk_sz hpos (sum_len R) 0 (by omega)
  rw [Nat.sub_zero] at hsum
  obtain ⟨chunks2, hch2, hk2⟩ := optimize_chunk_count (sum_len R) env.max_chunk_points
    R.length hsum_le h16 (by show R.length < 4294967296; omega) _ _ hnum hsz
  rw [hch] at hch2
  cases hch2
  have hk : chunks.length ≤ mid.length := Nat.le_trans hk2 hRlen
  have hk1 : 1 ≤ chunks.length := by
    cases chunks with
    | nil =>
      simp at hsum
      omega
    | cons c cs => simp
  -- the third loop
  obtain ⟨st1, hw1, hw2, hw3, hw5⟩ :=
    optimize_write_entries env shard.ref points (hwrite _) chunks
      ⟨pre ++ mid ++ post, pre.length, 0, []⟩
      (by
        simp only [List.length_append]
        omega)
      (fun ch hc => ⟨(hall ch hc).1, by rw [hr1]; exact (hall ch hc).2.1⟩)
  dsimp only at hw2 hw3 hw5
  have hww := optimize_write_writes _ _ _ _ _ _ hw1
  rw [List.nil_append] at hww
  generalize hN : chunks.map (fun ch => optimize_entry shard.ref
    (points.data.getD ch.1 default) (points.data.getD (ch.2 - 1) default)
    (env.siridb_shard_write_points points ch.1 ch.2) ch.1 ch.2) = new at hw5 ⊢
  have hw4 : new.length = chunks.length := by
    rw [← hN, List.length_map]
  have htake : (pre ++ mid ++ post).take pre.length = pre := by
    rw [List.append_assoc, List.take_left' rfl]
  have hdrop : (pre ++ mid ++ post).drop (pre.length + chunks.length) =
      mid.drop chunks.length ++ post := by
    rw [List.append_assoc, List.drop_append, List.drop_append_of_le_length hk]
  rw [htake, hdrop] at hw5
  have hst1len : st1.idx.length = pre.length + mid.length + post.length := by
    rw [hw5]
    simp only [List.length_append, List.length_drop, hw4]
    omega
  -- the function
  have hfun : siridb_series_optimize_shard_num32 env siridb series shard replacing =
      some ⟨0, { series with index := { series.index with idx := pre ++ new ++ post } },
        sum_len R, chunks⟩ := by
    rw [optimize_eq, hrange, hr2, hP]
    dsimp only
    rw [if_neg (by omega), if_neg (by rw [halloc]; simp), hnum]
    dsimp only
    rw [hsz]
    dsimp only
    rw [hch]
    dsimp only
    rw [hidx, hw1]
    dsimp only
    by_cases hlt : st1.start < pre.length + mid.length
    · rw [if_pos hlt]
      obtain ⟨r, hs1, hs2⟩ := optimize_shift_spec (pre.length + mid.length - st1.start)
        (st1.idx.length - (pre.length + mid.length - st1.start))
        (st1.idx.length - (pre.length + mid.length - st1.start) - st1.start) st1.start st1.idx
        rfl (by omega) (by omega)
      rw [hs1]
      dsimp only
      rw [hs2, hw2, hww]
      have e1 : st1.idx.take st1.start = pre ++ new := by
        rw [hw5, hw3]
        exact List.take_left' (by simp only [List.length_append, hw4])
      have e2 : st1.idx.drop (st1.start + (pre.length + mid.length - st1.start)) = post := by
        rw [hw5, ← List.append_assoc]
        exact List.drop_left' (by
          simp only [List.length_append, List.length_drop, hw4]
          omega)
      have e3 : st1.idx.length - (pre.length + mid.length - st1.start) - st1.start =
          post.length := by omega
      rw [e1, e2, e3, List.take_length]
    · rw [if_neg hlt, hw2, hww]
      have hkeq : chunks.length = mid.length := by omega
      have e1 : mid.drop chunks.length = [] := by
        rw [hkeq]
        exact List.drop_length mid
      rw [hw5, e1, List.nil_append]
  refine ⟨chunks, by rw [hN]; exact hfun, hk1, hk, hr1, fun ch hc => ?_, hsum⟩
  obtain ⟨a1, a2, a3⟩ := hall ch hc
  refine ⟨a1, a2, ?_⟩
  rw [a3]
  omega

/-- C14: for `1 ≤ size` collected points and `1 ≤ max_chunk_points` (in the range of
the 16-bit `chunk_sz`), `siridb_series_optimize_shard_num32` computes
`num_chunks = (size - 1) / max_chunk_points + 1` and `chunk_sz` the ceiling of
`size / num_chunks`; the third loop ends, and the ranges `[pstart, pend)` it writes
are non-empty, end at the smaller of `pstart + chunk_sz` and `size`, hold at most
`max_chunk_points` points, and go through the points `0, …, size - 1` once, in
order. Every result of the function that collected `size` points has passed exactly
these ranges to `siridb_shard_write_points`; and the function has such a result on
every index `pre ++ mid ++ post` in which `mid` starts with an entry of
`shard->replacing` and holds entries of `shard->replacing` (each with between `1`
and `max_chunk_points` points, `size` in all) and of the shard, when the container
is allocated, every read succeeds and adds the `len` points of its entry, and every
write succeeds. -/
theorem optimize_chunks_cover (size max_chunk_points : Nat) (hsize : 1 ≤ size)
    (h64 : size < UINT64_MOD) (hmax : 1 ≤ max_chunk_points)
    (h16 : max_chunk_points < UINT16_MOD) :
    ∃ chunk_sz chunks,
      optimize_num_chunks size max_chunk_points = some ((size - 1) / max_chunk_points + 1) ∧
      optimize_chunk_sz size ((size - 1) / max_chunk_points + 1) = some chunk_sz ∧
      chunk_sz = (size + ((size - 1) / max_chunk_points + 1) - 1) /
        ((size - 1) / max_chunk_points + 1) ∧
      optimize_chunks size chunk_sz size 0 = some chunks ∧
      (∀ ch ∈ chunks, ch.1 < ch.2 ∧ ch.2 = min (ch.1 + chunk_sz) size ∧
        ch.2 - ch.1 ≤ max_chunk_points) ∧
      (chunks.map (fun ch => List.range' ch.1 (ch.2 - ch.1))).flatten = List.range size ∧
      (∀ (env : optimize_env) (siridb : siridb_t) (series : siridb_series_t)
        (shard : siridb_shard_t) (replacing : Nat) (r : optimize_result),
        env.max_chunk_points = max_chunk_points →
        siridb_series_optimize_shard_num32 env siridb series shard replacing = some r →
        r.size = size → r.writes = chunks) ∧
      (∀ (env : optimize_env) (siridb : siridb_t) (series : siridb_series_t)
        (shard : siridb_shard_t) (replacing : Nat) (pre mid post : List idx_num32_t),
        env.max_chunk_points = max_chunk_points →
        series.index.idx = pre ++ mid ++ post →
        (∀ e ∈ pre, e.shard ≠ replacing ∧
          e.start_ts < optimize_max_ts siridb series shard) →
        (∃ f more, mid = f :: more ∧ f.shard = replacing) →
        (∀ e ∈ mid, (e.shard = replacing ∨ e.shard = shard.ref) ∧
          e.start_ts < optimize_max_ts siridb series shard) →
        (∀ e ∈ mid, e.shard = replacing → 1 ≤ e.len ∧ e.len ≤ max_chunk_points) →
        (∀ e ∈ post, optimize_max_ts siridb series shard ≤ e.start_ts ∨
          (e.shard ≠ replacing ∧ e.shard ≠ shard.ref)) →
        series.index.len < UINT32_MOD →
        env.siridb_points_new_ok = true →
        (∀ (points : siridb_points_t) (e : idx_num32_t), e ∈ mid → e.shard = replacing →
          (env.siridb_shard_get_points_num32 points e series.index.has_overlap).1 = 0 ∧
          (env.siridb_shard_get_points_num32 points e series.index.has_overlap).2.len =
            points.len + e.len) →
        (∀ (points : siridb_points_t) (a b : Nat),
          env.siridb_shard_write_points points a b ≠ EOF) →
        sum_len (mid.filter (fun e => decide (e.shard = replacing))) = size →
        ∃ r, siridb_series_optimize_shard_num32 env siridb series shard replacing = some r ∧
          r.rc = 0 ∧ r.size = size ∧ r.writes = chunks) := by
  have hnum := optimize_num_chunks_eq size max_chunk_points hsize h64 hmax
  obtain ⟨chunk_sz, hsz, hceil, hpos, hle, -⟩ :=
    optimize_chunk_sz_eq size max_chunk_points hsize hmax h16
  obtain ⟨chunks, hch, hall, hflat, -, -⟩ :=
    optimize_chunks_spec size chunk_sz hpos size 0 (by omega)
  have hguard : ∀ (env : optimize_env) (siridb : siridb_t) (series : siridb_series_t)
      (shard : siridb_shard_t) (replacing : Nat) (r : optimize_result),
      env.max_chunk_points = max_chunk_points →
      siridb_series_optimize_shard_num32 env siridb series shard replacing = some r →
      r.size = size → r.writes = chunks := by
    intro env siridb series shard replacing r henv hr hrs
    obtain ⟨n1, c1, e1, e2, e3⟩ :=
      optimize_writes_eq env siridb series shard replacing r hr (by omega)
    rw [henv, hrs, hnum] at e1
    cases e1
    rw [hrs, hsz] at e2
    cases e2
    rw [hrs, hch] at e3
    cases e3
    rfl
  refine ⟨chunk_sz, chunks, hnum, hsz, hceil, hch, ?_, ?_, hguard, ?_⟩
  · intro ch hmem
    obtain ⟨h1, h2, h3⟩ := hall ch hmem
    refine ⟨h1, h3, ?_⟩
    rw [h3]
    omega
  · rw [hflat, List.range_eq_range', Nat.sub_zero]
  · intro env siridb series shard replacing pre mid post henv hidx hpre hfirst hmid hmidlen
      hpost h32 halloc hread hwrite hsum
    obtain ⟨written, hfun, -⟩ := optimize_mixed env siridb series shard replacing pre mid post
      hidx hpre hfirst hmid (by rw [henv]; exact hmidlen) hpost (by rw [henv]; exact h16) h32
      halloc hread hwrite
    exact ⟨_, hfun, rfl, hsum, hguard env siridb series shard replacing _ henv hfun hsum⟩

theorem optimize_chunks_cover_witness :
    ∃ r, siridb_series_optimize_shard_num32 env_optimize db_duration_100 six_chunks
        ⟨2, 0, 0⟩ 1 = some r ∧
      r.rc = 0 ∧ r.size = 18 ∧ r.writes = [(0, 9), (9, 18)] ∧
      optimize_num_chunks 18 10 = some 2 ∧ optimize_chunk_sz 18 2 = some 9 ∧
      optimize_chunks 18 9 18 0 = some [(0, 9), (9, 18)] := by
  obtain ⟨c, chunks, h1, h2, h3, h4, -, -, -, h8⟩ :=
    optimize_chunks_cover 18 10 (by decide) (by decide) (by decide) (by decide)
  have hc : c = 9 := by rw [h3]
  subst hc
  have hchunks : chunks = [(0, 9), (9, 18)] := by
    have e : optimize_chunks 18 9 18 0 = some [(0, 9), (9, 18)] := by decide
    rw [e] at h4
    exact (Option.some.inj h4).symm
  subst hchunks
  obtain ⟨r, hr, hrc, hsize, hw⟩ := h8 env_optimize db_duration_100 six_chunks ⟨2, 0, 0⟩ 1 []
    six_chunks.index.idx [] rfl (by simp) (by decide) ⟨_, _, rfl, rfl⟩ (by decide)
    (by decide) (by decide) (by decide) rfl
    (by
      intro points e _ _
      refine ⟨rfl, ?_⟩
      simp [env_optimize, read_len_points, siridb_points_t.len])
    (by
      intro points a b
      simp only [env_optimize, EOF]
      omega)
    (by decide)
  exact ⟨r, hr, hrc, hsize, hw, h1, h2, h4⟩

/-- C35: the index is `pre ++ mid ++ post`, where `pre` holds no entry of
`shard->replacing` and lies below `max_ts`, `mid` starts with an entry of
`shard->replacing` and holds only entries of `shard->replacing` (each with between
`1` and `max_chunk_points < 65536` points) and of the shard below `max_ts`, and the
entries of `post` are at or beyond `max_ts` or refer to neither; the shard is not
its own `replacing`. When the container is allocated, every read succeeds and adds
the `len` points of its entry, and every write succeeds, the call returns `0` and
the index is `pre`, then one entry for each chunk written, then `post`: the entry
of a chunk `[pstart, pend)` refers to the shard, with `start_ts` and `end_ts` the
time-stamps of the first and the last point of the chunk as 32-bit values, `len`
the number `pend - pstart` of its points, and `pos` the value returned by
`siridb_shard_write_points` as a 32-bit value. The chunks are not empty, lie within
the points read, and hold all of them; the index is shorter by the slots of `mid`
that no chunk took; and no entry below `max_ts` refers to `shard->replacing`. -/
theorem optimize_rewrites_range (env : optimize_env) (siridb : siridb_t)
    (series : siridb_series_t) (shard : siridb_shard_t) (replacing : Nat)
    (pre mid post : List idx_num32_t)
    (hidx : series.index.idx = pre ++ mid ++ post)
    (hpre : ∀ e ∈ pre, e.shard ≠ replacing ∧
      e.start_ts < optimize_max_ts siridb series shard)
    (hfirst : ∃ f more, mid = f :: more ∧ f.shard = replacing)
    (hmid : ∀ e ∈ mid, (e.shard = replacing ∨ e.shard = shard.ref) ∧
      e.start_ts < optimize_max_ts siridb series shard)
    (hmidlen : ∀ e ∈ mid, e.shard = replacing → 1 ≤ e.len ∧ e.len ≤ env.max_chunk_points)
    (hpost : ∀ e ∈ post, optimize_max_ts siridb series shard ≤ e.start_ts ∨
      (e.shard ≠ replacing ∧ e.shard ≠ shard.ref))
    (hshard : shard.ref ≠ replacing)
    (h16 : env.max_chunk_points < UINT16_MOD) (h32 : series.index.len < UINT32_MOD)
    (halloc : env.siridb_points_new_ok = true)
    (hread : ∀ (points : siridb_points_t) (e : idx_num32_t), e ∈ mid → e.shard = replacing →
      (env.siridb_shard_get_points_num32 points e series.index.has_overlap).1 = 0 ∧
      (env.siridb_shard_get_points_num32 points e series.index.has_overlap).2.len =
        points.len + e.len)
    (hwrite : ∀ (points : siridb_points_t) (a b : Nat),
      env.siridb_shard_write_points points a b ≠ EOF) :
    ∃ r, siridb_series_optimize_shard_num32 env siridb series shard replacing = some r ∧
      r.rc = 0 ∧
      r.series.index.idx = pre ++ r.writes.map (fun ch =>
        ({ start_ts :=
             ((optimize_collect env siridb series shard replacing).1.data.getD ch.1
               default).ts % UINT32_MOD
           end_ts :=
             ((optimize_collect env siridb series shard replacing).1.data.getD (ch.2 - 1)
               default).ts % UINT32_MOD
           shard := shard.ref
           pos := ((env.siridb_shard_write_points
             (optimize_collect env siridb series shard replacing).1 ch.1 ch.2) %
               (UINT32_MOD : Int)).toNat
           len := ch.2 - ch.1 } : idx_num32_t)) ++ post ∧
      (optimize_collect env siridb series shard replacing).1.len =
        sum_len (mid.filter (fun e => decide (e.shard = replacing))) ∧
      (∀ ch ∈ r.writes, ch.1 < ch.2 ∧
        ch.2 ≤ (optimize_collect env siridb series shard replacing).1.len) ∧
      (r.writes.map (fun ch => ch.2 - ch.1)).sum =
        (optimize_collect env siridb series shard replacing).1.len ∧
      1 ≤ r.writes.length ∧ r.writes.length ≤ mid.length ∧
      r.series.index.len + (mid.length - r.writes.length) = series.index.len ∧
      (∀ e ∈ r.series.index.idx, e.start_ts < optimize_max_ts siridb series shard →
        e.shard ≠ replacing) := by
  obtain ⟨chunks, hfun, hk1, hk, hlen, hall, hsum⟩ := optimize_mixed env siridb series shard
    replacing pre mid post hidx hpre hfirst hmid hmidlen hpost h16 h32 halloc hread hwrite
  have h16n : env.max_chunk_points < 65536 := h16
  have hmap : chunks.map (fun ch => optimize_entry shard.ref
      ((optimize_collect env siridb series shard replacing).1.data.getD ch.1 default)
      ((optimize_collect env siridb series shard replacing).1.data.getD (ch.2 - 1) default)
      (env.siridb_shard_write_points
        (optimize_collect env siridb series shard replacing).1 ch.1 ch.2) ch.1 ch.2) =
      chunks.map (fun ch =>
        ({ start_ts :=
             ((optimize_collect env siridb series shard replacing).1.data.getD ch.1
               default).ts % UINT32_MOD
           end_ts :=
             ((optimize_collect env siridb series shard replacing).1.data.getD (ch.2 - 1)
               default).ts % UINT32_MOD
           shard := shard.ref
           pos := ((env.siridb_shard_write_points
             (optimize_collect env siridb series shard replacing).1 ch.1 ch.2) %
               (UINT32_MOD : Int)).toNat
           len := ch.2 - ch.1 } : idx_num32_t)) := by
    apply List.map_congr_left
    intro ch hc
    obtain ⟨-, -, a3⟩ := hall ch hc
    unfold optimize_entry
    have hm : (ch.2 - ch.1) % UINT16_MOD = ch.2 - ch.1 := by
      apply Nat.mod_eq_of_lt
      show ch.2 - ch.1 < 65536
      omega
    rw [hm]
  rw [hmap] at hfun
  refine ⟨_, hfun, rfl, rfl, hlen, fun ch hc => ?_, ?_, hk1, hk, ?_, fun e he hts => ?_⟩
  · rw [hlen]
    exact ⟨(hall ch hc).1, (hall ch hc).2.1⟩
  · rw [hlen]
    exact hsum
  · show (pre ++ _ ++ post).length + (mid.length - chunks.length) = series.index.idx.length
    rw [hidx]
    simp only [List.length_append, List.length_map]
    omega
  · have he2 : e ∈ pre ++ chunks.map (fun ch =>
        ({ start_ts :=
             ((optimize_collect env siridb series shard replacing).1.data.getD ch.1
               default).ts % UINT32_MOD
           end_ts :=
             ((optimize_collect env siridb series shard replacing).1.data.getD (ch.2 - 1)
               default).ts % UINT32_MOD
           shard := shard.ref
           pos := ((env.siridb_shard_write_points
             (optimize_collect env siridb series shard replacing).1 ch.1 ch.2) %
               (UINT32_MOD : Int)).toNat
           len := ch.2 - ch.1 } : idx_num32_t)) ++ post := he
    rcases List.mem_append.mp he2 with h | h
    · rcases List.mem_append.mp h with h | h
      · exact (hpre e h).1
      · obtain ⟨ch, -, hce⟩ := List.mem_map.mp h
        rw [← hce]
        exact hshard
    · rcases hpost e h with h1 | h1
      · omega
      · exact h1.1

theorem optimize_rewrites_range_witness :
    ∃ r, siridb_series_optimize_shard_num32 env_optimize db_duration_100 chunks_and_next
        ⟨2, 0, 0⟩ 1 = some r ∧
      r.rc = 0 ∧ r.writes = [(0, 6)] ∧
      r.series.index.idx = [⟨0, 22, 2, 0, 6⟩, ⟨100, 130, 3, 0, 4⟩] ∧
      (∀ e ∈ r.series.index.idx, e.start_ts < 100 → e.shard ≠ 1) := by
  obtain ⟨r, h1, h2, -, -, -, -, -, -, -, h10⟩ := optimize_rewrites_range env_optimize
    db_duration_100 chunks_and_next ⟨2, 0, 0⟩ 1 []
    [⟨0, 2, 1, 0, 3⟩, ⟨10, 11, 2, 0, 2⟩, ⟨20, 22, 1, 3, 3⟩] [⟨100, 130, 3, 0, 4⟩] rfl
    (by decide) ⟨_, _, rfl, rfl⟩ (by decide) (by decide) (by decide) (by decide) (by decide)
    (by decide) rfl
    (by
      intro points e _ _
      refine ⟨rfl, ?_⟩
      simp [env_optimize, read_len_points, siridb_points_t.len])
    (by
      intro points a b
      simp only [env_optimize, EOF]
      omega)
  have hev : siridb_series_optimize_shard_num32 env_optimize db_duration_100 chunks_and_next
      ⟨2, 0, 0⟩ 1 = some ⟨0, { chunks_and_next with
        index := ⟨0, [⟨0, 22, 2, 0, 6⟩, ⟨100, 130, 3, 0, 4⟩]⟩ }, 6, [(0, 6)]⟩ := by
    decide
  rw [hev] at h1
  cases h1
  exact ⟨_, hev, rfl, rfl, rfl, h10⟩

end SiriDB
